import Mathlib

/-! FAS multigrid elliptic solver: a shallow embedding of `full_multigrid.cpp`.

The development follows the C++ source function by function.

Conventions of the embedding.

* `real_t` is modelled by `ℚ` (exact arithmetic), `idx_t` by `Int` (or `Nat` for
  identifiers and counts that the source only ever uses as non-negative array
  positions).  No grid handled by the solver comes near the 64-bit range, so
  integer overflow is not modelled.
* A C array is a total function of its index; the allocated range is tracked by
  the accompanying size field (`pts`, `u_n`, `molecule_n`, `total_depths`).
* A loop that writes a grid is a left fold over the list of its iterations, in
  loop order.
* The header `full_multigrid.h` and `utils/math.h` are not part of the sources:
  the few things taken from them are marked `Modelled from the spec`.
-/

namespace cosmo

/-! ## Data model -/

/-- Modelled from the spec: the grid type `fas_grid_t` of the missing header
`full_multigrid.h`: a dense 3-D array with extents `(nx, ny, nz)`, a flat
storage `_array` and the number of points `pts`; `pts = 0` marks an
uninitialised placeholder. -/
structure fas_grid_t where
  _array : Int → ℚ
  nx : Int
  ny : Int
  nz : Int
  pts : Int

/-- Modelled from the spec: the atom of the missing header, a tuple
`(type, u_id, value)`. -/
structure atom where
  type : Int
  u_id : Nat
  value : ℚ

/-- Modelled from the spec: the molecule of the missing header, a constant
coefficient and its atoms (`atom_n` is the length of `atoms`). -/
structure molecule where
  const_coef : ℚ
  atoms : List atom

/-- Modelled from the spec: what the solver takes from its collaborators and from
the compile-time configuration, none of which is in the sources: the real power
function, the three stencil operations
`derivative(i, j, k, nx, ny, nz, axis, grid)`,
`double_derivative(i, j, k, nx, ny, nz, a, b, grid)` and
`laplacian(i, j, k, nx, ny, nz, grid)`, and the constants `NX`, `NY`, `NZ`,
`H_LEN_FRAC`, `STENCIL_ORDER`. -/
structure Env where
  pow : ℚ → ℚ → ℚ
  derivative : Int → Int → Int → Int → Int → Int → Int → fas_grid_t → ℚ
  double_derivative : Int → Int → Int → Int → Int → Int → Int → Int → fas_grid_t → ℚ
  laplacian : Int → Int → Int → Int → Int → Int → fas_grid_t → ℚ
  NX : Int
  NY : Int
  NZ : Int
  H_LEN_FRAC : ℚ
  STENCIL_ORDER : Int

/-- The member variables of the class `FASMultigrid` (the solver state).
Hierarchies are indexed `[eqn_id][depth_idx]`, density hierarchies
`[eqn_id][mol_id][depth_idx]`. -/
structure FASMultigrid where
  max_relax_iters : Int
  max_depth : Int
  min_depth : Int
  max_depth_idx : Int
  min_depth_idx : Int
  total_depths : Int
  relaxation_tolerance : ℚ
  u_n : Nat
  molecule_n : Nat → Nat
  eqns : Nat → Nat → molecule
  nx_h : Int → Int
  ny_h : Int → Int
  nz_h : Int → Int
  u_h : Nat → Int → fas_grid_t
  coarse_src_h : Nat → Int → fas_grid_t
  damping_v_h : Nat → Int → fas_grid_t
  jac_rhs_h : Nat → Int → fas_grid_t
  tmp_h : Nat → Int → fas_grid_t
  rho_h : Nat → Nat → Int → fas_grid_t

/-- Modelled from the spec: the macro `H_INDEX` of the missing header: the flat
row-major position of the point `(i, j, k)` in a grid of extents `(nx, ny, nz)`,
each coordinate wrapped periodically modulo its extent. -/
def H_INDEX (i j k nx ny nz : Int) : Int :=
  (i % nx) * ny * nz + (j % ny) * nz + k % nz

/-- Modelled from the spec: the macro `FAS_LOOP3_N` of the missing header: the
iterations of the triple loop `for i < nx, for j < ny, for k < nz`, in loop
order. -/
def FAS_LOOP3_N (nx ny nz : Int) : List (Int × Int × Int) :=
  (List.range nx.toNat).flatMap fun (i : Nat) =>
    (List.range ny.toNat).flatMap fun (j : Nat) =>
      (List.range nz.toNat).map fun (k : Nat) => ((i : Int), (j : Int), (k : Int))

/-- Modelled from the spec: the atom type codes `der1 .. der23` of the missing
header (types 2..4 are the first derivatives, 5..10 the second derivatives). -/
def der1 : Int := 2

/-- Modelled from the spec: type code of the first derivative along axis 2. -/
def der2 : Int := 3

/-- Modelled from the spec: type code of the first derivative along axis 3. -/
def der3 : Int := 4

/-- Modelled from the spec: type code of the second derivative (1,1). -/
def der11 : Int := 5

/-- Modelled from the spec: type code of the second derivative (2,2). -/
def der22 : Int := 6

/-- Modelled from the spec: type code of the second derivative (3,3). -/
def der33 : Int := 7

/-- Modelled from the spec: type code of the second derivative (1,2). -/
def der12 : Int := 8

/-- Modelled from the spec: type code of the second derivative (1,3). -/
def der13 : Int := 9

/-- Modelled from the spec: type code of the second derivative (2,3). -/
def der23 : Int := 10

/-- The table `der_type[type][c]` as the constructor fills it (source lines
96-118); entries the constructor does not set read as 0. -/
def der_type (t c : Int) : Int :=
  if t = der1 ∧ c = 0 then 1
  else if t = der2 ∧ c = 0 then 2
  else if t = der3 ∧ c = 0 then 3
  else if t = der11 ∧ c = 0 then 1
  else if t = der11 ∧ c = 1 then 1
  else if t = der22 ∧ c = 0 then 2
  else if t = der22 ∧ c = 1 then 2
  else if t = der33 ∧ c = 0 then 3
  else if t = der33 ∧ c = 1 then 3
  else if t = der12 ∧ c = 0 then 1
  else if t = der12 ∧ c = 1 then 2
  else if t = der13 ∧ c = 0 then 1
  else if t = der13 ∧ c = 1 then 3
  else if t = der23 ∧ c = 0 then 2
  else if t = der23 ∧ c = 1 then 3
  else 0

/-- The table `double_der_coef[order]` as the constructor fills it (source lines
122-126); entries the constructor does not set read as 0. -/
def double_der_coef (order : Int) : ℚ :=
  if order = 2 then 2
  else if order = 4 then 5 / 2
  else if order = 6 then 49 / 18
  else if order = 8 then 205 / 72
  else 0

/-! ## Equation evaluation -/

/-- One pass of the atom loop of `_evaluateEllipticEquationPt` (source lines
161-184): the running molecule value `val` is multiplied by the evaluated atom. -/
def evalAtomStep (env : Env) (s : FASMultigrid) (depth_idx i j k pos_idx : Int)
    (val : ℚ) (ad : atom) : ℚ :=
  if ad.type = 1 then
    let vd := s.u_h ad.u_id depth_idx
    val * env.pow (vd._array pos_idx) ad.value
  else if ad.type ≤ 4 then
    let vd := s.u_h ad.u_id depth_idx
    val * env.derivative i j k vd.nx vd.ny vd.nz (der_type ad.type 0) vd
  else if ad.type ≤ 10 then
    let vd := s.u_h ad.u_id depth_idx
    val * env.double_derivative i j k vd.nx vd.ny vd.nz
      (der_type ad.type 0) (der_type ad.type 1) vd
  else
    let vd := s.u_h ad.u_id depth_idx
    val * env.laplacian i j k vd.nx vd.ny vd.nz vd

/-- The method `FASMultigrid::_evaluateEllipticEquationPt` (source lines
143-189).  The source declares `pos_idx` as `real_t`; it holds the integer flat
position and is used only as an array index. -/
def FASMultigrid._evaluateEllipticEquationPt (env : Env) (s : FASMultigrid)
    (eqn_id : Nat) (depth_idx i j k : Int) : ℚ :=
  (List.range (s.molecule_n eqn_id)).foldl (fun res mol_id =>
    let val := (s.eqns eqn_id mol_id).const_coef
    let pos_idx := H_INDEX i j k (s.nx_h depth_idx) (s.ny_h depth_idx) (s.nz_h depth_idx)
    let val :=
      if (s.rho_h eqn_id mol_id depth_idx).pts > 0 then
        val * (s.rho_h eqn_id mol_id depth_idx)._array pos_idx
      else val
    let val :=
      (s.eqns eqn_id mol_id).atoms.foldl (evalAtomStep env s depth_idx i j k pos_idx) val
    res + val) 0

/-- The three accumulators of one molecule in `_evaluateIterationForJacEquation`. -/
structure JacAcc where
  mol_to_a : ℚ
  mol_to_b : ℚ
  non_der_val : ℚ

/-- One pass of the atom loop of `_evaluateIterationForJacEquation` (source lines
223-300).  The C factor `(ad.type <= 7)` is the number 1 or 0. -/
def jacAtomStep (env : Env) (s : FASMultigrid) (depth_idx i j k pos_idx : Int)
    (u_id : Nat) (dx : ℚ) (acc : JacAcc) (ad : atom) : JacAcc :=
  if ad.type = 1 then
    let vd := s.u_h ad.u_id depth_idx
    if u_id = ad.u_id then
      let mol_to_b := acc.mol_to_b * env.pow (vd._array pos_idx) ad.value
        + acc.non_der_val * ad.value * env.pow (vd._array pos_idx) (ad.value - 1)
      let non_der_val := acc.non_der_val * env.pow (vd._array pos_idx) ad.value
      let mol_to_a := acc.mol_to_a * env.pow (vd._array pos_idx) ad.value
      ⟨mol_to_a, mol_to_b, non_der_val⟩
    else
      let mol_to_b := acc.mol_to_b * env.pow (vd._array pos_idx) ad.value
      let mol_to_a := acc.mol_to_a * env.pow (vd._array pos_idx) ad.value
      let non_der_val := acc.non_der_val * env.pow (vd._array pos_idx) ad.value
      ⟨mol_to_a, mol_to_b, non_der_val⟩
  else if ad.type ≤ 4 then
    let vd := s.u_h ad.u_id depth_idx
    let jac_vd := s.damping_v_h u_id depth_idx
    if u_id = ad.u_id then
      let mol_to_a :=
        acc.mol_to_a * env.derivative i j k vd.nx vd.ny vd.nz (der_type ad.type 0) vd
        + acc.non_der_val
          * env.derivative i j k jac_vd.nx jac_vd.ny jac_vd.nz (der_type ad.type 0) jac_vd
      let mol_to_b :=
        acc.mol_to_b * env.derivative i j k vd.nx vd.ny vd.nz (der_type ad.type 0) vd
      let non_der_val :=
        acc.non_der_val * env.derivative i j k vd.nx vd.ny vd.nz (der_type ad.type 0) vd
      ⟨mol_to_a, mol_to_b, non_der_val⟩
    else
      let non_der_val :=
        acc.non_der_val * env.derivative i j k vd.nx vd.ny vd.nz (der_type ad.type 0) vd
      let mol_to_b :=
        acc.mol_to_b * env.derivative i j k vd.nx vd.ny vd.nz (der_type ad.type 0) vd
      let mol_to_a :=
        acc.mol_to_a * env.derivative i j k vd.nx vd.ny vd.nz (der_type ad.type 0) vd
      ⟨mol_to_a, mol_to_b, non_der_val⟩
  else if ad.type ≤ 10 then
    let vd := s.u_h ad.u_id depth_idx
    let jac_vd := s.damping_v_h u_id depth_idx
    if u_id = ad.u_id then
      let mol_to_a :=
        acc.mol_to_a * env.double_derivative i j k vd.nx vd.ny vd.nz
            (der_type ad.type 0) (der_type ad.type 1) vd
        + acc.non_der_val
          * (env.double_derivative i j k jac_vd.nx jac_vd.ny jac_vd.nz
                (der_type ad.type 0) (der_type ad.type 1) jac_vd
              + (if ad.type ≤ 7 then 1 else 0) * double_der_coef env.STENCIL_ORDER
                  * jac_vd._array pos_idx / (dx * dx))
      let mol_to_b :=
        acc.mol_to_b * env.double_derivative i j k vd.nx vd.ny vd.nz
            (der_type ad.type 0) (der_type ad.type 1) vd
        - (if ad.type ≤ 7 then 1 else 0) * acc.non_der_val
            * double_der_coef env.STENCIL_ORDER / (dx * dx)
      let non_der_val :=
        acc.non_der_val * env.double_derivative i j k vd.nx vd.ny vd.nz
            (der_type ad.type 0) (der_type ad.type 1) vd
      ⟨mol_to_a, mol_to_b, non_der_val⟩
    else
      let non_der_val :=
        acc.non_der_val * env.double_derivative i j k vd.nx vd.ny vd.nz
            (der_type ad.type 0) (der_type ad.type 1) vd
      let mol_to_a :=
        acc.mol_to_a * env.double_derivative i j k vd.nx vd.ny vd.nz
            (der_type ad.type 0) (der_type ad.type 1) vd
      let mol_to_b :=
        acc.mol_to_b * env.double_derivative i j k vd.nx vd.ny vd.nz
            (der_type ad.type 0) (der_type ad.type 1) vd
      ⟨mol_to_a, mol_to_b, non_der_val⟩
  else
    let vd := s.u_h ad.u_id depth_idx
    let jac_vd := s.damping_v_h u_id depth_idx
    if u_id = ad.u_id then
      let mol_to_a :=
        acc.mol_to_a * env.laplacian i j k jac_vd.nx jac_vd.ny jac_vd.nz vd
        + acc.non_der_val
          * (env.laplacian i j k jac_vd.nx jac_vd.ny jac_vd.nz jac_vd
              + 3 * double_der_coef env.STENCIL_ORDER * jac_vd._array pos_idx / (dx * dx))
      let mol_to_b :=
        acc.mol_to_b * env.laplacian i j k jac_vd.nx jac_vd.ny jac_vd.nz vd
        - acc.non_der_val * 3 * double_der_coef env.STENCIL_ORDER / (dx * dx)
      let non_der_val :=
        acc.non_der_val * env.laplacian i j k jac_vd.nx jac_vd.ny jac_vd.nz vd
      ⟨mol_to_a, mol_to_b, non_der_val⟩
    else
      let non_der_val := acc.non_der_val * env.laplacian i j k vd.nx vd.ny vd.nz vd
      let mol_to_a := acc.mol_to_a * env.laplacian i j k vd.nx vd.ny vd.nz vd
      let mol_to_b := acc.mol_to_b * env.laplacian i j k vd.nx vd.ny vd.nz vd
      ⟨mol_to_a, mol_to_b, non_der_val⟩

/-- The accumulators of one molecule when its atom loop starts, in
`_evaluateIterationForJacEquation` (source lines 213-218). -/
def FASMultigrid.jacMolInit (s : FASMultigrid) (eqn_id mol_id : Nat)
    (depth_idx pos_idx : Int) : JacAcc :=
  let non_der_val := (s.eqns eqn_id mol_id).const_coef
  let non_der_val :=
    if (s.rho_h eqn_id mol_id depth_idx).pts > 0 then
      non_der_val * (s.rho_h eqn_id mol_id depth_idx)._array pos_idx
    else non_der_val
  ⟨0, 0, non_der_val⟩

/-- The method `FASMultigrid::_evaluateIterationForJacEquation` (source lines
203-307); the reference parameters `coef_a`, `coef_b` are passed in and their
final values returned as a pair. -/
def FASMultigrid._evaluateIterationForJacEquation (env : Env) (s : FASMultigrid)
    (eqn_id : Nat) (depth_idx : Int) (coef_a coef_b : ℚ) (i j k : Int) (u_id : Nat) :
    ℚ × ℚ :=
  let dx := env.H_LEN_FRAC / (s.nx_h depth_idx : ℚ)
  (List.range (s.molecule_n eqn_id)).foldl (fun (coef : ℚ × ℚ) mol_id =>
    let pos_idx := H_INDEX i j k (s.nx_h depth_idx) (s.ny_h depth_idx) (s.nz_h depth_idx)
    let acc := (s.eqns eqn_id mol_id).atoms.foldl
      (jacAtomStep env s depth_idx i j k pos_idx u_id dx)
      (s.jacMolInit eqn_id mol_id depth_idx pos_idx)
    (coef.1 + acc.mol_to_a, coef.2 + acc.mol_to_b)) (coef_a, coef_b)

/-- The two accumulators of one molecule in `_evaluateDerEllipticEquation`. -/
structure DerAcc where
  non_der_val : ℚ
  der_val : ℚ

/-- One pass of the atom loop of `_evaluateDerEllipticEquation` (source lines
336-404). -/
def derAtomStep (env : Env) (s : FASMultigrid) (depth_idx i j k pos_idx : Int)
    (u_id : Nat) (acc : DerAcc) (ad : atom) : DerAcc :=
  if ad.type = 1 then
    let vd := s.u_h ad.u_id depth_idx
    let jac_vd := s.damping_v_h u_id depth_idx
    if u_id = ad.u_id then
      let der_val :=
        acc.non_der_val * ad.value * env.pow (vd._array pos_idx) (ad.value - 1)
            * jac_vd._array pos_idx
          + acc.der_val * env.pow (vd._array pos_idx) ad.value
      let non_der_val := acc.non_der_val * env.pow (vd._array pos_idx) ad.value
      ⟨non_der_val, der_val⟩
    else
      let non_der_val := acc.non_der_val * env.pow (vd._array pos_idx) ad.value
      let der_val := acc.der_val * env.pow (vd._array pos_idx) ad.value
      ⟨non_der_val, der_val⟩
  else if ad.type ≤ 4 then
    let vd := s.u_h ad.u_id depth_idx
    let jac_vd := s.damping_v_h u_id depth_idx
    if u_id = ad.u_id then
      let der_val :=
        acc.non_der_val
            * env.derivative i j k jac_vd.nx jac_vd.ny jac_vd.nz (der_type ad.type 0) jac_vd
          + acc.der_val * env.derivative i j k vd.nx vd.ny vd.nz (der_type ad.type 0) vd
      let non_der_val :=
        acc.non_der_val * env.derivative i j k vd.nx vd.ny vd.nz (der_type ad.type 0) vd
      ⟨non_der_val, der_val⟩
    else
      let non_der_val :=
        acc.non_der_val * env.derivative i j k vd.nx vd.ny vd.nz (der_type ad.type 0) vd
      let der_val :=
        acc.der_val * env.derivative i j k vd.nx vd.ny vd.nz (der_type ad.type 0) vd
      ⟨non_der_val, der_val⟩
  else if ad.type ≤ 10 then
    let vd := s.u_h ad.u_id depth_idx
    let jac_vd := s.damping_v_h u_id depth_idx
    if u_id = ad.u_id then
      let der_val :=
        acc.non_der_val
            * env.double_derivative i j k jac_vd.nx jac_vd.ny jac_vd.nz
                (der_type ad.type 0) (der_type ad.type 1) jac_vd
          + acc.der_val * env.double_derivative i j k vd.nx vd.ny vd.nz
                (der_type ad.type 0) (der_type ad.type 1) vd
      let non_der_val :=
        acc.non_der_val * env.double_derivative i j k vd.nx vd.ny vd.nz
            (der_type ad.type 0) (der_type ad.type 1) vd
      ⟨non_der_val, der_val⟩
    else
      let non_der_val :=
        acc.non_der_val * env.double_derivative i j k vd.nx vd.ny vd.nz
            (der_type ad.type 0) (der_type ad.type 1) vd
      let der_val :=
        acc.der_val * env.double_derivative i j k vd.nx vd.ny vd.nz
            (der_type ad.type 0) (der_type ad.type 1) vd
      ⟨non_der_val, der_val⟩
  else
    let vd := s.u_h ad.u_id depth_idx
    let jac_vd := s.damping_v_h u_id depth_idx
    if u_id = ad.u_id then
      let der_val :=
        acc.non_der_val * env.laplacian i j k vd.nx vd.ny vd.nz jac_vd
          + acc.der_val * env.laplacian i j k jac_vd.nx jac_vd.ny jac_vd.nz vd
      let non_der_val :=
        acc.non_der_val * env.laplacian i j k jac_vd.nx jac_vd.ny jac_vd.nz vd
      ⟨non_der_val, der_val⟩
    else
      let non_der_val := acc.non_der_val * env.laplacian i j k vd.nx vd.ny vd.nz vd
      let der_val := acc.der_val * env.laplacian i j k vd.nx vd.ny vd.nz vd
      ⟨non_der_val, der_val⟩

/-- The accumulators of one molecule when its atom loop starts, in
`_evaluateDerEllipticEquation` (source lines 326-332). -/
def FASMultigrid.derMolInit (s : FASMultigrid) (eqn_id mol_id : Nat)
    (depth_idx pos_idx : Int) : DerAcc :=
  let non_der_val := (s.eqns eqn_id mol_id).const_coef
  let non_der_val :=
    if (s.rho_h eqn_id mol_id depth_idx).pts > 0 then
      non_der_val * (s.rho_h eqn_id mol_id depth_idx)._array pos_idx
    else non_der_val
  ⟨non_der_val, 0⟩

/-- The method `FASMultigrid::_evaluateDerEllipticEquation` (source lines
321-409). -/
def FASMultigrid._evaluateDerEllipticEquation (env : Env) (s : FASMultigrid)
    (eqn_id : Nat) (depth_idx i j k : Int) (u_id : Nat) : ℚ :=
  (List.range (s.molecule_n eqn_id)).foldl (fun res mol_id =>
    let pos_idx := H_INDEX i j k (s.nx_h depth_idx) (s.ny_h depth_idx) (s.nz_h depth_idx)
    let acc := (s.eqns eqn_id mol_id).atoms.foldl
      (derAtomStep env s depth_idx i j k pos_idx u_id)
      (s.derMolInit eqn_id mol_id depth_idx pos_idx)
    res + acc.der_val) 0

/-! ## Grid operations and transfer operators -/

/-- Modelled from the spec: the method `_dIdx` of the missing header, the depth
index `dIdx(depth) = depth - min_depth`. -/
def FASMultigrid._dIdx (s : FASMultigrid) (depth : Int) : Int := depth - s.min_depth

/-- The assignment `grid[idx] = v`. -/
def fas_grid_t.set (g : fas_grid_t) (idx : Int) (v : ℚ) : fas_grid_t :=
  { g with _array := Function.update g._array idx v }

/-- The accumulation `grid[idx] += v`. -/
def fas_grid_t.add (g : fas_grid_t) (idx : Int) (v : ℚ) : fas_grid_t :=
  { g with _array := Function.update g._array idx (g._array idx + v) }

/-- The method `FASMultigrid::_zeroGrid` (source lines 417-421): the cells
`0 .. pts - 1` are set to 0. -/
def _zeroGrid (grid : fas_grid_t) : fas_grid_t :=
  (List.range grid.pts.toNat).foldl (fun g (i : Nat) => g.set (i : Int) 0) grid

/-- The right-hand side of the assignment in `_restrictFine2coarse` (source lines
470-500) for the fine point `(fi, fj, fk)`. -/
def restrictValue (fine_grid : fas_grid_t) (n_fine_x n_fine_y n_fine_z fi fj fk : Int) : ℚ :=
  0.125 * fine_grid._array (H_INDEX fi fj fk n_fine_x n_fine_y n_fine_z)
  + 0.0625 * (
    fine_grid._array (H_INDEX (fi+1) fj fk n_fine_x n_fine_y n_fine_z) +
    fine_grid._array (H_INDEX fi (fj+1) fk n_fine_x n_fine_y n_fine_z) +
    fine_grid._array (H_INDEX fi fj (fk+1) n_fine_x n_fine_y n_fine_z) +
    fine_grid._array (H_INDEX (fi-1) fj fk n_fine_x n_fine_y n_fine_z) +
    fine_grid._array (H_INDEX fi (fj-1) fk n_fine_x n_fine_y n_fine_z) +
    fine_grid._array (H_INDEX fi fj (fk-1) n_fine_x n_fine_y n_fine_z)
  ) + 0.03125 * (
    fine_grid._array (H_INDEX (fi+1) (fj+1) fk n_fine_x n_fine_y n_fine_z) +
    fine_grid._array (H_INDEX (fi+1) (fj-1) fk n_fine_x n_fine_y n_fine_z) +
    fine_grid._array (H_INDEX (fi-1) (fj+1) fk n_fine_x n_fine_y n_fine_z) +
    fine_grid._array (H_INDEX (fi-1) (fj-1) fk n_fine_x n_fine_y n_fine_z) +
    fine_grid._array (H_INDEX (fi+1) fj (fk+1) n_fine_x n_fine_y n_fine_z) +
    fine_grid._array (H_INDEX (fi+1) fj (fk-1) n_fine_x n_fine_y n_fine_z) +
    fine_grid._array (H_INDEX (fi-1) fj (fk+1) n_fine_x n_fine_y n_fine_z) +
    fine_grid._array (H_INDEX (fi-1) fj (fk-1) n_fine_x n_fine_y n_fine_z) +
    fine_grid._array (H_INDEX fi (fj+1) (fk+1) n_fine_x n_fine_y n_fine_z) +
    fine_grid._array (H_INDEX fi (fj+1) (fk-1) n_fine_x n_fine_y n_fine_z) +
    fine_grid._array (H_INDEX fi (fj-1) (fk+1) n_fine_x n_fine_y n_fine_z) +
    fine_grid._array (H_INDEX fi (fj-1) (fk-1) n_fine_x n_fine_y n_fine_z)
  ) + 0.015625 * (
    fine_grid._array (H_INDEX (fi+1) (fj+1) (fk+1) n_fine_x n_fine_y n_fine_z) +
    fine_grid._array (H_INDEX (fi+1) (fj+1) (fk-1) n_fine_x n_fine_y n_fine_z) +
    fine_grid._array (H_INDEX (fi+1) (fj-1) (fk+1) n_fine_x n_fine_y n_fine_z) +
    fine_grid._array (H_INDEX (fi-1) (fj+1) (fk+1) n_fine_x n_fine_y n_fine_z) +
    fine_grid._array (H_INDEX (fi+1) (fj-1) (fk-1) n_fine_x n_fine_y n_fine_z) +
    fine_grid._array (H_INDEX (fi-1) (fj+1) (fk-1) n_fine_x n_fine_y n_fine_z) +
    fine_grid._array (H_INDEX (fi-1) (fj-1) (fk+1) n_fine_x n_fine_y n_fine_z) +
    fine_grid._array (H_INDEX (fi-1) (fj-1) (fk-1) n_fine_x n_fine_y n_fine_z)
  )

/-- The loop of `_restrictFine2coarse` (source lines 452-502) on the two grids it
works on: the coarse extents used by the loop and by the coarse index are the
halves `n_fine / 2` of the fine grid's extents. -/
def restrictLoop (fine_grid coarse_grid : fas_grid_t) : fas_grid_t :=
  let n_fine_x := fine_grid.nx
  let n_fine_y := fine_grid.ny
  let n_fine_z := fine_grid.nz
  let n_coarse_x := n_fine_x / 2
  let n_coarse_y := n_fine_y / 2
  let n_coarse_z := n_fine_z / 2
  (FAS_LOOP3_N n_coarse_x n_coarse_y n_coarse_z).foldl (fun cg (ijk : Int × Int × Int) =>
    let i := ijk.1
    let j := ijk.2.1
    let k := ijk.2.2
    let fi := i * 2
    let fj := j * 2
    let fk := k * 2
    cg.set (H_INDEX i j k n_coarse_x n_coarse_y n_coarse_z)
      (restrictValue fine_grid n_fine_x n_fine_y n_fine_z fi fj fk)) coarse_grid

/-- The method `FASMultigrid::_restrictFine2coarse` (source lines 447-504): the
grid at `fine_idx - 1` of the hierarchy is overwritten by the loop. -/
def FASMultigrid._restrictFine2coarse (s : FASMultigrid) (grid_heirarchy : Int → fas_grid_t)
    (fine_depth : Int) : Int → fas_grid_t :=
  let fine_idx := s._dIdx fine_depth
  let coarse_idx := fine_idx - 1
  Function.update grid_heirarchy coarse_idx
    (restrictLoop (grid_heirarchy fine_idx) (grid_heirarchy coarse_idx))

/-- The offsets `(i_adj, j_adj, k_adj)` of the three nested loops of
`_interpolateCoarse2fine` (source lines 538-540), in loop order. -/
def adjOffsets : List (Int × Int × Int) :=
  [-1, 0, 1].flatMap fun i_adj =>
    [-1, 0, 1].flatMap fun j_adj =>
      [-1, 0, 1].map fun k_adj => (i_adj, j_adj, k_adj)

/-- The body of the offset loops of `_interpolateCoarse2fine` (source lines
542-558) for the coarse cell with fine point `(fi, fj, fk)`. -/
def interpAdjStep (coarse_grid_val : ℚ) (n_coarse_x n_coarse_y n_coarse_z : Int)
    (n_fine_x n_fine_y n_fine_z fi fj fk : Int) (fine_grid : fas_grid_t)
    (adj : Int × Int × Int) : fas_grid_t :=
  let i_adj := adj.1
  let j_adj := adj.2.1
  let k_adj := adj.2.2
  let fine_grid_loc := H_INDEX (fi + i_adj) (fj + j_adj) (fk + k_adj) n_fine_x n_fine_y n_fine_z
  let coarse_grid_loc := H_INDEX (fi + i_adj) (fj + j_adj) (fk + k_adj)
    (n_coarse_x * 2) (n_coarse_y * 2) (n_coarse_z * 2)
  if i_adj = 0 ∧ j_adj = 0 ∧ k_adj = 0 then
    fine_grid.add fine_grid_loc coarse_grid_val
  else if fine_grid_loc = coarse_grid_loc then
    let divisor : ℚ := (2 : ℚ) ^ (|i_adj| + |j_adj| + |k_adj|)
    fine_grid.add fine_grid_loc (coarse_grid_val / divisor)
  else fine_grid

/-- The body of `_interpolateCoarse2fine` (source lines 516-560) on the two grids
it works on, for the coarse extents `nx_h[coarse_idx]` etc.: the fine extents
used for the fine index are `n_coarse * 2`. -/
def interpolateLoop (n_coarse_x n_coarse_y n_coarse_z : Int)
    (coarse_grid fine_grid : fas_grid_t) : fas_grid_t :=
  let n_fine_x := n_coarse_x * 2
  let n_fine_y := n_coarse_y * 2
  let n_fine_z := n_coarse_z * 2
  (FAS_LOOP3_N n_coarse_x n_coarse_y n_coarse_z).foldl (fun fg (ijk : Int × Int × Int) =>
    let i := ijk.1
    let j := ijk.2.1
    let k := ijk.2.2
    let fi := i * 2
    let fj := j * 2
    let fk := k * 2
    let coarse_grid_val := coarse_grid._array (H_INDEX i j k n_coarse_x n_coarse_y n_coarse_z)
    adjOffsets.foldl
      (interpAdjStep coarse_grid_val n_coarse_x n_coarse_y n_coarse_z
        n_fine_x n_fine_y n_fine_z fi fj fk) fg) (_zeroGrid fine_grid)

/-- The method `FASMultigrid::_interpolateCoarse2fine` (source lines 511-562):
the grid at the index of `coarse_depth + 1` is zeroed and then accumulated
into. -/
def FASMultigrid._interpolateCoarse2fine (s : FASMultigrid)
    (grid_heirarchy : Int → fas_grid_t) (coarse_depth : Int) : Int → fas_grid_t :=
  let fine_idx := s._dIdx (coarse_depth + 1)
  let coarse_idx := s._dIdx coarse_depth
  Function.update grid_heirarchy fine_idx
    (interpolateLoop (s.nx_h coarse_idx) (s.ny_h coarse_idx) (s.nz_h coarse_idx)
      (grid_heirarchy coarse_idx) (grid_heirarchy fine_idx))

/-- A grid of extents `(nx, ny, nz)` with `pts = nx * ny * nz` holding the
contents `f`. -/
def mkGrid (nx ny nz : Int) (f : Int → ℚ) : fas_grid_t :=
  { _array := f, nx := nx, ny := ny, nz := nz, pts := nx * ny * nz }

/-! ## Construction -/

/-- Modelled from the spec: a default-constructed grid of the missing header, the
uninitialised placeholder with `pts = 0`. -/
def fas_grid_t.empty : fas_grid_t :=
  { _array := fun _ => 0, nx := 0, ny := 0, nz := 0, pts := 0 }

/-- Modelled from the spec: the method `fas_grid_t::init(nx, ny, nz)` of the
missing header: it records the extents, sets `pts = nx * ny * nz` and allocates
the storage; `mem` stands for the contents of the new storage. -/
def fas_grid_t.init (mem : Int → ℚ) (nx ny nz : Int) : fas_grid_t :=
  { _array := mem, nx := nx, ny := ny, nz := nz, pts := nx * ny * nz }

/-- What the depth loop of the constructor builds for one equation: the extent
tables and the five hierarchies of that equation. -/
structure CtorLevels where
  nx_h : Int → Int
  ny_h : Int → Int
  nz_h : Int → Int
  u : Int → fas_grid_t
  coarse_src : Int → fas_grid_t
  damping_v : Int → fas_grid_t
  jac_rhs : Int → fas_grid_t
  tmp : Int → fas_grid_t

/-- The freshly allocated arrays of one equation, before the depth loop. -/
def CtorLevels.fresh : CtorLevels :=
  { nx_h := fun _ => 0, ny_h := fun _ => 0, nz_h := fun _ => 0,
    u := fun _ => fas_grid_t.empty, coarse_src := fun _ => fas_grid_t.empty,
    damping_v := fun _ => fas_grid_t.empty, jac_rhs := fun _ => fas_grid_t.empty,
    tmp := fun _ => fas_grid_t.empty }

/-- One pass of the depth loop of the constructor (source lines 60-89), for the
initial-guess grid `u_in` of the equation; `mem tag depth_idx` is the content of
the storage allocated for hierarchy number `tag` (0 `u_h`, 1 `coarse_src_h`,
2 `damping_v_h`, 3 `jac_rhs_h`, 4 `tmp_h`) at that level. -/
def ctorDepthStep (env : Env) (u_in : fas_grid_t) (mem : Nat → Int → Int → ℚ)
    (min_depth max_depth : Int) (acc : CtorLevels) (depth : Int) : CtorLevels :=
  let depth_idx := depth - min_depth
  let acc : CtorLevels :=
    if depth_idx = max_depth - min_depth then
      let nx_h := Function.update acc.nx_h depth_idx env.NX
      let ny_h := Function.update acc.ny_h depth_idx env.NY
      let nz_h := Function.update acc.nz_h depth_idx env.NZ
      { acc with
        nx_h := nx_h, ny_h := ny_h, nz_h := nz_h,
        u := Function.update acc.u depth_idx
          { _array := u_in._array, nx := nx_h depth_idx, ny := ny_h depth_idx,
            nz := nz_h depth_idx,
            pts := nx_h depth_idx * ny_h depth_idx * nz_h depth_idx } }
    else
      let nx_h := Function.update acc.nx_h depth_idx
        (acc.nx_h (depth_idx + 1) / 2 + acc.nx_h (depth_idx + 1) % 2)
      let ny_h := Function.update acc.ny_h depth_idx
        (acc.ny_h (depth_idx + 1) / 2 + acc.ny_h (depth_idx + 1) % 2)
      let nz_h := Function.update acc.nz_h depth_idx
        (acc.nz_h (depth_idx + 1) / 2 + acc.nz_h (depth_idx + 1) % 2)
      { acc with
        nx_h := nx_h, ny_h := ny_h, nz_h := nz_h,
        u := Function.update acc.u depth_idx
          (fas_grid_t.init (mem 0 depth_idx) (nx_h depth_idx) (ny_h depth_idx)
            (nz_h depth_idx)) }
  { acc with
    coarse_src := Function.update acc.coarse_src depth_idx
      (fas_grid_t.init (mem 1 depth_idx) (acc.nx_h depth_idx) (acc.ny_h depth_idx)
        (acc.nz_h depth_idx)),
    damping_v := Function.update acc.damping_v depth_idx
      (fas_grid_t.init (mem 2 depth_idx) (acc.nx_h depth_idx) (acc.ny_h depth_idx)
        (acc.nz_h depth_idx)),
    jac_rhs := Function.update acc.jac_rhs depth_idx
      (fas_grid_t.init (mem 3 depth_idx) (acc.nx_h depth_idx) (acc.ny_h depth_idx)
        (acc.nz_h depth_idx)),
    tmp := Function.update acc.tmp depth_idx
      (fas_grid_t.init (mem 4 depth_idx) (acc.nx_h depth_idx) (acc.ny_h depth_idx)
        (acc.nz_h depth_idx)) }

/-- The first `m` passes of the depth loop `for depth = max_depth; depth >=
min_depth; --depth` of the constructor. -/
def ctorDepthLoop (env : Env) (u_in : fas_grid_t) (mem : Nat → Int → Int → ℚ)
    (min_depth max_depth : Int) (m : Nat) : CtorLevels :=
  ((List.range m).map fun (n : Nat) => max_depth - (n : Int)).foldl
    (ctorDepthStep env u_in mem min_depth max_depth) CtorLevels.fresh

/-- The constructor `FASMultigrid::FASMultigrid` (source lines 16-94).  `mem` gives
the contents of newly allocated grid storage (per equation, hierarchy number and
level) and `mol` the default-constructed molecules. -/
def FASMultigrid.new (env : Env) (mem : Nat → Nat → Int → Int → ℚ) (mol : Nat → Nat → molecule)
    (u_in : Nat → fas_grid_t) (u_n_in : Nat) (molecule_n_in : Nat → Nat)
    (max_depth_in max_relax_iters_in : Int) (relaxation_tolerance_in : ℚ) : FASMultigrid :=
  let min_depth : Int := 1
  let total_depths := max_depth_in - min_depth + 1
  let start : FASMultigrid :=
    { max_relax_iters := max_relax_iters_in
      max_depth := max_depth_in
      min_depth := min_depth
      max_depth_idx := max_depth_in - min_depth
      min_depth_idx := min_depth - min_depth
      total_depths := total_depths
      relaxation_tolerance := relaxation_tolerance_in
      u_n := u_n_in
      molecule_n := molecule_n_in
      eqns := fun _ _ => ⟨0, []⟩
      nx_h := fun _ => 0
      ny_h := fun _ => 0
      nz_h := fun _ => 0
      u_h := fun _ _ => fas_grid_t.empty
      coarse_src_h := fun _ _ => fas_grid_t.empty
      damping_v_h := fun _ _ => fas_grid_t.empty
      jac_rhs_h := fun _ _ => fas_grid_t.empty
      tmp_h := fun _ _ => fas_grid_t.empty
      rho_h := fun _ _ _ => fas_grid_t.empty }
  (List.range u_n_in).foldl (fun (s : FASMultigrid) (eqn_id : Nat) =>
    let lv := ctorDepthLoop env (u_in eqn_id) (mem eqn_id) min_depth max_depth_in
      total_depths.toNat
    { s with
      nx_h := lv.nx_h
      ny_h := lv.ny_h
      nz_h := lv.nz_h
      u_h := Function.update s.u_h eqn_id lv.u
      coarse_src_h := Function.update s.coarse_src_h eqn_id lv.coarse_src
      damping_v_h := Function.update s.damping_v_h eqn_id lv.damping_v
      jac_rhs_h := Function.update s.jac_rhs_h eqn_id lv.jac_rhs
      tmp_h := Function.update s.tmp_h eqn_id lv.tmp
      eqns := Function.update s.eqns eqn_id (mol eqn_id)
      rho_h := Function.update s.rho_h eqn_id (fun _ _ => fas_grid_t.empty) }) start

/-- The extent of the next coarser level, as the constructor computes it
(source lines 76-78): `n / 2 + n % 2`. -/
def coarsen (n : Int) : Int := n / 2 + n % 2

/-- The state of the constructor before its loop over the equations (source lines
19-40). -/
def ctorStart (u_n_in : Nat) (molecule_n_in : Nat → Nat)
    (max_depth_in max_relax_iters_in : Int) (relaxation_tolerance_in : ℚ) : FASMultigrid :=
  { max_relax_iters := max_relax_iters_in
    max_depth := max_depth_in
    min_depth := 1
    max_depth_idx := max_depth_in - 1
    min_depth_idx := 1 - 1
    total_depths := max_depth_in - 1 + 1
    relaxation_tolerance := relaxation_tolerance_in
    u_n := u_n_in
    molecule_n := molecule_n_in
    eqns := fun _ _ => ⟨0, []⟩
    nx_h := fun _ => 0
    ny_h := fun _ => 0
    nz_h := fun _ => 0
    u_h := fun _ _ => fas_grid_t.empty
    coarse_src_h := fun _ _ => fas_grid_t.empty
    damping_v_h := fun _ _ => fas_grid_t.empty
    jac_rhs_h := fun _ _ => fas_grid_t.empty
    tmp_h := fun _ _ => fas_grid_t.empty
    rho_h := fun _ _ _ => fas_grid_t.empty }

/-- One pass of the constructor's loop over the equations (source lines 42-94). -/
def ctorEqnStep (env : Env) (mem : Nat → Nat → Int → Int → ℚ) (mol : Nat → Nat → molecule)
    (u_in : Nat → fas_grid_t) (max_depth_in : Int) (s : FASMultigrid) (eqn_id : Nat) :
    FASMultigrid :=
  let lv := ctorDepthLoop env (u_in eqn_id) (mem eqn_id) 1 max_depth_in
    (max_depth_in - 1 + 1).toNat
  { s with
    nx_h := lv.nx_h
    ny_h := lv.ny_h
    nz_h := lv.nz_h
    u_h := Function.update s.u_h eqn_id lv.u
    coarse_src_h := Function.update s.coarse_src_h eqn_id lv.coarse_src
    damping_v_h := Function.update s.damping_v_h eqn_id lv.damping_v
    jac_rhs_h := Function.update s.jac_rhs_h eqn_id lv.jac_rhs
    tmp_h := Function.update s.tmp_h eqn_id lv.tmp
    eqns := Function.update s.eqns eqn_id (mol eqn_id)
    rho_h := Function.update s.rho_h eqn_id (fun _ _ => fas_grid_t.empty) }

/-- The grid `g` has the extents `(a, b, c)` and `pts = a * b * c`. -/
def fas_grid_t.hasDims (g : fas_grid_t) (a b c : Int) : Prop :=
  g.nx = a ∧ g.ny = b ∧ g.nz = c ∧ g.pts = a * b * c

/-- The five work grids of one level have the extents `(a, b, c)`. -/
def CtorLevels.levelHas (lv : CtorLevels) (idx a b c : Int) : Prop :=
  lv.nx_h idx = a ∧ lv.ny_h idx = b ∧ lv.nz_h idx = c
  ∧ (lv.u idx).hasDims a b c ∧ (lv.coarse_src idx).hasDims a b c
  ∧ (lv.damping_v idx).hasDims a b c ∧ (lv.jac_rhs idx).hasDims a b c
  ∧ (lv.tmp idx).hasDims a b c

/-- The level `d` of a hierarchy is in use: extents at least 1 and
`pts = nx * ny * nz > 0`. -/
def levelInUse (h : Int → fas_grid_t) (d : Int) : Prop :=
  1 ≤ (h d).nx ∧ 1 ≤ (h d).ny ∧ 1 ≤ (h d).nz
  ∧ (h d).pts = (h d).nx * (h d).ny * (h d).nz ∧ 0 < (h d).pts

/-- Each extent of level `d` is the ceiling of half the extent of level `d + 1`. -/
def levelHalves (h : Int → fas_grid_t) (d : Int) : Prop :=
  (h d).nx = ⌈((h (d + 1)).nx : ℚ) / 2⌉ ∧ (h d).ny = ⌈((h (d + 1)).ny : ℚ) / 2⌉
  ∧ (h d).nz = ⌈((h (d + 1)).nz : ℚ) / 2⌉

/-- The shape the constructor gives to one hierarchy: the finest level (index
`top`) has the extents `(NX, NY, NZ)`, every level `0 .. top` is in use, and
each level halves the next finer one, rounding up. -/
def hierarchyShape (h : Int → fas_grid_t) (top NX NY NZ : Int) : Prop :=
  ((h top).nx = NX ∧ (h top).ny = NY ∧ (h top).nz = NZ)
  ∧ (∀ d : Int, 0 ≤ d → d ≤ top → levelInUse h d)
  ∧ (∀ d : Int, 0 ≤ d → d + 1 ≤ top → levelHalves h d)

/-! ## Example configurations -/

/-- An example collaborator: second-order central differences with unit spacing
on the periodic grid, and the power function for natural exponents. -/
def centralEnv (NX NY NZ : Int) : Env :=
  { pow := fun x y => x ^ y.num.toNat
    derivative := fun i j k nx ny nz axis g =>
      if axis = 1 then
        (g._array (H_INDEX (i+1) j k nx ny nz) - g._array (H_INDEX (i-1) j k nx ny nz)) / 2
      else if axis = 2 then
        (g._array (H_INDEX i (j+1) k nx ny nz) - g._array (H_INDEX i (j-1) k nx ny nz)) / 2
      else
        (g._array (H_INDEX i j (k+1) nx ny nz) - g._array (H_INDEX i j (k-1) nx ny nz)) / 2
    double_derivative := fun i j k nx ny nz a b g =>
      if a = 1 ∧ b = 1 then
        g._array (H_INDEX (i+1) j k nx ny nz) - 2 * g._array (H_INDEX i j k nx ny nz)
          + g._array (H_INDEX (i-1) j k nx ny nz)
      else if a = 2 ∧ b = 2 then
        g._array (H_INDEX i (j+1) k nx ny nz) - 2 * g._array (H_INDEX i j k nx ny nz)
          + g._array (H_INDEX i (j-1) k nx ny nz)
      else if a = 3 ∧ b = 3 then
        g._array (H_INDEX i j (k+1) nx ny nz) - 2 * g._array (H_INDEX i j k nx ny nz)
          + g._array (H_INDEX i j (k-1) nx ny nz)
      else if a = 1 ∧ b = 2 then
        (g._array (H_INDEX (i+1) (j+1) k nx ny nz) - g._array (H_INDEX (i+1) (j-1) k nx ny nz)
          - g._array (H_INDEX (i-1) (j+1) k nx ny nz)
          + g._array (H_INDEX (i-1) (j-1) k nx ny nz)) / 4
      else if a = 1 ∧ b = 3 then
        (g._array (H_INDEX (i+1) j (k+1) nx ny nz) - g._array (H_INDEX (i+1) j (k-1) nx ny nz)
          - g._array (H_INDEX (i-1) j (k+1) nx ny nz)
          + g._array (H_INDEX (i-1) j (k-1) nx ny nz)) / 4
      else
        (g._array (H_INDEX i (j+1) (k+1) nx ny nz) - g._array (H_INDEX i (j+1) (k-1) nx ny nz)
          - g._array (H_INDEX i (j-1) (k+1) nx ny nz)
          + g._array (H_INDEX i (j-1) (k-1) nx ny nz)) / 4
    laplacian := fun i j k nx ny nz g =>
      g._array (H_INDEX (i+1) j k nx ny nz) + g._array (H_INDEX (i-1) j k nx ny nz)
        + g._array (H_INDEX i (j+1) k nx ny nz) + g._array (H_INDEX i (j-1) k nx ny nz)
        + g._array (H_INDEX i j (k+1) nx ny nz) + g._array (H_INDEX i j (k-1) nx ny nz)
        - 6 * g._array (H_INDEX i j k nx ny nz)
    NX := NX
    NY := NY
    NZ := NZ
    H_LEN_FRAC := 1
    STENCIL_ORDER := 2 }

/-- An example solver on a `3 x 3 x 3` finest grid with two levels (`max_depth = 2`),
one equation with one molecule, an initial guess equal to 1 at every point and
new storage holding 0. -/
def oddSolver : FASMultigrid :=
  FASMultigrid.new (centralEnv 3 3 3) (fun _ _ _ _ => 0) (fun _ _ => ⟨1, []⟩)
    (fun _ => mkGrid 3 3 3 fun _ => 1) 1 (fun _ => 1) 2 5 (1 / 1000)

/-- An example solver on a `2 x 2 x 2` finest grid with two levels (`max_depth = 2`),
one equation with one molecule, an initial guess equal to 1 at every point and
new storage holding 0. -/
def evenSolver : FASMultigrid :=
  FASMultigrid.new (centralEnv 2 2 2) (fun _ _ _ _ => 0) (fun _ _ => ⟨1, []⟩)
    (fun _ => mkGrid 2 2 2 fun _ => 1) 1 (fun _ => 1) 2 5 (1 / 1000)

/-- An example hierarchy with a `3 x 3 x 3` grid holding `f` at level 1 and a
`2 x 2 x 2` grid holding `c` at level 0 (the shape of every hierarchy of
`oddSolver`). -/
def oddHierarchy (f c : Int → ℚ) : Int → fas_grid_t :=
  fun idx => if idx = 1 then mkGrid 3 3 3 f else mkGrid 2 2 2 c

/-- An example hierarchy with a `2 x 2 x 2` grid holding `f` at level 1 and a
`1 x 1 x 1` grid holding `c` at level 0 (the shape of every hierarchy of
`evenSolver`). -/
def evenHierarchy (f c : Int → ℚ) : Int → fas_grid_t :=
  fun idx => if idx = 1 then mkGrid 2 2 2 f else mkGrid 1 1 1 c

/-- An example solver state during an inner solve: `evenSolver` after four
`add_atom_to_eqn` calls on its molecule (a cubic factor, a Laplacian, a first
derivative along axis 1 and a mixed second derivative, all on field 0), with
a correction direction `v` on the finest level. -/
def polySolver : FASMultigrid :=
  { evenSolver with
    eqns := fun _ _ => ⟨2, [⟨1, 0, 3⟩, ⟨11, 0, 0⟩, ⟨2, 0, 0⟩, ⟨8, 0, 0⟩]⟩
    damping_v_h := fun _ d =>
      if d = 1 then mkGrid 2 2 2 (fun p => (p : ℚ) + 1) else mkGrid 1 1 1 (fun _ => 0) }

/-! ### Reference forms used to state the evaluation laws -/

/-- The position `pos_idx` of the point `(i, j, k)` at a depth, as every
evaluator computes it. -/
def FASMultigrid.posIdx (s : FASMultigrid) (depth_idx i j k : Int) : Int :=
  H_INDEX i j k (s.nx_h depth_idx) (s.ny_h depth_idx) (s.nz_h depth_idx)

/-- The density factor of a molecule at a point: the value of its density grid
when the grid is present (`pts > 0`), and 1 otherwise. -/
def FASMultigrid.rhoAt (s : FASMultigrid) (eqn_id mol_id : Nat)
    (depth_idx i j k : Int) : ℚ :=
  if (s.rho_h eqn_id mol_id depth_idx).pts > 0 then
    (s.rho_h eqn_id mol_id depth_idx)._array (s.posIdx depth_idx i j k)
  else 1

/-- The axis pair of a second-derivative atom type, as the data model lists
them: 5..10 stand for (1,1), (2,2), (3,3), (1,2), (1,3), (2,3). -/
def axisPair (t : Int) : Int × Int :=
  if t = 5 then (1, 1)
  else if t = 6 then (2, 2)
  else if t = 7 then (3, 3)
  else if t = 8 then (1, 2)
  else if t = 9 then (1, 3)
  else (2, 3)

/-- The value of an atom on a grid `g` at a point, as the data model defines it:
`g(x)^value` for type 1, the first derivative of `g` along axis `type - 1` for
types 2..4, the second derivative of `g` along the axis pair of the type for
types 5..10, the Laplacian of `g` for type 11.  The stencil is taken on the grid
whose data is read. -/
def atomOn (env : Env) (g : fas_grid_t) (i j k pos_idx : Int) (ad : atom) : ℚ :=
  if ad.type = 1 then env.pow (g._array pos_idx) ad.value
  else if 2 ≤ ad.type ∧ ad.type ≤ 4 then
    env.derivative i j k g.nx g.ny g.nz (ad.type - 1) g
  else if 5 ≤ ad.type ∧ ad.type ≤ 10 then
    env.double_derivative i j k g.nx g.ny g.nz (axisPair ad.type).1 (axisPair ad.type).2 g
  else env.laplacian i j k g.nx g.ny g.nz g

/-- The evaluated value of an atom at a point: the atom taken on the grid of its
own field `u_{u_id}`. -/
def FASMultigrid.atomValue (env : Env) (s : FASMultigrid) (depth_idx i j k : Int)
    (ad : atom) : ℚ :=
  atomOn env (s.u_h ad.u_id depth_idx) i j k (s.posIdx depth_idx i j k) ad

/-- An atom type is one of the eleven catalogued types. -/
def atom.wellTyped (ad : atom) : Prop := 1 ≤ ad.type ∧ ad.type ≤ 11

/-- Every atom of every molecule of equation `eqn_id` has a catalogued type. -/
def FASMultigrid.eqnWellTyped (s : FASMultigrid) (eqn_id : Nat) : Prop :=
  ∀ mol_id, mol_id < s.molecule_n eqn_id → ∀ ad ∈ (s.eqns eqn_id mol_id).atoms, ad.wellTyped

/-- The grids `a` and `b` have the same extents. -/
def fas_grid_t.sameDims (a b : fas_grid_t) : Prop :=
  a.nx = b.nx ∧ a.ny = b.ny ∧ a.nz = b.nz

/-- The differentiated form of an atom of field `q` along the direction `v`:
`value * u_q(x)^(value-1) * v_q(x)` for a polynomial atom, and for a differential
atom the same derivative taken on the grid `v_q` instead of `u_q`. -/
def FASMultigrid.atomDer (env : Env) (s : FASMultigrid) (depth_idx i j k : Int) (q : Nat)
    (ad : atom) : ℚ :=
  if ad.type = 1 then
    ad.value * env.pow ((s.u_h q depth_idx)._array (s.posIdx depth_idx i j k)) (ad.value - 1)
      * (s.damping_v_h q depth_idx)._array (s.posIdx depth_idx i j k)
  else atomOn env (s.damping_v_h q depth_idx) i j k (s.posIdx depth_idx i j k) ad

/-- The product-rule term of the atom at position `n` of the atom list `as`: when
that atom is on field `q`, its differentiated form times the evaluated values
of all the other atoms of the list; 0 when it is on another field (or when `n`
is not a position of the list). -/
def FASMultigrid.productRuleTerm (env : Env) (s : FASMultigrid) (depth_idx i j k : Int)
    (q : Nat) (as : List atom) (n : Nat) : ℚ :=
  match as[n]? with
  | some ad =>
    if ad.u_id = q then
      s.atomDer env depth_idx i j k q ad
        * ((as.eraseIdx n).map (s.atomValue env depth_idx i j k)).prod
    else 0
  | none => 0

/-- No atom of equation `eqn_id` refers to field `q`. -/
def FASMultigrid.noAtomOn (s : FASMultigrid) (eqn_id q : Nat) : Prop :=
  ∀ mol_id, mol_id < s.molecule_n eqn_id → ∀ ad ∈ (s.eqns eqn_id mol_id).atoms, ad.u_id ≠ q

/-- The cell `(i, j, k)` of a grid, read at the flat position given by the
grid's own extents (periodic in each coordinate). -/
def fas_grid_t.cell (g : fas_grid_t) (i j k : Int) : ℚ :=
  g._array (H_INDEX i j k g.nx g.ny g.nz)

/-- A grid in use: positive extents and `pts = nx * ny * nz`. -/
def fas_grid_t.wellFormed (g : fas_grid_t) : Prop :=
  0 < g.nx ∧ 0 < g.ny ∧ 0 < g.nz ∧ g.pts = g.nx * g.ny * g.nz

/-- The extents of `fine` are exactly twice the extents of `coarse`. -/
def fas_grid_t.twiceOf (fine coarse : fas_grid_t) : Prop :=
  fine.nx = 2 * coarse.nx ∧ fine.ny = 2 * coarse.ny ∧ fine.nz = 2 * coarse.nz

/-- The prolongation of the coarse grid `c` at the fine point `(x, y, z)` of a grid
of extents `(nfx, nfy, nfz)`: the sum, over the coarse cells `(i, j, k)` and the
offsets `(di, dj, dk)` in `{-1, 0, 1}^3` with `(2i+di, 2j+dj, 2k+dk)` equal to
`(x, y, z)` modulo the fine extents, of `c(i, j, k) / 2^(|di|+|dj|+|dk|)`. -/
def prolongSum (c : fas_grid_t) (nfx nfy nfz x y z : Int) : ℚ :=
  ((FAS_LOOP3_N c.nx c.ny c.nz).map fun cell =>
    (adjOffsets.map fun adj =>
      if (2 * cell.1 + adj.1) % nfx = x % nfx ∧ (2 * cell.2.1 + adj.2.1) % nfy = y % nfy
          ∧ (2 * cell.2.2 + adj.2.2) % nfz = z % nfz then
        c.cell cell.1 cell.2.1 cell.2.2 / (2 : ℚ) ^ (|adj.1| + |adj.2.1| + |adj.2.2|)
      else 0).sum).sum

/-- The weight with which the coarse index `i` reaches the fine coordinate `x`
through the offset `d` along one axis of fine extent `N`: `1 / 2^|d|` when
`2i + d` equals `x` modulo `N`, and 0 otherwise. -/
def prolongWeight (N x i d : Int) : ℚ :=
  if (2 * i + d) % N = x % N then 1 / (2 : ℚ) ^ |d| else 0

/-- Every cell of the grid holds the value `c`. -/
def fas_grid_t.constant (g : fas_grid_t) (c : ℚ) : Prop :=
  ∀ p : Int, 0 ≤ p → p < g.pts → g._array p = c

/-- The grid `alpha * a + b`, cell by cell, with the extents of `a`. -/
def fas_grid_t.lin (alpha : ℚ) (a b : fas_grid_t) : fas_grid_t :=
  { a with _array := fun p => alpha * a._array p + b._array p }

/-! ## Residuals -/

/-- The method `FASMultigrid::_evaluateEllipticEquation` (source lines 571-585).
The hierarchy `result_h` is passed in and returned with its level `depth_idx`
written.  The point evaluator reads `u_h`, `rho_h`, the equations and the
extent tables only; at both call sites `result_h` is `tmp_h[eqn_id]` or
`coarse_src_h[eqn_id]`, so the writes are not seen by the evaluations. -/
def FASMultigrid._evaluateEllipticEquation (env : Env) (s : FASMultigrid)
    (result_h : Int → fas_grid_t) (eqn_id : Nat) (depth : Int) : Int → fas_grid_t :=
  let depth_idx := s._dIdx depth
  let nx := s.nx_h depth_idx
  let ny := s.ny_h depth_idx
  let nz := s.nz_h depth_idx
  Function.update result_h depth_idx
    ((FAS_LOOP3_N nx ny nz).foldl (fun result (ijk : Int × Int × Int) =>
      let idx := H_INDEX ijk.1 ijk.2.1 ijk.2.2 nx ny nz
      result.set idx (s._evaluateEllipticEquationPt env eqn_id depth_idx ijk.1 ijk.2.1 ijk.2.2))
      (result_h depth_idx))

/-- The method `FASMultigrid::_computeResidual` (source lines 594-611): the level
`depth_idx` of `residual_h` first receives `F(u)`, then `coarse_src - F(u)`. -/
def FASMultigrid._computeResidual (env : Env) (s : FASMultigrid)
    (residual_h : Int → fas_grid_t) (eqn_id : Nat) (depth : Int) : Int → fas_grid_t :=
  let depth_idx := s._dIdx depth
  let nx := (residual_h depth_idx).nx
  let ny := (residual_h depth_idx).ny
  let nz := (residual_h depth_idx).nz
  let coarse_src := s.coarse_src_h eqn_id depth_idx
  let residual_h := s._evaluateEllipticEquation env residual_h eqn_id depth
  Function.update residual_h depth_idx
    ((FAS_LOOP3_N nx ny nz).foldl (fun residual (ijk : Int × Int × Int) =>
      let idx := H_INDEX ijk.1 ijk.2.1 ijk.2.2 nx ny nz
      residual.set idx (coarse_src._array idx - residual._array idx))
      (residual_h depth_idx))

/-- The method `FASMultigrid::_getMaxResidual` (source lines 619-643). -/
def FASMultigrid._getMaxResidual (env : Env) (s : FASMultigrid) (eqn_id : Nat) (depth : Int) :
    ℚ :=
  let depth_idx := s._dIdx depth
  let nx := s.nx_h depth_idx
  let ny := s.ny_h depth_idx
  let nz := s.nz_h depth_idx
  let coarse_src := s.coarse_src_h eqn_id depth_idx
  (FAS_LOOP3_N nx ny nz).foldl (fun max_residual (ijk : Int × Int × Int) =>
    let idx := H_INDEX ijk.1 ijk.2.1 ijk.2.2 nx ny nz
    let current_residual := |coarse_src._array idx
      - s._evaluateEllipticEquationPt env eqn_id depth_idx ijk.1 ijk.2.1 ijk.2.2|
    if current_residual > max_residual then current_residual else max_residual) 0

/-- The method `FASMultigrid::_getMaxResidualAllEqs` (source lines 651-659). -/
def FASMultigrid._getMaxResidualAllEqs (env : Env) (s : FASMultigrid) (depth : Int) : ℚ :=
  (List.range s.u_n).foldl (fun max_for_all eqn_id =>
    max max_for_all (s._getMaxResidual env eqn_id depth)) 0

/-- The residual of equation `eqn_id` at the point `(i, j, k)` of a level:
`coarse_src_e(x) - F_e(u)(x)`. -/
def FASMultigrid.residualAt (env : Env) (s : FASMultigrid) (eqn_id : Nat)
    (depth_idx i j k : Int) : ℚ :=
  (s.coarse_src_h eqn_id depth_idx)._array (s.posIdx depth_idx i j k)
    - s._evaluateEllipticEquationPt env eqn_id depth_idx i j k

/-- The points of a level: the triples `(i, j, k)` within the extents
`nx_h`, `ny_h`, `nz_h` of the level. -/
def FASMultigrid.isPoint (s : FASMultigrid) (depth_idx i j k : Int) : Prop :=
  (0 ≤ i ∧ i < s.nx_h depth_idx) ∧ (0 ≤ j ∧ j < s.ny_h depth_idx)
    ∧ (0 ≤ k ∧ k < s.nz_h depth_idx)

/-- The grid `g` has the positive extents of level `depth_idx` of the solver, and
`pts = nx * ny * nz`. -/
def FASMultigrid.levelGrid (s : FASMultigrid) (depth_idx : Int) (g : fas_grid_t) : Prop :=
  g.wellFormed ∧ g.nx = s.nx_h depth_idx ∧ g.ny = s.ny_h depth_idx ∧ g.nz = s.nz_h depth_idx

/-! ## The FAS source update -/

/-- The state with the hierarchy `u_h[eqn_id]` replaced by `h`. -/
def FASMultigrid.set_u_h (s : FASMultigrid) (eqn_id : Nat) (h : Int → fas_grid_t) :
    FASMultigrid :=
  { s with u_h := Function.update s.u_h eqn_id h }

/-- The state with the hierarchy `tmp_h[eqn_id]` replaced by `h`. -/
def FASMultigrid.set_tmp_h (s : FASMultigrid) (eqn_id : Nat) (h : Int → fas_grid_t) :
    FASMultigrid :=
  { s with tmp_h := Function.update s.tmp_h eqn_id h }

/-- The state with the hierarchy `coarse_src_h[eqn_id]` replaced by `h`. -/
def FASMultigrid.set_coarse_src_h (s : FASMultigrid) (eqn_id : Nat) (h : Int → fas_grid_t) :
    FASMultigrid :=
  { s with coarse_src_h := Function.update s.coarse_src_h eqn_id h }

/-- The state with the hierarchy `damping_v_h[eqn_id]` replaced by `h`. -/
def FASMultigrid.set_damping_v_h (s : FASMultigrid) (eqn_id : Nat) (h : Int → fas_grid_t) :
    FASMultigrid :=
  { s with damping_v_h := Function.update s.damping_v_h eqn_id h }

/-- The state with the hierarchy `jac_rhs_h[eqn_id]` replaced by `h`. -/
def FASMultigrid.set_jac_rhs_h (s : FASMultigrid) (eqn_id : Nat) (h : Int → fas_grid_t) :
    FASMultigrid :=
  { s with jac_rhs_h := Function.update s.jac_rhs_h eqn_id h }

/-- The first three calls of `_computeCoarseRestrictions` (source lines 672-676):
restrict `u_h[eqn_id]`, compute the fine residual into `tmp_h[eqn_id]`, restrict
`tmp_h[eqn_id]`. -/
def FASMultigrid.restrictStage (env : Env) (s : FASMultigrid) (eqn_id : Nat)
    (fine_depth : Int) : FASMultigrid :=
  let s := s.set_u_h eqn_id (s._restrictFine2coarse (s.u_h eqn_id) fine_depth)
  let s := s.set_tmp_h eqn_id (s._computeResidual env (s.tmp_h eqn_id) eqn_id fine_depth)
  s.set_tmp_h eqn_id (s._restrictFine2coarse (s.tmp_h eqn_id) fine_depth)

/-- The last two steps of `_computeCoarseRestrictions` (source lines 678-692), on the
state left by `restrictStage`: evaluate the equation on the coarser level into
`coarse_src_h[eqn_id]` and add the restricted residual `tmp_h[eqn_id]` point by
point. -/
def FASMultigrid.sourceStage (env : Env) (s : FASMultigrid) (eqn_id : Nat)
    (fine_depth : Int) : FASMultigrid :=
  let s := s.set_coarse_src_h eqn_id
    (s._evaluateEllipticEquation env (s.coarse_src_h eqn_id) eqn_id (fine_depth - 1))
  let coarse_idx := s._dIdx (fine_depth - 1)
  let nx := s.nx_h coarse_idx
  let ny := s.ny_h coarse_idx
  let nz := s.nz_h coarse_idx
  let tmp := s.tmp_h eqn_id coarse_idx
  s.set_coarse_src_h eqn_id
    (Function.update (s.coarse_src_h eqn_id) coarse_idx
      ((FAS_LOOP3_N nx ny nz).foldl (fun coarse_src (ijk : Int × Int × Int) =>
        let idx := H_INDEX ijk.1 ijk.2.1 ijk.2.2 nx ny nz
        coarse_src.add idx (tmp._array idx)) (s.coarse_src_h eqn_id coarse_idx)))

/-- The method `FASMultigrid::_computeCoarseRestrictions` (source lines 668-693):
the three calls of `restrictStage` followed by the two steps of `sourceStage`. -/
def FASMultigrid._computeCoarseRestrictions (env : Env) (s : FASMultigrid) (eqn_id : Nat)
    (fine_depth : Int) : FASMultigrid :=
  (s.restrictStage env eqn_id fine_depth).sourceStage env eqn_id fine_depth

/-- Two solver states hold the same equations and, at level `d`, the same
extents, unknowns and densities: everything the point evaluator reads at that
level. -/
def FASMultigrid.sameInputsAt (s t : FASMultigrid) (d : Int) : Prop :=
  t.molecule_n = s.molecule_n ∧ t.eqns = s.eqns
  ∧ t.nx_h d = s.nx_h d ∧ t.ny_h d = s.ny_h d ∧ t.nz_h d = s.nz_h d
  ∧ (∀ e m, t.rho_h e m d = s.rho_h e m d) ∧ (∀ e, t.u_h e d = s.u_h e d)

/-! ## Line search, inner solve and smoother -/

/-- The first loop of `_getLambda` (source lines 786-795): `u[idx] += 1.0 *
damping_v[idx]` for every equation and point of the level. -/
def FASMultigrid.lambdaStart (s : FASMultigrid) (depth_idx : Int) : FASMultigrid :=
  let nx := s.nx_h depth_idx
  let ny := s.ny_h depth_idx
  let nz := s.nz_h depth_idx
  (List.range s.u_n).foldl (fun (s : FASMultigrid) (eqn_id : Nat) =>
    let damping_v := s.damping_v_h eqn_id depth_idx
    s.set_u_h eqn_id (Function.update (s.u_h eqn_id) depth_idx
      ((FAS_LOOP3_N nx ny nz).foldl (fun (u : fas_grid_t) (ijk : Int × Int × Int) =>
        let idx := H_INDEX ijk.1 ijk.2.1 ijk.2.2 nx ny nz
        u.add idx (1 * damping_v._array idx)) (s.u_h eqn_id depth_idx)))) s

/-- The last loop of one test of `_getLambda` (source lines 819-829): `u[idx] -=
0.01 * damping_v[idx]` for every equation and point of the level. -/
def FASMultigrid.lambdaReduce (s : FASMultigrid) (depth_idx : Int) : FASMultigrid :=
  let nx := s.nx_h depth_idx
  let ny := s.ny_h depth_idx
  let nz := s.nz_h depth_idx
  (List.range s.u_n).foldl (fun (s : FASMultigrid) (eqn_id : Nat) =>
    s.set_u_h eqn_id (Function.update (s.u_h eqn_id) depth_idx
      ((FAS_LOOP3_N nx ny nz).foldl (fun (u : fas_grid_t) (ijk : Int × Int × Int) =>
        let damping_v := s.damping_v_h eqn_id depth_idx
        let idx := H_INDEX ijk.1 ijk.2.1 ijk.2.2 nx ny nz
        u.set idx (u._array idx - (1 / 100) * damping_v._array idx))
        (s.u_h eqn_id depth_idx)))) s

/-- The sum computed in each test of `_getLambda` (source lines 801-814) and, as
`norm`, in `_relaxSolution_GaussSeidel` (source lines 942-963): the sum over the
equations and the points of the level of `(F_e(u)(x) - coarse_src_e(x))^2`. -/
def FASMultigrid.defectSum (env : Env) (s : FASMultigrid) (depth_idx : Int) : ℚ :=
  let nx := s.nx_h depth_idx
  let ny := s.ny_h depth_idx
  let nz := s.nz_h depth_idx
  (List.range s.u_n).foldl (fun (sum : ℚ) (eqn_id : Nat) =>
    let coarse_src := s.coarse_src_h eqn_id depth_idx
    (FAS_LOOP3_N nx ny nz).foldl (fun (sum : ℚ) (ijk : Int × Int × Int) =>
      let idx := H_INDEX ijk.1 ijk.2.1 ijk.2.2 nx ny nz
      let temp := s._evaluateEllipticEquationPt env eqn_id depth_idx ijk.1 ijk.2.1 ijk.2.2
        - coarse_src._array idx
      sum + temp * temp) sum) 0

/-- The loop `for (s = 0; s < 100; s++)` of `_getLambda` (source lines 797-830)
with `n` passes left: test the sum against `norm`, return `true` on success,
otherwise reduce `u` by `0.01 * damping_v` and go on. -/
def getLambdaLoop (env : Env) (depth_idx : Int) (norm : ℚ) :
    Nat → FASMultigrid → Bool × FASMultigrid
  | 0, s => (false, s)
  | n + 1, s =>
    if s.defectSum env depth_idx ≤ norm then (true, s)
    else getLambdaLoop env depth_idx norm n (s.lambdaReduce depth_idx)

/-- The method `FASMultigrid::_getLambda` (source lines 779-833): the returned
flag and the state it leaves. -/
def FASMultigrid._getLambda (env : Env) (s : FASMultigrid) (depth : Int) (norm : ℚ) :
    Bool × FASMultigrid :=
  let depth_idx := s._dIdx depth
  getLambdaLoop env depth_idx norm 100 (s.lambdaStart depth_idx)

/-! ### Reference forms used to state the line search -/

/-- The flat positions written by the point loop of a level, in loop order. -/
def FASMultigrid.cells (s : FASMultigrid) (depth_idx : Int) : List Int :=
  (FAS_LOOP3_N (s.nx_h depth_idx) (s.ny_h depth_idx) (s.nz_h depth_idx)).map
    (fun c => H_INDEX c.1 c.2.1 c.2.2 (s.nx_h depth_idx) (s.ny_h depth_idx) (s.nz_h depth_idx))

/-- The grid `g` with the cell at every position `p` of `cells` replaced by
`phi p (g[p])`. -/
def fas_grid_t.mapAt (g : fas_grid_t) (cells : List Int) (phi : Int → ℚ → ℚ) : fas_grid_t :=
  { g with _array := fun p => if p ∈ cells then phi p (g._array p) else g._array p }

/-- The state `u + lam * v` at a level: for every equation `e < u_n`, the grid
`u_h[e]` of the level holds `u + lam * damping_v` on the cells of the level's point
loop; everything else is as in `s`. -/
def FASMultigrid.plusStep (s : FASMultigrid) (depth_idx : Int) (lam : ℚ) : FASMultigrid :=
  let u_h : Nat → Int → fas_grid_t := fun e d =>
    if e < s.u_n ∧ d = depth_idx then
      (s.u_h e depth_idx).mapAt (s.cells depth_idx)
        (fun p old => old + lam * (s.damping_v_h e depth_idx)._array p)
    else s.u_h e d
  { s with u_h := u_h }

/-- The damping factor tested in pass `j` of the line search: `1 - j / 100`. -/
def lambdaOf (j : Nat) : ℚ := 1 - (j : ℚ) / 100

/-! ## The inner Jacobi solve -/

/-- The first loop of `_jacobianRelax` (source lines 854-858): `damping_v` of every
equation is set to 0 at every point of the level. -/
def FASMultigrid.zeroDampingV (s : FASMultigrid) (depth_idx : Int) : FASMultigrid :=
  let nx := s.nx_h depth_idx
  let ny := s.ny_h depth_idx
  let nz := s.nz_h depth_idx
  (FAS_LOOP3_N nx ny nz).foldl (fun (s : FASMultigrid) (ijk : Int × Int × Int) =>
    (List.range s.u_n).foldl (fun (s : FASMultigrid) (eqn_id : Nat) =>
      s.set_damping_v_h eqn_id (Function.update (s.damping_v_h eqn_id) depth_idx
        ((s.damping_v_h eqn_id depth_idx).set
          (H_INDEX ijk.1 ijk.2.1 ijk.2.2 nx ny nz) 0))) s) s

/-- The body of the point loop of one sweep of `_jacobianRelax` (source lines
874-883) for equation `eqn_id` at the point `(i, j, k)`: the new value is stored in
`damping_v` at once, so later points of the sweep read it. -/
def FASMultigrid.jacPoint (env : Env) (s : FASMultigrid) (depth_idx : Int) (eqn_id : Nat)
    (nx ny nz : Int) (ijk : Int × Int × Int) : FASMultigrid :=
  let idx := H_INDEX ijk.1 ijk.2.1 ijk.2.2 nx ny nz
  let coef := s._evaluateIterationForJacEquation env eqn_id depth_idx 0 0
    ijk.1 ijk.2.1 ijk.2.2 eqn_id
  let coef_a := coef.1
  let coef_b := coef.2
  let temp := (List.range s.u_n).foldl (fun (temp : ℚ) (u_id : Nat) =>
    if u_id ≠ eqn_id then
      temp + s._evaluateDerEllipticEquation env eqn_id depth_idx ijk.1 ijk.2.1 ijk.2.2 u_id
    else temp) 0
  s.set_damping_v_h eqn_id (Function.update (s.damping_v_h eqn_id) depth_idx
    ((s.damping_v_h eqn_id depth_idx).set idx
      ((coef_a - (s.jac_rhs_h eqn_id depth_idx)._array idx + temp) / (-coef_b))))

/-- One sweep of the Jacobi update of `_jacobianRelax` (source lines 867-885). -/
def FASMultigrid.jacSweep (env : Env) (s : FASMultigrid) (depth_idx : Int) : FASMultigrid :=
  let nx := s.nx_h depth_idx
  let ny := s.ny_h depth_idx
  let nz := s.nz_h depth_idx
  (List.range s.u_n).foldl (fun (s : FASMultigrid) (eqn_id : Nat) =>
    (FAS_LOOP3_N nx ny nz).foldl (fun (s : FASMultigrid) (ijk : Int × Int × Int) =>
      s.jacPoint env depth_idx eqn_id nx ny nz ijk) s) s

/-- The squared residual of the linear system that `_jacobianRelax` recomputes
after each sweep (source lines 888-900). -/
def FASMultigrid.jacResidual (env : Env) (s : FASMultigrid) (depth_idx : Int) : ℚ :=
  let nx := s.nx_h depth_idx
  let ny := s.ny_h depth_idx
  let nz := s.nz_h depth_idx
  (FAS_LOOP3_N nx ny nz).foldl (fun (norm_r : ℚ) (ijk : Int × Int × Int) =>
    let idx := H_INDEX ijk.1 ijk.2.1 ijk.2.2 nx ny nz
    (List.range s.u_n).foldl (fun (norm_r : ℚ) (eqn_id : Nat) =>
      let temp := (List.range s.u_n).foldl (fun (temp : ℚ) (u_id : Nat) =>
        temp + s._evaluateDerEllipticEquation env eqn_id depth_idx ijk.1 ijk.2.1 ijk.2.2 u_id) 0
      let temp := temp - (s.jac_rhs_h eqn_id depth_idx)._array idx
      norm_r + temp * temp) norm_r) 0

/-- What a call of `_jacobianRelax` that returns leaves: the returned flag, the
state, and the final value of the local counter `cnt`, which the source increments
once after every sweep (so it is the number of sweeps performed). -/
structure JacResult where
  flag : Bool
  state : FASMultigrid
  cnt : Int

/-- The `while` loop of `_jacobianRelax` (source lines 860-911), entered with the
current `norm_r` and `cnt`.  The loop need not end, so the model takes `fuel`, a
bound on the number of passes: `none` means that the loop is still running after
`fuel` passes. -/
def jacobianRelaxLoop (env : Env) (depth_idx : Int) (norm C : ℚ) (p : Int) :
    Nat → FASMultigrid → ℚ → Int → Option JacResult
  | 0, _, _, _ => none
  | fuel + 1, s, norm_r, cnt =>
    if norm_r ≥ min (env.pow norm ((p + 1 : Int) : ℚ) * C) norm then
      let s := s.jacSweep env depth_idx
      let norm_r := s.jacResidual env depth_idx
      let norm_pre : ℚ := 0
      let cnt := cnt + 1
      if cnt > 500 ∧ norm_r > norm_pre then some ⟨false, s, cnt⟩
      else jacobianRelaxLoop env depth_idx norm C p fuel s norm_r cnt
    else some ⟨true, s, cnt⟩

/-- The method `FASMultigrid::_jacobianRelax` (source lines 844-914), with `fuel`
bounding the number of passes of its `while` loop. -/
def FASMultigrid._jacobianRelax (env : Env) (fuel : Nat) (s : FASMultigrid) (depth : Int)
    (norm C : ℚ) (p : Int) : Option JacResult :=
  let depth_idx := s._dIdx depth
  let cnt : Int := 0
  let norm_r : ℚ := 10 ^ 100
  jacobianRelaxLoop env depth_idx norm C p fuel (s.zeroDampingV depth_idx) norm_r cnt

/-! ## The smoother -/

/-- Modelled from the spec: the macro `pw2` of the missing header, the square. -/
def pw2 (x : ℚ) : ℚ := x * x

/-- The loop of `_relaxSolution_GaussSeidel` that computes `norm` and fills
`jac_rhs` (source lines 942-963): the running sum and the state. -/
def FASMultigrid.normAndRhs (env : Env) (s : FASMultigrid) (depth_idx : Int) :
    ℚ × FASMultigrid :=
  let nx := s.nx_h depth_idx
  let ny := s.ny_h depth_idx
  let nz := s.nz_h depth_idx
  (List.range s.u_n).foldl (fun (acc : ℚ × FASMultigrid) (eqn_id : Nat) =>
    (FAS_LOOP3_N nx ny nz).foldl (fun (acc : ℚ × FASMultigrid) (ijk : Int × Int × Int) =>
      let idx := H_INDEX ijk.1 ijk.2.1 ijk.2.2 nx ny nz
      let temp := acc.2._evaluateEllipticEquationPt env eqn_id depth_idx ijk.1 ijk.2.1 ijk.2.2
        - (acc.2.coarse_src_h eqn_id depth_idx)._array idx
      (acc.1 + temp * temp,
        acc.2.set_jac_rhs_h eqn_id (Function.update (acc.2.jac_rhs_h eqn_id) depth_idx
          ((acc.2.jac_rhs_h eqn_id depth_idx).set idx (-temp))))) acc) (0, s)

/-- How one pass of the iteration loop of `_relaxSolution_GaussSeidel` ends. -/
inductive RelaxStep where
  | converged (s : FASMultigrid)
  | jacobiFailed (s : FASMultigrid)
  | thrown (s : FASMultigrid)
  | next (s : FASMultigrid)
  | running

/-- How a call that can throw ends: normally, by the exception, or not at all
within the fuel given to the inner loops. -/
inductive Outcome where
  | ok (s : FASMultigrid)
  | thrown (s : FASMultigrid)
  | running

/-- The tolerance test at the start of a pass (source line 936):
`_getMaxResidualAllEqs(depth) < relaxation_tolerance / pw2(1 << (max_depth_idx -
depth_idx))`. -/
def FASMultigrid.toleranceMet (env : Env) (s : FASMultigrid) (depth : Int) : Prop :=
  s._getMaxResidualAllEqs env depth
    < s.relaxation_tolerance / pw2 ((2 : ℚ) ^ (s.max_depth_idx - s._dIdx depth).toNat)

instance (env : Env) (s : FASMultigrid) (depth : Int) : Decidable (s.toleranceMet env depth) := by
  unfold FASMultigrid.toleranceMet
  infer_instance

/-- One pass of the iteration loop of `_relaxSolution_GaussSeidel` (source lines
930-975); `relax_scheme` is `inexact_newton`, the value the constructor gives it
(source line 19) and that nothing changes. -/
def FASMultigrid.relaxStep (env : Env) (fuel : Nat) (s : FASMultigrid) (depth : Int) :
    RelaxStep :=
  let depth_idx := s._dIdx depth
  if s.toleranceMet env depth then RelaxStep.converged s
  else
    let r := s.normAndRhs env depth_idx
    let norm := r.1
    match r.2._jacobianRelax env fuel depth norm 1 0 with
    | none => RelaxStep.running
    | some jr =>
      if jr.flag = false then RelaxStep.jacobiFailed jr.state
      else
        let l := jr.state._getLambda env depth norm
        if l.1 = false then RelaxStep.thrown l.2
        else RelaxStep.next l.2

/-- The iteration loop of `_relaxSolution_GaussSeidel` with `n` passes left. -/
def relaxLoop (env : Env) (fuel : Nat) (depth : Int) : Nat → FASMultigrid → Outcome
  | 0, s => Outcome.ok s
  | n + 1, s =>
    match s.relaxStep env fuel depth with
    | RelaxStep.converged t => Outcome.ok t
    | RelaxStep.jacobiFailed t => Outcome.ok t
    | RelaxStep.thrown t => Outcome.thrown t
    | RelaxStep.next t => relaxLoop env fuel depth n t
    | RelaxStep.running => Outcome.running

/-- The method `FASMultigrid::_relaxSolution_GaussSeidel` (source lines 921-979). -/
def FASMultigrid._relaxSolution_GaussSeidel (env : Env) (fuel : Nat) (s : FASMultigrid)
    (depth max_iterations : Int) : Outcome :=
  relaxLoop env fuel depth max_iterations.toNat s

/-! ### Reference forms used to state what the smoother leaves untouched -/

/-- The state with the work hierarchies `damping_v_h` and `jac_rhs_h` blanked: two
states with the same `eraseWork` differ at most in these two hierarchies. -/
def FASMultigrid.eraseWork (s : FASMultigrid) : FASMultigrid :=
  { s with
    damping_v_h := fun _ _ => fas_grid_t.empty
    jac_rhs_h := fun _ _ => fas_grid_t.empty }

/-- The state with `u_h`, `damping_v_h` and `jac_rhs_h` blanked: two states with the
same `eraseSolve` differ at most in these three hierarchies. -/
def FASMultigrid.eraseSolve (s : FASMultigrid) : FASMultigrid :=
  { s with
    u_h := fun _ _ => fas_grid_t.empty
    damping_v_h := fun _ _ => fas_grid_t.empty
    jac_rhs_h := fun _ _ => fas_grid_t.empty }

/-- An example state of an inner solve: a single point (`1 x 1 x 1`, one level), two
unknowns equal to 1, the equations `u0 + a * u1` and `b * u0 + u1` (four molecules
with one polynomial atom of exponent 1 each), right-hand sides `jac_rhs = (r0, r1)`
and corrections `damping_v = (x, y)`.  Storage outside the point and the level
holds 0. -/
def linState (a b r0 r1 x y : ℚ) : FASMultigrid :=
  { max_relax_iters := 5
    max_depth := 1
    min_depth := 1
    max_depth_idx := 0
    min_depth_idx := 0
    total_depths := 1
    relaxation_tolerance := 1 / 1000
    u_n := 2
    molecule_n := fun _ => 2
    eqns := fun e m =>
      if e = 0 then (if m = 0 then ⟨1, [⟨1, 0, 1⟩]⟩ else ⟨a, [⟨1, 1, 1⟩]⟩)
      else (if m = 0 then ⟨b, [⟨1, 0, 1⟩]⟩ else ⟨1, [⟨1, 1, 1⟩]⟩)
    nx_h := fun _ => 1
    ny_h := fun _ => 1
    nz_h := fun _ => 1
    u_h := fun _ _ => mkGrid 1 1 1 (fun _ => 1)
    coarse_src_h := fun _ _ => mkGrid 1 1 1 (fun _ => 1)
    damping_v_h := fun e d => mkGrid 1 1 1 (fun p =>
      if d = 0 ∧ p = 0 then (if e = 0 then x else if e = 1 then y else 0) else 0)
    jac_rhs_h := fun e _ => mkGrid 1 1 1 (fun _ => if e = 0 then r0 else r1)
    tmp_h := fun _ _ => mkGrid 1 1 1 (fun _ => 0)
    rho_h := fun _ _ _ => fas_grid_t.empty }

/-- One Gauss-Seidel step of the `2 x 2` system `x + a * y = r0`, `b * x + y = r1`
on the pair `(x, y)`: first `x = r0 - a * y`, then `y = r1 - b * x`. -/
def gsStep (a b r0 r1 : ℚ) (v : ℚ × ℚ) : ℚ × ℚ :=
  (r0 - a * v.2, r1 - b * (r0 - a * v.2))

/-- The pair `(x, y)` after `m` Gauss-Seidel steps from `(0, 0)`. -/
def gsIter (a b r0 r1 : ℚ) : Nat → ℚ × ℚ
  | 0 => (0, 0)
  | m + 1 => gsStep a b r0 r1 (gsIter a b r0 r1 m)

/-- The squared residual of the `2 x 2` system at the pair `(x, y)`. -/
def gsResidual (a b r0 r1 : ℚ) (v : ℚ × ℚ) : ℚ :=
  (v.1 + a * v.2 - r0) * (v.1 + a * v.2 - r0) + (b * v.1 + v.2 - r1) * (b * v.1 + v.2 - r1)

/-- The state after `k` sweeps of the Jacobi update. -/
def FASMultigrid.sweeps (env : Env) (s : FASMultigrid) (depth_idx : Int) : Nat → FASMultigrid
  | 0 => s
  | k + 1 => (s.sweeps env depth_idx k).jacSweep env depth_idx

/-- The state in which a call ended, when it ended (normally or by the exception). -/
def Outcome.final : Outcome → Option FASMultigrid
  | Outcome.ok s => some s
  | Outcome.thrown s => some s
  | Outcome.running => none

/-- An example state of the smoother: a single point (`1 x 1 x 1`, one level), one
unknown with value `u`, the equation `F(u) = u` (one molecule with one polynomial
atom of exponent 1), right-hand side `coarse_src = src`, correction
`damping_v = v` and `jac_rhs = rhs`.  Storage outside the point holds 0. -/
def oneState (u src v rhs : ℚ) : FASMultigrid :=
  { max_relax_iters := 5
    max_depth := 1
    min_depth := 1
    max_depth_idx := 0
    min_depth_idx := 0
    total_depths := 1
    relaxation_tolerance := 1 / 1000
    u_n := 1
    molecule_n := fun _ => 1
    eqns := fun _ _ => ⟨1, [⟨1, 0, 1⟩]⟩
    nx_h := fun _ => 1
    ny_h := fun _ => 1
    nz_h := fun _ => 1
    u_h := fun e d => mkGrid 1 1 1 (fun p => if e = 0 ∧ d = 0 ∧ p = 0 then u else 0)
    coarse_src_h := fun _ _ => mkGrid 1 1 1 (fun _ => src)
    damping_v_h := fun e d => mkGrid 1 1 1 (fun p => if e = 0 ∧ d = 0 ∧ p = 0 then v else 0)
    jac_rhs_h := fun e d => mkGrid 1 1 1 (fun p => if e = 0 ∧ d = 0 ∧ p = 0 then rhs else 0)
    tmp_h := fun _ _ => mkGrid 1 1 1 (fun _ => 0)
    rho_h := fun _ _ _ => fas_grid_t.empty }

/-! ## The V-cycle -/

/-- The method `FASMultigrid::_changeApproximateSolutionToError` (source lines
703-720): the hierarchy `appx_to_err_h` after the call. -/
def FASMultigrid._changeApproximateSolutionToError (s : FASMultigrid)
    (appx_to_err_h exact_soln_h : Int → fas_grid_t) (depth : Int) : Int → fas_grid_t :=
  let depth_idx := s._dIdx depth
  let nx := s.nx_h depth_idx
  let ny := s.ny_h depth_idx
  let nz := s.nz_h depth_idx
  let exact_soln := exact_soln_h depth_idx
  Function.update appx_to_err_h depth_idx
    ((FAS_LOOP3_N nx ny nz).foldl (fun (appx_to_err : fas_grid_t) (ijk : Int × Int × Int) =>
      let idx := H_INDEX ijk.1 ijk.2.1 ijk.2.2 nx ny nz
      appx_to_err.set idx (exact_soln._array idx - appx_to_err._array idx))
      (appx_to_err_h depth_idx))

/-- The method `FASMultigrid::_correctFineFromCoarseErr_Err2Appx` (source lines
730-755): the hierarchies `err2appx_h` and `appx_soln_h` after the call. -/
def FASMultigrid._correctFineFromCoarseErr_Err2Appx (s : FASMultigrid)
    (err2appx_h appx_soln_h : Int → fas_grid_t) (fine_depth : Int) :
    (Int → fas_grid_t) × (Int → fas_grid_t) :=
  let coarse_depth := fine_depth - 1
  let fine_depth_idx := s._dIdx fine_depth
  let n_fine_x := s.nx_h fine_depth_idx
  let n_fine_y := s.ny_h fine_depth_idx
  let n_fine_z := s.nz_h fine_depth_idx
  let err2appx_h := s._interpolateCoarse2fine err2appx_h coarse_depth
  let r := (FAS_LOOP3_N n_fine_x n_fine_y n_fine_z).foldl
    (fun (g : fas_grid_t × fas_grid_t) (ijk : Int × Int × Int) =>
      let idx := H_INDEX ijk.1 ijk.2.1 ijk.2.2 n_fine_x n_fine_y n_fine_z
      let appx_val := g.2._array idx
      let appx_soln := g.2.add idx (g.1._array idx)
      let err2appx := g.1.set idx appx_val
      (err2appx, appx_soln)) (err2appx_h fine_depth_idx, appx_soln_h fine_depth_idx)
  (Function.update err2appx_h fine_depth_idx r.1,
    Function.update appx_soln_h fine_depth_idx r.2)

/-- Modelled from the spec: the assignment `to = from` of the grid type of the
missing header, a copy of the grid (the snapshot of step 3 of the V-cycle). -/
def fas_grid_t.assign (_to from_grid : fas_grid_t) : fas_grid_t := from_grid

/-- The method `FASMultigrid::_copyGrid` (source lines 764-770): the array of
hierarchies `to_h` after the call. -/
def FASMultigrid._copyGrid (s : FASMultigrid) (from_h to_h : Nat → Int → fas_grid_t)
    (eqn_id : Nat) (depth : Int) : Nat → Int → fas_grid_t :=
  let depth_idx := s._dIdx depth
  Function.update to_h eqn_id
    (Function.update (to_h eqn_id) depth_idx
      ((to_h eqn_id depth_idx).assign (from_h eqn_id depth_idx)))

/-- Sequencing of calls that can throw: the next call runs only after a normal
return. -/
def Outcome.bind (o : Outcome) (f : FASMultigrid → Outcome) : Outcome :=
  match o with
  | Outcome.ok s => f s
  | Outcome.thrown s => Outcome.thrown s
  | Outcome.running => Outcome.running

/-- The state with the array of hierarchies `tmp_h` replaced. -/
def FASMultigrid.with_tmp_h (s : FASMultigrid) (h : Nat → Int → fas_grid_t) : FASMultigrid :=
  { s with tmp_h := h }

/-- The body of the loop over the equations in the descent of `VCycle` (source lines
1079-1081): the calls `_computeCoarseRestrictions(eqn_id, depth)` for `depth =
max_depth, ..., min_depth + 1`, then the snapshot `_copyGrid(u_h, tmp_h, eqn_id,
min_depth)`. -/
def FASMultigrid.descendEqn (env : Env) (s : FASMultigrid) (eqn_id : Nat) : FASMultigrid :=
  let s := ((List.range (s.max_depth - s.min_depth).toNat).map
      (fun (n : Nat) => s.max_depth - (n : Int))).foldl
    (fun (s : FASMultigrid) (depth : Int) => s._computeCoarseRestrictions env eqn_id depth) s
  s.with_tmp_h (s._copyGrid s.u_h s.tmp_h eqn_id s.min_depth)

/-- The descent of `VCycle` (source lines 1077-1082). -/
def FASMultigrid.descend (env : Env) (s : FASMultigrid) : FASMultigrid :=
  (List.range s.u_n).foldl (fun (s : FASMultigrid) (eqn_id : Nat) => s.descendEqn env eqn_id) s

/-- The two loops over the equations after the smoother in one pass of the ascent
of `VCycle` (source lines 1093-1098). -/
def FASMultigrid.correctStep (s : FASMultigrid) (coarse_depth : Int) : FASMultigrid :=
  let s := (List.range s.u_n).foldl (fun (s : FASMultigrid) (eqn_id : Nat) =>
    s.set_tmp_h eqn_id
      (s._changeApproximateSolutionToError (s.tmp_h eqn_id) (s.u_h eqn_id) coarse_depth)) s
  (List.range s.u_n).foldl (fun (s : FASMultigrid) (eqn_id : Nat) =>
    let r := s._correctFineFromCoarseErr_Err2Appx (s.tmp_h eqn_id) (s.u_h eqn_id)
      (coarse_depth + 1)
    (s.set_tmp_h eqn_id r.1).set_u_h eqn_id r.2) s

/-- One pass of the ascent of `VCycle` (source lines 1086-1098). -/
def FASMultigrid.ascendStep (env : Env) (fuel : Nat) (s : FASMultigrid) (coarse_depth : Int) :
    Outcome :=
  (s._relaxSolution_GaussSeidel env fuel coarse_depth s.max_relax_iters).bind
    fun s => Outcome.ok (s.correctStep coarse_depth)

/-- The ascent of `VCycle` (source lines 1084-1102), for `coarse_depth = min_depth,
..., max_depth - 1`. -/
def FASMultigrid.ascend (env : Env) (fuel : Nat) (s : FASMultigrid) : Outcome :=
  ((List.range (s.max_depth - s.min_depth).toNat).map
      (fun (n : Nat) => s.min_depth + (n : Int))).foldl
    (fun (o : Outcome) (coarse_depth : Int) =>
      o.bind fun s => s.ascendStep env fuel coarse_depth) (Outcome.ok s)

/-- The method `FASMultigrid::VCycle` (source lines 1068-1107); the printed
residuals are not modelled. -/
def FASMultigrid.VCycle (env : Env) (fuel : Nat) (s : FASMultigrid) : Outcome :=
  (s._relaxSolution_GaussSeidel env fuel s.max_depth s.max_relax_iters).bind fun s =>
    ((s.descend env).ascend env fuel).bind fun s =>
      s._relaxSolution_GaussSeidel env fuel s.max_depth s.max_relax_iters

/-- The loop of `VCycles` with `n` cycles left (source lines 1111-1114). -/
def VCyclesLoop (env : Env) (fuel : Nat) : Nat → FASMultigrid → Outcome
  | 0, s => Outcome.ok s
  | n + 1, s => (s.VCycle env fuel).bind (VCyclesLoop env fuel n)

/-- The method `FASMultigrid::VCycles` (source lines 1109-1126); the printed
statistics are not modelled. -/
def FASMultigrid.VCycles (env : Env) (fuel : Nat) (s : FASMultigrid) (num_cycles : Int) :
    Outcome :=
  (VCyclesLoop env fuel num_cycles.toNat s).bind fun s =>
    s._relaxSolution_GaussSeidel env fuel s.max_depth 10

/-- The state `t` has the depth bounds of `s` and the `coarse_src` grids of `s` at
every level index from the finest one (`_dIdx(max_depth)`) upwards. -/
def FASMultigrid.finestSourceKept (s t : FASMultigrid) : Prop :=
  t.min_depth = s.min_depth ∧ t.max_depth = s.max_depth
  ∧ ∀ (e : Nat) (d : Int), s._dIdx s.max_depth ≤ d → t.coarse_src_h e d = s.coarse_src_h e d

/-! ## Density initialisation -/

/-- The state with the density hierarchy `rho_h[eqn_id][mol_id]` replaced by `h`. -/
def FASMultigrid.set_rho_h (s : FASMultigrid) (eqn_id mol_id : Nat) (h : Int → fas_grid_t) :
    FASMultigrid :=
  { s with rho_h := Function.update s.rho_h eqn_id (Function.update (s.rho_h eqn_id) mol_id h) }

/-- The method `FASMultigrid::setPolySrcAtPt` (source lines 1134-1147); `mem` is the
content of the storage that `init` allocates. -/
def FASMultigrid.setPolySrcAtPt (mem : Int → ℚ) (s : FASMultigrid) (eqn_id mol_id : Nat)
    (i j k : Int) (value : ℚ) : FASMultigrid :=
  let idx := H_INDEX i j k (s.nx_h s.max_depth_idx) (s.ny_h s.max_depth_idx)
    (s.nz_h s.max_depth_idx)
  let rho := s.rho_h eqn_id mol_id s.max_depth_idx
  let rho :=
    if rho.pts = 0 then
      fas_grid_t.init mem (s.nx_h s.max_depth_idx) (s.ny_h s.max_depth_idx)
        (s.nz_h s.max_depth_idx)
    else rho
  s.set_rho_h eqn_id mol_id
    (Function.update (s.rho_h eqn_id mol_id) s.max_depth_idx (rho.set idx value))

/-- The depth loop of the first part of `initializeRhoHeirarchy` (source lines
1038-1045) on the hierarchy `rho_h[eqn_id][mol_id]` it works on, for `depth =
max_depth - 1, ..., min_depth`; `mem depth_idx` is the content of the storage that
`init` allocates for a level. -/
def FASMultigrid.rhoAllocLoop (s : FASMultigrid) (mem : Int → Int → ℚ)
    (rho : Int → fas_grid_t) : Int → fas_grid_t :=
  ((List.range (s.max_depth - s.min_depth).toNat).map
      (fun (n : Nat) => s.max_depth - 1 - (n : Int))).foldl
    (fun (rho : Int → fas_grid_t) (depth : Int) =>
      let depth_idx := s._dIdx depth
      if (rho (depth_idx + 1)).pts > 0 then
        Function.update rho depth_idx
          (fas_grid_t.init (mem depth_idx) (s.nx_h depth_idx) (s.ny_h depth_idx)
            (s.nz_h depth_idx))
      else rho) rho

/-- The depth loop of the second part of `initializeRhoHeirarchy` (source lines
1055-1061) on the hierarchy `rho_h[eqn_id][mol_id]` it works on, for `depth =
max_depth, ..., min_depth + 1`. -/
def FASMultigrid.rhoRestrictLoop (s : FASMultigrid) (rho : Int → fas_grid_t) :
    Int → fas_grid_t :=
  ((List.range (s.max_depth - s.min_depth).toNat).map
      (fun (n : Nat) => s.max_depth - (n : Int))).foldl
    (fun (rho : Int → fas_grid_t) (depth : Int) =>
      let depth_idx := s._dIdx depth
      if (rho depth_idx).pts > 0 then s._restrictFine2coarse rho depth
      else rho) rho

/-- The method `FASMultigrid::initializeRhoHeirarchy` (source lines 1030-1065);
`mem eqn_id mol_id depth_idx` is the content of the storage that `init` allocates
for a level of a density hierarchy. -/
def FASMultigrid.initializeRhoHeirarchy (mem : Nat → Nat → Int → Int → ℚ) (s : FASMultigrid) :
    FASMultigrid :=
  let s := (List.range s.u_n).foldl (fun (s : FASMultigrid) (eqn_id : Nat) =>
    (List.range (s.molecule_n eqn_id)).foldl (fun (s : FASMultigrid) (mol_id : Nat) =>
      s.set_rho_h eqn_id mol_id (s.rhoAllocLoop (mem eqn_id mol_id) (s.rho_h eqn_id mol_id)))
      s) s
  (List.range s.u_n).foldl (fun (s : FASMultigrid) (eqn_id : Nat) =>
    (List.range (s.molecule_n eqn_id)).foldl (fun (s : FASMultigrid) (mol_id : Nat) =>
      s.set_rho_h eqn_id mol_id (s.rhoRestrictLoop (s.rho_h eqn_id mol_id))) s) s

/-- The state with the density hierarchies blanked: two states with the same
`eraseRho` differ at most in `rho_h`. -/
def FASMultigrid.eraseRho (s : FASMultigrid) : FASMultigrid :=
  { s with rho_h := fun _ _ _ => fas_grid_t.empty }

/-- An example state before `initializeRhoHeirarchy`: `evenSolver` after the call
`setPolySrcAtPt(0, 0, 0, 0, 0, 3)` (new storage holding 0). -/
def rhoSolver : FASMultigrid :=
  evenSolver.setPolySrcAtPt (fun _ => 0) 0 0 0 0 0 3

/-! ## Equation schema -/

/-- Modelled from the spec: the method `molecule::add_atom` of the missing header.
The spec lets `add_atom` fail fast on schema misuse such as an atom type out of
range (the atom types are 1..11); `none` is the failure, and a permitted atom is
appended to the atoms of the molecule. -/
def molecule.add_atom (m : molecule) (atom_in : atom) : Option molecule :=
  if 1 ≤ atom_in.type ∧ atom_in.type ≤ 11 then
    some { m with atoms := m.atoms ++ [atom_in] }
  else none

/-- The method `FASMultigrid::add_atom_to_eqn` (source lines 130-133): it passes the
atom to `add_atom` of the molecule `eqns[eqn_id][molecule_id]` and adds no check of
its own. -/
def FASMultigrid.add_atom_to_eqn (s : FASMultigrid) (atom_in : atom)
    (molecule_id eqn_id : Nat) : Option FASMultigrid :=
  match (s.eqns eqn_id molecule_id).add_atom atom_in with
  | none => none
  | some mol =>
    some { s with
      eqns := Function.update s.eqns eqn_id
        (Function.update (s.eqns eqn_id) molecule_id mol) }

/-- A sequence of calls `add_atom_to_eqn(atom, molecule_id, eqn_id)`; it fails when
one of the calls fails. -/
def FASMultigrid.add_atoms (s : FASMultigrid) : List (atom × Nat × Nat) → Option FASMultigrid
  | [] => some s
  | c :: cs =>
    match s.add_atom_to_eqn c.1 c.2.1 c.2.2 with
    | none => none
    | some t => t.add_atoms cs

/-- Every atom stored in the equations has a catalogued type. -/
def FASMultigrid.allWellTyped (s : FASMultigrid) : Prop :=
  ∀ (e m : Nat), ∀ ad ∈ (s.eqns e m).atoms, ad.wellTyped

/-! ## The diagonal of the Jacobian -/

/-- The number `s` of diagonal stencil terms of a second-derivative atom, as the
spec gives it: 1 for the pure second derivatives (types 5..7), 3 for the Laplacian
(type 11), 0 for the mixed second derivatives (types 8..10). -/
def diagCount (t : Int) : ℚ :=
  if t ≤ 7 then 1 else if t = 11 then 3 else 0

/-- Every atom of equation `eqn_id` on the equation's own field is a first
derivative (types 2..4) or a mixed second derivative (types 8..10). -/
def FASMultigrid.noDiagonalAtom (s : FASMultigrid) (eqn_id : Nat) : Prop :=
  ∀ mol_id, mol_id < s.molecule_n eqn_id → ∀ ad ∈ (s.eqns eqn_id mol_id).atoms,
    ad.u_id = eqn_id → (2 ≤ ad.type ∧ ad.type ≤ 4) ∨ (8 ≤ ad.type ∧ ad.type ≤ 10)

/-- An example equation without a diagonal: `evenSolver` with the equation
`(du/dx) * (d2u/dxdy)`. -/
def flatSolver : FASMultigrid :=
  { evenSolver with eqns := fun _ _ => ⟨1, [⟨2, 0, 0⟩, ⟨8, 0, 0⟩]⟩ }

/-- An example Laplace equation: `evenSolver` with the single atom `(11, 0, 0)`. -/
def lapSolver : FASMultigrid :=
  { evenSolver with eqns := fun _ _ => ⟨1, [⟨11, 0, 0⟩]⟩ }

/-! ## Diagnostics -/

/-- The method `FASMultigrid::_printStrip` (source lines 982-994): the values it
prints, in order. -/
def _printStrip (out : fas_grid_t) : List ℚ :=
  (List.range out.nx.toNat).map fun (i : Nat) =>
    out._array (H_INDEX (i : Int) (out.nx / 4) (out.ny / 4) out.nx out.ny out.nz)

/-- The method `FASMultigrid::printSolutionStrip` (source lines 1128-1131): it
passes `u_h[0][depth]` to `_printStrip`. -/
def FASMultigrid.printSolutionStrip (s : FASMultigrid) (depth : Int) : List ℚ :=
  _printStrip (s.u_h 0 depth)

/-! ## The order of the updates within one sweep -/

/-- The value that the body of the point loop of `_jacobianRelax` (source lines
874-883) computes in the state `s` for equation `eqn_id` at the point `(i, j, k)`:
the right-hand side of the assignment to `damping_v[idx]`. -/
def FASMultigrid.jacValue (env : Env) (s : FASMultigrid) (depth_idx : Int) (eqn_id : Nat)
    (nx ny nz : Int) (ijk : Int × Int × Int) : ℚ :=
  let idx := H_INDEX ijk.1 ijk.2.1 ijk.2.2 nx ny nz
  let coef := s._evaluateIterationForJacEquation env eqn_id depth_idx 0 0
    ijk.1 ijk.2.1 ijk.2.2 eqn_id
  let coef_a := coef.1
  let coef_b := coef.2
  let temp := (List.range s.u_n).foldl (fun (temp : ℚ) (u_id : Nat) =>
    if u_id ≠ eqn_id then
      temp + s._evaluateDerEllipticEquation env eqn_id depth_idx ijk.1 ijk.2.1 ijk.2.2 u_id
    else temp) 0
  (coef_a - (s.jac_rhs_h eqn_id depth_idx)._array idx + temp) / (-coef_b)

/-- The iterations of one sweep of `_jacobianRelax` in loop order (source lines
867-873): the equations in the outer loop, the points of the level in the inner
one. -/
def FASMultigrid.sweepVisits (s : FASMultigrid) (depth_idx : Int) :
    List (Nat × Int × Int × Int) :=
  (List.range s.u_n).flatMap fun (eqn_id : Nat) =>
    (FAS_LOOP3_N (s.nx_h depth_idx) (s.ny_h depth_idx) (s.nz_h depth_idx)).map
      fun ijk => (eqn_id, ijk)

/-- The cell of `damping_v` that an iteration of the sweep writes: the equation and
the flat position of the point. -/
def FASMultigrid.visitCell (s : FASMultigrid) (depth_idx : Int) (v : Nat × Int × Int × Int) :
    Nat × Int :=
  (v.1, H_INDEX v.2.1 v.2.2.1 v.2.2.2 (s.nx_h depth_idx) (s.ny_h depth_idx) (s.nz_h depth_idx))

/-- The state `s` with the contents of `damping_v_h[e][depth_idx]` replaced, for
every equation `e`, by `fun p => m (e, p)`; the extents of the grids and everything
else are as in `s`. -/
def FASMultigrid.withV (s : FASMultigrid) (depth_idx : Int) (m : Nat × Int → ℚ) :
    FASMultigrid :=
  let damping_v_h : Nat → Int → fas_grid_t := fun e d =>
    if d = depth_idx then { s.damping_v_h e d with _array := fun p => m (e, p) }
    else s.damping_v_h e d
  { s with damping_v_h := damping_v_h }

/-- The contents of `damping_v` at a level, by equation and flat position. -/
def FASMultigrid.vAt (s : FASMultigrid) (depth_idx : Int) (q : Nat × Int) : ℚ :=
  (s.damping_v_h q.1 depth_idx)._array q.2

/-- Reference form, following the words of the specification: the point-Jacobi
(simultaneous) sweep.  Every new value is computed from the state `s` at the start
of the sweep (the snapshot), and the values are then written in loop order. -/
def FASMultigrid.snapshotSweep (env : Env) (s : FASMultigrid) (depth_idx : Int) :
    FASMultigrid :=
  let nx := s.nx_h depth_idx
  let ny := s.ny_h depth_idx
  let nz := s.nz_h depth_idx
  (s.sweepVisits depth_idx).foldl (fun (t : FASMultigrid) (v : Nat × Int × Int × Int) =>
    t.set_damping_v_h v.1 (Function.update (t.damping_v_h v.1) depth_idx
      ((t.damping_v_h v.1 depth_idx).set (H_INDEX v.2.1 v.2.2.1 v.2.2.2 nx ny nz)
        (s.jacValue env depth_idx v.1 nx ny nz v.2)))) s

/-! ## Sums over the points of a grid -/

/-- The sum over the points `(i, j, k)` of the grid `a` of the products
`a(i, j, k) * b(i, j, k)`. -/
def gridDot (a b : fas_grid_t) : ℚ :=
  ((FAS_LOOP3_N a.nx a.ny a.nz).map fun c =>
    a.cell c.1 c.2.1 c.2.2 * b.cell c.1 c.2.1 c.2.2).sum

/-- The sum of the values of a grid over its points. -/
def gridSum (a : fas_grid_t) : ℚ :=
  ((FAS_LOOP3_N a.nx a.ny a.nz).map fun c => a.cell c.1 c.2.1 c.2.2).sum

/-- The mean of the values of a grid over its points. -/
def gridMean (a : fas_grid_t) : ℚ :=
  gridSum a / ((a.nx * a.ny * a.nz : Int) : ℚ)

/-! ## Fixed point of the V-cycle -/

/-- The residual `coarse_src - F(u)` of equation 0 is 0 at every point of the
level. -/
def FASMultigrid.zeroResidual (env : Env) (s : FASMultigrid) (depth_idx : Int) : Prop :=
  ∀ i j k : Int, s.isPoint depth_idx i j k → s.residualAt env 0 depth_idx i j k = 0

/-- Two grids have the same extents and number of points. -/
def fas_grid_t.sameShape (a b : fas_grid_t) : Prop :=
  a.nx = b.nx ∧ a.ny = b.ny ∧ a.nz = b.nz ∧ a.pts = b.pts

/-- Every level above the coarsest has exactly twice the extents of the next
coarser level, the extents are positive, and the work grid `tmp_h[0]` of the level
is a grid of the level (what the constructor allocates when the finest extents
are divisible by `2^(max_depth - min_depth)`). -/
def FASMultigrid.exactHalving (s : FASMultigrid) : Prop :=
  ∀ d : Int, 0 < d → d ≤ s._dIdx s.max_depth →
    (0 < s.nx_h (d - 1) ∧ 0 < s.ny_h (d - 1) ∧ 0 < s.nz_h (d - 1))
    ∧ (s.nx_h d = 2 * s.nx_h (d - 1) ∧ s.ny_h d = 2 * s.ny_h (d - 1)
      ∧ s.nz_h d = 2 * s.nz_h (d - 1))
    ∧ s.levelGrid d (s.tmp_h 0 d)

/-- A single-equation solver with a positive tolerance and exactly halving levels,
whose residual is 0 at every point of the levels `lo, ..., _dIdx(max_depth)`. -/
def FASMultigrid.solvedFrom (env : Env) (s : FASMultigrid) (lo : Int) : Prop :=
  s.u_n = 1 ∧ 0 < s.relaxation_tolerance ∧ s.exactHalving
  ∧ ∀ l : Int, lo ≤ l → l ≤ s._dIdx s.max_depth → s.zeroResidual env l

/-- The state `t` has the depth bounds of `s` and the finest grid of `u_h[0]` of
`s`. -/
def FASMultigrid.keepsFinest (s t : FASMultigrid) : Prop :=
  t.min_depth = s.min_depth ∧ t.max_depth = s.max_depth
  ∧ t.u_h 0 (s._dIdx s.max_depth) = s.u_h 0 (s._dIdx s.max_depth)

/-- At the points of the level the snapshot `tmp_h[0]` holds the values of
`u_h[0]`. -/
def FASMultigrid.snapshotAt (s : FASMultigrid) (depth_idx : Int) : Prop :=
  ∀ i j k : Int, s.isPoint depth_idx i j k →
    (s.tmp_h 0 depth_idx)._array (s.posIdx depth_idx i j k)
      = (s.u_h 0 depth_idx)._array (s.posIdx depth_idx i j k)

/-! ## Scenario S1 -/

/-- The calls of scenario S1 after the construction of the solver: the Laplacian
atom `(11, 0, 0)` is added to molecule 0 of equation 0, the density of the molecule
is set to 1 at every point of the `NX x NY x NZ` finest level, and
`initializeRhoHeirarchy` is called.  `rho_mem` and `rho_mem_h` are the contents of
the storage that `setPolySrcAtPt` and `initializeRhoHeirarchy` allocate; `none`
means that `add_atom_to_eqn` failed. -/
def FASMultigrid.setupS1 (s : FASMultigrid) (env : Env) (rho_mem : Int → ℚ)
    (rho_mem_h : Nat → Nat → Int → Int → ℚ) : Option FASMultigrid :=
  match s.add_atom_to_eqn ⟨11, 0, 0⟩ 0 0 with
  | none => none
  | some s =>
    let s := (FAS_LOOP3_N env.NX env.NY env.NZ).foldl
      (fun (s : FASMultigrid) (ijk : Int × Int × Int) =>
        s.setPolySrcAtPt rho_mem 0 0 ijk.1 ijk.2.1 ijk.2.2 1) s
    some (s.initializeRhoHeirarchy rho_mem_h)

/-- The set-up of scenario S1: a solver is constructed for one equation with one
molecule and the initial guess 0 on the `NX x NY x NZ` grid, then the calls of
`setupS1` are made.  `mem` is the content of the storage the constructor allocates
and `mol` the default-constructed molecules. -/
def scenarioS1 (env : Env) (mem : Nat → Nat → Int → Int → ℚ) (mol : Nat → Nat → molecule)
    (rho_mem : Int → ℚ) (rho_mem_h : Nat → Nat → Int → Int → ℚ)
    (max_depth_in max_relax_iters_in : Int) (relaxation_tolerance_in : ℚ) :
    Option FASMultigrid :=
  (FASMultigrid.new env mem mol (fun _ => mkGrid env.NX env.NY env.NZ (fun _ => 0)) 1
    (fun _ => 1) max_depth_in max_relax_iters_in relaxation_tolerance_in).setupS1 env rho_mem
    rho_mem_h

/-! # Theorems -/

/-! ## Generic loop lemmas -/

theorem foldl_add_eq_sum {α : Type} (f : α → ℚ) (l : List α) (a : ℚ) :
    l.foldl (fun r x => r + f x) a = a + (l.map f).sum := by
  induction l generalizing a with
  | nil => simp
  | cons x xs ih => simp [ih, add_assoc]

theorem foldl_mul_eq_prod {α : Type} (step : ℚ → α → ℚ) (f : α → ℚ) (l : List α)
    (h : ∀ x ∈ l, ∀ v, step v x = v * f x) (a : ℚ) :
    l.foldl step a = a * (l.map f).prod := by
  induction l generalizing a with
  | nil => simp
  | cons x xs ih =>
    have hx := h x (List.mem_cons_self _ _)
    have hxs : ∀ y ∈ xs, ∀ v, step v y = v * f y :=
      fun y hy => h y (List.mem_cons_of_mem _ hy)
    simp [ih hxs, hx, mul_assoc]

/-! ## Laws of the point evaluator -/

theorem der_type_first (t : Int) (h2 : 2 ≤ t) (h4 : t ≤ 4) : der_type t 0 = t - 1 := by
  have : t = 2 ∨ t = 3 ∨ t = 4 := by omega
  rcases this with h | h | h <;> subst h <;> decide

theorem der_type_second (t : Int) (h5 : 5 ≤ t) (h10 : t ≤ 10) :
    der_type t 0 = (axisPair t).1 ∧ der_type t 1 = (axisPair t).2 := by
  have : t = 5 ∨ t = 6 ∨ t = 7 ∨ t = 8 ∨ t = 9 ∨ t = 10 := by omega
  rcases this with h | h | h | h | h | h <;> subst h <;> decide

theorem evalAtomStep_eq (env : Env) (s : FASMultigrid) (depth_idx i j k : Int)
    (ad : atom) (h : ad.wellTyped) (val : ℚ) :
    evalAtomStep env s depth_idx i j k (s.posIdx depth_idx i j k) val ad
      = val * s.atomValue env depth_idx i j k ad := by
  obtain ⟨h1, h11⟩ := h
  unfold evalAtomStep FASMultigrid.atomValue atomOn
  by_cases c1 : ad.type = 1
  · simp [c1]
  · by_cases c4 : ad.type ≤ 4
    · have h2 : 2 ≤ ad.type := by omega
      simp [c1, c4, h2, der_type_first ad.type h2 c4]
    · by_cases c10 : ad.type ≤ 10
      · have h5 : 5 ≤ ad.type := by omega
        have hd := der_type_second ad.type h5 c10
        have n2 : ¬ (2 ≤ ad.type ∧ ad.type ≤ 4) := by omega
        simp [c1, c4, c10, h5, n2, hd.1, hd.2]
      · have n2 : ¬ (2 ≤ ad.type ∧ ad.type ≤ 4) := by omega
        have n5 : ¬ (5 ≤ ad.type ∧ ad.type ≤ 10) := by omega
        simp [c1, c4, c10, n2, n5]

/-- C1: at every point, `_evaluateEllipticEquationPt` is the sum over the
molecules of the equation of `const_coef * rho(x) * (product of the atom values)`,
with `rho(x) = 1` for an absent density grid; the empty product (a molecule with
no atoms) is 1 and the empty sum (no molecules) is 0. -/
theorem evaluateEllipticEquationPt_sum_of_products (env : Env) (s : FASMultigrid)
    (eqn_id : Nat) (depth_idx i j k : Int) (hty : s.eqnWellTyped eqn_id) :
    s._evaluateEllipticEquationPt env eqn_id depth_idx i j k
      = ((List.range (s.molecule_n eqn_id)).map fun mol_id =>
          (s.eqns eqn_id mol_id).const_coef * s.rhoAt eqn_id mol_id depth_idx i j k
            * (((s.eqns eqn_id mol_id).atoms.map
                (s.atomValue env depth_idx i j k)).prod)).sum := by
  unfold FASMultigrid._evaluateEllipticEquationPt
  rw [← zero_add (List.sum _)]
  generalize (0 : ℚ) = a
  have key : ∀ (l : List Nat), (∀ m ∈ l, m < s.molecule_n eqn_id) → ∀ a : ℚ,
      l.foldl (fun res mol_id =>
        let val := (s.eqns eqn_id mol_id).const_coef
        let pos_idx := H_INDEX i j k (s.nx_h depth_idx) (s.ny_h depth_idx) (s.nz_h depth_idx)
        let val :=
          if (s.rho_h eqn_id mol_id depth_idx).pts > 0 then
            val * (s.rho_h eqn_id mol_id depth_idx)._array pos_idx
          else val
        let val :=
          (s.eqns eqn_id mol_id).atoms.foldl (evalAtomStep env s depth_idx i j k pos_idx) val
        res + val) a
      = a + (l.map fun mol_id =>
          (s.eqns eqn_id mol_id).const_coef * s.rhoAt eqn_id mol_id depth_idx i j k
            * (((s.eqns eqn_id mol_id).atoms.map
                (s.atomValue env depth_idx i j k)).prod)).sum := by
    intro l
    induction l with
    | nil => intro _ a; simp
    | cons m ms ih =>
      intro hm a
      have hm0 := hm m (List.mem_cons_self _ _)
      have hms : ∀ x ∈ ms, x < s.molecule_n eqn_id :=
        fun x hx => hm x (List.mem_cons_of_mem _ hx)
      rw [List.foldl_cons, ih hms, List.map_cons, List.sum_cons]
      have hfold := fun v => foldl_mul_eq_prod
        (evalAtomStep env s depth_idx i j k (s.posIdx depth_idx i j k))
        (s.atomValue env depth_idx i j k) (s.eqns eqn_id m).atoms
        (fun x hx v => evalAtomStep_eq env s depth_idx i j k x (hty m hm0 x hx) v) v
      simp only [FASMultigrid.posIdx] at hfold
      simp only [hfold, FASMultigrid.rhoAt, FASMultigrid.posIdx]
      split_ifs <;> ring
  exact key _ (fun m hm => List.mem_range.mp hm) a


theorem jac_der_step (env : Env) (s : FASMultigrid) (depth_idx i j k pos_idx : Int)
    (u_id : Nat) (dx : ℚ)
    (hdim : (s.u_h u_id depth_idx).sameDims (s.damping_v_h u_id depth_idx))
    (ja : JacAcc) (da : DerAcc) (ad : atom)
    (h1 : ja.non_der_val = da.non_der_val)
    (h2 : ja.mol_to_a + ja.mol_to_b * (s.damping_v_h u_id depth_idx)._array pos_idx
      = da.der_val) :
    (jacAtomStep env s depth_idx i j k pos_idx u_id dx ja ad).non_der_val
        = (derAtomStep env s depth_idx i j k pos_idx u_id da ad).non_der_val
    ∧ (jacAtomStep env s depth_idx i j k pos_idx u_id dx ja ad).mol_to_a
        + (jacAtomStep env s depth_idx i j k pos_idx u_id dx ja ad).mol_to_b
          * (s.damping_v_h u_id depth_idx)._array pos_idx
      = (derAtomStep env s depth_idx i j k pos_idx u_id da ad).der_val := by
  obtain ⟨hx, hy, hz⟩ := hdim
  unfold jacAtomStep derAtomStep
  by_cases c1 : ad.type = 1
  · by_cases cu : u_id = ad.u_id
    · simp only [c1, cu, if_true, h1]
      refine ⟨trivial, ?_⟩
      rw [← h2]; simp only [cu]; ring
    · simp only [c1, cu, if_true, if_false, h1]
      refine ⟨trivial, ?_⟩
      rw [← h2]; ring
  · by_cases c4 : ad.type ≤ 4
    · by_cases cu : u_id = ad.u_id
      · simp only [c1, c4, if_true, if_false, h1]
        subst cu
        simp only [if_true]
        refine ⟨trivial, ?_⟩
        rw [← h2]; ring
      · simp only [c1, c4, cu, if_true, if_false, h1]
        refine ⟨trivial, ?_⟩
        rw [← h2]; ring
    · by_cases c10 : ad.type ≤ 10
      · by_cases cu : u_id = ad.u_id
        · simp only [c1, c4, c10, if_true, if_false, h1]
          subst cu
          simp only [if_true]
          refine ⟨trivial, ?_⟩
          rw [← h2]; ring
        · simp only [c1, c4, c10, cu, if_true, if_false, h1]
          refine ⟨trivial, ?_⟩
          rw [← h2]; ring
      · by_cases cu : u_id = ad.u_id
        · simp only [c1, c4, c10, if_true, if_false, h1]
          subst cu
          simp only [if_true, hx, hy, hz]
          refine ⟨trivial, ?_⟩
          rw [← h2]; ring
        · simp only [c1, c4, c10, cu, if_true, if_false, h1]
          refine ⟨trivial, ?_⟩
          rw [← h2]; ring

theorem jac_der_fold (env : Env) (s : FASMultigrid) (depth_idx i j k pos_idx : Int)
    (u_id : Nat) (dx : ℚ)
    (hdim : (s.u_h u_id depth_idx).sameDims (s.damping_v_h u_id depth_idx))
    (l : List atom) (ja : JacAcc) (da : DerAcc)
    (h1 : ja.non_der_val = da.non_der_val)
    (h2 : ja.mol_to_a + ja.mol_to_b * (s.damping_v_h u_id depth_idx)._array pos_idx
      = da.der_val) :
    (l.foldl (jacAtomStep env s depth_idx i j k pos_idx u_id dx) ja).mol_to_a
        + (l.foldl (jacAtomStep env s depth_idx i j k pos_idx u_id dx) ja).mol_to_b
          * (s.damping_v_h u_id depth_idx)._array pos_idx
      = (l.foldl (derAtomStep env s depth_idx i j k pos_idx u_id) da).der_val := by
  induction l generalizing ja da with
  | nil => simpa using h2
  | cons ad rest ih =>
    have hs := jac_der_step env s depth_idx i j k pos_idx u_id dx hdim ja da ad h1 h2
    simp only [List.foldl_cons]
    exact ih _ _ hs.1 hs.2

/-- C2: called with `coef_a = coef_b = 0` and `u_id = q`, the Jacobian split
returns a pair with `coef_a + coef_b * v_q(x)` equal to the directional
derivative `_evaluateDerEllipticEquation` for the same equation, depth, point
and field, whenever the `u` and `v` grids of field `q` have equal extents; this
holds for atoms of every type and for any stencil functions. -/
theorem jacobian_split_agrees_with_directional_derivative (env : Env) (s : FASMultigrid)
    (eqn_id : Nat) (depth_idx i j k : Int) (q : Nat)
    (hdim : (s.u_h q depth_idx).sameDims (s.damping_v_h q depth_idx)) :
    (s._evaluateIterationForJacEquation env eqn_id depth_idx 0 0 i j k q).1
        + (s._evaluateIterationForJacEquation env eqn_id depth_idx 0 0 i j k q).2
          * (s.damping_v_h q depth_idx)._array (s.posIdx depth_idx i j k)
      = s._evaluateDerEllipticEquation env eqn_id depth_idx i j k q := by
  unfold FASMultigrid._evaluateIterationForJacEquation
    FASMultigrid._evaluateDerEllipticEquation FASMultigrid.posIdx
  have key : ∀ (l : List Nat) (c : ℚ × ℚ) (r : ℚ),
      c.1 + c.2 * (s.damping_v_h q depth_idx)._array
          (H_INDEX i j k (s.nx_h depth_idx) (s.ny_h depth_idx) (s.nz_h depth_idx)) = r →
      (l.foldl (fun (coef : ℚ × ℚ) mol_id =>
        let pos_idx := H_INDEX i j k (s.nx_h depth_idx) (s.ny_h depth_idx) (s.nz_h depth_idx)
        let acc := (s.eqns eqn_id mol_id).atoms.foldl
          (jacAtomStep env s depth_idx i j k pos_idx q
            (env.H_LEN_FRAC / (s.nx_h depth_idx : ℚ)))
          (s.jacMolInit eqn_id mol_id depth_idx pos_idx)
        (coef.1 + acc.mol_to_a, coef.2 + acc.mol_to_b)) c).1
      + (l.foldl (fun (coef : ℚ × ℚ) mol_id =>
        let pos_idx := H_INDEX i j k (s.nx_h depth_idx) (s.ny_h depth_idx) (s.nz_h depth_idx)
        let acc := (s.eqns eqn_id mol_id).atoms.foldl
          (jacAtomStep env s depth_idx i j k pos_idx q
            (env.H_LEN_FRAC / (s.nx_h depth_idx : ℚ)))
          (s.jacMolInit eqn_id mol_id depth_idx pos_idx)
        (coef.1 + acc.mol_to_a, coef.2 + acc.mol_to_b)) c).2
        * (s.damping_v_h q depth_idx)._array
          (H_INDEX i j k (s.nx_h depth_idx) (s.ny_h depth_idx) (s.nz_h depth_idx))
      = l.foldl (fun res mol_id =>
        let pos_idx := H_INDEX i j k (s.nx_h depth_idx) (s.ny_h depth_idx) (s.nz_h depth_idx)
        let acc := (s.eqns eqn_id mol_id).atoms.foldl
          (derAtomStep env s depth_idx i j k pos_idx q)
          (s.derMolInit eqn_id mol_id depth_idx pos_idx)
        res + acc.der_val) r := by
    intro l
    induction l with
    | nil => intro c r h; simpa using h
    | cons m ms ih =>
      intro c r h
      simp only [List.foldl_cons]
      apply ih
      have hm := jac_der_fold env s depth_idx i j k
        (H_INDEX i j k (s.nx_h depth_idx) (s.ny_h depth_idx) (s.nz_h depth_idx)) q
        (env.H_LEN_FRAC / (s.nx_h depth_idx : ℚ)) hdim (s.eqns eqn_id m).atoms
        (s.jacMolInit eqn_id m depth_idx
          (H_INDEX i j k (s.nx_h depth_idx) (s.ny_h depth_idx) (s.nz_h depth_idx)))
        (s.derMolInit eqn_id m depth_idx
          (H_INDEX i j k (s.nx_h depth_idx) (s.ny_h depth_idx) (s.nz_h depth_idx)))
        (by simp [FASMultigrid.jacMolInit, FASMultigrid.derMolInit])
        (by simp [FASMultigrid.jacMolInit, FASMultigrid.derMolInit])
      simp only
      rw [← hm, ← h]
      ring
  exact key _ (0, 0) 0 (by simp)

/-! ## The directional derivative is the product rule -/

theorem derAtomStep_eq (env : Env) (s : FASMultigrid) (depth_idx i j k : Int) (q : Nat)
    (hdim : (s.u_h q depth_idx).sameDims (s.damping_v_h q depth_idx))
    (ad : atom) (h : ad.wellTyped) (acc : DerAcc) :
    derAtomStep env s depth_idx i j k (s.posIdx depth_idx i j k) q acc ad
      = ⟨acc.non_der_val * s.atomValue env depth_idx i j k ad,
          (if ad.u_id = q then acc.non_der_val * s.atomDer env depth_idx i j k q ad else 0)
            + acc.der_val * s.atomValue env depth_idx i j k ad⟩ := by
  obtain ⟨h1, h11⟩ := h
  obtain ⟨hx, hy, hz⟩ := hdim
  unfold derAtomStep FASMultigrid.atomValue FASMultigrid.atomDer atomOn
  by_cases c1 : ad.type = 1
  · by_cases cu : q = ad.u_id
    · subst cu
      simp only [c1, if_true, DerAcc.mk.injEq, true_and]
      ring
    · have cu2 : ¬ ad.u_id = q := fun e => cu e.symm
      simp [c1, cu, cu2]
  · by_cases c4 : ad.type ≤ 4
    · have h2 : 2 ≤ ad.type := by omega
      have hd := der_type_first ad.type h2 c4
      by_cases cu : q = ad.u_id
      · subst cu
        simp [c1, c4, h2, hd]
      · have cu2 : ¬ ad.u_id = q := fun e => cu e.symm
        simp [c1, c4, cu, cu2, h2, hd]
    · by_cases c10 : ad.type ≤ 10
      · have h5 : 5 ≤ ad.type := by omega
        have hd := der_type_second ad.type h5 c10
        have n2 : ¬ (2 ≤ ad.type ∧ ad.type ≤ 4) := by omega
        by_cases cu : q = ad.u_id
        · subst cu
          simp [c1, c4, c10, h5, n2, hd.1, hd.2]
        · have cu2 : ¬ ad.u_id = q := fun e => cu e.symm
          simp [c1, c4, c10, cu, cu2, h5, n2, hd.1, hd.2]
      · have n2 : ¬ (2 ≤ ad.type ∧ ad.type ≤ 4) := by omega
        have n5 : ¬ (5 ≤ ad.type ∧ ad.type ≤ 10) := by omega
        by_cases cu : q = ad.u_id
        · subst cu
          simp [c1, c4, c10, n2, n5, hx, hy, hz]
        · have cu2 : ¬ ad.u_id = q := fun e => cu e.symm
          simp [c1, c4, c10, cu, cu2, n2, n5]

theorem productRuleTerm_cons_zero (env : Env) (s : FASMultigrid) (depth_idx i j k : Int)
    (q : Nat) (a : atom) (rest : List atom) :
    s.productRuleTerm env depth_idx i j k q (a :: rest) 0
      = if a.u_id = q then
          s.atomDer env depth_idx i j k q a
            * (rest.map (s.atomValue env depth_idx i j k)).prod
        else 0 := by
  simp [FASMultigrid.productRuleTerm]

theorem productRuleTerm_cons_succ (env : Env) (s : FASMultigrid) (depth_idx i j k : Int)
    (q : Nat) (a : atom) (rest : List atom) (n : Nat) :
    s.productRuleTerm env depth_idx i j k q (a :: rest) (n + 1)
      = s.atomValue env depth_idx i j k a
          * s.productRuleTerm env depth_idx i j k q rest n := by
  unfold FASMultigrid.productRuleTerm
  simp only [List.getElem?_cons_succ, List.eraseIdx_cons_succ, List.map_cons, List.prod_cons]
  cases rest[n]? with
  | none => simp
  | some ad =>
    simp only
    split_ifs
    · ring
    · simp

theorem derFold_eq (env : Env) (s : FASMultigrid) (depth_idx i j k : Int) (q : Nat)
    (hdim : (s.u_h q depth_idx).sameDims (s.damping_v_h q depth_idx))
    (as : List atom) (h : ∀ ad ∈ as, ad.wellTyped) (acc : DerAcc) :
    (as.foldl (derAtomStep env s depth_idx i j k (s.posIdx depth_idx i j k) q) acc).der_val
      = acc.der_val * (as.map (s.atomValue env depth_idx i j k)).prod
        + acc.non_der_val
          * ((List.range as.length).map
              (s.productRuleTerm env depth_idx i j k q as)).sum := by
  induction as generalizing acc with
  | nil => simp
  | cons a rest ih =>
    have ha := h a (List.mem_cons_self _ _)
    have hrest : ∀ ad ∈ rest, ad.wellTyped := fun x hx => h x (List.mem_cons_of_mem _ hx)
    rw [List.foldl_cons, derAtomStep_eq env s depth_idx i j k q hdim a ha acc, ih hrest]
    simp only [List.length_cons, List.range_succ_eq_map, List.map_cons, List.sum_cons,
      List.map_map, List.prod_cons, productRuleTerm_cons_zero]
    have hsum : (List.map (s.productRuleTerm env depth_idx i j k q (a :: rest) ∘ Nat.succ)
          (List.range rest.length)).sum
        = s.atomValue env depth_idx i j k a
          * ((List.range rest.length).map
              (s.productRuleTerm env depth_idx i j k q rest)).sum := by
      rw [← List.sum_map_mul_left]
      congr 1
      apply List.map_congr_left
      intro n _
      simp [productRuleTerm_cons_succ]
    rw [hsum]
    split_ifs <;> ring

theorem productRule_sum_zero (env : Env) (s : FASMultigrid) (depth_idx i j k : Int) (q : Nat)
    (as : List atom) (h : ∀ ad ∈ as, ad.u_id ≠ q) :
    ((List.range as.length).map (s.productRuleTerm env depth_idx i j k q as)).sum = 0 := by
  apply List.sum_eq_zero
  intro x hx
  obtain ⟨n, _, rfl⟩ := List.mem_map.mp hx
  unfold FASMultigrid.productRuleTerm
  cases hn : as[n]? with
  | none => rfl
  | some ad =>
    have hmem : ad ∈ as := List.getElem?_mem hn
    simp [h ad hmem]

/-- C3: `_evaluateDerEllipticEquation` returns the product-rule sum: over the
molecules `m` of the equation and the atom positions `n` of `m` whose atom is on
field `q`, `const_coef_m * rho_m(x) * d_n * (product of the evaluated values of
the other atoms of m)`; consequently it returns 0 when no atom of the equation
refers to field `q`.  The `u` and `v` grids of field `q` have equal extents, as in
every state of the solver. -/
theorem evaluateDerEllipticEquation_product_rule (env : Env) (s : FASMultigrid)
    (eqn_id : Nat) (depth_idx i j k : Int) (q : Nat)
    (hty : s.eqnWellTyped eqn_id)
    (hdim : (s.u_h q depth_idx).sameDims (s.damping_v_h q depth_idx)) :
    s._evaluateDerEllipticEquation env eqn_id depth_idx i j k q
        = ((List.range (s.molecule_n eqn_id)).map fun mol_id =>
            ((List.range (s.eqns eqn_id mol_id).atoms.length).map fun n =>
              (s.eqns eqn_id mol_id).const_coef * s.rhoAt eqn_id mol_id depth_idx i j k
                * s.productRuleTerm env depth_idx i j k q
                    (s.eqns eqn_id mol_id).atoms n).sum).sum
    ∧ (s.noAtomOn eqn_id q →
        s._evaluateDerEllipticEquation env eqn_id depth_idx i j k q = 0) := by
  have main : s._evaluateDerEllipticEquation env eqn_id depth_idx i j k q
        = ((List.range (s.molecule_n eqn_id)).map fun mol_id =>
            ((List.range (s.eqns eqn_id mol_id).atoms.length).map fun n =>
              (s.eqns eqn_id mol_id).const_coef * s.rhoAt eqn_id mol_id depth_idx i j k
                * s.productRuleTerm env depth_idx i j k q
                    (s.eqns eqn_id mol_id).atoms n).sum).sum := by
    unfold FASMultigrid._evaluateDerEllipticEquation
    rw [foldl_add_eq_sum, zero_add]
    congr 1
    apply List.map_congr_left
    intro m hm
    have hm0 : m < s.molecule_n eqn_id := List.mem_range.mp hm
    have hf := derFold_eq env s depth_idx i j k q hdim (s.eqns eqn_id m).atoms
      (hty m hm0) (s.derMolInit eqn_id m depth_idx (s.posIdx depth_idx i j k))
    simp only [FASMultigrid.posIdx] at hf
    simp only [hf, List.sum_map_mul_left]
    simp only [FASMultigrid.derMolInit, FASMultigrid.rhoAt, FASMultigrid.posIdx]
    split_ifs <;> ring
  refine ⟨main, ?_⟩
  intro hno
  rw [main]
  apply List.sum_eq_zero
  intro x hx
  obtain ⟨m, hm, rfl⟩ := List.mem_map.mp hx
  rw [List.sum_map_mul_left,
    productRule_sum_zero env s depth_idx i j k q _ (hno m (List.mem_range.mp hm))]
  ring

/-! ## Transfer operators -/

theorem H_INDEX_nonneg (i j k nx ny nz : Int) (hx : 0 < nx) (hy : 0 < ny) (hz : 0 < nz) :
    0 ≤ H_INDEX i j k nx ny nz := by
  unfold H_INDEX
  have h1 := Int.emod_nonneg i hx.ne'
  have h2 := Int.emod_nonneg j hy.ne'
  have h3 := Int.emod_nonneg k hz.ne'
  positivity

theorem H_INDEX_lt (i j k nx ny nz : Int) (hx : 0 < nx) (hy : 0 < ny) (hz : 0 < nz) :
    H_INDEX i j k nx ny nz < nx * ny * nz := by
  unfold H_INDEX
  have h1 := Int.emod_lt_of_pos i hx
  have h2 := Int.emod_lt_of_pos j hy
  have h3 := Int.emod_lt_of_pos k hz
  have a1 : (i % nx) * (ny * nz) ≤ (nx - 1) * (ny * nz) :=
    mul_le_mul_of_nonneg_right (by omega) (by positivity)
  have a2 : (j % ny) * nz ≤ (ny - 1) * nz :=
    mul_le_mul_of_nonneg_right (by omega) (by omega)
  nlinarith

theorem divmod_unique (n q r q' r' : Int) (hr : 0 ≤ r) (hrn : r < n) (hr' : 0 ≤ r')
    (hrn' : r' < n) (h : q * n + r = q' * n + r') : q = q' ∧ r = r' := by
  have hn : 0 < n := by omega
  have e1 : (q * n + r) % n = r := by
    rw [add_comm, Int.add_mul_emod_self, Int.emod_eq_of_lt hr hrn]
  have e2 : (q' * n + r') % n = r' := by
    rw [add_comm, Int.add_mul_emod_self, Int.emod_eq_of_lt hr' hrn']
  have hrr : r = r' := by rw [← e1, ← e2, h]
  refine ⟨?_, hrr⟩
  subst hrr
  have : q * n = q' * n := by omega
  exact Int.eq_of_mul_eq_mul_right hn.ne' this

theorem H_INDEX_eq_iff (a b c x y z nx ny nz : Int) (hy : 0 < ny) (hz : 0 < nz) :
    H_INDEX a b c nx ny nz = H_INDEX x y z nx ny nz
      ↔ a % nx = x % nx ∧ b % ny = y % ny ∧ c % nz = z % nz := by
  constructor
  · intro h
    unfold H_INDEX at h
    have h1 : ((a % nx) * ny + b % ny) * nz + c % nz
        = ((x % nx) * ny + y % ny) * nz + z % nz := by linarith
    obtain ⟨h2, h3⟩ := divmod_unique nz _ _ _ _ (Int.emod_nonneg c hz.ne')
      (Int.emod_lt_of_pos c hz) (Int.emod_nonneg z hz.ne') (Int.emod_lt_of_pos z hz) h1
    obtain ⟨h4, h5⟩ := divmod_unique ny _ _ _ _ (Int.emod_nonneg b hy.ne')
      (Int.emod_lt_of_pos b hy) (Int.emod_nonneg y hy.ne') (Int.emod_lt_of_pos y hy) h2
    exact ⟨h4, h5, h3⟩
  · rintro ⟨h1, h2, h3⟩
    unfold H_INDEX
    rw [h1, h2, h3]

/-! ### Loops of assignments and of accumulations -/

theorem foldl_set_dims {α : Type} (loc : α → Int) (val : α → ℚ) (l : List α) (g : fas_grid_t) :
    (l.foldl (fun cg x => cg.set (loc x) (val x)) g).nx = g.nx
    ∧ (l.foldl (fun cg x => cg.set (loc x) (val x)) g).ny = g.ny
    ∧ (l.foldl (fun cg x => cg.set (loc x) (val x)) g).nz = g.nz
    ∧ (l.foldl (fun cg x => cg.set (loc x) (val x)) g).pts = g.pts := by
  induction l generalizing g with
  | nil => simp
  | cons x xs ih => simpa [fas_grid_t.set] using ih (g.set (loc x) (val x))

theorem foldl_set_untouched {α : Type} (loc : α → Int) (val : α → ℚ) (p : Int) (l : List α)
    (g : fas_grid_t) (h : ∀ x ∈ l, loc x ≠ p) :
    (l.foldl (fun cg x => cg.set (loc x) (val x)) g)._array p = g._array p := by
  induction l generalizing g with
  | nil => rfl
  | cons x xs ih =>
    rw [List.foldl_cons, ih _ (fun y hy => h y (List.mem_cons_of_mem _ hy))]
    have hx := h x (List.mem_cons_self _ _)
    simp [fas_grid_t.set, Function.update, Ne.symm hx]

theorem foldl_set_written {α : Type} (loc : α → Int) (val : α → ℚ) (p : Int) (v : ℚ)
    (l : List α) (g : fas_grid_t) (hv : ∀ x ∈ l, loc x = p → val x = v)
    (hex : ∃ x ∈ l, loc x = p) :
    (l.foldl (fun cg x => cg.set (loc x) (val x)) g)._array p = v := by
  induction l generalizing g with
  | nil => obtain ⟨x, hx, _⟩ := hex; cases hx
  | cons x xs ih =>
    rw [List.foldl_cons]
    by_cases hxs : ∃ y ∈ xs, loc y = p
    · exact ih _ (fun y hy => hv y (List.mem_cons_of_mem _ hy)) hxs
    · have hno : ∀ y ∈ xs, loc y ≠ p := fun y hy e => hxs ⟨y, hy, e⟩
      rw [foldl_set_untouched loc val p xs _ hno]
      obtain ⟨y, hy, hyp⟩ := hex
      have hyx : y = x := by
        rcases List.mem_cons.mp hy with e | e
        · exact e
        · exact absurd hyp (hno y e)
      subst hyx
      simp [fas_grid_t.set, Function.update, hyp, hv y (List.mem_cons_self _ _) hyp]

theorem foldl_add_dims {α : Type} (loc : α → Int) (val : α → ℚ) (l : List α) (g : fas_grid_t) :
    (l.foldl (fun fg x => fg.add (loc x) (val x)) g).nx = g.nx
    ∧ (l.foldl (fun fg x => fg.add (loc x) (val x)) g).ny = g.ny
    ∧ (l.foldl (fun fg x => fg.add (loc x) (val x)) g).nz = g.nz
    ∧ (l.foldl (fun fg x => fg.add (loc x) (val x)) g).pts = g.pts := by
  induction l generalizing g with
  | nil => simp
  | cons x xs ih => simpa [fas_grid_t.add] using ih (g.add (loc x) (val x))

theorem foldl_add_array {α : Type} (loc : α → Int) (val : α → ℚ) (p : Int) (l : List α)
    (g : fas_grid_t) :
    (l.foldl (fun fg x => fg.add (loc x) (val x)) g)._array p
      = g._array p + (l.map fun x => if loc x = p then val x else 0).sum := by
  induction l generalizing g with
  | nil => simp
  | cons x xs ih =>
    rw [List.foldl_cons, ih, List.map_cons, List.sum_cons]
    by_cases hx : loc x = p
    · simp [fas_grid_t.add, Function.update, hx, add_assoc]
    · simp [fas_grid_t.add, Function.update, hx, Ne.symm hx]

theorem sum_flatMap {α β : Type} (l : List α) (f : α → List β) (g : β → ℚ) :
    ((l.flatMap f).map g).sum = (l.map fun a => ((f a).map g).sum).sum := by
  induction l with
  | nil => simp
  | cons a as ih => simp [List.flatMap_cons, ih]

theorem zeroGrid_array (grid : fas_grid_t) (p : Int) :
    (_zeroGrid grid)._array p = if 0 ≤ p ∧ p < grid.pts then 0 else grid._array p := by
  unfold _zeroGrid
  by_cases hp : 0 ≤ p ∧ p < grid.pts
  · rw [if_pos hp]
    apply foldl_set_written (fun i : Nat => (i : Int)) (fun _ => (0 : ℚ)) p 0
    · intro _ _ _; rfl
    · refine ⟨p.toNat, List.mem_range.mpr ?_, ?_⟩ <;> omega
  · rw [if_neg hp]
    apply foldl_set_untouched (fun i : Nat => (i : Int)) (fun _ => (0 : ℚ)) p
    intro i hi e
    have := List.mem_range.mp hi
    apply hp
    omega

theorem zeroGrid_dims (grid : fas_grid_t) :
    (_zeroGrid grid).nx = grid.nx ∧ (_zeroGrid grid).ny = grid.ny
    ∧ (_zeroGrid grid).nz = grid.nz ∧ (_zeroGrid grid).pts = grid.pts :=
  foldl_set_dims (fun i : Nat => (i : Int)) (fun _ => (0 : ℚ)) _ grid

/-! ### Prolongation -/

theorem interpAdjStep_eq (v : ℚ) (ncx ncy ncz fi fj fk : Int) (fg : fas_grid_t)
    (adj : Int × Int × Int) :
    interpAdjStep v ncx ncy ncz (ncx * 2) (ncy * 2) (ncz * 2) fi fj fk fg adj
      = fg.add (H_INDEX (fi + adj.1) (fj + adj.2.1) (fk + adj.2.2) (ncx * 2) (ncy * 2) (ncz * 2))
          (v / (2 : ℚ) ^ (|adj.1| + |adj.2.1| + |adj.2.2|)) := by
  unfold interpAdjStep
  by_cases hc : adj.1 = 0 ∧ adj.2.1 = 0 ∧ adj.2.2 = 0
  · obtain ⟨h1, h2, h3⟩ := hc
    simp [h1, h2, h3]
  · simp [hc]

theorem foldl_foldl_add_array {α β : Type} (loc : α → β → Int) (val : α → β → ℚ) (p : Int)
    (inner : List β) (l : List α) (g : fas_grid_t) :
    (l.foldl (fun fg a => inner.foldl (fun fg b => fg.add (loc a b) (val a b)) fg) g)._array p
      = g._array p
        + (l.map fun a => (inner.map fun b => if loc a b = p then val a b else 0).sum).sum := by
  induction l generalizing g with
  | nil => simp
  | cons a as ih =>
    rw [List.foldl_cons, ih, foldl_add_array, List.map_cons, List.sum_cons, add_assoc]

theorem foldl_foldl_add_dims {α β : Type} (loc : α → β → Int) (val : α → β → ℚ)
    (inner : List β) (l : List α) (g : fas_grid_t) :
    (l.foldl (fun fg a => inner.foldl (fun fg b => fg.add (loc a b) (val a b)) fg) g).nx = g.nx
    ∧ (l.foldl (fun fg a => inner.foldl (fun fg b => fg.add (loc a b) (val a b)) fg) g).ny = g.ny
    ∧ (l.foldl (fun fg a => inner.foldl (fun fg b => fg.add (loc a b) (val a b)) fg) g).nz = g.nz
    ∧ (l.foldl (fun fg a => inner.foldl (fun fg b => fg.add (loc a b) (val a b)) fg) g).pts
        = g.pts := by
  induction l generalizing g with
  | nil => simp
  | cons a as ih =>
    rw [List.foldl_cons]
    have h1 := ih (inner.foldl (fun fg b => fg.add (loc a b) (val a b)) g)
    have h2 := foldl_add_dims (loc a) (val a) inner g
    exact ⟨h1.1.trans h2.1, h1.2.1.trans h2.2.1, h1.2.2.1.trans h2.2.2.1,
      h1.2.2.2.trans h2.2.2.2⟩

theorem interpolateLoop_eq (ncx ncy ncz : Int) (coarse_grid fine_grid : fas_grid_t) :
    interpolateLoop ncx ncy ncz coarse_grid fine_grid
      = (FAS_LOOP3_N ncx ncy ncz).foldl (fun fg (cell : Int × Int × Int) =>
          adjOffsets.foldl (fun fg (adj : Int × Int × Int) =>
            fg.add (H_INDEX (cell.1 * 2 + adj.1) (cell.2.1 * 2 + adj.2.1) (cell.2.2 * 2 + adj.2.2)
                (ncx * 2) (ncy * 2) (ncz * 2))
              (coarse_grid._array (H_INDEX cell.1 cell.2.1 cell.2.2 ncx ncy ncz)
                / (2 : ℚ) ^ (|adj.1| + |adj.2.1| + |adj.2.2|))) fg) (_zeroGrid fine_grid) := by
  unfold interpolateLoop
  dsimp only
  congr 1
  funext fg cell
  congr 1
  funext fg adj
  exact interpAdjStep_eq _ _ _ _ _ _ _ _ _

theorem interpolateLoop_array (ncx ncy ncz : Int) (coarse_grid fine_grid : fas_grid_t)
    (p : Int) :
    (interpolateLoop ncx ncy ncz coarse_grid fine_grid)._array p
      = (if 0 ≤ p ∧ p < fine_grid.pts then 0 else fine_grid._array p)
        + ((FAS_LOOP3_N ncx ncy ncz).map fun cell =>
            (adjOffsets.map fun adj =>
              if H_INDEX (cell.1 * 2 + adj.1) (cell.2.1 * 2 + adj.2.1) (cell.2.2 * 2 + adj.2.2)
                  (ncx * 2) (ncy * 2) (ncz * 2) = p then
                coarse_grid._array (H_INDEX cell.1 cell.2.1 cell.2.2 ncx ncy ncz)
                  / (2 : ℚ) ^ (|adj.1| + |adj.2.1| + |adj.2.2|)
              else 0).sum).sum := by
  rw [interpolateLoop_eq, foldl_foldl_add_array, zeroGrid_array]

theorem interpolateLoop_dims (ncx ncy ncz : Int) (coarse_grid fine_grid : fas_grid_t) :
    (interpolateLoop ncx ncy ncz coarse_grid fine_grid).nx = fine_grid.nx
    ∧ (interpolateLoop ncx ncy ncz coarse_grid fine_grid).ny = fine_grid.ny
    ∧ (interpolateLoop ncx ncy ncz coarse_grid fine_grid).nz = fine_grid.nz
    ∧ (interpolateLoop ncx ncy ncz coarse_grid fine_grid).pts = fine_grid.pts := by
  rw [interpolateLoop_eq]
  have h1 := foldl_foldl_add_dims
    (fun (cell adj : Int × Int × Int) =>
      H_INDEX (cell.1 * 2 + adj.1) (cell.2.1 * 2 + adj.2.1) (cell.2.2 * 2 + adj.2.2)
        (ncx * 2) (ncy * 2) (ncz * 2))
    (fun (cell adj : Int × Int × Int) =>
      coarse_grid._array (H_INDEX cell.1 cell.2.1 cell.2.2 ncx ncy ncz)
        / (2 : ℚ) ^ (|adj.1| + |adj.2.1| + |adj.2.2|))
    adjOffsets (FAS_LOOP3_N ncx ncy ncz) (_zeroGrid fine_grid)
  have h2 := zeroGrid_dims fine_grid
  exact ⟨h1.1.trans h2.1, h1.2.1.trans h2.2.1, h1.2.2.1.trans h2.2.2.1,
    h1.2.2.2.trans h2.2.2.2⟩

theorem interpolateLoop_cell (coarse_grid fine_grid : fas_grid_t) (x y z : Int)
    (hc : coarse_grid.wellFormed) (hf : fine_grid.wellFormed)
    (htw : fine_grid.twiceOf coarse_grid) :
    (interpolateLoop coarse_grid.nx coarse_grid.ny coarse_grid.nz coarse_grid fine_grid).cell
        x y z
      = prolongSum coarse_grid fine_grid.nx fine_grid.ny fine_grid.nz x y z := by
  obtain ⟨hcx, hcy, hcz, _⟩ := hc
  obtain ⟨hfx, hfy, hfz, hpts⟩ := hf
  obtain ⟨tx, ty, tz⟩ := htw
  have hd := interpolateLoop_dims coarse_grid.nx coarse_grid.ny coarse_grid.nz
    coarse_grid fine_grid
  unfold fas_grid_t.cell
  rw [hd.1, hd.2.1, hd.2.2.1, interpolateLoop_array]
  have hin : 0 ≤ H_INDEX x y z fine_grid.nx fine_grid.ny fine_grid.nz
      ∧ H_INDEX x y z fine_grid.nx fine_grid.ny fine_grid.nz < fine_grid.pts := by
    rw [hpts]
    exact ⟨H_INDEX_nonneg _ _ _ _ _ _ hfx hfy hfz, H_INDEX_lt _ _ _ _ _ _ hfx hfy hfz⟩
  rw [if_pos hin, zero_add]
  unfold prolongSum fas_grid_t.cell
  have ex : coarse_grid.nx * 2 = fine_grid.nx := by omega
  have ey : coarse_grid.ny * 2 = fine_grid.ny := by omega
  have ez : coarse_grid.nz * 2 = fine_grid.nz := by omega
  rw [ex, ey, ez]
  congr 1
  apply List.map_congr_left
  intro cell _
  congr 1
  apply List.map_congr_left
  intro adj _
  have hiff := H_INDEX_eq_iff (cell.1 * 2 + adj.1) (cell.2.1 * 2 + adj.2.1)
    (cell.2.2 * 2 + adj.2.2) x y z fine_grid.nx fine_grid.ny fine_grid.nz hfy hfz
  have e1 : cell.1 * 2 + adj.1 = 2 * cell.1 + adj.1 := by ring
  have e2 : cell.2.1 * 2 + adj.2.1 = 2 * cell.2.1 + adj.2.1 := by ring
  have e3 : cell.2.2 * 2 + adj.2.2 = 2 * cell.2.2 + adj.2.2 := by ring
  rw [e1, e2, e3] at hiff
  rw [e1, e2, e3]
  by_cases hcond : (2 * cell.1 + adj.1) % fine_grid.nx = x % fine_grid.nx
      ∧ (2 * cell.2.1 + adj.2.1) % fine_grid.ny = y % fine_grid.ny
      ∧ (2 * cell.2.2 + adj.2.2) % fine_grid.nz = z % fine_grid.nz
  · rw [if_pos hcond, if_pos (hiff.mpr hcond)]
  · rw [if_neg hcond, if_neg (fun h => hcond (hiff.mp h))]

/-- C5: when the finer grid has extents exactly twice the coarse extents, after
`_interpolateCoarse2fine` the fine value at every point `(x, y, z)` is the sum,
over the coarse cells and the offsets in `{-1, 0, 1}^3` that land on `(x, y, z)`
modulo the fine extents, of `c(i, j, k) / 2^(|di|+|dj|+|dk|)`; the value does not
involve the earlier contents of the fine grid. -/
theorem interpolateCoarse2fine_weighted_sum (s : FASMultigrid) (h : Int → fas_grid_t)
    (coarse_depth x y z : Int)
    (hc : (h (s._dIdx coarse_depth)).wellFormed)
    (hf : (h (s._dIdx (coarse_depth + 1))).wellFormed)
    (hnx : s.nx_h (s._dIdx coarse_depth) = (h (s._dIdx coarse_depth)).nx)
    (hny : s.ny_h (s._dIdx coarse_depth) = (h (s._dIdx coarse_depth)).ny)
    (hnz : s.nz_h (s._dIdx coarse_depth) = (h (s._dIdx coarse_depth)).nz)
    (htw : (h (s._dIdx (coarse_depth + 1))).twiceOf (h (s._dIdx coarse_depth))) :
    ((s._interpolateCoarse2fine h coarse_depth) (s._dIdx (coarse_depth + 1))).cell x y z
      = prolongSum (h (s._dIdx coarse_depth))
          (h (s._dIdx (coarse_depth + 1))).nx (h (s._dIdx (coarse_depth + 1))).ny
          (h (s._dIdx (coarse_depth + 1))).nz x y z := by
  unfold FASMultigrid._interpolateCoarse2fine
  simp only [Function.update_same]
  rw [hnx, hny, hnz]
  exact interpolateLoop_cell _ _ x y z hc hf htw

theorem sum_ite_eq_range (n m : Nat) (a : ℚ) :
    ((List.range n).map fun i => if i = m then a else 0).sum = if m < n then a else 0 := by
  induction n with
  | zero => simp
  | succ k ih =>
    rw [List.range_succ, List.map_append, List.sum_append, ih]
    by_cases h1 : m < k
    · have h2 : k ≠ m := by omega
      have h3 : m < k + 1 := by omega
      simp [h1, h2, h3]
    · by_cases h2 : k = m
      · subst h2
        simp
      · have h3 : ¬ m < k + 1 := by omega
        simp [h1, h2, h3]

theorem wrap_mid (n i : Int) (h0 : 0 ≤ i) (h1 : i < n) : (2 * i + 0) % (2 * n) = 2 * i := by
  rw [add_zero]
  exact Int.emod_eq_of_lt (by omega) (by omega)

theorem wrap_up (n i : Int) (h0 : 0 ≤ i) (h1 : i < n) : (2 * i + 1) % (2 * n) = 2 * i + 1 :=
  Int.emod_eq_of_lt (by omega) (by omega)

theorem wrap_down (n i : Int) (h0 : 0 ≤ i) (h1 : i < n) :
    (2 * i + -1) % (2 * n) = if i = 0 then 2 * n - 1 else 2 * i - 1 := by
  split_ifs with h
  · subst h
    have : (2 * 0 + -1 : Int) = (2 * n - 1) + (-1) * (2 * n) := by ring
    rw [this, Int.add_mul_emod_self]
    exact Int.emod_eq_of_lt (by omega) (by omega)
  · have : (2 * i + -1 : Int) = 2 * i - 1 := by ring
    rw [this]
    exact Int.emod_eq_of_lt (by omega) (by omega)

theorem prolongWeight_sum (n x : Int) (hn : 0 < n) :
    ((List.range n.toNat).map fun (i : Nat) =>
      prolongWeight (2 * n) x i (-1) + prolongWeight (2 * n) x i 0
        + prolongWeight (2 * n) x i 1).sum = 1 := by
  have hx0 := Int.emod_nonneg x (show (2 * n) ≠ 0 by omega)
  have hx1 := Int.emod_lt_of_pos x (show 0 < 2 * n by omega)
  simp only [prolongWeight]
  generalize x % (2 * n) = X at hx0 hx1
  rcases Int.emod_two_eq_zero_or_one X with hpar | hpar
  · -- even point: only the co-located coarse cell contributes
    have key : ∀ i ∈ List.range n.toNat,
        ((if (2 * (i : Int) + -1) % (2 * n) = X then 1 / (2 : ℚ) ^ |(-1 : Int)| else 0)
          + (if (2 * (i : Int) + 0) % (2 * n) = X then 1 / (2 : ℚ) ^ |(0 : Int)| else 0)
          + (if (2 * (i : Int) + 1) % (2 * n) = X then 1 / (2 : ℚ) ^ |(1 : Int)| else 0))
        = if i = (X / 2).toNat then (1 : ℚ) else 0 := by
      intro i hi
      have hi' : (i : Int) < n := by have := List.mem_range.mp hi; omega
      rw [wrap_mid n i (by omega) hi', wrap_up n i (by omega) hi',
        wrap_down n i (by omega) hi']
      have c1 : ¬ (if (i : Int) = 0 then 2 * n - 1 else 2 * (i : Int) - 1) = X := by
        split_ifs <;> omega
      have c3 : ¬ (2 * (i : Int) + 1 = X) := by omega
      rw [if_neg c1, if_neg c3]
      by_cases c2 : 2 * (i : Int) = X
      · have hi2 : i = (X / 2).toNat := by omega
        rw [if_pos c2, if_pos hi2]
        norm_num
      · have hi2 : ¬ i = (X / 2).toNat := by omega
        rw [if_neg c2, if_neg hi2]
        norm_num
    rw [List.map_congr_left key, sum_ite_eq_range]
    have : (X / 2).toNat < n.toNat := by omega
    simp [this]
  · -- odd point: the two neighbouring coarse cells contribute one half each
    have key : ∀ i ∈ List.range n.toNat,
        ((if (2 * (i : Int) + -1) % (2 * n) = X then 1 / (2 : ℚ) ^ |(-1 : Int)| else 0)
          + (if (2 * (i : Int) + 0) % (2 * n) = X then 1 / (2 : ℚ) ^ |(0 : Int)| else 0)
          + (if (2 * (i : Int) + 1) % (2 * n) = X then 1 / (2 : ℚ) ^ |(1 : Int)| else 0))
        = (if i = (if X = 2 * n - 1 then 0 else (X + 1) / 2).toNat then (1 / 2 : ℚ) else 0)
          + (if i = (X / 2).toNat then (1 / 2 : ℚ) else 0) := by
      intro i hi
      have hi' : (i : Int) < n := by have := List.mem_range.mp hi; omega
      rw [wrap_mid n i (by omega) hi', wrap_up n i (by omega) hi',
        wrap_down n i (by omega) hi']
      have c2 : ¬ (2 * (i : Int) = X) := by omega
      rw [if_neg c2]
      have e1 : ((if (i : Int) = 0 then 2 * n - 1 else 2 * (i : Int) - 1) = X)
          ↔ i = (if X = 2 * n - 1 then 0 else (X + 1) / 2).toNat := by
        split_ifs <;> omega
      have e3 : (2 * (i : Int) + 1 = X) ↔ i = (X / 2).toNat := by omega
      simp only [e1, e3]
      norm_num
    rw [List.map_congr_left key, List.sum_map_add, sum_ite_eq_range, sum_ite_eq_range]
    have h1 : (if X = 2 * n - 1 then 0 else (X + 1) / 2).toNat < n.toNat := by
      split_ifs <;> omega
    have h2 : (X / 2).toNat < n.toNat := by omega
    simp [h1, h2]
    norm_num

theorem prolongTerm_eq (cval : ℚ) (nfx nfy nfz x y z : Int) (cell adj : Int × Int × Int) :
    (if (2 * cell.1 + adj.1) % nfx = x % nfx ∧ (2 * cell.2.1 + adj.2.1) % nfy = y % nfy
          ∧ (2 * cell.2.2 + adj.2.2) % nfz = z % nfz then
        cval / (2 : ℚ) ^ (|adj.1| + |adj.2.1| + |adj.2.2|)
      else 0)
    = cval * prolongWeight nfx x cell.1 adj.1 * prolongWeight nfy y cell.2.1 adj.2.1
        * prolongWeight nfz z cell.2.2 adj.2.2 := by
  unfold prolongWeight
  have h2 : (2 : ℚ) ≠ 0 := by norm_num
  by_cases hA : (2 * cell.1 + adj.1) % nfx = x % nfx
  · by_cases hB : (2 * cell.2.1 + adj.2.1) % nfy = y % nfy
    · by_cases hC : (2 * cell.2.2 + adj.2.2) % nfz = z % nfz
      · simp only [hA, hB, hC, and_self, if_true]
        rw [zpow_add₀ h2, zpow_add₀ h2]
        field_simp
      · simp [hA, hB, hC]
    · simp [hA, hB]
  · simp [hA]

theorem adjOffsets_sum_prod (cval : ℚ) (f g h : Int → ℚ) :
    (adjOffsets.map fun adj => cval * f adj.1 * g adj.2.1 * h adj.2.2).sum
      = cval * (f (-1) + f 0 + f 1) * (g (-1) + g 0 + g 1) * (h (-1) + h 0 + h 1) := by
  simp [adjOffsets]
  ring

theorem loop3_sum_prod (nx ny nz : Int) (c : ℚ) (F G H : Int → ℚ) :
    ((FAS_LOOP3_N nx ny nz).map fun cell => c * F cell.1 * G cell.2.1 * H cell.2.2).sum
      = c * ((List.range nx.toNat).map fun (i : Nat) => F i).sum
          * ((List.range ny.toNat).map fun (j : Nat) => G j).sum
          * ((List.range nz.toNat).map fun (k : Nat) => H k).sum := by
  unfold FAS_LOOP3_N
  simp only [sum_flatMap, List.map_map, Function.comp_def, List.sum_map_mul_left,
    List.sum_map_mul_right]

theorem constant_cell (g : fas_grid_t) (c : ℚ) (hg : g.wellFormed) (hc : g.constant c)
    (i j k : Int) : g.cell i j k = c := by
  obtain ⟨hx, hy, hz, hpts⟩ := hg
  apply hc
  · exact H_INDEX_nonneg _ _ _ _ _ _ hx hy hz
  · rw [hpts]; exact H_INDEX_lt _ _ _ _ _ _ hx hy hz

theorem prolongSum_constant (c : fas_grid_t) (cval : ℚ) (x y z : Int)
    (hc : c.wellFormed) (hconst : c.constant cval) :
    prolongSum c (2 * c.nx) (2 * c.ny) (2 * c.nz) x y z = cval := by
  unfold prolongSum
  simp only [constant_cell c cval hc hconst, prolongTerm_eq]
  simp only [adjOffsets_sum_prod cval]
  rw [loop3_sum_prod c.nx c.ny c.nz cval
    (fun i => prolongWeight (2 * c.nx) x i (-1) + prolongWeight (2 * c.nx) x i 0
      + prolongWeight (2 * c.nx) x i 1)
    (fun j => prolongWeight (2 * c.ny) y j (-1) + prolongWeight (2 * c.ny) y j 0
      + prolongWeight (2 * c.ny) y j 1)
    (fun k => prolongWeight (2 * c.nz) z k (-1) + prolongWeight (2 * c.nz) z k 0
      + prolongWeight (2 * c.nz) z k 1)]
  rw [prolongWeight_sum c.nx x hc.1, prolongWeight_sum c.ny y hc.2.1,
    prolongWeight_sum c.nz z hc.2.2.1]
  ring

/-- C9: when the finer grid has extents exactly twice the coarse extents and every
cell of the coarse grid holds the same value `c`, after `_interpolateCoarse2fine`
every point of the finer grid holds `c`. -/
theorem interpolateCoarse2fine_preserves_constants (s : FASMultigrid) (h : Int → fas_grid_t)
    (coarse_depth : Int) (cval : ℚ) (x y z : Int)
    (hc : (h (s._dIdx coarse_depth)).wellFormed)
    (hf : (h (s._dIdx (coarse_depth + 1))).wellFormed)
    (hnx : s.nx_h (s._dIdx coarse_depth) = (h (s._dIdx coarse_depth)).nx)
    (hny : s.ny_h (s._dIdx coarse_depth) = (h (s._dIdx coarse_depth)).ny)
    (hnz : s.nz_h (s._dIdx coarse_depth) = (h (s._dIdx coarse_depth)).nz)
    (htw : (h (s._dIdx (coarse_depth + 1))).twiceOf (h (s._dIdx coarse_depth)))
    (hconst : (h (s._dIdx coarse_depth)).constant cval) :
    ((s._interpolateCoarse2fine h coarse_depth) (s._dIdx (coarse_depth + 1))).cell x y z
      = cval := by
  unfold FASMultigrid._interpolateCoarse2fine
  simp only [Function.update_same]
  rw [hnx, hny, hnz, interpolateLoop_cell _ _ x y z hc hf htw, htw.1, htw.2.1, htw.2.2]
  exact prolongSum_constant _ cval x y z hc hconst

/-! ### Restriction -/

theorem mem_FAS_LOOP3_N (nx ny nz : Int) (cell : Int × Int × Int) :
    cell ∈ FAS_LOOP3_N nx ny nz
      ↔ (0 ≤ cell.1 ∧ cell.1 < nx) ∧ (0 ≤ cell.2.1 ∧ cell.2.1 < ny)
        ∧ (0 ≤ cell.2.2 ∧ cell.2.2 < nz) := by
  obtain ⟨a, b, c⟩ := cell
  unfold FAS_LOOP3_N
  simp only [List.mem_flatMap, List.mem_map, List.mem_range, Prod.mk.injEq]
  constructor
  · rintro ⟨i, hi, j, hj, k, hk, rfl, rfl, rfl⟩
    omega
  · rintro ⟨⟨h1, h2⟩, ⟨h3, h4⟩, h5, h6⟩
    exact ⟨a.toNat, by omega, b.toNat, by omega, c.toNat, by omega, by omega, by omega,
      by omega⟩

theorem restrictLoop_eq (fine_grid coarse_grid : fas_grid_t) :
    restrictLoop fine_grid coarse_grid
      = (FAS_LOOP3_N (fine_grid.nx / 2) (fine_grid.ny / 2) (fine_grid.nz / 2)).foldl
          (fun cg (cell : Int × Int × Int) =>
            cg.set (H_INDEX cell.1 cell.2.1 cell.2.2
                (fine_grid.nx / 2) (fine_grid.ny / 2) (fine_grid.nz / 2))
              (restrictValue fine_grid fine_grid.nx fine_grid.ny fine_grid.nz
                (cell.1 * 2) (cell.2.1 * 2) (cell.2.2 * 2))) coarse_grid := rfl

theorem restrictLoop_dims (fine_grid coarse_grid : fas_grid_t) :
    (restrictLoop fine_grid coarse_grid).nx = coarse_grid.nx
    ∧ (restrictLoop fine_grid coarse_grid).ny = coarse_grid.ny
    ∧ (restrictLoop fine_grid coarse_grid).nz = coarse_grid.nz
    ∧ (restrictLoop fine_grid coarse_grid).pts = coarse_grid.pts := by
  rw [restrictLoop_eq]
  exact foldl_set_dims _ _ _ _

/-- The restriction loop writes only flat positions below the product of the
halved fine extents: every position from that product on keeps its value. -/
theorem restrictLoop_untouched (fine_grid coarse_grid : fas_grid_t) (p : Int)
    (hp : (fine_grid.nx / 2) * (fine_grid.ny / 2) * (fine_grid.nz / 2) ≤ p) :
    (restrictLoop fine_grid coarse_grid)._array p = coarse_grid._array p := by
  rw [restrictLoop_eq]
  apply foldl_set_untouched
  intro cell hcell e
  obtain ⟨⟨h1, h2⟩, ⟨h3, h4⟩, h5, h6⟩ := (mem_FAS_LOOP3_N _ _ _ cell).mp hcell
  have := H_INDEX_lt cell.1 cell.2.1 cell.2.2 (fine_grid.nx / 2) (fine_grid.ny / 2)
    (fine_grid.nz / 2) (by omega) (by omega) (by omega)
  omega

/-- For even fine extents the restriction loop writes every point of the coarser
grid with the 27-point weighted average around the co-located fine point. -/
theorem restrictLoop_cell_even (fine_grid coarse_grid : fas_grid_t) (i j k : Int)
    (hc : coarse_grid.wellFormed) (htw : fine_grid.twiceOf coarse_grid)
    (hi : 0 ≤ i ∧ i < coarse_grid.nx) (hj : 0 ≤ j ∧ j < coarse_grid.ny)
    (hk : 0 ≤ k ∧ k < coarse_grid.nz) :
    (restrictLoop fine_grid coarse_grid).cell i j k
      = restrictValue fine_grid fine_grid.nx fine_grid.ny fine_grid.nz
          (i * 2) (j * 2) (k * 2) := by
  obtain ⟨hcx, hcy, hcz, _⟩ := hc
  obtain ⟨tx, ty, tz⟩ := htw
  have ex : fine_grid.nx / 2 = coarse_grid.nx := by omega
  have ey : fine_grid.ny / 2 = coarse_grid.ny := by omega
  have ez : fine_grid.nz / 2 = coarse_grid.nz := by omega
  have hd := restrictLoop_dims fine_grid coarse_grid
  unfold fas_grid_t.cell
  rw [hd.1, hd.2.1, hd.2.2.1, restrictLoop_eq, ex, ey, ez]
  apply foldl_set_written
  · intro cell hcell e
    obtain ⟨⟨h1, h2⟩, ⟨h3, h4⟩, h5, h6⟩ := (mem_FAS_LOOP3_N _ _ _ cell).mp hcell
    obtain ⟨e1, e2, e3⟩ := (H_INDEX_eq_iff _ _ _ _ _ _ _ _ _ hcy hcz).mp e
    rw [Int.emod_eq_of_lt h1 h2, Int.emod_eq_of_lt hi.1 hi.2] at e1
    rw [Int.emod_eq_of_lt h3 h4, Int.emod_eq_of_lt hj.1 hj.2] at e2
    rw [Int.emod_eq_of_lt h5 h6, Int.emod_eq_of_lt hk.1 hk.2] at e3
    rw [e1, e2, e3]
  · exact ⟨(i, j, k), (mem_FAS_LOOP3_N _ _ _ _).mpr ⟨hi, hj, hk⟩, rfl⟩

/-! ### The transfer operators on a hierarchy with odd extents -/

theorem restrictFine2coarse_apply (s : FASMultigrid) (h : Int → fas_grid_t) (fine_depth : Int) :
    (s._restrictFine2coarse h fine_depth) (s._dIdx fine_depth - 1)
      = restrictLoop (h (s._dIdx fine_depth)) (h (s._dIdx fine_depth - 1)) := by
  simp [FASMultigrid._restrictFine2coarse]

theorem interpolateCoarse2fine_apply (s : FASMultigrid) (h : Int → fas_grid_t)
    (coarse_depth : Int) :
    (s._interpolateCoarse2fine h coarse_depth) (s._dIdx (coarse_depth + 1))
      = interpolateLoop (s.nx_h (s._dIdx coarse_depth)) (s.ny_h (s._dIdx coarse_depth))
          (s.nz_h (s._dIdx coarse_depth)) (h (s._dIdx coarse_depth))
          (h (s._dIdx (coarse_depth + 1))) := by
  simp [FASMultigrid._interpolateCoarse2fine]

/-- C4 (code): on the `3 x 3 x 3` finest grid of `oddSolver`, holding 1 at every
point, `_restrictFine2coarse` leaves the point `(1, 1, 1)` of the `2 x 2 x 2`
coarser grid at its old value 0, although the weighted average of the 27 fine
points around `(2, 2, 2)` is 1: the loop runs over the halved extents
`n_fine / 2 = 1`, not over the extents `2` of the coarser grid. -/
theorem restrictFine2coarse_odd_extent_cell_not_written :
    (oddSolver.u_h 0 1).nx = 3 ∧ (oddSolver.u_h 0 0).nx = 2
    ∧ ((oddSolver._restrictFine2coarse (oddSolver.u_h 0) 2) 0).cell 1 1 1 = 0
    ∧ restrictValue (oddSolver.u_h 0 1) 3 3 3 2 2 2 = 1 := by
  refine ⟨rfl, rfl, ?_, ?_⟩
  · have h := restrictFine2coarse_apply oddSolver (oddSolver.u_h 0) 2
    have e : oddSolver._dIdx 2 - 1 = 0 := by decide
    have e1 : oddSolver._dIdx 2 = 1 := by decide
    rw [e, e1] at h
    have hd := restrictLoop_dims (oddSolver.u_h 0 1) (oddSolver.u_h 0 0)
    unfold fas_grid_t.cell
    rw [h, hd.1, hd.2.1, hd.2.2.1]
    have hidx : H_INDEX 1 1 1 (oddSolver.u_h 0 0).nx (oddSolver.u_h 0 0).ny
        (oddSolver.u_h 0 0).nz = 7 := by decide
    rw [hidx, restrictLoop_untouched _ _ 7 (by decide)]
    rfl
  · have ha : ∀ p, (oddSolver.u_h 0 1)._array p = 1 := fun _ => rfl
    simp only [restrictValue, ha]
    norm_num

/-- C8 (code): the `3 x 3 x 3` finest grid of `oddSolver` holds 1 at every point,
but after `_restrictFine2coarse` the coarser grid is not constant 1: its
point `(0, 0, 1)` still holds the old value 0. -/
theorem restrictFine2coarse_odd_extent_not_constant :
    (oddSolver.u_h 0 1).constant 1
    ∧ ((oddSolver._restrictFine2coarse (oddSolver.u_h 0) 2) 0).cell 0 0 1 = 0
    ∧ ¬ ((oddSolver._restrictFine2coarse (oddSolver.u_h 0) 2) 0).constant 1 := by
  have h := restrictFine2coarse_apply oddSolver (oddSolver.u_h 0) 2
  have e : oddSolver._dIdx 2 - 1 = 0 := by decide
  have e1 : oddSolver._dIdx 2 = 1 := by decide
  rw [e, e1] at h
  have hd := restrictLoop_dims (oddSolver.u_h 0 1) (oddSolver.u_h 0 0)
  have h1 : ((oddSolver._restrictFine2coarse (oddSolver.u_h 0) 2) 0)._array 1 = 0 := by
    rw [h, restrictLoop_untouched _ _ 1 (by decide)]
    rfl
  refine ⟨fun _ _ _ => rfl, ?_, ?_⟩
  · unfold fas_grid_t.cell
    rw [h, hd.1, hd.2.1, hd.2.2.1]
    have hidx : H_INDEX 0 0 1 (oddSolver.u_h 0 0).nx (oddSolver.u_h 0 0).ny
        (oddSolver.u_h 0 0).nz = 1 := by decide
    rw [hidx, ← h]
    exact h1
  · intro hc
    have hp : (1 : Int) < ((oddSolver._restrictFine2coarse (oddSolver.u_h 0) 2) 0).pts := by
      rw [h, hd.2.2.2]
      decide
    have := hc 1 (by decide) hp
    rw [h1] at this
    norm_num at this

/-- C7 (code): with the `3 x 3 x 3` fine grids `a = b = 0`, `alpha = 1` and a
`2 x 2 x 2` coarser grid holding 1 before each call, the point `(0, 0, 1)` of
the grid produced by `_restrictFine2coarse` from `alpha * a + b` holds 1, while
`alpha * R(a) + R(b)` is 2 there: the cell is never written. -/
theorem restrictFine2coarse_odd_extent_not_linear :
    ((oddSolver._restrictFine2coarse
        (oddHierarchy (fun p => 1 * (fun _ => (0 : ℚ)) p + (fun _ => (0 : ℚ)) p) (fun _ => 1)) 2)
        0).cell 0 0 1 = 1
    ∧ 1 * ((oddSolver._restrictFine2coarse (oddHierarchy (fun _ => 0) (fun _ => 1)) 2)
          0).cell 0 0 1
        + ((oddSolver._restrictFine2coarse (oddHierarchy (fun _ => 0) (fun _ => 1)) 2)
          0).cell 0 0 1 = 2 := by
  have key : ∀ f : Int → ℚ,
      ((oddSolver._restrictFine2coarse (oddHierarchy f (fun _ => 1)) 2) 0).cell 0 0 1 = 1 := by
    intro f
    have h := restrictFine2coarse_apply oddSolver (oddHierarchy f (fun _ => 1)) 2
    have e : oddSolver._dIdx 2 - 1 = 0 := by decide
    have e1 : oddSolver._dIdx 2 = 1 := by decide
    rw [e, e1] at h
    have hd := restrictLoop_dims (oddHierarchy f (fun _ => 1) 1) (oddHierarchy f (fun _ => 1) 0)
    unfold fas_grid_t.cell
    rw [h, hd.1, hd.2.1, hd.2.2.1]
    have hidx : H_INDEX 0 0 1 (oddHierarchy f (fun _ => 1) 0).nx
        (oddHierarchy f (fun _ => 1) 0).ny (oddHierarchy f (fun _ => 1) 0).nz = 1 := by
      show H_INDEX 0 0 1 2 2 2 = 1
      decide
    have hle : (oddHierarchy f (fun _ => 1) 1).nx / 2 * ((oddHierarchy f (fun _ => 1) 1).ny / 2)
        * ((oddHierarchy f (fun _ => 1) 1).nz / 2) ≤ 1 := by
      show (3 : Int) / 2 * (3 / 2) * (3 / 2) ≤ 1
      decide
    rw [hidx, restrictLoop_untouched _ _ 1 hle]
    rfl
  refine ⟨key _, ?_⟩
  rw [key]
  norm_num

set_option maxHeartbeats 4000000 in
/-- C6 (code): on the hierarchy shape of `oddSolver` (coarse `2 x 2 x 2`, fine
`3 x 3 x 3`, so 27 fine cells) with the coarse grid holding 1 at its point
`(0, 1, 0)` and 0 elsewhere, `_interpolateCoarse2fine` changes the storage
position 63, which is no cell of the finer grid, and leaves 0 at the fine point
`(0, 2, 0)` co-located with that coarse point, where the prolongation under
the finer grid's own extents is 1: the fine index is computed with the
extents `n_coarse * 2 = 4`, and the guard compares two equal indices. -/
theorem interpolateCoarse2fine_odd_extent_writes_outside :
    oddSolver.nx_h (oddSolver._dIdx 1) = 2
    ∧ (oddHierarchy (fun _ => 0) (fun p => if p = 2 then 1 else 0) 1).pts = 27
    ∧ (oddHierarchy (fun _ => 0) (fun p => if p = 2 then 1 else 0) 1)._array 63 = 0
    ∧ ((oddSolver._interpolateCoarse2fine
          (oddHierarchy (fun _ => 0) (fun p => if p = 2 then 1 else 0)) 1) 1)._array 63 = 1 / 8
    ∧ ((oddSolver._interpolateCoarse2fine
          (oddHierarchy (fun _ => 0) (fun p => if p = 2 then 1 else 0)) 1) 1).cell 0 2 0 = 0
    ∧ prolongSum (oddHierarchy (fun _ => 0) (fun p => if p = 2 then 1 else 0) 0) 3 3 3 0 2 0
        = 1 := by
  have h := interpolateCoarse2fine_apply oddSolver
    (oddHierarchy (fun _ => 0) (fun p => if p = 2 then 1 else 0)) 1
  have e0 : oddSolver._dIdx 1 = 0 := by decide
  have e1 : oddSolver._dIdx (1 + 1) = 1 := by decide
  have ex : oddSolver.nx_h 0 = 2 := by decide
  have ey : oddSolver.ny_h 0 = 2 := by decide
  have ez : oddSolver.nz_h 0 = 2 := by decide
  rw [e0, e1, ex, ey, ez] at h
  have hc : oddHierarchy (fun _ => 0) (fun p => if p = 2 then 1 else 0) 0
      = mkGrid 2 2 2 (fun p => if p = 2 then 1 else 0) := rfl
  have hf : oddHierarchy (fun _ => 0) (fun p => if p = 2 then 1 else 0) 1
      = mkGrid 3 3 3 (fun _ => 0) := rfl
  rw [hc, hf] at h
  refine ⟨?_, rfl, rfl, ?_, ?_, ?_⟩
  · rw [e0]; exact ex
  · rw [h, interpolateLoop_array]
    simp [FAS_LOOP3_N, adjOffsets, List.range_succ, mkGrid, H_INDEX]
    norm_num
  · have hd := interpolateLoop_dims 2 2 2 (mkGrid 2 2 2 (fun p => if p = 2 then (1 : ℚ) else 0))
      (mkGrid 3 3 3 (fun _ => 0))
    unfold fas_grid_t.cell
    rw [h, hd.1, hd.2.1, hd.2.2.1, interpolateLoop_array]
    simp [FAS_LOOP3_N, adjOffsets, List.range_succ, mkGrid, H_INDEX]
  · rw [hc]
    simp [prolongSum, FAS_LOOP3_N, adjOffsets, List.range_succ, mkGrid, H_INDEX,
      fas_grid_t.cell]
    norm_num

/-! ## Construction -/

theorem new_eq (env : Env) (mem : Nat → Nat → Int → Int → ℚ) (mol : Nat → Nat → molecule)
    (u_in : Nat → fas_grid_t) (u_n_in : Nat) (molecule_n_in : Nat → Nat)
    (max_depth_in max_relax_iters_in : Int) (relaxation_tolerance_in : ℚ) :
    FASMultigrid.new env mem mol u_in u_n_in molecule_n_in max_depth_in max_relax_iters_in
        relaxation_tolerance_in
      = (List.range u_n_in).foldl (ctorEqnStep env mem mol u_in max_depth_in)
          (ctorStart u_n_in molecule_n_in max_depth_in max_relax_iters_in
            relaxation_tolerance_in) := rfl

theorem coarsen_pos (n : Int) (h : 1 ≤ n) : 1 ≤ coarsen n := by
  unfold coarsen
  omega

theorem coarsen_eq_ceil (n : Int) : coarsen n = ⌈(n : ℚ) / 2⌉ := by
  unfold coarsen
  symm
  rw [Int.ceil_eq_iff]
  rcases Int.emod_two_eq_zero_or_one n with h | h
  · have hn : n = 2 * (n / 2) := by omega
    have hq : (n : ℚ) = 2 * ((n / 2 : Int) : ℚ) := by exact_mod_cast hn
    rw [h]
    push_cast
    constructor <;> linarith
  · have hn : n = 2 * (n / 2) + 1 := by omega
    have hq : (n : ℚ) = 2 * ((n / 2 : Int) : ℚ) + 1 := by exact_mod_cast hn
    rw [h]
    push_cast
    constructor <;> linarith

theorem iterate_coarsen_pos (n : Int) (h : 1 ≤ n) (k : Nat) : 1 ≤ coarsen^[k] n := by
  induction k with
  | zero => simpa using h
  | succ k ih =>
    rw [Function.iterate_succ_apply']
    exact coarsen_pos _ ih

theorem ctorDepthStep_other (env : Env) (u_in : fas_grid_t) (mem : Nat → Int → Int → ℚ)
    (min_depth max_depth : Int) (acc : CtorLevels) (depth idx a b c : Int)
    (hne : idx ≠ depth - min_depth) (h : acc.levelHas idx a b c) :
    (ctorDepthStep env u_in mem min_depth max_depth acc depth).levelHas idx a b c := by
  unfold ctorDepthStep CtorLevels.levelHas at *
  by_cases hc : depth - min_depth = max_depth - min_depth
  · simp only [hc, if_true]
    rw [← hc]
    simp only [Function.update_noteq hne]
    exact h
  · simp only [hc, if_false]
    simp only [Function.update_noteq hne]
    exact h

theorem ctorDepthStep_top (env : Env) (u_in : fas_grid_t) (mem : Nat → Int → Int → ℚ)
    (min_depth max_depth : Int) (acc : CtorLevels) :
    (ctorDepthStep env u_in mem min_depth max_depth acc max_depth).levelHas
      (max_depth - min_depth) env.NX env.NY env.NZ := by
  unfold ctorDepthStep CtorLevels.levelHas fas_grid_t.hasDims fas_grid_t.init
  simp

theorem ctorDepthStep_below (env : Env) (u_in : fas_grid_t) (mem : Nat → Int → Int → ℚ)
    (min_depth max_depth : Int) (acc : CtorLevels) (depth a b c : Int)
    (hne : depth ≠ max_depth) (h : acc.levelHas (depth - min_depth + 1) a b c) :
    (ctorDepthStep env u_in mem min_depth max_depth acc depth).levelHas
      (depth - min_depth) (coarsen a) (coarsen b) (coarsen c) := by
  obtain ⟨hx, hy, hz, _⟩ := h
  have hc : ¬ depth - min_depth = max_depth - min_depth := by omega
  unfold ctorDepthStep CtorLevels.levelHas fas_grid_t.hasDims fas_grid_t.init coarsen
  simp [hc, hx, hy, hz]

theorem ctorDepthLoop_succ (env : Env) (u_in : fas_grid_t) (mem : Nat → Int → Int → ℚ)
    (min_depth max_depth : Int) (m : Nat) :
    ctorDepthLoop env u_in mem min_depth max_depth (m + 1)
      = ctorDepthStep env u_in mem min_depth max_depth
          (ctorDepthLoop env u_in mem min_depth max_depth m) (max_depth - (m : Int)) := by
  unfold ctorDepthLoop
  rw [List.range_succ, List.map_append, List.foldl_append]
  rfl

theorem ctorDepthLoop_levels (env : Env) (u_in : fas_grid_t) (mem : Nat → Int → Int → ℚ)
    (min_depth max_depth : Int) (m n : Nat) (hn : n < m) :
    (ctorDepthLoop env u_in mem min_depth max_depth m).levelHas
      (max_depth - min_depth - (n : Int)) (coarsen^[n] env.NX) (coarsen^[n] env.NY)
      (coarsen^[n] env.NZ) := by
  induction m generalizing n with
  | zero => omega
  | succ m ih =>
    rw [ctorDepthLoop_succ]
    by_cases hlt : n < m
    · apply ctorDepthStep_other
      · omega
      · exact ih n hlt
    · have hnm : n = m := by omega
      subst hnm
      cases n with
      | zero =>
        simpa using ctorDepthStep_top env u_in mem min_depth max_depth
          (ctorDepthLoop env u_in mem min_depth max_depth 0)
      | succ k =>
        have hprev := ih k (by omega)
        have e1 : max_depth - min_depth - ((k + 1 : Nat) : Int)
            = (max_depth - ((k + 1 : Nat) : Int)) - min_depth := by omega
        have e2 : max_depth - min_depth - (k : Int)
            = (max_depth - ((k + 1 : Nat) : Int)) - min_depth + 1 := by push_cast; omega
        rw [e2] at hprev
        rw [e1]
        simp only [Function.iterate_succ_apply']
        exact ctorDepthStep_below env u_in mem min_depth max_depth _ _ _ _ _
          (by push_cast; omega) hprev

theorem shape_of_levels (h : Int → fas_grid_t) (top NX NY NZ : Int) (D : Nat)
    (hD : top + 1 = (D : Int)) (htop : 0 ≤ top) (hNX : 1 ≤ NX) (hNY : 1 ≤ NY)
    (hNZ : 1 ≤ NZ)
    (hl : ∀ n : Nat, n < D →
      (h (top - (n : Int))).hasDims (coarsen^[n] NX) (coarsen^[n] NY) (coarsen^[n] NZ)) :
    hierarchyShape h top NX NY NZ := by
  refine ⟨?_, ?_, ?_⟩
  · have h0 := hl 0 (by omega)
    simp only [Nat.cast_zero, sub_zero, Function.iterate_zero, id_eq] at h0
    exact ⟨h0.1, h0.2.1, h0.2.2.1⟩
  · intro d hd0 hd1
    have hn : (top - d).toNat < D := by omega
    have hdn := hl (top - d).toNat hn
    have e : top - ((top - d).toNat : Int) = d := by omega
    rw [e] at hdn
    obtain ⟨hx, hy, hz, hp⟩ := hdn
    have px := iterate_coarsen_pos NX hNX (top - d).toNat
    have py := iterate_coarsen_pos NY hNY (top - d).toNat
    have pz := iterate_coarsen_pos NZ hNZ (top - d).toNat
    unfold levelInUse
    rw [hx, hy, hz, hp]
    refine ⟨px, py, pz, rfl, ?_⟩
    positivity
  · intro d hd0 hd1
    obtain ⟨k, hk⟩ : ∃ k : Nat, (top - d).toNat = k + 1 := ⟨(top - d).toNat - 1, by omega⟩
    have hfine := hl k (by omega)
    have hcoarse := hl (k + 1) (by omega)
    have e1 : top - ((k + 1 : Nat) : Int) = d := by omega
    have e2 : top - (k : Int) = d + 1 := by omega
    rw [e1] at hcoarse
    rw [e2] at hfine
    unfold levelHalves
    rw [hcoarse.1, hcoarse.2.1, hcoarse.2.2.1, hfine.1, hfine.2.1, hfine.2.2.1]
    simp only [Function.iterate_succ_apply', coarsen_eq_ceil, and_self]

theorem ctorEqnStep_scalars (env : Env) (mem : Nat → Nat → Int → Int → ℚ)
    (mol : Nat → Nat → molecule) (u_in : Nat → fas_grid_t) (max_depth_in : Int)
    (l : List Nat) (s : FASMultigrid) :
    (l.foldl (ctorEqnStep env mem mol u_in max_depth_in) s).max_depth = s.max_depth
    ∧ (l.foldl (ctorEqnStep env mem mol u_in max_depth_in) s).min_depth = s.min_depth
    ∧ (l.foldl (ctorEqnStep env mem mol u_in max_depth_in) s).max_depth_idx = s.max_depth_idx
    ∧ (l.foldl (ctorEqnStep env mem mol u_in max_depth_in) s).total_depths = s.total_depths := by
  induction l generalizing s with
  | nil => simp
  | cons a as ih => simpa [ctorEqnStep] using ih (ctorEqnStep env mem mol u_in max_depth_in s a)

theorem ctorEqnLoop_hierarchies (env : Env) (mem : Nat → Nat → Int → Int → ℚ)
    (mol : Nat → Nat → molecule) (u_in : Nat → fas_grid_t) (max_depth_in : Int)
    (k : Nat) (s : FASMultigrid) (eqn_id : Nat) (he : eqn_id < k) :
    ((List.range k).foldl (ctorEqnStep env mem mol u_in max_depth_in) s).u_h eqn_id
        = (ctorDepthLoop env (u_in eqn_id) (mem eqn_id) 1 max_depth_in
            (max_depth_in - 1 + 1).toNat).u
    ∧ ((List.range k).foldl (ctorEqnStep env mem mol u_in max_depth_in) s).coarse_src_h eqn_id
        = (ctorDepthLoop env (u_in eqn_id) (mem eqn_id) 1 max_depth_in
            (max_depth_in - 1 + 1).toNat).coarse_src
    ∧ ((List.range k).foldl (ctorEqnStep env mem mol u_in max_depth_in) s).damping_v_h eqn_id
        = (ctorDepthLoop env (u_in eqn_id) (mem eqn_id) 1 max_depth_in
            (max_depth_in - 1 + 1).toNat).damping_v
    ∧ ((List.range k).foldl (ctorEqnStep env mem mol u_in max_depth_in) s).jac_rhs_h eqn_id
        = (ctorDepthLoop env (u_in eqn_id) (mem eqn_id) 1 max_depth_in
            (max_depth_in - 1 + 1).toNat).jac_rhs
    ∧ ((List.range k).foldl (ctorEqnStep env mem mol u_in max_depth_in) s).tmp_h eqn_id
        = (ctorDepthLoop env (u_in eqn_id) (mem eqn_id) 1 max_depth_in
            (max_depth_in - 1 + 1).toNat).tmp := by
  induction k with
  | zero => omega
  | succ k ih =>
    rw [List.range_succ, List.foldl_append, List.foldl_cons, List.foldl_nil]
    by_cases hk : eqn_id = k
    · subst hk
      simp [ctorEqnStep]
    · have hlt : eqn_id < k := by omega
      have := ih hlt
      simp only [ctorEqnStep, Function.update_noteq hk]
      exact this

/-- C10: after construction with `NX, NY, NZ >= 1` and `max_depth >= 1` the solver
has `total_depths = max_depth - min_depth + 1` levels (indices `0 ..
max_depth_idx`), and for every equation each of the hierarchies `u_h`,
`coarse_src_h`, `damping_v_h`, `jac_rhs_h`, `tmp_h` has the extents
`(NX, NY, NZ)` at the finest level, at every level extents at least 1 with
`pts = nx * ny * nz > 0`, and at every level below the finest each extent equal
to the ceiling of half the extent of the next finer level. -/
theorem constructor_hierarchy_shape (env : Env) (mem : Nat → Nat → Int → Int → ℚ)
    (mol : Nat → Nat → molecule) (u_in : Nat → fas_grid_t) (u_n_in : Nat)
    (molecule_n_in : Nat → Nat) (max_depth_in max_relax_iters_in : Int)
    (relaxation_tolerance_in : ℚ) (s : FASMultigrid)
    (hs : s = FASMultigrid.new env mem mol u_in u_n_in molecule_n_in max_depth_in
      max_relax_iters_in relaxation_tolerance_in)
    (hNX : 1 ≤ env.NX) (hNY : 1 ≤ env.NY) (hNZ : 1 ≤ env.NZ) (hmax : 1 ≤ max_depth_in) :
    s.total_depths = s.max_depth - s.min_depth + 1
    ∧ s.max_depth_idx = s.total_depths - 1
    ∧ ∀ eqn_id : Nat, eqn_id < u_n_in →
        hierarchyShape (s.u_h eqn_id) s.max_depth_idx env.NX env.NY env.NZ
        ∧ hierarchyShape (s.coarse_src_h eqn_id) s.max_depth_idx env.NX env.NY env.NZ
        ∧ hierarchyShape (s.damping_v_h eqn_id) s.max_depth_idx env.NX env.NY env.NZ
        ∧ hierarchyShape (s.jac_rhs_h eqn_id) s.max_depth_idx env.NX env.NY env.NZ
        ∧ hierarchyShape (s.tmp_h eqn_id) s.max_depth_idx env.NX env.NY env.NZ := by
  subst hs
  rw [new_eq]
  obtain ⟨h1, h2, h3, h4⟩ := ctorEqnStep_scalars env mem mol u_in max_depth_in
    (List.range u_n_in)
    (ctorStart u_n_in molecule_n_in max_depth_in max_relax_iters_in relaxation_tolerance_in)
  rw [h1, h2, h3, h4]
  refine ⟨rfl, by simp [ctorStart], ?_⟩
  intro eqn_id he
  obtain ⟨g1, g2, g3, g4, g5⟩ := ctorEqnLoop_hierarchies env mem mol u_in max_depth_in u_n_in
    (ctorStart u_n_in molecule_n_in max_depth_in max_relax_iters_in relaxation_tolerance_in)
    eqn_id he
  rw [g1, g2, g3, g4, g5]
  have hD : (max_depth_in - 1) + 1 = (((max_depth_in - 1 + 1).toNat : Nat) : Int) := by omega
  have hl := fun n hn => ctorDepthLoop_levels env (u_in eqn_id) (mem eqn_id) 1 max_depth_in
    (max_depth_in - 1 + 1).toNat n hn
  have htop : (ctorStart u_n_in molecule_n_in max_depth_in max_relax_iters_in
      relaxation_tolerance_in).max_depth_idx = max_depth_in - 1 := rfl
  rw [htop]
  have h0 : 0 ≤ max_depth_in - 1 := by omega
  refine ⟨?_, ?_, ?_, ?_, ?_⟩
  · exact shape_of_levels _ _ _ _ _ _ hD h0 hNX hNY hNZ (fun n hn => (hl n hn).2.2.2.1)
  · exact shape_of_levels _ _ _ _ _ _ hD h0 hNX hNY hNZ (fun n hn => (hl n hn).2.2.2.2.1)
  · exact shape_of_levels _ _ _ _ _ _ hD h0 hNX hNY hNZ (fun n hn => (hl n hn).2.2.2.2.2.1)
  · exact shape_of_levels _ _ _ _ _ _ hD h0 hNX hNY hNZ (fun n hn => (hl n hn).2.2.2.2.2.2.1)
  · exact shape_of_levels _ _ _ _ _ _ hD h0 hNX hNY hNZ (fun n hn => (hl n hn).2.2.2.2.2.2.2)

/-! ## The laws at example configurations -/

theorem polySolver_wellTyped : polySolver.eqnWellTyped 0 := by
  intro m _ ad had
  have h : ad ∈ [(⟨1, 0, 3⟩ : atom), ⟨11, 0, 0⟩, ⟨2, 0, 0⟩, ⟨8, 0, 0⟩] := had
  simp only [List.mem_cons, List.mem_singleton, List.not_mem_nil, or_false] at h
  unfold atom.wellTyped
  rcases h with rfl | rfl | rfl | rfl <;> decide

theorem polySolver_sameDims : (polySolver.u_h 0 1).sameDims (polySolver.damping_v_h 0 1) := by
  unfold fas_grid_t.sameDims
  decide

theorem evaluateEllipticEquationPt_sum_of_products_witness :
    polySolver.eqnWellTyped 0
    ∧ polySolver._evaluateEllipticEquationPt (centralEnv 2 2 2) 0 1 0 1 0
      = ((List.range (polySolver.molecule_n 0)).map fun mol_id =>
          (polySolver.eqns 0 mol_id).const_coef * polySolver.rhoAt 0 mol_id 1 0 1 0
            * (((polySolver.eqns 0 mol_id).atoms.map
                (polySolver.atomValue (centralEnv 2 2 2) 1 0 1 0)).prod)).sum :=
  ⟨polySolver_wellTyped,
    evaluateEllipticEquationPt_sum_of_products (centralEnv 2 2 2) polySolver 0 1 0 1 0
      polySolver_wellTyped⟩

theorem jacobian_split_agrees_with_directional_derivative_witness :
    (polySolver.u_h 0 1).sameDims (polySolver.damping_v_h 0 1)
    ∧ (polySolver._evaluateIterationForJacEquation (centralEnv 2 2 2) 0 1 0 0 0 1 0 0).1
        + (polySolver._evaluateIterationForJacEquation (centralEnv 2 2 2) 0 1 0 0 0 1 0 0).2
          * (polySolver.damping_v_h 0 1)._array (polySolver.posIdx 1 0 1 0)
      = polySolver._evaluateDerEllipticEquation (centralEnv 2 2 2) 0 1 0 1 0 0 :=
  ⟨polySolver_sameDims,
    jacobian_split_agrees_with_directional_derivative (centralEnv 2 2 2) polySolver 0 1 0 1 0 0
      polySolver_sameDims⟩

theorem evaluateDerEllipticEquation_product_rule_witness :
    polySolver.eqnWellTyped 0
    ∧ (polySolver.u_h 0 1).sameDims (polySolver.damping_v_h 0 1)
    ∧ polySolver._evaluateDerEllipticEquation (centralEnv 2 2 2) 0 1 0 1 0 0
        = ((List.range (polySolver.molecule_n 0)).map fun mol_id =>
            ((List.range (polySolver.eqns 0 mol_id).atoms.length).map fun n =>
              (polySolver.eqns 0 mol_id).const_coef * polySolver.rhoAt 0 mol_id 1 0 1 0
                * polySolver.productRuleTerm (centralEnv 2 2 2) 1 0 1 0 0
                    (polySolver.eqns 0 mol_id).atoms n).sum).sum :=
  ⟨polySolver_wellTyped, polySolver_sameDims,
    (evaluateDerEllipticEquation_product_rule (centralEnv 2 2 2) polySolver 0 1 0 1 0 0
      polySolver_wellTyped polySolver_sameDims).1⟩

theorem evenHierarchy_coarse_wellFormed (f c : Int → ℚ) :
    (evenHierarchy f c (evenSolver._dIdx 1)).wellFormed := by
  show (mkGrid 1 1 1 c).wellFormed
  unfold fas_grid_t.wellFormed mkGrid
  dsimp only
  decide

theorem evenHierarchy_fine_wellFormed (f c : Int → ℚ) :
    (evenHierarchy f c (evenSolver._dIdx (1 + 1))).wellFormed := by
  show (mkGrid 2 2 2 f).wellFormed
  unfold fas_grid_t.wellFormed mkGrid
  dsimp only
  decide

theorem evenHierarchy_twiceOf (f c : Int → ℚ) :
    (evenHierarchy f c (evenSolver._dIdx (1 + 1))).twiceOf
      (evenHierarchy f c (evenSolver._dIdx 1)) := by
  show (mkGrid 2 2 2 f).twiceOf (mkGrid 1 1 1 c)
  unfold fas_grid_t.twiceOf mkGrid
  dsimp only
  decide

theorem interpolateCoarse2fine_weighted_sum_witness :
    (evenHierarchy (fun _ => 5) (fun _ => 3) (evenSolver._dIdx (1 + 1))).twiceOf
      (evenHierarchy (fun _ => 5) (fun _ => 3) (evenSolver._dIdx 1))
    ∧ ((evenSolver._interpolateCoarse2fine (evenHierarchy (fun _ => 5) (fun _ => 3)) 1)
          (evenSolver._dIdx (1 + 1))).cell 1 0 1
        = prolongSum (evenHierarchy (fun _ => 5) (fun _ => 3) (evenSolver._dIdx 1))
            (evenHierarchy (fun _ => 5) (fun _ => 3) (evenSolver._dIdx (1 + 1))).nx
            (evenHierarchy (fun _ => 5) (fun _ => 3) (evenSolver._dIdx (1 + 1))).ny
            (evenHierarchy (fun _ => 5) (fun _ => 3) (evenSolver._dIdx (1 + 1))).nz 1 0 1 :=
  ⟨evenHierarchy_twiceOf _ _,
    interpolateCoarse2fine_weighted_sum evenSolver (evenHierarchy (fun _ => 5) (fun _ => 3))
      1 1 0 1 (evenHierarchy_coarse_wellFormed _ _) (evenHierarchy_fine_wellFormed _ _)
      (by decide) (by decide) (by decide) (evenHierarchy_twiceOf _ _)⟩

theorem interpolateCoarse2fine_preserves_constants_witness :
    (evenHierarchy (fun _ => 5) (fun _ => 3) (evenSolver._dIdx 1)).constant 3
    ∧ ((evenSolver._interpolateCoarse2fine (evenHierarchy (fun _ => 5) (fun _ => 3)) 1)
          (evenSolver._dIdx (1 + 1))).cell 1 0 1 = 3 :=
  ⟨fun _ _ _ => rfl,
    interpolateCoarse2fine_preserves_constants evenSolver
      (evenHierarchy (fun _ => 5) (fun _ => 3)) 1 3 1 0 1
      (evenHierarchy_coarse_wellFormed _ _) (evenHierarchy_fine_wellFormed _ _)
      (by decide) (by decide) (by decide) (evenHierarchy_twiceOf _ _) (fun _ _ _ => rfl)⟩

theorem constructor_hierarchy_shape_witness :
    1 ≤ (centralEnv 3 3 3).NX ∧ (1 : Int) ≤ 2
    ∧ oddSolver.total_depths = oddSolver.max_depth - oddSolver.min_depth + 1
    ∧ hierarchyShape (oddSolver.u_h 0) oddSolver.max_depth_idx 3 3 3
    ∧ hierarchyShape (oddSolver.tmp_h 0) oddSolver.max_depth_idx 3 3 3 :=
  ⟨by decide, by decide,
    (constructor_hierarchy_shape (centralEnv 3 3 3) (fun _ _ _ _ => 0) (fun _ _ => ⟨1, []⟩)
      (fun _ => mkGrid 3 3 3 fun _ => 1) 1 (fun _ => 1) 2 5 (1 / 1000) oddSolver rfl
      (by decide) (by decide) (by decide) (by decide)).1,
    ((constructor_hierarchy_shape (centralEnv 3 3 3) (fun _ _ _ _ => 0) (fun _ _ => ⟨1, []⟩)
      (fun _ => mkGrid 3 3 3 fun _ => 1) 1 (fun _ => 1) 2 5 (1 / 1000) oddSolver rfl
      (by decide) (by decide) (by decide) (by decide)).2.2 0 (by decide)).1,
    ((constructor_hierarchy_shape (centralEnv 3 3 3) (fun _ _ _ _ => 0) (fun _ _ => ⟨1, []⟩)
      (fun _ => mkGrid 3 3 3 fun _ => 1) 1 (fun _ => 1) 2 5 (1 / 1000) oddSolver rfl
      (by decide) (by decide) (by decide) (by decide)).2.2 0 (by decide)).2.2.2.2⟩

/-! ## The transfer operators between levels of exactly doubled extents -/

theorem restrictValue_lin (alpha : ℚ) (a b : fas_grid_t) (nx ny nz fi fj fk : Int) :
    restrictValue (fas_grid_t.lin alpha a b) nx ny nz fi fj fk
      = alpha * restrictValue a nx ny nz fi fj fk + restrictValue b nx ny nz fi fj fk := by
  simp only [restrictValue, fas_grid_t.lin]
  ring

/-- For fine extents exactly twice the coarse ones restriction is linear at every
point of the coarser grid, whatever the three coarser grids held before. -/
theorem restrictLoop_linear_even (alpha : ℚ) (a b c0 c1 c2 : fas_grid_t) (i j k : Int)
    (h0 : c0.wellFormed) (h1 : c1.wellFormed) (h2 : c2.wellFormed) (hab : a.sameDims b)
    (t0 : a.twiceOf c0) (t1 : a.twiceOf c1) (t2 : b.twiceOf c2)
    (hi : 0 ≤ i ∧ i < c0.nx) (hj : 0 ≤ j ∧ j < c0.ny) (hk : 0 ≤ k ∧ k < c0.nz) :
    (restrictLoop (fas_grid_t.lin alpha a b) c0).cell i j k
      = alpha * (restrictLoop a c1).cell i j k + (restrictLoop b c2).cell i j k := by
  obtain ⟨abx, aby, abz⟩ := hab
  have t0x := t0.1
  have t0y := t0.2.1
  have t0z := t0.2.2
  have t1x := t1.1
  have t1y := t1.2.1
  have t1z := t1.2.2
  have t2x := t2.1
  have t2y := t2.2.1
  have t2z := t2.2.2
  have tl : (fas_grid_t.lin alpha a b).twiceOf c0 := t0
  rw [restrictLoop_cell_even (fas_grid_t.lin alpha a b) c0 i j k h0 tl hi hj hk,
    restrictLoop_cell_even a c1 i j k h1 t1 (by omega) (by omega) (by omega),
    restrictLoop_cell_even b c2 i j k h2 t2 (by omega) (by omega) (by omega)]
  show restrictValue (fas_grid_t.lin alpha a b) a.nx a.ny a.nz (i * 2) (j * 2) (k * 2) = _
  rw [restrictValue_lin, abx, aby, abz]

/-- For fine extents exactly twice the coarse ones restriction of a constant fine
grid gives the same constant at every point of the coarser grid. -/
theorem restrictLoop_constant_even (fine_grid coarse_grid : fas_grid_t) (c : ℚ) (i j k : Int)
    (hf : fine_grid.wellFormed) (hc : coarse_grid.wellFormed)
    (htw : fine_grid.twiceOf coarse_grid) (hconst : fine_grid.constant c)
    (hi : 0 ≤ i ∧ i < coarse_grid.nx) (hj : 0 ≤ j ∧ j < coarse_grid.ny)
    (hk : 0 ≤ k ∧ k < coarse_grid.nz) :
    (restrictLoop fine_grid coarse_grid).cell i j k = c := by
  rw [restrictLoop_cell_even fine_grid coarse_grid i j k hc htw hi hj hk]
  have hcell : ∀ x y z : Int,
      fine_grid._array (H_INDEX x y z fine_grid.nx fine_grid.ny fine_grid.nz) = c :=
    fun x y z => constant_cell fine_grid c hf hconst x y z
  simp only [restrictValue, hcell]
  norm_num
  ring

theorem prolongSum_lin (alpha : ℚ) (a b : fas_grid_t) (hab : a.sameDims b)
    (nfx nfy nfz x y z : Int) :
    prolongSum (fas_grid_t.lin alpha a b) nfx nfy nfz x y z
      = alpha * prolongSum a nfx nfy nfz x y z + prolongSum b nfx nfy nfz x y z := by
  obtain ⟨abx, aby, abz⟩ := hab
  unfold prolongSum
  rw [← abx, ← aby, ← abz]
  show ((FAS_LOOP3_N a.nx a.ny a.nz).map _).sum = _
  rw [← List.sum_map_mul_left, ← List.sum_map_add]
  congr 1
  apply List.map_congr_left
  intro cell _
  rw [← List.sum_map_mul_left, ← List.sum_map_add]
  congr 1
  apply List.map_congr_left
  intro adj _
  have hcell : (fas_grid_t.lin alpha a b).cell cell.1 cell.2.1 cell.2.2
      = alpha * a.cell cell.1 cell.2.1 cell.2.2 + b.cell cell.1 cell.2.1 cell.2.2 := by
    simp only [fas_grid_t.cell, fas_grid_t.lin, abx, aby, abz]
  rw [hcell]
  split_ifs
  · ring
  · ring

/-- For fine extents exactly twice the coarse ones prolongation is linear at every
point of the finer grid, whatever the three finer grids held before. -/
theorem interpolateLoop_linear (alpha : ℚ) (a b f0 f1 f2 : fas_grid_t) (x y z : Int)
    (ha : a.wellFormed) (hb : b.wellFormed) (hab : a.sameDims b)
    (h0 : f0.wellFormed) (h1 : f1.wellFormed) (h2 : f2.wellFormed)
    (t0 : f0.twiceOf a) (t1 : f1.twiceOf a) (t2 : f2.twiceOf b) :
    (interpolateLoop a.nx a.ny a.nz (fas_grid_t.lin alpha a b) f0).cell x y z
      = alpha * (interpolateLoop a.nx a.ny a.nz a f1).cell x y z
        + (interpolateLoop b.nx b.ny b.nz b f2).cell x y z := by
  have hl : (fas_grid_t.lin alpha a b).wellFormed := ha
  have tl : f0.twiceOf (fas_grid_t.lin alpha a b) := t0
  have e := interpolateLoop_cell (fas_grid_t.lin alpha a b) f0 x y z hl h0 tl
  have e' : (interpolateLoop a.nx a.ny a.nz (fas_grid_t.lin alpha a b) f0).cell x y z
      = prolongSum (fas_grid_t.lin alpha a b) f0.nx f0.ny f0.nz x y z := e
  rw [e', interpolateLoop_cell a f1 x y z ha h1 t1, interpolateLoop_cell b f2 x y z hb h2 t2,
    prolongSum_lin alpha a b hab]
  obtain ⟨abx, aby, abz⟩ := hab
  have g1 : f1.nx = f0.nx := by rw [t1.1, t0.1]
  have g2 : f1.ny = f0.ny := by rw [t1.2.1, t0.2.1]
  have g3 : f1.nz = f0.nz := by rw [t1.2.2, t0.2.2]
  have g4 : f2.nx = f0.nx := by rw [t2.1, t0.1, abx]
  have g5 : f2.ny = f0.ny := by rw [t2.2.1, t0.2.1, aby]
  have g6 : f2.nz = f0.nz := by rw [t2.2.2, t0.2.2, abz]
  rw [g1, g2, g3, g4, g5, g6]

/-! ## Residuals -/

theorem foldl_max_ge_init {α : Type} (f : α → ℚ) (l : List α) (a : ℚ) :
    a ≤ l.foldl (fun m x => if f x > m then f x else m) a := by
  induction l generalizing a with
  | nil => simp
  | cons x xs ih =>
    rw [List.foldl_cons]
    refine le_trans ?_ (ih _)
    split_ifs with h
    · exact le_of_lt h
    · exact le_refl a

theorem foldl_max_ge_mem {α : Type} (f : α → ℚ) (l : List α) (a : ℚ) (x : α) (hx : x ∈ l) :
    f x ≤ l.foldl (fun m x => if f x > m then f x else m) a := by
  induction l generalizing a with
  | nil => cases hx
  | cons y ys ih =>
    rw [List.foldl_cons]
    rcases List.mem_cons.mp hx with e | e
    · subst e
      refine le_trans ?_ (foldl_max_ge_init f ys _)
      split_ifs with h
      · exact le_refl _
      · exact not_lt.mp h
    · exact ih _ e

theorem foldl_max_attained {α : Type} (f : α → ℚ) (l : List α) (a : ℚ) :
    l.foldl (fun m x => if f x > m then f x else m) a = a
      ∨ ∃ x ∈ l, l.foldl (fun m x => if f x > m then f x else m) a = f x := by
  induction l generalizing a with
  | nil => left; rfl
  | cons y ys ih =>
    rw [List.foldl_cons]
    rcases ih (if f y > a then f y else a) with h | ⟨x, hx, h⟩
    · by_cases c : f y > a
      · right
        refine ⟨y, List.mem_cons_self _ _, ?_⟩
        rw [h, if_pos c]
      · left
        rw [h, if_neg c]
    · right
      exact ⟨x, List.mem_cons_of_mem _ hx, h⟩

/-! ### The point loop visits the flat positions `0 .. nx*ny*nz - 1` once each, in order -/

theorem range_flatMap_affine (b c off : Nat) :
    (List.range b).flatMap (fun j => (List.range c).map fun k => off + j * c + k)
      = (List.range (b * c)).map fun n => off + n := by
  induction b with
  | zero => simp
  | succ b ih =>
    rw [List.range_succ, List.flatMap_append, ih, Nat.succ_mul, List.range_add, List.map_append]
    simp [List.map_map, Function.comp_def, Nat.add_assoc]

theorem range_flatMap_rowMajor (a b c : Nat) :
    (List.range a).flatMap (fun i =>
        (List.range b).flatMap fun j => (List.range c).map fun k => i * b * c + j * c + k)
      = List.range (a * b * c) := by
  have h1 : ∀ i : Nat,
      ((List.range b).flatMap fun j => (List.range c).map fun k => i * b * c + j * c + k)
        = (List.range (b * c)).map fun n => 0 + i * (b * c) + n := by
    intro i
    rw [range_flatMap_affine b c (i * b * c)]
    simp [Nat.mul_assoc]
  simp only [h1]
  rw [range_flatMap_affine a (b * c) 0, Nat.mul_assoc]
  simp

theorem map_flatMap' {α β γ : Type} (l : List α) (f : α → List β) (g : β → γ) :
    (l.flatMap f).map g = l.flatMap fun a => (f a).map g := by
  induction l with
  | nil => rfl
  | cons a as ih => simp [List.flatMap_cons, ih]

theorem flatMap_congr_mem {α β : Type} (l : List α) (f g : α → List β)
    (h : ∀ a ∈ l, f a = g a) : l.flatMap f = l.flatMap g := by
  induction l with
  | nil => rfl
  | cons a as ih =>
    rw [List.flatMap_cons, List.flatMap_cons, h a (List.mem_cons_self _ _),
      ih (fun x hx => h x (List.mem_cons_of_mem _ hx))]

/-- The flat positions visited by the point loop of a grid with positive extents
are `0, 1, ..., nx*ny*nz - 1`, in this order. -/
theorem loop_positions (nx ny nz : Int) (hx : 0 < nx) (hy : 0 < ny) (hz : 0 < nz) :
    (FAS_LOOP3_N nx ny nz).map (fun c => H_INDEX c.1 c.2.1 c.2.2 nx ny nz)
      = (List.range (nx * ny * nz).toNat).map fun (n : Nat) => (n : Int) := by
  obtain ⟨a, rfl⟩ : ∃ a : Nat, nx = a := ⟨nx.toNat, by omega⟩
  obtain ⟨b, rfl⟩ : ∃ b : Nat, ny = b := ⟨ny.toNat, by omega⟩
  obtain ⟨c, rfl⟩ : ∃ c : Nat, nz = c := ⟨nz.toNat, by omega⟩
  have hN : ((a : Int) * b * c).toNat = a * b * c := by
    have : ((a : Int) * b * c) = ((a * b * c : Nat) : Int) := by push_cast; ring
    rw [this, Int.toNat_natCast]
  rw [hN, ← range_flatMap_rowMajor a b c]
  unfold FAS_LOOP3_N
  simp only [Int.toNat_natCast, map_flatMap', List.map_map]
  apply flatMap_congr_mem
  intro i hi
  apply flatMap_congr_mem
  intro j hj
  apply List.map_congr_left
  intro k hk
  have hi' := List.mem_range.mp hi
  have hj' := List.mem_range.mp hj
  have hk' := List.mem_range.mp hk
  simp only [Function.comp_apply, H_INDEX]
  rw [Int.emod_eq_of_lt (by omega) (by omega), Int.emod_eq_of_lt (by omega) (by omega),
    Int.emod_eq_of_lt (by omega) (by omega)]
  push_cast
  ring

theorem loop_positions_nodup (nx ny nz : Int) (hx : 0 < nx) (hy : 0 < ny) (hz : 0 < nz) :
    ((FAS_LOOP3_N nx ny nz).map (fun c => H_INDEX c.1 c.2.1 c.2.2 nx ny nz)).Nodup := by
  rw [loop_positions nx ny nz hx hy hz]
  exact (List.nodup_range _).map (fun a b h => by exact_mod_cast h)

theorem mem_loop_positions (nx ny nz : Int) (hx : 0 < nx) (hy : 0 < ny) (hz : 0 < nz) (p : Int) :
    p ∈ (FAS_LOOP3_N nx ny nz).map (fun c => H_INDEX c.1 c.2.1 c.2.2 nx ny nz)
      ↔ 0 ≤ p ∧ p < nx * ny * nz := by
  rw [loop_positions nx ny nz hx hy hz]
  simp only [List.mem_map, List.mem_range]
  have hpos : 0 < nx * ny * nz := by positivity
  constructor
  · rintro ⟨n, hn, rfl⟩
    omega
  · rintro ⟨h0, h1⟩
    exact ⟨p.toNat, by omega, by omega⟩

/-- A loop that rewrites each visited cell from its own old value: when the
visited positions are pairwise distinct, every visited cell `p` ends as
`phi p (old p)` and every other cell is unchanged. -/
theorem foldl_rmw {α : Type} (loc : α → Int) (phi : Int → ℚ → ℚ) (l : List α)
    (g : fas_grid_t) (hnd : (l.map loc).Nodup) (p : Int) :
    (l.foldl (fun cg x => cg.set (loc x) (phi (loc x) (cg._array (loc x)))) g)._array p
      = if p ∈ l.map loc then phi p (g._array p) else g._array p := by
  induction l generalizing g with
  | nil => simp
  | cons x xs ih =>
    rw [List.map_cons, List.nodup_cons] at hnd
    rw [List.foldl_cons, ih _ hnd.2]
    by_cases hp : p = loc x
    · subst hp
      rw [if_neg hnd.1]
      simp [fas_grid_t.set]
    · have h1 : (g.set (loc x) (phi (loc x) (g._array (loc x))))._array p = g._array p := by
        simp [fas_grid_t.set, Function.update, hp]
      rw [h1]
      simp only [List.map_cons, List.mem_cons, hp, false_or]

theorem foldl_rmw_dims {α : Type} (loc : α → Int) (phi : Int → ℚ → ℚ) (l : List α)
    (g : fas_grid_t) :
    (l.foldl (fun cg x => cg.set (loc x) (phi (loc x) (cg._array (loc x)))) g).nx = g.nx
    ∧ (l.foldl (fun cg x => cg.set (loc x) (phi (loc x) (cg._array (loc x)))) g).ny = g.ny
    ∧ (l.foldl (fun cg x => cg.set (loc x) (phi (loc x) (cg._array (loc x)))) g).nz = g.nz
    ∧ (l.foldl (fun cg x => cg.set (loc x) (phi (loc x) (cg._array (loc x)))) g).pts
        = g.pts := by
  induction l generalizing g with
  | nil => simp
  | cons x xs ih => simpa [fas_grid_t.set] using ih (g.set (loc x) _)

theorem loop_cell_unique (nx ny nz : Int) (hy : 0 < ny) (hz : 0 < nz)
    (c : Int × Int × Int) (hc : c ∈ FAS_LOOP3_N nx ny nz) (i j k : Int)
    (hi : 0 ≤ i ∧ i < nx) (hj : 0 ≤ j ∧ j < ny) (hk : 0 ≤ k ∧ k < nz)
    (e : H_INDEX c.1 c.2.1 c.2.2 nx ny nz = H_INDEX i j k nx ny nz) :
    c.1 = i ∧ c.2.1 = j ∧ c.2.2 = k := by
  obtain ⟨⟨h1, h2⟩, ⟨h3, h4⟩, h5, h6⟩ := (mem_FAS_LOOP3_N _ _ _ c).mp hc
  obtain ⟨e1, e2, e3⟩ := (H_INDEX_eq_iff _ _ _ _ _ _ _ _ _ hy hz).mp e
  rw [Int.emod_eq_of_lt h1 h2, Int.emod_eq_of_lt hi.1 hi.2] at e1
  rw [Int.emod_eq_of_lt h3 h4, Int.emod_eq_of_lt hj.1 hj.2] at e2
  rw [Int.emod_eq_of_lt h5 h6, Int.emod_eq_of_lt hk.1 hk.2] at e3
  exact ⟨e1, e2, e3⟩

theorem evaluateEllipticEquation_apply (env : Env) (s : FASMultigrid)
    (result_h : Int → fas_grid_t) (eqn_id : Nat) (depth : Int) :
    (s._evaluateEllipticEquation env result_h eqn_id depth) (s._dIdx depth)
      = (FAS_LOOP3_N (s.nx_h (s._dIdx depth)) (s.ny_h (s._dIdx depth))
          (s.nz_h (s._dIdx depth))).foldl
          (fun result (c : Int × Int × Int) =>
            result.set (H_INDEX c.1 c.2.1 c.2.2 (s.nx_h (s._dIdx depth))
                (s.ny_h (s._dIdx depth)) (s.nz_h (s._dIdx depth)))
              (s._evaluateEllipticEquationPt env eqn_id (s._dIdx depth) c.1 c.2.1 c.2.2))
          (result_h (s._dIdx depth)) := by
  simp [FASMultigrid._evaluateEllipticEquation]

theorem evaluateEllipticEquation_other (env : Env) (s : FASMultigrid)
    (result_h : Int → fas_grid_t) (eqn_id : Nat) (depth d : Int) (hd : d ≠ s._dIdx depth) :
    (s._evaluateEllipticEquation env result_h eqn_id depth) d = result_h d := by
  simp [FASMultigrid._evaluateEllipticEquation, Function.update_noteq hd]

theorem evaluateEllipticEquation_dims (env : Env) (s : FASMultigrid)
    (result_h : Int → fas_grid_t) (eqn_id : Nat) (depth : Int) :
    ((s._evaluateEllipticEquation env result_h eqn_id depth) (s._dIdx depth)).nx
        = (result_h (s._dIdx depth)).nx
    ∧ ((s._evaluateEllipticEquation env result_h eqn_id depth) (s._dIdx depth)).ny
        = (result_h (s._dIdx depth)).ny
    ∧ ((s._evaluateEllipticEquation env result_h eqn_id depth) (s._dIdx depth)).nz
        = (result_h (s._dIdx depth)).nz
    ∧ ((s._evaluateEllipticEquation env result_h eqn_id depth) (s._dIdx depth)).pts
        = (result_h (s._dIdx depth)).pts := by
  rw [evaluateEllipticEquation_apply]
  exact foldl_set_dims _ _ _ _

/-- After `_evaluateEllipticEquation` the cell of every point of the level holds
the value of the equation at that point. -/
theorem evaluateEllipticEquation_point (env : Env) (s : FASMultigrid)
    (result_h : Int → fas_grid_t) (eqn_id : Nat) (depth i j k : Int)
    (hy : 0 < s.ny_h (s._dIdx depth)) (hz : 0 < s.nz_h (s._dIdx depth))
    (hp : s.isPoint (s._dIdx depth) i j k) :
    ((s._evaluateEllipticEquation env result_h eqn_id depth) (s._dIdx depth))._array
        (s.posIdx (s._dIdx depth) i j k)
      = s._evaluateEllipticEquationPt env eqn_id (s._dIdx depth) i j k := by
  rw [evaluateEllipticEquation_apply]
  unfold FASMultigrid.posIdx
  apply foldl_set_written
  · intro c hc e
    obtain ⟨e1, e2, e3⟩ := loop_cell_unique _ _ _ hy hz c hc i j k hp.1 hp.2.1 hp.2.2 e
    rw [e1, e2, e3]
  · exact ⟨(i, j, k), (mem_FAS_LOOP3_N _ _ _ _).mpr hp, rfl⟩

/-- After `_evaluateEllipticEquation` the cells outside the level's
`nx * ny * nz` positions are unchanged. -/
theorem evaluateEllipticEquation_outside (env : Env) (s : FASMultigrid)
    (result_h : Int → fas_grid_t) (eqn_id : Nat) (depth p : Int)
    (hx : 0 < s.nx_h (s._dIdx depth)) (hy : 0 < s.ny_h (s._dIdx depth))
    (hz : 0 < s.nz_h (s._dIdx depth))
    (hp : ¬ (0 ≤ p ∧ p < s.nx_h (s._dIdx depth) * s.ny_h (s._dIdx depth)
      * s.nz_h (s._dIdx depth))) :
    ((s._evaluateEllipticEquation env result_h eqn_id depth) (s._dIdx depth))._array p
      = (result_h (s._dIdx depth))._array p := by
  rw [evaluateEllipticEquation_apply]
  apply foldl_set_untouched
  intro c hc e
  apply hp
  rw [← mem_loop_positions _ _ _ hx hy hz]
  exact List.mem_map.mpr ⟨c, hc, e⟩

theorem computeResidual_apply (env : Env) (s : FASMultigrid)
    (residual_h : Int → fas_grid_t) (eqn_id : Nat) (depth : Int) :
    (s._computeResidual env residual_h eqn_id depth) (s._dIdx depth)
      = (FAS_LOOP3_N (residual_h (s._dIdx depth)).nx (residual_h (s._dIdx depth)).ny
          (residual_h (s._dIdx depth)).nz).foldl
          (fun residual (c : Int × Int × Int) =>
            residual.set (H_INDEX c.1 c.2.1 c.2.2 (residual_h (s._dIdx depth)).nx
                (residual_h (s._dIdx depth)).ny (residual_h (s._dIdx depth)).nz)
              ((fun (p : Int) (old : ℚ) =>
                  (s.coarse_src_h eqn_id (s._dIdx depth))._array p - old)
                (H_INDEX c.1 c.2.1 c.2.2 (residual_h (s._dIdx depth)).nx
                  (residual_h (s._dIdx depth)).ny (residual_h (s._dIdx depth)).nz)
                (residual._array (H_INDEX c.1 c.2.1 c.2.2 (residual_h (s._dIdx depth)).nx
                  (residual_h (s._dIdx depth)).ny (residual_h (s._dIdx depth)).nz))))
          ((s._evaluateEllipticEquation env residual_h eqn_id depth) (s._dIdx depth)) := by
  simp [FASMultigrid._computeResidual]

theorem computeResidual_other (env : Env) (s : FASMultigrid)
    (residual_h : Int → fas_grid_t) (eqn_id : Nat) (depth d : Int) (hd : d ≠ s._dIdx depth) :
    (s._computeResidual env residual_h eqn_id depth) d = residual_h d := by
  simp [FASMultigrid._computeResidual, Function.update_noteq hd,
    evaluateEllipticEquation_other env s residual_h eqn_id depth d hd]

theorem computeResidual_dims (env : Env) (s : FASMultigrid)
    (residual_h : Int → fas_grid_t) (eqn_id : Nat) (depth : Int) :
    ((s._computeResidual env residual_h eqn_id depth) (s._dIdx depth)).nx
        = (residual_h (s._dIdx depth)).nx
    ∧ ((s._computeResidual env residual_h eqn_id depth) (s._dIdx depth)).ny
        = (residual_h (s._dIdx depth)).ny
    ∧ ((s._computeResidual env residual_h eqn_id depth) (s._dIdx depth)).nz
        = (residual_h (s._dIdx depth)).nz
    ∧ ((s._computeResidual env residual_h eqn_id depth) (s._dIdx depth)).pts
        = (residual_h (s._dIdx depth)).pts := by
  rw [computeResidual_apply]
  have h1 := foldl_rmw_dims
    (fun c : Int × Int × Int => H_INDEX c.1 c.2.1 c.2.2 (residual_h (s._dIdx depth)).nx
      (residual_h (s._dIdx depth)).ny (residual_h (s._dIdx depth)).nz)
    (fun (p : Int) (old : ℚ) => (s.coarse_src_h eqn_id (s._dIdx depth))._array p - old)
    (FAS_LOOP3_N (residual_h (s._dIdx depth)).nx (residual_h (s._dIdx depth)).ny
      (residual_h (s._dIdx depth)).nz)
    ((s._evaluateEllipticEquation env residual_h eqn_id depth) (s._dIdx depth))
  have h2 := evaluateEllipticEquation_dims env s residual_h eqn_id depth
  exact ⟨h1.1.trans h2.1, h1.2.1.trans h2.2.1, h1.2.2.1.trans h2.2.2.1,
    h1.2.2.2.trans h2.2.2.2⟩

/-- After `_computeResidual` the cell of every point of the level holds
`coarse_src - F(u)` at that point. -/
theorem computeResidual_point (env : Env) (s : FASMultigrid)
    (residual_h : Int → fas_grid_t) (eqn_id : Nat) (depth i j k : Int)
    (hg : s.levelGrid (s._dIdx depth) (residual_h (s._dIdx depth)))
    (hp : s.isPoint (s._dIdx depth) i j k) :
    ((s._computeResidual env residual_h eqn_id depth) (s._dIdx depth))._array
        (s.posIdx (s._dIdx depth) i j k)
      = s.residualAt env eqn_id (s._dIdx depth) i j k := by
  obtain ⟨⟨px, py, pz, _⟩, ex, ey, ez⟩ := hg
  rw [computeResidual_apply, foldl_rmw
    (fun c : Int × Int × Int => H_INDEX c.1 c.2.1 c.2.2 (residual_h (s._dIdx depth)).nx
      (residual_h (s._dIdx depth)).ny (residual_h (s._dIdx depth)).nz)
    (fun (p : Int) (old : ℚ) => (s.coarse_src_h eqn_id (s._dIdx depth))._array p - old)
    _ _ (loop_positions_nodup _ _ _ px py pz)]
  have hmem : s.posIdx (s._dIdx depth) i j k
      ∈ (FAS_LOOP3_N (residual_h (s._dIdx depth)).nx (residual_h (s._dIdx depth)).ny
          (residual_h (s._dIdx depth)).nz).map
        (fun c => H_INDEX c.1 c.2.1 c.2.2 (residual_h (s._dIdx depth)).nx
          (residual_h (s._dIdx depth)).ny (residual_h (s._dIdx depth)).nz) := by
    rw [ex, ey, ez]
    exact List.mem_map.mpr ⟨(i, j, k), (mem_FAS_LOOP3_N _ _ _ _).mpr hp, rfl⟩
  rw [if_pos hmem, evaluateEllipticEquation_point env s residual_h eqn_id depth i j k
    (by rw [← ey]; exact py) (by rw [← ez]; exact pz) hp]
  rfl

theorem max_eq_ite (m x : ℚ) : max m x = if x > m then x else m := by
  split_ifs with h
  · exact max_eq_right (le_of_lt h)
  · exact max_eq_left (not_lt.mp h)

theorem getMaxResidual_eq (env : Env) (s : FASMultigrid) (eqn_id : Nat) (depth : Int) :
    s._getMaxResidual env eqn_id depth
      = (FAS_LOOP3_N (s.nx_h (s._dIdx depth)) (s.ny_h (s._dIdx depth))
          (s.nz_h (s._dIdx depth))).foldl
          (fun m (c : Int × Int × Int) =>
            if |s.residualAt env eqn_id (s._dIdx depth) c.1 c.2.1 c.2.2| > m then
              |s.residualAt env eqn_id (s._dIdx depth) c.1 c.2.1 c.2.2|
            else m) 0 := rfl

theorem getMaxResidual_nonneg (env : Env) (s : FASMultigrid) (eqn_id : Nat) (depth : Int) :
    0 ≤ s._getMaxResidual env eqn_id depth := by
  rw [getMaxResidual_eq]
  exact foldl_max_ge_init _ _ 0

theorem getMaxResidual_ge (env : Env) (s : FASMultigrid) (eqn_id : Nat) (depth i j k : Int)
    (hp : s.isPoint (s._dIdx depth) i j k) :
    |s.residualAt env eqn_id (s._dIdx depth) i j k| ≤ s._getMaxResidual env eqn_id depth := by
  rw [getMaxResidual_eq]
  exact foldl_max_ge_mem
    (fun c : Int × Int × Int => |s.residualAt env eqn_id (s._dIdx depth) c.1 c.2.1 c.2.2|)
    _ 0 (i, j, k) ((mem_FAS_LOOP3_N _ _ _ _).mpr hp)

theorem getMaxResidual_attained (env : Env) (s : FASMultigrid) (eqn_id : Nat) (depth : Int)
    (hx : 0 < s.nx_h (s._dIdx depth)) (hy : 0 < s.ny_h (s._dIdx depth))
    (hz : 0 < s.nz_h (s._dIdx depth)) :
    ∃ i j k : Int, s.isPoint (s._dIdx depth) i j k
      ∧ s._getMaxResidual env eqn_id depth = |s.residualAt env eqn_id (s._dIdx depth) i j k| := by
  have h0 : s.isPoint (s._dIdx depth) 0 0 0 :=
    ⟨⟨le_refl 0, hx⟩, ⟨le_refl 0, hy⟩, le_refl 0, hz⟩
  rcases foldl_max_attained
    (fun c : Int × Int × Int => |s.residualAt env eqn_id (s._dIdx depth) c.1 c.2.1 c.2.2|)
    (FAS_LOOP3_N (s.nx_h (s._dIdx depth)) (s.ny_h (s._dIdx depth)) (s.nz_h (s._dIdx depth)))
    0 with h | ⟨c, hc, h⟩
  · refine ⟨0, 0, 0, h0, ?_⟩
    have hge := getMaxResidual_ge env s eqn_id depth 0 0 0 h0
    rw [getMaxResidual_eq] at hge ⊢
    rw [h] at hge ⊢
    exact le_antisymm (abs_nonneg _) hge
  · exact ⟨c.1, c.2.1, c.2.2, (mem_FAS_LOOP3_N _ _ _ c).mp hc, h⟩

theorem getMaxResidualAllEqs_eq (env : Env) (s : FASMultigrid) (depth : Int) :
    s._getMaxResidualAllEqs env depth
      = (List.range s.u_n).foldl
          (fun m e => if s._getMaxResidual env e depth > m then s._getMaxResidual env e depth
            else m) 0 := by
  unfold FASMultigrid._getMaxResidualAllEqs
  congr 1
  funext m e
  exact max_eq_ite _ _

/-- C11: at a level with positive extents, `_computeResidual` stores
`coarse_src_e(x) - F_e(u)(x)` at every point `x` of a target grid of the level's
extents; `_getMaxResidual` is non-negative, is at least `|coarse_src_e(x) -
F_e(u)(x)|` at every point, equals it at some point, and is 0 exactly when the
residual vanishes at every point; `_getMaxResidualAllEqs` is at least
`_getMaxResidual` of every equation and equals it for some equation (it is 0
when there is no equation). -/
theorem residual_and_max_residual (env : Env) (s : FASMultigrid) (eqn_id : Nat) (depth : Int)
    (hx : 0 < s.nx_h (s._dIdx depth)) (hy : 0 < s.ny_h (s._dIdx depth))
    (hz : 0 < s.nz_h (s._dIdx depth)) :
    (∀ residual_h : Int → fas_grid_t, s.levelGrid (s._dIdx depth) (residual_h (s._dIdx depth)) →
      ∀ i j k : Int, s.isPoint (s._dIdx depth) i j k →
        ((s._computeResidual env residual_h eqn_id depth) (s._dIdx depth)).cell i j k
          = (s.coarse_src_h eqn_id (s._dIdx depth))._array (s.posIdx (s._dIdx depth) i j k)
            - s._evaluateEllipticEquationPt env eqn_id (s._dIdx depth) i j k)
    ∧ 0 ≤ s._getMaxResidual env eqn_id depth
    ∧ (∀ i j k : Int, s.isPoint (s._dIdx depth) i j k →
        |s.residualAt env eqn_id (s._dIdx depth) i j k| ≤ s._getMaxResidual env eqn_id depth)
    ∧ (∃ i j k : Int, s.isPoint (s._dIdx depth) i j k
        ∧ s._getMaxResidual env eqn_id depth
          = |s.residualAt env eqn_id (s._dIdx depth) i j k|)
    ∧ (s._getMaxResidual env eqn_id depth = 0
        ↔ ∀ i j k : Int, s.isPoint (s._dIdx depth) i j k →
            s.residualAt env eqn_id (s._dIdx depth) i j k = 0)
    ∧ (∀ e : Nat, e < s.u_n → s._getMaxResidual env e depth ≤ s._getMaxResidualAllEqs env depth)
    ∧ ((s.u_n = 0 ∧ s._getMaxResidualAllEqs env depth = 0)
        ∨ ∃ e : Nat, e < s.u_n
            ∧ s._getMaxResidualAllEqs env depth = s._getMaxResidual env e depth) := by
  refine ⟨?_, getMaxResidual_nonneg env s eqn_id depth,
    fun i j k hp => getMaxResidual_ge env s eqn_id depth i j k hp,
    getMaxResidual_attained env s eqn_id depth hx hy hz, ?_, ?_, ?_⟩
  · intro residual_h hg i j k hp
    have hd := computeResidual_dims env s residual_h eqn_id depth
    unfold fas_grid_t.cell
    rw [hd.1, hd.2.1, hd.2.2.1, hg.2.1, hg.2.2.1, hg.2.2.2]
    exact computeResidual_point env s residual_h eqn_id depth i j k hg hp
  · constructor
    · intro h0 i j k hp
      have := getMaxResidual_ge env s eqn_id depth i j k hp
      rw [h0] at this
      exact abs_eq_zero.mp (le_antisymm this (abs_nonneg _))
    · intro hall
      obtain ⟨i, j, k, hp, he⟩ := getMaxResidual_attained env s eqn_id depth hx hy hz
      rw [he, hall i j k hp, abs_zero]
  · intro e he
    rw [getMaxResidualAllEqs_eq]
    exact foldl_max_ge_mem (fun e => s._getMaxResidual env e depth) _ 0 e
      (List.mem_range.mpr he)
  · rw [getMaxResidualAllEqs_eq]
    rcases foldl_max_attained (fun e => s._getMaxResidual env e depth) (List.range s.u_n) 0
      with h | ⟨e, he, h⟩
    · by_cases hn : s.u_n = 0
      · left
        exact ⟨hn, h⟩
      · right
        refine ⟨0, by omega, ?_⟩
        have hge := foldl_max_ge_mem (fun e => s._getMaxResidual env e depth)
          (List.range s.u_n) 0 0 (List.mem_range.mpr (by omega))
        rw [h] at hge ⊢
        exact le_antisymm (getMaxResidual_nonneg env s 0 depth) hge
    · right
      exact ⟨e, List.mem_range.mp he, h⟩

theorem residual_and_max_residual_witness :
    0 < polySolver.nx_h (polySolver._dIdx 2)
    ∧ 0 ≤ polySolver._getMaxResidual (centralEnv 2 2 2) 0 2
    ∧ ∃ i j k : Int, polySolver.isPoint (polySolver._dIdx 2) i j k
        ∧ polySolver._getMaxResidual (centralEnv 2 2 2) 0 2
          = |polySolver.residualAt (centralEnv 2 2 2) 0 (polySolver._dIdx 2) i j k| :=
  ⟨by decide,
    (residual_and_max_residual (centralEnv 2 2 2) polySolver 0 2 (by decide) (by decide)
      (by decide)).2.1,
    (residual_and_max_residual (centralEnv 2 2 2) polySolver 0 2 (by decide) (by decide)
      (by decide)).2.2.2.1⟩

/-! ## The FAS source update -/

theorem evalAtomStep_congr (env : Env) (s t : FASMultigrid) (d i j k pos_idx : Int)
    (hu : ∀ e, t.u_h e d = s.u_h e d) :
    evalAtomStep env t d i j k pos_idx = evalAtomStep env s d i j k pos_idx := by
  funext val ad
  simp only [evalAtomStep, hu]

/-- The point evaluator depends on the state only through the equations and the
extents, unknowns and densities of the level. -/
theorem evaluateEllipticEquationPt_congr (env : Env) (s t : FASMultigrid) (eqn_id : Nat)
    (d i j k : Int) (h : s.sameInputsAt t d) :
    t._evaluateEllipticEquationPt env eqn_id d i j k
      = s._evaluateEllipticEquationPt env eqn_id d i j k := by
  obtain ⟨h1, h2, h3, h4, h5, h6, h7⟩ := h
  unfold FASMultigrid._evaluateEllipticEquationPt
  rw [h1, h2, h3, h4, h5]
  congr 1
  funext res mol_id
  simp only [h6, evalAtomStep_congr env s t d i j k _ h7]

theorem sameInputsAt_refl (s : FASMultigrid) (d : Int) : s.sameInputsAt s d :=
  ⟨rfl, rfl, rfl, rfl, rfl, fun _ _ => rfl, fun _ => rfl⟩

theorem evaluateEllipticEquation_congr (env : Env) (s t : FASMultigrid)
    (result_h : Int → fas_grid_t) (eqn_id : Nat) (depth : Int)
    (hm : t.min_depth = s.min_depth) (h : s.sameInputsAt t (s._dIdx depth)) :
    t._evaluateEllipticEquation env result_h eqn_id depth
      = s._evaluateEllipticEquation env result_h eqn_id depth := by
  have hd : t._dIdx depth = s._dIdx depth := by simp [FASMultigrid._dIdx, hm]
  have hF : ∀ i j k : Int, t._evaluateEllipticEquationPt env eqn_id (s._dIdx depth) i j k
      = s._evaluateEllipticEquationPt env eqn_id (s._dIdx depth) i j k :=
    fun i j k => evaluateEllipticEquationPt_congr env s t eqn_id _ i j k h
  unfold FASMultigrid._evaluateEllipticEquation
  simp only [hd, h.2.2.1, h.2.2.2.1, h.2.2.2.2.1, hF]

theorem computeResidual_congr (env : Env) (s t : FASMultigrid)
    (residual_h : Int → fas_grid_t) (eqn_id : Nat) (depth : Int)
    (hm : t.min_depth = s.min_depth) (h : s.sameInputsAt t (s._dIdx depth))
    (hc : t.coarse_src_h eqn_id (s._dIdx depth) = s.coarse_src_h eqn_id (s._dIdx depth)) :
    t._computeResidual env residual_h eqn_id depth
      = s._computeResidual env residual_h eqn_id depth := by
  have hd : t._dIdx depth = s._dIdx depth := by simp [FASMultigrid._dIdx, hm]
  unfold FASMultigrid._computeResidual
  simp only [hd, hc, evaluateEllipticEquation_congr env s t residual_h eqn_id depth hm h]

theorem restrictStage_fields (env : Env) (s : FASMultigrid) (eqn_id : Nat) (fine_depth : Int) :
    (s.restrictStage env eqn_id fine_depth).min_depth = s.min_depth
    ∧ (s.restrictStage env eqn_id fine_depth).nx_h = s.nx_h
    ∧ (s.restrictStage env eqn_id fine_depth).ny_h = s.ny_h
    ∧ (s.restrictStage env eqn_id fine_depth).nz_h = s.nz_h
    ∧ (s.restrictStage env eqn_id fine_depth).molecule_n = s.molecule_n
    ∧ (s.restrictStage env eqn_id fine_depth).eqns = s.eqns
    ∧ (s.restrictStage env eqn_id fine_depth).rho_h = s.rho_h
    ∧ (s.restrictStage env eqn_id fine_depth).coarse_src_h = s.coarse_src_h
    ∧ (s.restrictStage env eqn_id fine_depth).u_h
        = Function.update s.u_h eqn_id (s._restrictFine2coarse (s.u_h eqn_id) fine_depth) :=
  ⟨rfl, rfl, rfl, rfl, rfl, rfl, rfl, rfl, rfl⟩

theorem restrictStage_tmp (env : Env) (s : FASMultigrid) (eqn_id : Nat) (fine_depth : Int) :
    (s.restrictStage env eqn_id fine_depth).tmp_h eqn_id (s._dIdx fine_depth - 1)
      = restrictLoop ((s._computeResidual env (s.tmp_h eqn_id) eqn_id fine_depth)
            (s._dIdx fine_depth))
          (s.tmp_h eqn_id (s._dIdx fine_depth - 1)) := by
  have hin : s.sameInputsAt
      (s.set_u_h eqn_id (s._restrictFine2coarse (s.u_h eqn_id) fine_depth))
      (s._dIdx fine_depth) := by
    refine ⟨rfl, rfl, rfl, rfl, rfl, fun _ _ => rfl, ?_⟩
    intro e
    by_cases he : e = eqn_id
    · subst he
      have hne : s._dIdx fine_depth ≠ s._dIdx fine_depth - 1 := by omega
      simp [FASMultigrid.set_u_h, FASMultigrid._restrictFine2coarse,
        Function.update_noteq hne]
    · simp [FASMultigrid.set_u_h, Function.update_noteq he]
  have hcongr := computeResidual_congr env s
    (s.set_u_h eqn_id (s._restrictFine2coarse (s.u_h eqn_id) fine_depth))
    (s.tmp_h eqn_id) eqn_id fine_depth rfl hin rfl
  have hne : s._dIdx fine_depth - 1 ≠ s._dIdx fine_depth := by omega
  have hother := computeResidual_other env s (s.tmp_h eqn_id) eqn_id fine_depth
    (s._dIdx fine_depth - 1) hne
  have e1 : (s.restrictStage env eqn_id fine_depth).tmp_h eqn_id
      = s._restrictFine2coarse
          ((s.set_u_h eqn_id
            (s._restrictFine2coarse (s.u_h eqn_id) fine_depth))._computeResidual env
            (s.tmp_h eqn_id) eqn_id fine_depth) fine_depth := by
    simp [FASMultigrid.restrictStage, FASMultigrid.set_tmp_h, FASMultigrid.set_u_h,
      FASMultigrid._restrictFine2coarse, FASMultigrid._dIdx]
  rw [e1, hcongr, restrictFine2coarse_apply, hother]

theorem sourceStage_fields (env : Env) (t : FASMultigrid) (eqn_id : Nat) (fine_depth : Int) :
    (t.sourceStage env eqn_id fine_depth).min_depth = t.min_depth
    ∧ (t.sourceStage env eqn_id fine_depth).nx_h = t.nx_h
    ∧ (t.sourceStage env eqn_id fine_depth).ny_h = t.ny_h
    ∧ (t.sourceStage env eqn_id fine_depth).nz_h = t.nz_h
    ∧ (t.sourceStage env eqn_id fine_depth).molecule_n = t.molecule_n
    ∧ (t.sourceStage env eqn_id fine_depth).eqns = t.eqns
    ∧ (t.sourceStage env eqn_id fine_depth).rho_h = t.rho_h
    ∧ (t.sourceStage env eqn_id fine_depth).u_h = t.u_h
    ∧ (t.sourceStage env eqn_id fine_depth).tmp_h = t.tmp_h :=
  ⟨rfl, rfl, rfl, rfl, rfl, rfl, rfl, rfl, rfl⟩

theorem sourceStage_coarse_src (env : Env) (t : FASMultigrid) (eqn_id : Nat)
    (fine_depth : Int) :
    (t.sourceStage env eqn_id fine_depth).coarse_src_h eqn_id
      = Function.update
          (t._evaluateEllipticEquation env (t.coarse_src_h eqn_id) eqn_id (fine_depth - 1))
          (t._dIdx (fine_depth - 1))
          ((FAS_LOOP3_N (t.nx_h (t._dIdx (fine_depth - 1))) (t.ny_h (t._dIdx (fine_depth - 1)))
              (t.nz_h (t._dIdx (fine_depth - 1)))).foldl
            (fun coarse_src (c : Int × Int × Int) =>
              coarse_src.set
                (H_INDEX c.1 c.2.1 c.2.2 (t.nx_h (t._dIdx (fine_depth - 1)))
                  (t.ny_h (t._dIdx (fine_depth - 1))) (t.nz_h (t._dIdx (fine_depth - 1))))
                ((fun (p : Int) (old : ℚ) =>
                    old + (t.tmp_h eqn_id (t._dIdx (fine_depth - 1)))._array p)
                  (H_INDEX c.1 c.2.1 c.2.2 (t.nx_h (t._dIdx (fine_depth - 1)))
                    (t.ny_h (t._dIdx (fine_depth - 1))) (t.nz_h (t._dIdx (fine_depth - 1))))
                  (coarse_src._array
                    (H_INDEX c.1 c.2.1 c.2.2 (t.nx_h (t._dIdx (fine_depth - 1)))
                      (t.ny_h (t._dIdx (fine_depth - 1)))
                      (t.nz_h (t._dIdx (fine_depth - 1)))))))
            ((t._evaluateEllipticEquation env (t.coarse_src_h eqn_id) eqn_id (fine_depth - 1))
              (t._dIdx (fine_depth - 1)))) := by
  simp only [FASMultigrid.sourceStage, FASMultigrid.set_coarse_src_h, Function.update_same,
    FASMultigrid._dIdx]
  rfl

theorem sourceStage_coarse_src_other_eqn (env : Env) (t : FASMultigrid) (eqn_id : Nat)
    (fine_depth : Int) (e : Nat) (he : e ≠ eqn_id) :
    (t.sourceStage env eqn_id fine_depth).coarse_src_h e = t.coarse_src_h e := by
  simp only [FASMultigrid.sourceStage, FASMultigrid.set_coarse_src_h,
    Function.update_noteq he]

theorem computeCoarseRestrictions_u_h (env : Env) (s : FASMultigrid) (eqn_id : Nat)
    (fine_depth : Int) :
    (s._computeCoarseRestrictions env eqn_id fine_depth).u_h
      = Function.update s.u_h eqn_id (s._restrictFine2coarse (s.u_h eqn_id) fine_depth) := rfl

/-- The only `coarse_src` grid written by `_computeCoarseRestrictions` is the one of
equation `eqn_id` at the coarser level. -/
theorem computeCoarseRestrictions_coarse_src_other (env : Env) (s : FASMultigrid)
    (eqn_id : Nat) (fine_depth : Int) (e : Nat) (d : Int)
    (h : e ≠ eqn_id ∨ d ≠ s._dIdx fine_depth - 1) :
    (s._computeCoarseRestrictions env eqn_id fine_depth).coarse_src_h e d
      = s.coarse_src_h e d := by
  unfold FASMultigrid._computeCoarseRestrictions
  by_cases he : e = eqn_id
  · subst he
    have hd : d ≠ s._dIdx fine_depth - 1 := by
      rcases h with h | h
      · exact absurd rfl h
      · exact h
    have hd' : d ≠ (s.restrictStage env e fine_depth)._dIdx (fine_depth - 1) := by
      show d ≠ s._dIdx (fine_depth - 1)
      simp only [FASMultigrid._dIdx] at hd ⊢
      omega
    rw [sourceStage_coarse_src, Function.update_noteq hd',
      evaluateEllipticEquation_other env _ _ e (fine_depth - 1) d hd']
    rfl
  · rw [sourceStage_coarse_src_other_eqn env _ eqn_id fine_depth e he]
    rfl

theorem sourceStage_coarse_src_point (env : Env) (t : FASMultigrid) (eqn_id : Nat)
    (fine_depth i j k : Int)
    (hx : 0 < t.nx_h (t._dIdx (fine_depth - 1))) (hy : 0 < t.ny_h (t._dIdx (fine_depth - 1)))
    (hz : 0 < t.nz_h (t._dIdx (fine_depth - 1)))
    (hp : t.isPoint (t._dIdx (fine_depth - 1)) i j k) :
    ((t.sourceStage env eqn_id fine_depth).coarse_src_h eqn_id
        (t._dIdx (fine_depth - 1)))._array (t.posIdx (t._dIdx (fine_depth - 1)) i j k)
      = t._evaluateEllipticEquationPt env eqn_id (t._dIdx (fine_depth - 1)) i j k
        + (t.tmp_h eqn_id (t._dIdx (fine_depth - 1)))._array
            (t.posIdx (t._dIdx (fine_depth - 1)) i j k) := by
  rw [sourceStage_coarse_src, Function.update_same, foldl_rmw
    (fun c : Int × Int × Int => H_INDEX c.1 c.2.1 c.2.2 (t.nx_h (t._dIdx (fine_depth - 1)))
      (t.ny_h (t._dIdx (fine_depth - 1))) (t.nz_h (t._dIdx (fine_depth - 1))))
    (fun (p : Int) (old : ℚ) => old + (t.tmp_h eqn_id (t._dIdx (fine_depth - 1)))._array p)
    _ _ (loop_positions_nodup _ _ _ hx hy hz)]
  have hmem : t.posIdx (t._dIdx (fine_depth - 1)) i j k
      ∈ (FAS_LOOP3_N (t.nx_h (t._dIdx (fine_depth - 1))) (t.ny_h (t._dIdx (fine_depth - 1)))
          (t.nz_h (t._dIdx (fine_depth - 1)))).map
        (fun c => H_INDEX c.1 c.2.1 c.2.2 (t.nx_h (t._dIdx (fine_depth - 1)))
          (t.ny_h (t._dIdx (fine_depth - 1))) (t.nz_h (t._dIdx (fine_depth - 1)))) :=
    List.mem_map.mpr ⟨(i, j, k), (mem_FAS_LOOP3_N _ _ _ _).mpr hp, rfl⟩
  rw [if_pos hmem, evaluateEllipticEquation_point env t (t.coarse_src_h eqn_id) eqn_id
    (fine_depth - 1) i j k hy hz hp]

theorem dIdx_pred (s : FASMultigrid) (d : Int) : s._dIdx d - 1 = s._dIdx (d - 1) := by
  simp only [FASMultigrid._dIdx]; omega

theorem computeCoarseRestrictions_coarse_src_point (env : Env) (s : FASMultigrid)
    (eqn_id : Nat) (fine_depth i j k : Int)
    (hx : 0 < s.nx_h (s._dIdx fine_depth - 1)) (hy : 0 < s.ny_h (s._dIdx fine_depth - 1))
    (hz : 0 < s.nz_h (s._dIdx fine_depth - 1))
    (hp : s.isPoint (s._dIdx fine_depth - 1) i j k) :
    ((s._computeCoarseRestrictions env eqn_id fine_depth).coarse_src_h eqn_id
        (s._dIdx fine_depth - 1))._array (s.posIdx (s._dIdx fine_depth - 1) i j k)
      = (s._computeCoarseRestrictions env eqn_id fine_depth)._evaluateEllipticEquationPt env
          eqn_id (s._dIdx fine_depth - 1) i j k
        + (restrictLoop ((s._computeResidual env (s.tmp_h eqn_id) eqn_id fine_depth)
              (s._dIdx fine_depth))
            (s.tmp_h eqn_id (s._dIdx fine_depth - 1)))._array
            (s.posIdx (s._dIdx fine_depth - 1) i j k) := by
  have hF : (s._computeCoarseRestrictions env eqn_id fine_depth)._evaluateEllipticEquationPt
        env eqn_id (s._dIdx fine_depth - 1) i j k
      = (s.restrictStage env eqn_id fine_depth)._evaluateEllipticEquationPt env eqn_id
          (s._dIdx fine_depth - 1) i j k :=
    (evaluateEllipticEquationPt_congr env (s.restrictStage env eqn_id fine_depth)
      (s._computeCoarseRestrictions env eqn_id fine_depth) eqn_id _ i j k
      ⟨rfl, rfl, rfl, rfl, rfl, fun _ _ => rfl, fun _ => rfl⟩)
  rw [hF, ← restrictStage_tmp env s eqn_id fine_depth]
  rw [dIdx_pred] at hx hy hz hp ⊢
  exact sourceStage_coarse_src_point env (s.restrictStage env eqn_id fine_depth) eqn_id
    fine_depth i j k hx hy hz hp

/-- C12: FAS source update. After `_computeCoarseRestrictions(eqn_id, fine_depth)` the
grid `u_h[eqn_id]` at the coarser depth is the restriction (the loop of
`_restrictFine2coarse`) of `u_h[eqn_id]` at `fine_depth`; `coarse_src_h[eqn_id]` at the
coarser depth equals, at every coarse point, `F_e` evaluated in the new state (so
with the restricted `u_e`) plus the restriction of the fine residual grid
`coarse_src_e - F_e(u)` computed at `fine_depth`; the fine-level `u_h[eqn_id]` and
`coarse_src_h[eqn_id]` are unchanged, and so is every `coarse_src` grid other than
the one of `eqn_id` at the coarser depth. -/
theorem computeCoarseRestrictions_fas_source_update (env : Env) (s : FASMultigrid)
    (eqn_id : Nat) (fine_depth : Int)
    (hx : 0 < s.nx_h (s._dIdx fine_depth - 1)) (hy : 0 < s.ny_h (s._dIdx fine_depth - 1))
    (hz : 0 < s.nz_h (s._dIdx fine_depth - 1)) :
    (s._computeCoarseRestrictions env eqn_id fine_depth).u_h eqn_id (s._dIdx fine_depth - 1)
        = restrictLoop (s.u_h eqn_id (s._dIdx fine_depth))
            (s.u_h eqn_id (s._dIdx fine_depth - 1))
    ∧ (∀ i j k : Int, s.isPoint (s._dIdx fine_depth - 1) i j k →
        ((s._computeCoarseRestrictions env eqn_id fine_depth).coarse_src_h eqn_id
            (s._dIdx fine_depth - 1))._array (s.posIdx (s._dIdx fine_depth - 1) i j k)
          = (s._computeCoarseRestrictions env eqn_id fine_depth)._evaluateEllipticEquationPt
              env eqn_id (s._dIdx fine_depth - 1) i j k
            + (restrictLoop ((s._computeResidual env (s.tmp_h eqn_id) eqn_id fine_depth)
                  (s._dIdx fine_depth))
                (s.tmp_h eqn_id (s._dIdx fine_depth - 1)))._array
                (s.posIdx (s._dIdx fine_depth - 1) i j k))
    ∧ (s.levelGrid (s._dIdx fine_depth) (s.tmp_h eqn_id (s._dIdx fine_depth)) →
        ∀ i j k : Int, s.isPoint (s._dIdx fine_depth) i j k →
          ((s._computeResidual env (s.tmp_h eqn_id) eqn_id fine_depth)
              (s._dIdx fine_depth))._array (s.posIdx (s._dIdx fine_depth) i j k)
            = (s.coarse_src_h eqn_id (s._dIdx fine_depth))._array
                (s.posIdx (s._dIdx fine_depth) i j k)
              - s._evaluateEllipticEquationPt env eqn_id (s._dIdx fine_depth) i j k)
    ∧ (s._computeCoarseRestrictions env eqn_id fine_depth).u_h eqn_id (s._dIdx fine_depth)
        = s.u_h eqn_id (s._dIdx fine_depth)
    ∧ (s._computeCoarseRestrictions env eqn_id fine_depth).coarse_src_h eqn_id
          (s._dIdx fine_depth)
        = s.coarse_src_h eqn_id (s._dIdx fine_depth)
    ∧ (∀ (e : Nat) (d : Int), e ≠ eqn_id ∨ d ≠ s._dIdx fine_depth - 1 →
        (s._computeCoarseRestrictions env eqn_id fine_depth).coarse_src_h e d
          = s.coarse_src_h e d) := by
  have hne : s._dIdx fine_depth ≠ s._dIdx fine_depth - 1 := by omega
  refine ⟨?_, ?_, ?_, ?_, ?_, ?_⟩
  · rw [computeCoarseRestrictions_u_h, Function.update_same, restrictFine2coarse_apply]
  · intro i j k hp
    exact computeCoarseRestrictions_coarse_src_point env s eqn_id fine_depth i j k hx hy hz hp
  · intro hg i j k hp
    exact computeResidual_point env s (s.tmp_h eqn_id) eqn_id fine_depth i j k hg hp
  · rw [computeCoarseRestrictions_u_h, Function.update_same]
    simp [FASMultigrid._restrictFine2coarse, Function.update_noteq hne]
  · exact computeCoarseRestrictions_coarse_src_other env s eqn_id fine_depth eqn_id _
      (Or.inr hne)
  · intro e d h
    exact computeCoarseRestrictions_coarse_src_other env s eqn_id fine_depth e d h

theorem computeCoarseRestrictions_fas_source_update_witness :
    0 < polySolver.nx_h (polySolver._dIdx 2 - 1)
    ∧ (polySolver._computeCoarseRestrictions (centralEnv 2 2 2) 0 2).u_h 0
          (polySolver._dIdx 2 - 1)
        = restrictLoop (polySolver.u_h 0 (polySolver._dIdx 2))
            (polySolver.u_h 0 (polySolver._dIdx 2 - 1))
    ∧ (polySolver._computeCoarseRestrictions (centralEnv 2 2 2) 0 2).coarse_src_h 0
          (polySolver._dIdx 2)
        = polySolver.coarse_src_h 0 (polySolver._dIdx 2) :=
  ⟨by decide,
    (computeCoarseRestrictions_fas_source_update (centralEnv 2 2 2) polySolver 0 2
      (by decide) (by decide) (by decide)).1,
    (computeCoarseRestrictions_fas_source_update (centralEnv 2 2 2) polySolver 0 2
      (by decide) (by decide) (by decide)).2.2.2.2.1⟩

/-! ## The line search `_getLambda` -/

theorem FAS_LOOP3_N_nil (nx ny nz : Int) (h : nx ≤ 0 ∨ ny ≤ 0 ∨ nz ≤ 0) :
    FAS_LOOP3_N nx ny nz = [] := by
  unfold FAS_LOOP3_N
  rcases h with h | h | h
  · rw [Int.toNat_eq_zero.mpr h]; rfl
  · rw [Int.toNat_eq_zero.mpr h]; simp
  · rw [Int.toNat_eq_zero.mpr h]; simp

theorem loop_positions_nodup_all (nx ny nz : Int) :
    ((FAS_LOOP3_N nx ny nz).map (fun c => H_INDEX c.1 c.2.1 c.2.2 nx ny nz)).Nodup := by
  by_cases h : 0 < nx ∧ 0 < ny ∧ 0 < nz
  · exact loop_positions_nodup nx ny nz h.1 h.2.1 h.2.2
  · rw [FAS_LOOP3_N_nil nx ny nz (by omega)]
    exact List.nodup_nil

theorem foldl_rmw_grid {α : Type} (loc : α → Int) (phi : Int → ℚ → ℚ) (l : List α)
    (g : fas_grid_t) (hnd : (l.map loc).Nodup) :
    l.foldl (fun cg x => cg.set (loc x) (phi (loc x) (cg._array (loc x)))) g
      = g.mapAt (l.map loc) phi := by
  have ha := fun p => foldl_rmw loc phi l g hnd p
  have hd := foldl_rmw_dims loc phi l g
  generalize l.foldl (fun cg x => cg.set (loc x) (phi (loc x) (cg._array (loc x)))) g = r
    at ha hd
  obtain ⟨ra, rx, ry, rz, rp⟩ := r
  obtain ⟨ga, gx, gy, gz, gp⟩ := g
  simp only [fas_grid_t.mapAt] at ha hd ⊢
  obtain ⟨h1, h2, h3, h4⟩ := hd
  subst h1 h2 h3 h4
  congr 1
  funext p
  exact ha p

/-- A loop over the equations that replaces the grid of `u_h[e]` at one level by a
function of the old grid and of `damping_v_h[e]` at that level. -/
theorem foldl_set_u_h (n : Nat) (d : Int) (upd : fas_grid_t → fas_grid_t → fas_grid_t)
    (s : FASMultigrid) :
    (List.range n).foldl (fun (t : FASMultigrid) (e : Nat) =>
        t.set_u_h e (Function.update (t.u_h e) d (upd (t.u_h e d) (t.damping_v_h e d)))) s
      = { s with u_h := fun e dd =>
            if e < n ∧ dd = d then upd (s.u_h e d) (s.damping_v_h e d) else s.u_h e dd } := by
  induction n with
  | zero => simp
  | succ n ih =>
    rw [List.range_succ, List.foldl_append, ih]
    simp only [List.foldl_cons, List.foldl_nil, FASMultigrid.set_u_h]
    congr 1
    funext e dd
    by_cases he : e = n
    · subst he
      by_cases hd : dd = d
      · subst hd
        simp
      · simp [Function.update_noteq hd, hd]
    · rw [Function.update_noteq he]
      have : e < n + 1 ↔ e < n := by omega
      simp only [this]

theorem lambdaStart_eq (s : FASMultigrid) (depth_idx : Int) :
    s.lambdaStart depth_idx = s.plusStep depth_idx 1 := by
  unfold FASMultigrid.lambdaStart FASMultigrid.plusStep
  have h := foldl_set_u_h s.u_n depth_idx (fun u damping_v =>
    (FAS_LOOP3_N (s.nx_h depth_idx) (s.ny_h depth_idx) (s.nz_h depth_idx)).foldl
      (fun (u : fas_grid_t) (ijk : Int × Int × Int) =>
        u.add (H_INDEX ijk.1 ijk.2.1 ijk.2.2 (s.nx_h depth_idx) (s.ny_h depth_idx)
            (s.nz_h depth_idx))
          (1 * damping_v._array (H_INDEX ijk.1 ijk.2.1 ijk.2.2 (s.nx_h depth_idx)
            (s.ny_h depth_idx) (s.nz_h depth_idx)))) u) s
  refine h.trans ?_
  congr 1
  funext e d
  by_cases hc : e < s.u_n ∧ d = depth_idx
  · rw [if_pos hc, if_pos hc]
    exact foldl_rmw_grid
      (fun c : Int × Int × Int => H_INDEX c.1 c.2.1 c.2.2 (s.nx_h depth_idx)
        (s.ny_h depth_idx) (s.nz_h depth_idx))
      (fun p old => old + 1 * (s.damping_v_h e depth_idx)._array p) _ _
      (loop_positions_nodup_all _ _ _)
  · rw [if_neg hc, if_neg hc]

theorem mapAt_congr (g : fas_grid_t) (cells : List Int) (phi psi : Int → ℚ → ℚ)
    (h : ∀ p, p ∈ cells → phi p (g._array p) = psi p (g._array p)) :
    g.mapAt cells phi = g.mapAt cells psi := by
  unfold fas_grid_t.mapAt
  simp only [fas_grid_t.mk.injEq, and_true]
  funext p
  by_cases hp : p ∈ cells
  · rw [if_pos hp, if_pos hp, h p hp]
  · rw [if_neg hp, if_neg hp]

theorem mapAt_mapAt (g : fas_grid_t) (cells : List Int) (phi psi : Int → ℚ → ℚ) :
    (g.mapAt cells phi).mapAt cells psi = g.mapAt cells (fun p old => psi p (phi p old)) := by
  unfold fas_grid_t.mapAt
  simp only [fas_grid_t.mk.injEq, and_true]
  funext p
  by_cases hp : p ∈ cells
  · simp only [if_pos hp]
  · simp only [if_neg hp]

theorem lambdaReduce_eq (s : FASMultigrid) (depth_idx : Int) :
    s.lambdaReduce depth_idx = s.plusStep depth_idx (-(1 / 100)) := by
  unfold FASMultigrid.lambdaReduce FASMultigrid.plusStep
  have h := foldl_set_u_h s.u_n depth_idx (fun u damping_v =>
    (FAS_LOOP3_N (s.nx_h depth_idx) (s.ny_h depth_idx) (s.nz_h depth_idx)).foldl
      (fun (u : fas_grid_t) (ijk : Int × Int × Int) =>
        u.set (H_INDEX ijk.1 ijk.2.1 ijk.2.2 (s.nx_h depth_idx) (s.ny_h depth_idx)
            (s.nz_h depth_idx))
          (u._array (H_INDEX ijk.1 ijk.2.1 ijk.2.2 (s.nx_h depth_idx) (s.ny_h depth_idx)
              (s.nz_h depth_idx))
            - (1 / 100) * damping_v._array (H_INDEX ijk.1 ijk.2.1 ijk.2.2 (s.nx_h depth_idx)
              (s.ny_h depth_idx) (s.nz_h depth_idx)))) u) s
  refine h.trans ?_
  congr 1
  funext e d
  by_cases hc : e < s.u_n ∧ d = depth_idx
  · rw [if_pos hc, if_pos hc]
    have hg := foldl_rmw_grid
      (fun c : Int × Int × Int => H_INDEX c.1 c.2.1 c.2.2 (s.nx_h depth_idx)
        (s.ny_h depth_idx) (s.nz_h depth_idx))
      (fun p old => old - (1 / 100) * (s.damping_v_h e depth_idx)._array p)
      (FAS_LOOP3_N (s.nx_h depth_idx) (s.ny_h depth_idx) (s.nz_h depth_idx))
      (s.u_h e depth_idx) (loop_positions_nodup_all _ _ _)
    refine hg.trans ?_
    exact mapAt_congr _ _ _ _ (fun p _ => by ring)
  · rw [if_neg hc, if_neg hc]

/-- Stepping twice along the correction adds the step lengths. -/
theorem plusStep_plusStep (s : FASMultigrid) (depth_idx : Int) (a b : ℚ) :
    (s.plusStep depth_idx a).plusStep depth_idx b = s.plusStep depth_idx (a + b) := by
  unfold FASMultigrid.plusStep
  simp only
  congr 1
  funext e d
  by_cases hc : e < s.u_n ∧ d = depth_idx
  · obtain ⟨he, hd⟩ := hc
    subst hd
    simp only [he, and_self, if_true]
    show ((s.u_h e d).mapAt (s.cells d)
        (fun p old => old + a * (s.damping_v_h e d)._array p)).mapAt
        (s.cells d) (fun p old => old + b * (s.damping_v_h e d)._array p) = _
    rw [mapAt_mapAt]
    exact mapAt_congr _ _ _ _ (fun p _ => by ring)
  · simp only [if_neg hc]

theorem lambdaReduce_plusStep (s : FASMultigrid) (depth_idx : Int) (j : Nat) :
    (s.plusStep depth_idx (lambdaOf j)).lambdaReduce depth_idx
      = s.plusStep depth_idx (lambdaOf (j + 1)) := by
  rw [lambdaReduce_eq, plusStep_plusStep]
  congr 1
  unfold lambdaOf
  push_cast
  ring

/-- The loop of the line search when every remaining test fails. -/
theorem getLambdaLoop_fail (env : Env) (s : FASMultigrid) (depth_idx : Int) (norm : ℚ)
    (n k : Nat)
    (h : ∀ j, k ≤ j → j < k + n →
      norm < (s.plusStep depth_idx (lambdaOf j)).defectSum env depth_idx) :
    getLambdaLoop env depth_idx norm n (s.plusStep depth_idx (lambdaOf k))
      = (false, s.plusStep depth_idx (lambdaOf (k + n))) := by
  induction n generalizing k with
  | zero => rfl
  | succ n ih =>
    have h0 := h k (le_refl k) (by omega)
    rw [getLambdaLoop, if_neg (not_le.mpr h0), lambdaReduce_plusStep,
      ih (k + 1) (fun j hj1 hj2 => h j (by omega) (by omega))]
    congr 3
    omega

/-- The loop of the line search when test `j` is the first that succeeds. -/
theorem getLambdaLoop_first (env : Env) (s : FASMultigrid) (depth_idx : Int) (norm : ℚ)
    (n k j : Nat) (hkj : k ≤ j) (hjn : j < k + n)
    (hj : (s.plusStep depth_idx (lambdaOf j)).defectSum env depth_idx ≤ norm)
    (h : ∀ i, k ≤ i → i < j →
      norm < (s.plusStep depth_idx (lambdaOf i)).defectSum env depth_idx) :
    getLambdaLoop env depth_idx norm n (s.plusStep depth_idx (lambdaOf k))
      = (true, s.plusStep depth_idx (lambdaOf j)) := by
  induction n generalizing k with
  | zero => omega
  | succ n ih =>
    by_cases hk : k = j
    · subst hk
      rw [getLambdaLoop, if_pos hj]
    · have h0 := h k (le_refl k) (by omega)
      rw [getLambdaLoop, if_neg (not_le.mpr h0), lambdaReduce_plusStep,
        ih (k + 1) (by omega) (by omega) (fun i hi1 hi2 => h i (by omega) hi2)]

theorem getLambda_eq (env : Env) (s : FASMultigrid) (depth : Int) (norm : ℚ) :
    s._getLambda env depth norm
      = getLambdaLoop env (s._dIdx depth) norm 100 (s.plusStep (s._dIdx depth) (lambdaOf 0)) := by
  show getLambdaLoop env (s._dIdx depth) norm 100 (s.lambdaStart (s._dIdx depth)) = _
  rw [lambdaStart_eq]
  simp [lambdaOf]

/-- The line search fails exactly when none of the 100 tests succeeds, and then
leaves `u + 0 * v`. -/
theorem getLambda_false (env : Env) (s : FASMultigrid) (depth : Int) (norm : ℚ)
    (h : ∀ j, j < 100 →
      norm < (s.plusStep (s._dIdx depth) (lambdaOf j)).defectSum env (s._dIdx depth)) :
    s._getLambda env depth norm = (false, s.plusStep (s._dIdx depth) (lambdaOf 100)) := by
  rw [getLambda_eq]
  exact getLambdaLoop_fail env s _ norm 100 0 (fun j _ hj => h j (by omega))

/-- The line search stops at the first test that succeeds. -/
theorem getLambda_true (env : Env) (s : FASMultigrid) (depth : Int) (norm : ℚ) (j : Nat)
    (hj100 : j < 100)
    (hj : (s.plusStep (s._dIdx depth) (lambdaOf j)).defectSum env (s._dIdx depth) ≤ norm)
    (h : ∀ i, i < j →
      norm < (s.plusStep (s._dIdx depth) (lambdaOf i)).defectSum env (s._dIdx depth)) :
    s._getLambda env depth norm = (true, s.plusStep (s._dIdx depth) (lambdaOf j)) := by
  rw [getLambda_eq]
  exact getLambdaLoop_first env s _ norm 100 0 j (Nat.zero_le j) (by omega) hj
    (fun i _ hi => h i hi)

/-- The flag of the line search: `true` exactly when some test succeeds. -/
theorem getLambda_flag (env : Env) (s : FASMultigrid) (depth : Int) (norm : ℚ) :
    (s._getLambda env depth norm).1 = true
      ↔ ∃ j, j < 100
          ∧ (s.plusStep (s._dIdx depth) (lambdaOf j)).defectSum env (s._dIdx depth) ≤ norm := by
  constructor
  · intro ht
    by_contra hne
    have hall : ∀ j, j < 100 →
        norm < (s.plusStep (s._dIdx depth) (lambdaOf j)).defectSum env (s._dIdx depth) := by
      intro j hj
      by_contra hc
      exact hne ⟨j, hj, not_lt.mp hc⟩
    rw [getLambda_false env s depth norm hall] at ht
    exact Bool.false_ne_true ht
  · rintro ⟨j, hj, hle⟩
    have hex : ∃ j, j < 100
        ∧ (s.plusStep (s._dIdx depth) (lambdaOf j)).defectSum env (s._dIdx depth) ≤ norm :=
      ⟨j, hj, hle⟩
    classical
    have hmin := Nat.find_spec hex
    have hlt : ∀ i, i < Nat.find hex →
        norm < (s.plusStep (s._dIdx depth) (lambdaOf i)).defectSum env (s._dIdx depth) := by
      intro i hi
      have := Nat.find_min hex hi
      by_contra hc
      exact this ⟨by omega, not_lt.mp hc⟩
    rw [getLambda_true env s depth norm (Nat.find hex) hmin.1 hmin.2 hlt]

theorem plusStep_point (s : FASMultigrid) (depth_idx : Int) (lam : ℚ) (e : Nat) (i j k : Int)
    (he : e < s.u_n) (hp : s.isPoint depth_idx i j k) :
    ((s.plusStep depth_idx lam).u_h e depth_idx)._array (s.posIdx depth_idx i j k)
      = (s.u_h e depth_idx)._array (s.posIdx depth_idx i j k)
        + lam * (s.damping_v_h e depth_idx)._array (s.posIdx depth_idx i j k) := by
  have hmem : s.posIdx depth_idx i j k ∈ s.cells depth_idx :=
    List.mem_map.mpr ⟨(i, j, k), (mem_FAS_LOOP3_N _ _ _ _).mpr hp, rfl⟩
  simp [FASMultigrid.plusStep, fas_grid_t.mapAt, he, hmem]

/-- C14: line search. With `u0` the unknowns before the call and `v` the correction
(`s.plusStep d lam` is the state `u0 + lam * v` on the points of the level),
`_getLambda(depth, norm)` tests the factors `lambdaOf j = 1 - j / 100` for
`j = 0, 1, ..., 99` in this order: when test `j` is the first whose sum of squared
defects is `<= norm` it returns `true` and leaves `u = u0 + lambdaOf j * v`; it
returns `true` exactly when some `j < 100` passes the test; when none does it
returns `false` (and leaves `u0 + lambdaOf 100 * v`). -/
theorem getLambda_line_search (env : Env) (s : FASMultigrid) (depth : Int) (norm : ℚ) :
    (∀ j : Nat, j < 100 →
        (∀ i : Nat, i < j →
          norm < (s.plusStep (s._dIdx depth) (lambdaOf i)).defectSum env (s._dIdx depth)) →
        (s.plusStep (s._dIdx depth) (lambdaOf j)).defectSum env (s._dIdx depth) ≤ norm →
        s._getLambda env depth norm = (true, s.plusStep (s._dIdx depth) (lambdaOf j)))
    ∧ ((s._getLambda env depth norm).1 = true
        ↔ ∃ j : Nat, j < 100
            ∧ (s.plusStep (s._dIdx depth) (lambdaOf j)).defectSum env (s._dIdx depth) ≤ norm)
    ∧ ((∀ j : Nat, j < 100 →
          norm < (s.plusStep (s._dIdx depth) (lambdaOf j)).defectSum env (s._dIdx depth)) →
        s._getLambda env depth norm = (false, s.plusStep (s._dIdx depth) (lambdaOf 100)))
    ∧ (∀ (lam : ℚ) (e : Nat) (i j k : Int), e < s.u_n → s.isPoint (s._dIdx depth) i j k →
        ((s.plusStep (s._dIdx depth) lam).u_h e (s._dIdx depth))._array
            (s.posIdx (s._dIdx depth) i j k)
          = (s.u_h e (s._dIdx depth))._array (s.posIdx (s._dIdx depth) i j k)
            + lam * (s.damping_v_h e (s._dIdx depth))._array (s.posIdx (s._dIdx depth) i j k))
    ∧ (∀ lam : ℚ, (s.plusStep (s._dIdx depth) lam).coarse_src_h = s.coarse_src_h
        ∧ (s.plusStep (s._dIdx depth) lam).damping_v_h = s.damping_v_h
        ∧ ∀ (e : Nat) (d : Int), d ≠ s._dIdx depth →
            (s.plusStep (s._dIdx depth) lam).u_h e d = s.u_h e d)
    ∧ lambdaOf 0 = 1 ∧ lambdaOf 1 = 99 / 100 ∧ lambdaOf 99 = 1 / 100 := by
  refine ⟨fun j hj hlt hle => getLambda_true env s depth norm j hj hle hlt,
    getLambda_flag env s depth norm, fun h => getLambda_false env s depth norm h,
    fun lam e i j k he hp => plusStep_point s _ lam e i j k he hp, ?_, ?_⟩
  · intro lam
    refine ⟨rfl, rfl, ?_⟩
    intro e d hd
    simp [FASMultigrid.plusStep, hd]
  · unfold lambdaOf
    norm_num

/-! ## What the inner solve and the smoother leave untouched -/

theorem foldl_preserves {α β : Type} (P : β → Prop) (f : β → α → β)
    (h : ∀ b a, P b → P (f b a)) (l : List α) (b : β) (hb : P b) : P (l.foldl f b) := by
  induction l generalizing b with
  | nil => exact hb
  | cons x xs ih => exact ih (f b x) (h b x hb)

theorem eraseSolve_of_eraseWork (s t : FASMultigrid) (h : t.eraseWork = s.eraseWork) :
    t.eraseSolve = s.eraseSolve := by
  have h1 : t.eraseWork.eraseSolve = s.eraseWork.eraseSolve :=
    congrArg FASMultigrid.eraseSolve h
  exact h1

theorem u_h_of_eraseWork (s t : FASMultigrid) (h : t.eraseWork = s.eraseWork) :
    t.u_h = s.u_h := by
  have h1 : t.eraseWork.u_h = s.eraseWork.u_h := congrArg FASMultigrid.u_h h
  exact h1

theorem sameInputsAt_of_eraseWork (s t : FASMultigrid) (h : t.eraseWork = s.eraseWork)
    (d : Int) : s.sameInputsAt t d := by
  have h1 : t.eraseWork.molecule_n = s.eraseWork.molecule_n := congrArg FASMultigrid.molecule_n h
  have h2 : t.eraseWork.eqns = s.eraseWork.eqns := congrArg FASMultigrid.eqns h
  have h3 : t.eraseWork.nx_h = s.eraseWork.nx_h := congrArg FASMultigrid.nx_h h
  have h4 : t.eraseWork.ny_h = s.eraseWork.ny_h := congrArg FASMultigrid.ny_h h
  have h5 : t.eraseWork.nz_h = s.eraseWork.nz_h := congrArg FASMultigrid.nz_h h
  have h6 : t.eraseWork.rho_h = s.eraseWork.rho_h := congrArg FASMultigrid.rho_h h
  have h7 : t.eraseWork.u_h = s.eraseWork.u_h := congrArg FASMultigrid.u_h h
  exact ⟨h1, h2, congrFun h3 d, congrFun h4 d, congrFun h5 d,
    fun e m => congrFun (congrFun (congrFun h6 e) m) d, fun e => congrFun (congrFun h7 e) d⟩

theorem jacPoint_eraseWork (env : Env) (s : FASMultigrid) (depth_idx : Int) (eqn_id : Nat)
    (nx ny nz : Int) (ijk : Int × Int × Int) :
    (s.jacPoint env depth_idx eqn_id nx ny nz ijk).eraseWork = s.eraseWork := rfl

theorem jacSweep_eraseWork (env : Env) (s : FASMultigrid) (depth_idx : Int) :
    (s.jacSweep env depth_idx).eraseWork = s.eraseWork := by
  unfold FASMultigrid.jacSweep
  dsimp only
  refine foldl_preserves (fun t : FASMultigrid => t.eraseWork = s.eraseWork) _ ?_ _ _ rfl
  intro b e hb
  refine foldl_preserves (fun t : FASMultigrid => t.eraseWork = s.eraseWork) _ ?_ _ _ hb
  intro c ijk hc
  exact (jacPoint_eraseWork env c depth_idx e _ _ _ ijk).trans hc

theorem zeroDampingV_eraseWork (s : FASMultigrid) (depth_idx : Int) :
    (s.zeroDampingV depth_idx).eraseWork = s.eraseWork := by
  unfold FASMultigrid.zeroDampingV
  dsimp only
  refine foldl_preserves (fun t : FASMultigrid => t.eraseWork = s.eraseWork) _ ?_ _ _ rfl
  intro b ijk hb
  refine foldl_preserves (fun t : FASMultigrid => t.eraseWork = s.eraseWork) _ ?_ _ _ hb
  intro c e hc
  exact hc

theorem jacobianRelaxLoop_eraseWork (env : Env) (depth_idx : Int) (norm C : ℚ) (p : Int)
    (fuel : Nat) (s : FASMultigrid) (norm_r : ℚ) (cnt : Int) (r : JacResult)
    (h : jacobianRelaxLoop env depth_idx norm C p fuel s norm_r cnt = some r) :
    r.state.eraseWork = s.eraseWork := by
  induction fuel generalizing s norm_r cnt with
  | zero => simp [jacobianRelaxLoop] at h
  | succ fuel ih =>
    rw [jacobianRelaxLoop] at h
    by_cases h1 : norm_r ≥ min (env.pow norm ((p + 1 : Int) : ℚ) * C) norm
    · rw [if_pos h1] at h
      dsimp only at h
      split_ifs at h with h2
      · simp only [Option.some.injEq] at h
        rw [← h]
        exact jacSweep_eraseWork env s depth_idx
      · exact (ih _ _ _ h).trans (jacSweep_eraseWork env s depth_idx)
    · rw [if_neg h1] at h
      simp only [Option.some.injEq] at h
      rw [← h]

theorem jacobianRelax_eraseWork (env : Env) (fuel : Nat) (s : FASMultigrid) (depth : Int)
    (norm C : ℚ) (p : Int) (r : JacResult)
    (h : s._jacobianRelax env fuel depth norm C p = some r) :
    r.state.eraseWork = s.eraseWork :=
  (jacobianRelaxLoop_eraseWork env _ norm C p fuel _ _ _ r h).trans
    (zeroDampingV_eraseWork s _)

theorem defectSum_congr (env : Env) (s t : FASMultigrid) (h : t.eraseWork = s.eraseWork)
    (d : Int) : t.defectSum env d = s.defectSum env d := by
  have hF : ∀ e i j k, t._evaluateEllipticEquationPt env e d i j k
      = s._evaluateEllipticEquationPt env e d i j k :=
    fun e i j k => evaluateEllipticEquationPt_congr env s t e d i j k
      (sameInputsAt_of_eraseWork s t h d)
  have hn : t.eraseWork.u_n = s.eraseWork.u_n := congrArg FASMultigrid.u_n h
  have hx : t.eraseWork.nx_h = s.eraseWork.nx_h := congrArg FASMultigrid.nx_h h
  have hy : t.eraseWork.ny_h = s.eraseWork.ny_h := congrArg FASMultigrid.ny_h h
  have hz : t.eraseWork.nz_h = s.eraseWork.nz_h := congrArg FASMultigrid.nz_h h
  have hc : t.eraseWork.coarse_src_h = s.eraseWork.coarse_src_h :=
    congrArg FASMultigrid.coarse_src_h h
  change t.u_n = s.u_n at hn
  change t.nx_h = s.nx_h at hx
  change t.ny_h = s.ny_h at hy
  change t.nz_h = s.nz_h at hz
  change t.coarse_src_h = s.coarse_src_h at hc
  unfold FASMultigrid.defectSum
  simp only [hn, hx, hy, hz, hc, hF]

/-- A loop over a pair `(accumulator, state)` whose accumulator does not depend on
the part of the state that the loop changes. -/
theorem foldl_pair {α β σ : Type} (P : σ → Prop) (f : β × σ → α → β × σ) (g : β → α → β)
    (h : ∀ b st a, P st → (f (b, st) a).1 = g b a ∧ P (f (b, st) a).2)
    (l : List α) (b : β) (st : σ) (hst : P st) :
    (l.foldl f (b, st)).1 = l.foldl g b ∧ P (l.foldl f (b, st)).2 := by
  induction l generalizing b st with
  | nil => exact ⟨rfl, hst⟩
  | cons x xs ih =>
    rw [List.foldl_cons, List.foldl_cons]
    have hx := h b st x hst
    have hpair : f (b, st) x = (g b x, (f (b, st) x).2) := Prod.ext hx.1 rfl
    rw [hpair]
    exact ih (g b x) (f (b, st) x).2 hx.2

/-- The `norm` that the smoother passes to the inner solve and to the line search
is the sum of squared defects of `u`, and computing it changes `jac_rhs_h` only. -/
theorem normAndRhs_spec (env : Env) (s : FASMultigrid) (d : Int) :
    (s.normAndRhs env d).1 = s.defectSum env d
    ∧ (s.normAndRhs env d).2.eraseWork = s.eraseWork := by
  unfold FASMultigrid.normAndRhs FASMultigrid.defectSum
  dsimp only
  refine foldl_pair (fun t : FASMultigrid => t.eraseWork = s.eraseWork) _ _ ?_ _ 0 s rfl
  intro b st e hst
  refine foldl_pair (fun t : FASMultigrid => t.eraseWork = s.eraseWork) _ _ ?_ _ b st hst
  intro c st2 ijk hst2
  refine ⟨?_, ?_⟩
  · have hF := evaluateEllipticEquationPt_congr env s st2 e d ijk.1 ijk.2.1 ijk.2.2
      (sameInputsAt_of_eraseWork s st2 hst2 d)
    have hc : st2.eraseWork.coarse_src_h = s.eraseWork.coarse_src_h :=
      congrArg FASMultigrid.coarse_src_h hst2
    change st2.coarse_src_h = s.coarse_src_h at hc
    simp only [hF, hc]
  · exact hst2

theorem getLambdaLoop_ok (env : Env) (depth_idx : Int) (norm : ℚ) (n : Nat) (s : FASMultigrid)
    (h : (getLambdaLoop env depth_idx norm n s).1 = true) :
    (getLambdaLoop env depth_idx norm n s).2.defectSum env depth_idx ≤ norm := by
  induction n generalizing s with
  | zero => simp [getLambdaLoop] at h
  | succ n ih =>
    rw [getLambdaLoop] at h ⊢
    by_cases hc : s.defectSum env depth_idx ≤ norm
    · rw [if_pos hc]
      exact hc
    · rw [if_neg hc] at h ⊢
      exact ih _ h

theorem plusStep_eraseSolve (s : FASMultigrid) (depth_idx : Int) (lam : ℚ) :
    (s.plusStep depth_idx lam).eraseSolve = s.eraseSolve := rfl

theorem plusStep_work (s : FASMultigrid) (depth_idx : Int) (lam : ℚ) :
    (s.plusStep depth_idx lam).damping_v_h = s.damping_v_h
    ∧ (s.plusStep depth_idx lam).jac_rhs_h = s.jac_rhs_h := ⟨rfl, rfl⟩

theorem getLambdaLoop_eraseSolve (env : Env) (depth_idx : Int) (norm : ℚ) (n : Nat)
    (s : FASMultigrid) :
    (getLambdaLoop env depth_idx norm n s).2.eraseSolve = s.eraseSolve := by
  induction n generalizing s with
  | zero => rfl
  | succ n ih =>
    rw [getLambdaLoop]
    by_cases hc : s.defectSum env depth_idx ≤ norm
    · rw [if_pos hc]
    · rw [if_neg hc, ih, lambdaReduce_eq]
      rfl

theorem getLambda_eraseSolve (env : Env) (s : FASMultigrid) (depth : Int) (norm : ℚ) :
    (s._getLambda env depth norm).2.eraseSolve = s.eraseSolve := by
  rw [getLambda_eq, getLambdaLoop_eraseSolve]
  rfl

theorem getLambda_ok (env : Env) (s : FASMultigrid) (depth : Int) (norm : ℚ)
    (h : (s._getLambda env depth norm).1 = true) :
    (s._getLambda env depth norm).2.defectSum env (s._dIdx depth) ≤ norm :=
  getLambdaLoop_ok env (s._dIdx depth) norm 100 _ h

theorem linState_jac0 (a b r0 r1 x y : ℚ) :
    (linState a b r0 r1 x y)._evaluateIterationForJacEquation (centralEnv 1 1 1) 0 0 0 0 0 0 0 0
      = (0, 1) := by
  simp [FASMultigrid._evaluateIterationForJacEquation, linState, List.range_succ,
    FASMultigrid.jacMolInit, jacAtomStep, centralEnv, fas_grid_t.empty, mkGrid, H_INDEX]

theorem linState_jac1 (a b r0 r1 x y : ℚ) :
    (linState a b r0 r1 x y)._evaluateIterationForJacEquation (centralEnv 1 1 1) 1 0 0 0 0 0 0 1
      = (0, 1) := by
  simp [FASMultigrid._evaluateIterationForJacEquation, linState, List.range_succ,
    FASMultigrid.jacMolInit, jacAtomStep, centralEnv, fas_grid_t.empty, mkGrid, H_INDEX]

theorem linState_der (a b r0 r1 x y : ℚ) :
    (linState a b r0 r1 x y)._evaluateDerEllipticEquation (centralEnv 1 1 1) 0 0 0 0 0 0 = x
    ∧ (linState a b r0 r1 x y)._evaluateDerEllipticEquation (centralEnv 1 1 1) 0 0 0 0 0 1
        = a * y
    ∧ (linState a b r0 r1 x y)._evaluateDerEllipticEquation (centralEnv 1 1 1) 1 0 0 0 0 0
        = b * x
    ∧ (linState a b r0 r1 x y)._evaluateDerEllipticEquation (centralEnv 1 1 1) 1 0 0 0 0 1
        = y := by
  simp [FASMultigrid._evaluateDerEllipticEquation, linState, List.range_succ,
    FASMultigrid.derMolInit, derAtomStep, centralEnv, fas_grid_t.empty, mkGrid, H_INDEX]

theorem H_INDEX_origin : H_INDEX 0 0 0 1 1 1 = 0 := by decide

theorem FAS_LOOP3_N_one : FAS_LOOP3_N 1 1 1 = [(0, 0, 0)] := by decide

theorem linState_jacPoint0 (a b r0 r1 x y : ℚ) :
    (linState a b r0 r1 x y).jacPoint (centralEnv 1 1 1) 0 0 1 1 1 (0, 0, 0)
      = linState a b r0 r1 (r0 - a * y) y := by
  have hn : (linState a b r0 r1 x y).u_n = 2 := rfl
  have hr : ((linState a b r0 r1 x y).jac_rhs_h 0 0)._array 0 = r0 := rfl
  simp only [FASMultigrid.jacPoint, hn, List.range_succ, List.range_zero, List.nil_append,
    List.cons_append, List.foldl_cons, List.foldl_nil, H_INDEX_origin, linState_jac0,
    (linState_der a b r0 r1 x y).2.1, hr]
  simp only [linState, FASMultigrid.set_damping_v_h, FASMultigrid.mk.injEq, true_and, and_true]
  funext e d
  by_cases he : e = 0
  · subst he
    by_cases hd : d = 0
    · subst hd
      simp only [Function.update_same, fas_grid_t.set, mkGrid, fas_grid_t.mk.injEq, and_true]
      funext p
      by_cases hp : p = 0
      · subst hp
        simp
        ring
      · simp [Function.update_noteq hp, hp]
    · simp [Function.update_noteq hd, hd]
  · simp [Function.update_noteq he, he]

theorem linState_jacPoint1 (a b r0 r1 x y : ℚ) :
    (linState a b r0 r1 x y).jacPoint (centralEnv 1 1 1) 0 1 1 1 1 (0, 0, 0)
      = linState a b r0 r1 x (r1 - b * x) := by
  have hn : (linState a b r0 r1 x y).u_n = 2 := rfl
  have hr : ((linState a b r0 r1 x y).jac_rhs_h 1 0)._array 0 = r1 := rfl
  simp only [FASMultigrid.jacPoint, hn, List.range_succ, List.range_zero, List.nil_append,
    List.cons_append, List.foldl_cons, List.foldl_nil, H_INDEX_origin, linState_jac1,
    (linState_der a b r0 r1 x y).2.2.1, hr]
  simp only [linState, FASMultigrid.set_damping_v_h, FASMultigrid.mk.injEq, true_and, and_true]
  funext e d
  by_cases he : e = 1
  · subst he
    by_cases hd : d = 0
    · subst hd
      simp only [Function.update_same, fas_grid_t.set, mkGrid, fas_grid_t.mk.injEq, and_true]
      funext p
      by_cases hp : p = 0
      · subst hp
        simp
        ring
      · simp [Function.update_noteq hp, hp]
    · simp [Function.update_noteq hd, hd]
  · simp [Function.update_noteq he, he]

/-- One sweep on the example state is one Gauss-Seidel step of the `2 x 2` system. -/
theorem linState_jacSweep (a b r0 r1 x y : ℚ) :
    (linState a b r0 r1 x y).jacSweep (centralEnv 1 1 1) 0
      = linState a b r0 r1 (r0 - a * y) (r1 - b * (r0 - a * y)) := by
  have hn : (linState a b r0 r1 x y).u_n = 2 := rfl
  have hx : (linState a b r0 r1 x y).nx_h 0 = 1 := rfl
  have hy : (linState a b r0 r1 x y).ny_h 0 = 1 := rfl
  have hz : (linState a b r0 r1 x y).nz_h 0 = 1 := rfl
  simp only [FASMultigrid.jacSweep, hn, hx, hy, hz, FAS_LOOP3_N_one, List.range_succ,
    List.range_zero, List.nil_append, List.cons_append, List.foldl_cons, List.foldl_nil,
    linState_jacPoint0, linState_jacPoint1]

theorem linState_jacResidual (a b r0 r1 x y : ℚ) :
    (linState a b r0 r1 x y).jacResidual (centralEnv 1 1 1) 0
      = (x + a * y - r0) * (x + a * y - r0) + (b * x + y - r1) * (b * x + y - r1) := by
  have hn : (linState a b r0 r1 x y).u_n = 2 := rfl
  have hx : (linState a b r0 r1 x y).nx_h 0 = 1 := rfl
  have hy : (linState a b r0 r1 x y).ny_h 0 = 1 := rfl
  have hz : (linState a b r0 r1 x y).nz_h 0 = 1 := rfl
  have hr0 : ((linState a b r0 r1 x y).jac_rhs_h 0 0)._array 0 = r0 := rfl
  have hr1 : ((linState a b r0 r1 x y).jac_rhs_h 1 0)._array 0 = r1 := rfl
  obtain ⟨d00, d01, d10, d11⟩ := linState_der a b r0 r1 x y
  simp only [FASMultigrid.jacResidual, hn, hx, hy, hz, FAS_LOOP3_N_one, List.range_succ,
    List.range_zero, List.nil_append, List.cons_append, List.foldl_cons, List.foldl_nil,
    H_INDEX_origin, d00, d01, d10, d11, hr0, hr1]
  ring

theorem linState_zeroDampingV (a b r0 r1 x y : ℚ) :
    (linState a b r0 r1 x y).zeroDampingV 0 = linState a b r0 r1 0 0 := by
  have hn0 : (linState a b r0 r1 x y).u_n = 2 := rfl
  have hx : (linState a b r0 r1 x y).nx_h 0 = 1 := rfl
  have hy : (linState a b r0 r1 x y).ny_h 0 = 1 := rfl
  have hz : (linState a b r0 r1 x y).nz_h 0 = 1 := rfl
  simp only [FASMultigrid.zeroDampingV, hx, hy, hz, FAS_LOOP3_N_one, List.foldl_cons,
    List.foldl_nil, hn0, List.range_succ, List.range_zero, List.nil_append, List.cons_append,
    H_INDEX_origin]
  simp only [linState, FASMultigrid.set_damping_v_h, FASMultigrid.mk.injEq, true_and, and_true]
  funext e d
  by_cases hd : d = 0
  · subst hd
    by_cases he0 : e = 0
    · subst he0
      simp only [fas_grid_t.set, mkGrid, fas_grid_t.mk.injEq, and_true]
      simp
      funext p
      simp only [Function.update_apply]
      split_ifs <;> rfl
    · by_cases he1 : e = 1
      · subst he1
        simp only [fas_grid_t.set, mkGrid, fas_grid_t.mk.injEq, and_true]
        simp
        funext p
        simp only [Function.update_apply]
        split_ifs <;> rfl
      · simp [Function.update_noteq he0, Function.update_noteq he1, he0, he1]
  · by_cases he0 : e = 0
    · subst he0
      simp [Function.update_noteq hd, hd]
    · by_cases he1 : e = 1
      · subst he1
        simp [Function.update_noteq hd, hd]
      · simp [Function.update_noteq he0, Function.update_noteq he1, he0, he1, hd]

/-! ## The inner solve on the example system -/

theorem sweeps_succ_left (env : Env) (s : FASMultigrid) (depth_idx : Int) (k : Nat) :
    s.sweeps env depth_idx (k + 1) = (s.jacSweep env depth_idx).sweeps env depth_idx k := by
  induction k with
  | zero => rfl
  | succ k ih =>
    rw [FASMultigrid.sweeps, ih]
    rfl

/-- A call of the inner loop that returns has made `cnt_final - cnt` sweeps: the
counter `cnt` counts the sweeps. -/
theorem jacobianRelaxLoop_sweeps (env : Env) (depth_idx : Int) (norm C : ℚ) (p : Int)
    (fuel : Nat) (s : FASMultigrid) (norm_r : ℚ) (cnt : Int) (r : JacResult)
    (h : jacobianRelaxLoop env depth_idx norm C p fuel s norm_r cnt = some r) :
    ∃ k : Nat, r.cnt = cnt + k ∧ r.state = s.sweeps env depth_idx k := by
  induction fuel generalizing s norm_r cnt with
  | zero => simp [jacobianRelaxLoop] at h
  | succ fuel ih =>
    rw [jacobianRelaxLoop] at h
    by_cases h1 : norm_r ≥ min (env.pow norm ((p + 1 : Int) : ℚ) * C) norm
    · rw [if_pos h1] at h
      dsimp only at h
      split_ifs at h with h2
      · simp only [Option.some.injEq] at h
        rw [← h]
        exact ⟨1, by simp, rfl⟩
      · obtain ⟨k, hk, hst⟩ := ih _ _ _ h
        refine ⟨k + 1, by rw [hk]; push_cast; ring, ?_⟩
        rw [hst, sweeps_succ_left]
    · rw [if_neg h1] at h
      simp only [Option.some.injEq] at h
      rw [← h]
      exact ⟨0, by simp, rfl⟩

theorem linState_sweeps (a b r0 r1 : ℚ) (k : Nat) :
    (linState a b r0 r1 0 0).sweeps (centralEnv 1 1 1) 0 k
      = linState a b r0 r1 (gsIter a b r0 r1 k).1 (gsIter a b r0 r1 k).2 := by
  induction k with
  | zero => rfl
  | succ k ih =>
    rw [FASMultigrid.sweeps, ih, linState_jacSweep]
    rfl

theorem linState_sweep_residual (a b r0 r1 : ℚ) (k : Nat) :
    ((linState a b r0 r1 0 0).sweeps (centralEnv 1 1 1) 0 k).jacResidual (centralEnv 1 1 1) 0
      = gsResidual a b r0 r1 (gsIter a b r0 r1 k) := by
  rw [linState_sweeps, linState_jacResidual]
  rfl

/-- The residual after a Gauss-Seidel step from `(x, y)` is `(a * (y' - y))^2`. -/
theorem gsResidual_step (a b r0 r1 : ℚ) (v : ℚ × ℚ) :
    gsResidual a b r0 r1 (gsStep a b r0 r1 v)
      = (a * ((gsStep a b r0 r1 v).2 - v.2)) * (a * ((gsStep a b r0 r1 v).2 - v.2)) := by
  unfold gsResidual gsStep
  ring

/-- The inner loop on the example system while every residual stays at or above the
threshold: after the pass that ends sweep 501 it returns `false`. -/
theorem linLoop_fail (a b r0 r1 norm C thr : ℚ) (p : Int)
    (hthr : min ((centralEnv 1 1 1).pow norm ((p + 1 : Int) : ℚ) * C) norm = thr)
    (hcont : ∀ m : Nat, 1 ≤ m → m ≤ 500 → thr ≤ gsResidual a b r0 r1 (gsIter a b r0 r1 m))
    (hpos : 0 < gsResidual a b r0 r1 (gsIter a b r0 r1 501))
    (n m fuel : Nat) (norm_r : ℚ) (hmn : m + n = 501) (hn : 1 ≤ n) (hf : n ≤ fuel)
    (hr : thr ≤ norm_r) :
    jacobianRelaxLoop (centralEnv 1 1 1) 0 norm C p fuel
        (linState a b r0 r1 (gsIter a b r0 r1 m).1 (gsIter a b r0 r1 m).2) norm_r (m : Int)
      = some ⟨false, linState a b r0 r1 (gsIter a b r0 r1 501).1 (gsIter a b r0 r1 501).2,
          501⟩ := by
  induction n generalizing m fuel norm_r with
  | zero => omega
  | succ n ih =>
    obtain ⟨fuel, rfl⟩ : ∃ f, fuel = f + 1 := ⟨fuel - 1, by omega⟩
    have hsw : (linState a b r0 r1 (gsIter a b r0 r1 m).1 (gsIter a b r0 r1 m).2).jacSweep
        (centralEnv 1 1 1) 0
        = linState a b r0 r1 (gsIter a b r0 r1 (m + 1)).1 (gsIter a b r0 r1 (m + 1)).2 := by
      rw [linState_jacSweep]
      rfl
    have hres : (linState a b r0 r1 (gsIter a b r0 r1 (m + 1)).1
        (gsIter a b r0 r1 (m + 1)).2).jacResidual (centralEnv 1 1 1) 0
        = gsResidual a b r0 r1 (gsIter a b r0 r1 (m + 1)) := by
      rw [linState_jacResidual]
      rfl
    rw [jacobianRelaxLoop, hthr, if_pos hr]
    dsimp only
    rw [hsw, hres]
    by_cases hlast : n = 0
    · subst hlast
      have hm : m = 500 := by omega
      subst hm
      rw [if_pos ⟨by norm_num, hpos⟩]
      norm_num
    · have hm : m + 1 ≤ 500 := by omega
      have hcnt : ¬ ((m : Int) + 1 > 500) := by omega
      rw [if_neg (fun hc => hcnt hc.1)]
      have := ih (m + 1) fuel (gsResidual a b r0 r1 (gsIter a b r0 r1 (m + 1))) (by omega)
        (by omega) (by omega) (hcont (m + 1) (by omega) hm)
      push_cast at this
      exact this

/-- The inner loop on the example system is still running after `fuel` passes when
these end at most at sweep 500 and every residual stays at or above the threshold. -/
theorem linLoop_running (a b r0 r1 norm C thr : ℚ) (p : Int)
    (hthr : min ((centralEnv 1 1 1).pow norm ((p + 1 : Int) : ℚ) * C) norm = thr)
    (hcont : ∀ m : Nat, 1 ≤ m → m ≤ 500 → thr ≤ gsResidual a b r0 r1 (gsIter a b r0 r1 m))
    (fuel m : Nat) (norm_r : ℚ) (hmf : m + fuel ≤ 500) (hr : thr ≤ norm_r) :
    jacobianRelaxLoop (centralEnv 1 1 1) 0 norm C p fuel
        (linState a b r0 r1 (gsIter a b r0 r1 m).1 (gsIter a b r0 r1 m).2) norm_r (m : Int)
      = none := by
  induction fuel generalizing m norm_r with
  | zero => rfl
  | succ fuel ih =>
    have hsw : (linState a b r0 r1 (gsIter a b r0 r1 m).1 (gsIter a b r0 r1 m).2).jacSweep
        (centralEnv 1 1 1) 0
        = linState a b r0 r1 (gsIter a b r0 r1 (m + 1)).1 (gsIter a b r0 r1 (m + 1)).2 := by
      rw [linState_jacSweep]
      rfl
    rw [jacobianRelaxLoop, hthr, if_pos hr]
    dsimp only
    rw [hsw]
    have hcnt : ¬ ((m : Int) + 1 > 500) := by omega
    rw [if_neg (fun hc => hcnt hc.1)]
    have := ih (m + 1) ((linState a b r0 r1 (gsIter a b r0 r1 (m + 1)).1
        (gsIter a b r0 r1 (m + 1)).2).jacResidual (centralEnv 1 1 1) 0) (by omega)
      (by rw [linState_jacResidual]; exact hcont (m + 1) (by omega) (by omega))
    push_cast at this
    exact this

/-- The inner loop on the example system never returns when the threshold is not
positive and every sweep leaves the residual 0. -/
theorem linLoop_forever (a b r0 r1 norm C thr : ℚ) (p : Int)
    (hthr : min ((centralEnv 1 1 1).pow norm ((p + 1 : Int) : ℚ) * C) norm = thr)
    (h0 : thr ≤ 0)
    (hzero : ∀ m : Nat, 1 ≤ m → gsResidual a b r0 r1 (gsIter a b r0 r1 m) = 0)
    (fuel m : Nat) (cnt : Int) (norm_r : ℚ) (hr : thr ≤ norm_r) :
    jacobianRelaxLoop (centralEnv 1 1 1) 0 norm C p fuel
        (linState a b r0 r1 (gsIter a b r0 r1 m).1 (gsIter a b r0 r1 m).2) norm_r cnt
      = none := by
  induction fuel generalizing m norm_r cnt with
  | zero => rfl
  | succ fuel ih =>
    have hsw : (linState a b r0 r1 (gsIter a b r0 r1 m).1 (gsIter a b r0 r1 m).2).jacSweep
        (centralEnv 1 1 1) 0
        = linState a b r0 r1 (gsIter a b r0 r1 (m + 1)).1 (gsIter a b r0 r1 (m + 1)).2 := by
      rw [linState_jacSweep]
      rfl
    have hres : (linState a b r0 r1 (gsIter a b r0 r1 (m + 1)).1
        (gsIter a b r0 r1 (m + 1)).2).jacResidual (centralEnv 1 1 1) 0 = 0 := by
      rw [linState_jacResidual]
      exact hzero (m + 1) (by omega)
    rw [jacobianRelaxLoop, hthr, if_pos hr]
    dsimp only
    rw [hsw, hres]
    rw [if_neg (fun hc => lt_irrefl (0 : ℚ) hc.2)]
    exact ih (m + 1) (cnt + 1) 0 h0

theorem linState_jacobianRelax (a b r0 r1 x y norm C : ℚ) (p : Int) (fuel : Nat) :
    (linState a b r0 r1 x y)._jacobianRelax (centralEnv 1 1 1) fuel 1 norm C p
      = jacobianRelaxLoop (centralEnv 1 1 1) 0 norm C p fuel
          (linState a b r0 r1 (gsIter a b r0 r1 0).1 (gsIter a b r0 r1 0).2) (10 ^ 100)
          ((0 : Nat) : Int) := by
  have hd : (linState a b r0 r1 x y)._dIdx 1 = 0 := by
    show (1 : Int) - 1 = 0
    decide
  show jacobianRelaxLoop (centralEnv 1 1 1) ((linState a b r0 r1 x y)._dIdx 1) norm C p fuel
    ((linState a b r0 r1 x y).zeroDampingV ((linState a b r0 r1 x y)._dIdx 1)) (10 ^ 100) 0 = _
  rw [hd, linState_zeroDampingV]
  rfl

/-! ### The oscillating system `u0 + u1`, `-u0 + u1` -/

theorem osc_y (m : Nat) : (gsIter 1 (-1) 1 1 m).2 = 0 ∨ (gsIter 1 (-1) 1 1 m).2 = 2 := by
  induction m with
  | zero => left; rfl
  | succ m ih =>
    rcases ih with h | h
    · right
      simp only [gsIter, gsStep, h]
      norm_num
    · left
      simp only [gsIter, gsStep, h]
      norm_num

theorem osc_residual (m : Nat) (hm : 1 ≤ m) :
    gsResidual 1 (-1) 1 1 (gsIter 1 (-1) 1 1 m) = 4 := by
  obtain ⟨n, rfl⟩ : ∃ n, m = n + 1 := ⟨m - 1, by omega⟩
  rw [gsIter, gsResidual_step]
  rcases osc_y n with h | h
  · simp only [gsStep, h]
    norm_num
  · simp only [gsStep, h]
    norm_num

theorem osc_threshold :
    min ((centralEnv 1 1 1).pow 2 ((0 + 1 : Int) : ℚ) * 1) 2 = 2 := by
  simp [centralEnv]

theorem zero_threshold :
    min ((centralEnv 1 1 1).pow 0 ((0 + 1 : Int) : ℚ) * 1) 0 = 0 := by
  simp [centralEnv]

theorem zero_residual (m : Nat) : gsIter 1 (-1) 0 0 m = (0, 0) := by
  induction m with
  | zero => rfl
  | succ m ih =>
    rw [gsIter, ih]
    simp [gsStep]

/-- C17: the inner Jacobi solver is not limited to 500 sweeps.  On the single-point
system `u0 + u1`, `-u0 + u1` with `jac_rhs = (1, 1)` and `norm = 2` the call
`_jacobianRelax(1, 2, 1, 0)` is still running after 500 passes of its loop and
returns `false` only after sweep 501 (with `cnt = 501`, the state being the one
after 501 sweeps); on the same system with `jac_rhs = (0, 0)` and `norm = 0` the
call never returns, whatever the number of passes allowed. -/
theorem jacobianRelax_sweep_count_exceeds_500 :
    (∀ k : Nat, ∃ r : JacResult,
        (linState 1 (-1) 1 1 0 0)._jacobianRelax (centralEnv 1 1 1) (501 + k) 1 2 1 0 = some r
        ∧ r.flag = false ∧ r.cnt = 501
        ∧ r.state = ((linState 1 (-1) 1 1 0 0).zeroDampingV 0).sweeps (centralEnv 1 1 1) 0 501)
    ∧ (linState 1 (-1) 1 1 0 0)._jacobianRelax (centralEnv 1 1 1) 500 1 2 1 0 = none
    ∧ (∀ fuel : Nat,
        (linState 1 (-1) 0 0 0 0)._jacobianRelax (centralEnv 1 1 1) fuel 1 0 1 0 = none) := by
  refine ⟨?_, ?_, ?_⟩
  · intro k
    have hrun := linLoop_fail 1 (-1) 1 1 2 1 2 0 osc_threshold
      (fun m h1 _ => by rw [osc_residual m h1]; norm_num)
      (by rw [osc_residual 501 (by norm_num)]; norm_num)
      501 0 (501 + k) (10 ^ 100) (by norm_num) (by norm_num) (by omega) (by norm_num)
    refine ⟨_, (linState_jacobianRelax 1 (-1) 1 1 0 0 2 1 0 (501 + k)).trans hrun, rfl, rfl, ?_⟩
    rw [linState_zeroDampingV, linState_sweeps]
  · rw [linState_jacobianRelax]
    exact linLoop_running 1 (-1) 1 1 2 1 2 0 osc_threshold
      (fun m h1 _ => by rw [osc_residual m h1]; norm_num) 500 0 (10 ^ 100) (by norm_num)
      (by norm_num)
  · intro fuel
    rw [linState_jacobianRelax]
    exact linLoop_forever 1 (-1) 0 0 0 1 0 0 zero_threshold (le_refl 0)
      (fun m _ => by rw [zero_residual m]; simp [gsResidual]) fuel 0 _ (10 ^ 100)
      (by norm_num)

/-! ### The contracting system `u0 + 2 * u1`, `(8191 / 16384) * u0 + u1` -/

/-- The increments of `y` in the contracting system are the powers of
`8191 / 8192`. -/
theorem contr_increment (m : Nat) :
    (gsIter 2 (8191 / 16384) 0 1 (m + 1)).2 - (gsIter 2 (8191 / 16384) 0 1 m).2
      = (8191 / 8192 : ℚ) ^ m := by
  induction m with
  | zero =>
    simp only [gsIter, gsStep]
    norm_num
  | succ m ih =>
    have h1 : (gsIter 2 (8191 / 16384) 0 1 (m + 1 + 1)).2
        = 1 + (8191 / 8192 : ℚ) * (gsIter 2 (8191 / 16384) 0 1 (m + 1)).2 := by
      rw [gsIter]
      simp only [gsStep]
      ring
    have h2 : (gsIter 2 (8191 / 16384) 0 1 (m + 1)).2
        = 1 + (8191 / 8192 : ℚ) * (gsIter 2 (8191 / 16384) 0 1 m).2 := by
      rw [gsIter]
      simp only [gsStep]
      ring
    rw [h1, pow_succ, ← ih]
    nth_rewrite 2 [h2]
    ring

theorem contr_residual (m : Nat) :
    gsResidual 2 (8191 / 16384) 0 1 (gsIter 2 (8191 / 16384) 0 1 (m + 1))
      = 4 * ((8191 / 8192 : ℚ) ^ m) ^ 2 := by
  rw [gsIter, gsResidual_step]
  have h := contr_increment m
  rw [gsIter] at h
  rw [h]
  ring

theorem contr_pow_ge (m : Nat) (hm : m ≤ 499) :
    (1 / 2 : ℚ) ≤ (8191 / 8192 : ℚ) ^ m := by
  have hb := one_add_mul_le_pow (show (-2 : ℚ) ≤ -(1 / 8192) by norm_num) m
  have hcast : (m : ℚ) ≤ 499 := by exact_mod_cast hm
  have he : (1 : ℚ) + -(1 / 8192) = 8191 / 8192 := by norm_num
  rw [he] at hb
  linarith

theorem contr_threshold :
    min ((centralEnv 1 1 1).pow 1 ((0 + 1 : Int) : ℚ) * 1) 1 = 1 := by
  simp [centralEnv]

/-- C18: the inner Jacobi solver reports failure although the residual decreases
strictly at every sweep.  On the single-point system `u0 + 2 * u1`,
`(8191 / 16384) * u0 + u1` with `jac_rhs = (0, 1)` and `norm = 1`, the squared
linear residual after sweep `k + 2` is strictly smaller than after sweep `k + 1`
for every `k` (and the first is below the initial `1e100`), yet
`_jacobianRelax(1, 1, 1, 0)` returns `false` after sweep 501: the test compares
with `norm_pre`, which is 0 in every pass, not with the previous residual. -/
theorem jacobianRelax_fails_on_decreasing_residual :
    (∀ k : Nat,
        (((linState 2 (8191 / 16384) 0 1 0 0).zeroDampingV 0).sweeps (centralEnv 1 1 1) 0
            (k + 2)).jacResidual (centralEnv 1 1 1) 0
          < (((linState 2 (8191 / 16384) 0 1 0 0).zeroDampingV 0).sweeps (centralEnv 1 1 1) 0
              (k + 1)).jacResidual (centralEnv 1 1 1) 0)
    ∧ (((linState 2 (8191 / 16384) 0 1 0 0).zeroDampingV 0).sweeps (centralEnv 1 1 1) 0
          1).jacResidual (centralEnv 1 1 1) 0 < 10 ^ 100
    ∧ (∀ k : Nat, ∃ r : JacResult,
        (linState 2 (8191 / 16384) 0 1 0 0)._jacobianRelax (centralEnv 1 1 1) (501 + k) 1 1 1 0
          = some r
        ∧ r.flag = false ∧ r.cnt = 501
        ∧ r.state = ((linState 2 (8191 / 16384) 0 1 0 0).zeroDampingV 0).sweeps
            (centralEnv 1 1 1) 0 501) := by
  have hρ : ∀ m : Nat, (0 : ℚ) < (8191 / 8192 : ℚ) ^ m := fun m => by positivity
  refine ⟨?_, ?_, ?_⟩
  · intro k
    rw [linState_zeroDampingV, linState_sweep_residual, linState_sweep_residual,
      contr_residual (k + 1), contr_residual k]
    have h := hρ k
    have e : (8191 / 8192 : ℚ) ^ (k + 1) = (8191 / 8192 : ℚ) ^ k * (8191 / 8192) :=
      pow_succ _ _
    rw [e]
    generalize (8191 / 8192 : ℚ) ^ k = t at h
    nlinarith [mul_pos h h]
  · rw [linState_zeroDampingV, linState_sweep_residual, contr_residual 0]
    norm_num
  · intro k
    have hrun := linLoop_fail 2 (8191 / 16384) 0 1 1 1 1 0 contr_threshold
      (fun m h1 h500 => by
        obtain ⟨n, rfl⟩ : ∃ n, m = n + 1 := ⟨m - 1, by omega⟩
        rw [contr_residual n]
        have h := contr_pow_ge n (by omega)
        nlinarith [h])
      (by
        rw [contr_residual 500]
        have h := hρ 500
        positivity)
      501 0 (501 + k) (10 ^ 100) (by norm_num) (by norm_num) (by omega) (by norm_num)
    refine ⟨_, (linState_jacobianRelax 2 (8191 / 16384) 0 1 0 0 1 1 0 (501 + k)).trans hrun,
      rfl, rfl, ?_⟩
    rw [linState_zeroDampingV, linState_sweeps]

/-! ## The smoother `_relaxSolution_GaussSeidel` -/

theorem dIdx_of_eraseSolve (s t : FASMultigrid) (h : t.eraseSolve = s.eraseSolve)
    (depth : Int) : t._dIdx depth = s._dIdx depth := by
  have h1 : t.eraseSolve.min_depth = s.eraseSolve.min_depth :=
    congrArg FASMultigrid.min_depth h
  change t.min_depth = s.min_depth at h1
  unfold FASMultigrid._dIdx
  rw [h1]

theorem dIdx_of_eraseWork (s t : FASMultigrid) (h : t.eraseWork = s.eraseWork)
    (depth : Int) : t._dIdx depth = s._dIdx depth :=
  dIdx_of_eraseSolve s t (eraseSolve_of_eraseWork s t h) depth

theorem relaxStep_converged (env : Env) (fuel : Nat) (s : FASMultigrid) (depth : Int)
    (htol : s.toleranceMet env depth) :
    s.relaxStep env fuel depth = RelaxStep.converged s := by
  unfold FASMultigrid.relaxStep
  rw [if_pos htol]

/-- One pass of the smoother whose tolerance test does not exit, by the results of
the inner solve and of the line search. -/
theorem relaxStep_eq (env : Env) (fuel : Nat) (s : FASMultigrid) (depth : Int)
    (htol : ¬ s.toleranceMet env depth) :
    s.relaxStep env fuel depth
      = match (s.normAndRhs env (s._dIdx depth)).2._jacobianRelax env fuel depth
            (s.defectSum env (s._dIdx depth)) 1 0 with
        | none => RelaxStep.running
        | some jr =>
          if jr.flag = false then RelaxStep.jacobiFailed jr.state
          else if (jr.state._getLambda env depth (s.defectSum env (s._dIdx depth))).1 = false
            then RelaxStep.thrown
              (jr.state._getLambda env depth (s.defectSum env (s._dIdx depth))).2
          else RelaxStep.next
            (jr.state._getLambda env depth (s.defectSum env (s._dIdx depth))).2 := by
  unfold FASMultigrid.relaxStep
  rw [if_neg htol]
  dsimp only
  rw [(normAndRhs_spec env s (s._dIdx depth)).1]

/-- The state that the inner solve returns differs from the state at the start of
the pass in `damping_v_h` and `jac_rhs_h` only. -/
theorem relaxStep_jacobi_frame (env : Env) (fuel : Nat) (s : FASMultigrid) (depth : Int)
    (norm : ℚ) (jr : JacResult)
    (hj : (s.normAndRhs env (s._dIdx depth)).2._jacobianRelax env fuel depth norm 1 0
      = some jr) :
    jr.state.eraseWork = s.eraseWork :=
  (jacobianRelax_eraseWork env fuel _ depth norm 1 0 jr hj).trans
    (normAndRhs_spec env s (s._dIdx depth)).2

/-- What a pass of the smoother leaves, by the way it ends. -/
theorem relaxStep_cases (env : Env) (fuel : Nat) (s : FASMultigrid) (depth : Int) :
    (∀ t, s.relaxStep env fuel depth = RelaxStep.converged t → t = s)
    ∧ (∀ t, s.relaxStep env fuel depth = RelaxStep.jacobiFailed t →
        t.eraseWork = s.eraseWork)
    ∧ (∀ t, s.relaxStep env fuel depth = RelaxStep.next t →
        t.eraseSolve = s.eraseSolve
        ∧ t.defectSum env (s._dIdx depth) ≤ s.defectSum env (s._dIdx depth))
    ∧ (∀ t, s.relaxStep env fuel depth = RelaxStep.thrown t →
        t.eraseSolve = s.eraseSolve) := by
  by_cases htol : s.toleranceMet env depth
  · rw [relaxStep_converged env fuel s depth htol]
    refine ⟨?_, ?_, ?_, ?_⟩
    · intro t h
      injection h with h
      exact h.symm
    · intro t h
      cases h
    · intro t h
      cases h
    · intro t h
      cases h
  · rw [relaxStep_eq env fuel s depth htol]
    cases hj : (s.normAndRhs env (s._dIdx depth)).2._jacobianRelax env fuel depth
        (s.defectSum env (s._dIdx depth)) 1 0 with
    | none =>
      refine ⟨?_, ?_, ?_, ?_⟩ <;> intro t h <;> cases h
    | some jr =>
      have hfr := relaxStep_jacobi_frame env fuel s depth _ jr hj
      have hd := dIdx_of_eraseWork s jr.state hfr depth
      dsimp only
      by_cases hf : jr.flag = false
      · rw [if_pos hf]
        refine ⟨?_, ?_, ?_, ?_⟩
        · intro t h
          cases h
        · intro t h
          injection h with h
          rw [← h]
          exact hfr
        · intro t h
          cases h
        · intro t h
          cases h
      · rw [if_neg hf]
        have hls := getLambda_eraseSolve env jr.state depth (s.defectSum env (s._dIdx depth))
        by_cases hl : (jr.state._getLambda env depth (s.defectSum env (s._dIdx depth))).1
            = false
        · rw [if_pos hl]
          refine ⟨?_, ?_, ?_, ?_⟩
          · intro t h
            cases h
          · intro t h
            cases h
          · intro t h
            cases h
          · intro t h
            injection h with h
            rw [← h]
            exact hls.trans (eraseSolve_of_eraseWork s jr.state hfr)
        · rw [if_neg hl]
          refine ⟨?_, ?_, ?_, ?_⟩
          · intro t h
            cases h
          · intro t h
            cases h
          · intro t h
            injection h with h
            rw [← h]
            refine ⟨hls.trans (eraseSolve_of_eraseWork s jr.state hfr), ?_⟩
            have hok := getLambda_ok env jr.state depth (s.defectSum env (s._dIdx depth))
              (by simpa using hl)
            rw [hd] at hok
            exact hok
          · intro t h
            cases h

/-- The smoother changes `u_h`, `damping_v_h` and `jac_rhs_h` only, however it
ends. -/
theorem relaxLoop_frame (env : Env) (fuel : Nat) (depth : Int) (n : Nat) (s t : FASMultigrid)
    (h : (relaxLoop env fuel depth n s).final = some t) : t.eraseSolve = s.eraseSolve := by
  induction n generalizing s with
  | zero =>
    simp only [relaxLoop, Outcome.final, Option.some.injEq] at h
    rw [h]
  | succ n ih =>
    obtain ⟨c1, c2, c3, c4⟩ := relaxStep_cases env fuel s depth
    rw [relaxLoop] at h
    cases hst : s.relaxStep env fuel depth with
    | converged t1 =>
      rw [hst] at h
      simp only [Outcome.final, Option.some.injEq] at h
      rw [← h, c1 t1 hst]
    | jacobiFailed t1 =>
      rw [hst] at h
      simp only [Outcome.final, Option.some.injEq] at h
      rw [← h]
      exact eraseSolve_of_eraseWork s t1 (c2 t1 hst)
    | thrown t1 =>
      rw [hst] at h
      simp only [Outcome.final, Option.some.injEq] at h
      rw [← h]
      exact c4 t1 hst
    | next t1 =>
      rw [hst] at h
      exact (ih t1 h).trans (c3 t1 hst).1
    | running =>
      rw [hst] at h
      simp [Outcome.final] at h

/-- A normal return of the iteration loop of the smoother leaves a sum of squared
defects that is not larger than at the start. -/
theorem relaxLoop_defect (env : Env) (fuel : Nat) (depth : Int) (n : Nat) (s t : FASMultigrid)
    (h : relaxLoop env fuel depth n s = Outcome.ok t) :
    t.defectSum env (s._dIdx depth) ≤ s.defectSum env (s._dIdx depth) := by
  induction n generalizing s with
  | zero =>
    simp only [relaxLoop, Outcome.ok.injEq] at h
    rw [h]
  | succ n ih =>
    obtain ⟨c1, c2, c3, c4⟩ := relaxStep_cases env fuel s depth
    rw [relaxLoop] at h
    cases hst : s.relaxStep env fuel depth with
    | converged t1 =>
      rw [hst] at h
      simp only [Outcome.ok.injEq] at h
      rw [← h, c1 t1 hst]
    | jacobiFailed t1 =>
      rw [hst] at h
      simp only [Outcome.ok.injEq] at h
      rw [← h]
      exact le_of_eq (defectSum_congr env s t1 (c2 t1 hst) _)
    | thrown t1 =>
      rw [hst] at h
      cases h
    | next t1 =>
      rw [hst] at h
      have h1 := ih t1 h
      rw [dIdx_of_eraseSolve s t1 (c3 t1 hst).1 depth] at h1
      exact h1.trans (c3 t1 hst).2
    | running =>
      rw [hst] at h
      cases h

/-- C16: the smoother never silently diverges.  If `_relaxSolution_GaussSeidel`
returns normally, the sum over the equations and the points of the level of
`(F_e(u)(x) - coarse_src_e(x))^2` after the call is at most the sum before the call;
the same holds for every single pass of its iteration loop that does not throw
(whether it exits by the tolerance test, stops after a failed inner solve, or goes
on to the next pass), for any state `s1` at the start of the pass. -/
theorem relaxSolution_defect_not_increased (env : Env) (fuel : Nat) (s : FASMultigrid)
    (depth max_iterations : Int) (t : FASMultigrid)
    (h : s._relaxSolution_GaussSeidel env fuel depth max_iterations = Outcome.ok t) :
    t.defectSum env (s._dIdx depth) ≤ s.defectSum env (s._dIdx depth)
    ∧ t.coarse_src_h = s.coarse_src_h
    ∧ (∀ s1 t1 : FASMultigrid,
        (s1.relaxStep env fuel depth = RelaxStep.converged t1
          ∨ s1.relaxStep env fuel depth = RelaxStep.jacobiFailed t1
          ∨ s1.relaxStep env fuel depth = RelaxStep.next t1) →
        t1.defectSum env (s1._dIdx depth) ≤ s1.defectSum env (s1._dIdx depth)) := by
  refine ⟨relaxLoop_defect env fuel depth _ s t h, ?_, ?_⟩
  · have hf := relaxLoop_frame env fuel depth max_iterations.toNat s t
      (by
        show (s._relaxSolution_GaussSeidel env fuel depth max_iterations).final = some t
        rw [h]
        rfl)
    have h1 : t.eraseSolve.coarse_src_h = s.eraseSolve.coarse_src_h :=
      congrArg FASMultigrid.coarse_src_h hf
    exact h1
  · intro s1 t1 hc
    obtain ⟨c1, c2, c3, _⟩ := relaxStep_cases env fuel s1 depth
    rcases hc with hc | hc | hc
    · rw [c1 t1 hc]
    · exact le_of_eq (defectSum_congr env s1 t1 (c2 t1 hc) _)
    · exact (c3 t1 hc).2

/-! ## The smoother on the example equation `F(u) = u` -/

theorem oneState_F (u src v rhs : ℚ) :
    (oneState u src v rhs)._evaluateEllipticEquationPt (centralEnv 1 1 1) 0 0 0 0 0 = u := by
  simp [FASMultigrid._evaluateEllipticEquationPt, oneState, List.range_succ, evalAtomStep,
    centralEnv, fas_grid_t.empty, mkGrid, H_INDEX]

theorem oneState_jac (u src v rhs : ℚ) :
    (oneState u src v rhs)._evaluateIterationForJacEquation (centralEnv 1 1 1) 0 0 0 0 0 0 0 0
      = (0, 1) := by
  simp [FASMultigrid._evaluateIterationForJacEquation, oneState, List.range_succ,
    FASMultigrid.jacMolInit, jacAtomStep, centralEnv, fas_grid_t.empty, mkGrid, H_INDEX]

theorem oneState_der (u src v rhs : ℚ) :
    (oneState u src v rhs)._evaluateDerEllipticEquation (centralEnv 1 1 1) 0 0 0 0 0 0 = v := by
  simp [FASMultigrid._evaluateDerEllipticEquation, oneState, List.range_succ,
    FASMultigrid.derMolInit, derAtomStep, centralEnv, fas_grid_t.empty, mkGrid, H_INDEX]

theorem oneState_dIdx (u src v rhs : ℚ) : (oneState u src v rhs)._dIdx 1 = 0 := by
  show (1 : Int) - 1 = 0
  decide

theorem oneState_maxResidual (u src v rhs : ℚ) :
    (oneState u src v rhs)._getMaxResidualAllEqs (centralEnv 1 1 1) 1 = |src - u| := by
  have hn : (oneState u src v rhs).u_n = 1 := rfl
  have hx : (oneState u src v rhs).nx_h 0 = 1 := rfl
  have hy : (oneState u src v rhs).ny_h 0 = 1 := rfl
  have hz : (oneState u src v rhs).nz_h 0 = 1 := rfl
  have hc : ((oneState u src v rhs).coarse_src_h 0 0)._array 0 = src := rfl
  simp only [FASMultigrid._getMaxResidualAllEqs, FASMultigrid._getMaxResidual, hn,
    oneState_dIdx, hx, hy, hz, FAS_LOOP3_N_one, List.range_succ, List.range_zero,
    List.nil_append, List.foldl_cons, List.foldl_nil, H_INDEX_origin, oneState_F, hc]
  have h0 : ¬ (|src - u| > 0) ↔ |src - u| = 0 := by
    constructor
    · intro h
      exact le_antisymm (not_lt.mp h) (abs_nonneg _)
    · intro h
      rw [h]
      exact lt_irrefl 0
  by_cases h : |src - u| > 0
  · rw [if_pos h]
    exact max_eq_right (abs_nonneg _)
  · rw [if_neg h, (h0.mp h)]
    simp

theorem oneState_toleranceMet (u src v rhs : ℚ) :
    (oneState u src v rhs).toleranceMet (centralEnv 1 1 1) 1 ↔ |src - u| < 1 / 1000 := by
  unfold FASMultigrid.toleranceMet
  rw [oneState_maxResidual, oneState_dIdx]
  have h : (oneState u src v rhs).relaxation_tolerance
      / pw2 ((2 : ℚ) ^ ((oneState u src v rhs).max_depth_idx - 0).toNat) = 1 / 1000 := by
    show (1 / 1000 : ℚ) / pw2 ((2 : ℚ) ^ ((0 : Int) - 0).toNat) = 1 / 1000
    simp [pw2]
  rw [h]

theorem oneState_defectSum (u src v rhs : ℚ) :
    (oneState u src v rhs).defectSum (centralEnv 1 1 1) 0 = (u - src) * (u - src) := by
  have hn : (oneState u src v rhs).u_n = 1 := rfl
  have hx : (oneState u src v rhs).nx_h 0 = 1 := rfl
  have hy : (oneState u src v rhs).ny_h 0 = 1 := rfl
  have hz : (oneState u src v rhs).nz_h 0 = 1 := rfl
  have hc : ((oneState u src v rhs).coarse_src_h 0 0)._array 0 = src := rfl
  simp only [FASMultigrid.defectSum, hn, hx, hy, hz, FAS_LOOP3_N_one, List.range_succ,
    List.range_zero, List.nil_append, List.foldl_cons, List.foldl_nil, H_INDEX_origin,
    oneState_F, hc]
  ring

theorem oneState_normAndRhs (u src v rhs : ℚ) :
    (oneState u src v rhs).normAndRhs (centralEnv 1 1 1) 0
      = ((u - src) * (u - src), oneState u src v (-(u - src))) := by
  have hn : (oneState u src v rhs).u_n = 1 := rfl
  have hx : (oneState u src v rhs).nx_h 0 = 1 := rfl
  have hy : (oneState u src v rhs).ny_h 0 = 1 := rfl
  have hz : (oneState u src v rhs).nz_h 0 = 1 := rfl
  have hc : ((oneState u src v rhs).coarse_src_h 0 0)._array 0 = src := rfl
  simp only [FASMultigrid.normAndRhs, hn, hx, hy, hz, FAS_LOOP3_N_one, List.range_succ,
    List.range_zero, List.nil_append, List.foldl_cons, List.foldl_nil, H_INDEX_origin,
    oneState_F, hc]
  refine Prod.ext (by simp) ?_
  simp only [oneState, FASMultigrid.set_jac_rhs_h, FASMultigrid.mk.injEq, true_and, and_true]
  funext e d
  by_cases he : e = 0
  · subst he
    by_cases hd : d = 0
    · subst hd
      simp only [Function.update_same, fas_grid_t.set, mkGrid, fas_grid_t.mk.injEq, and_true]
      funext p
      simp only [Function.update_apply]
      split_ifs <;> simp_all
    · simp [Function.update_noteq hd, hd]
  · simp [Function.update_noteq he, he]

theorem oneState_zeroDampingV (u src v rhs : ℚ) :
    (oneState u src v rhs).zeroDampingV 0 = oneState u src 0 rhs := by
  have hn : (oneState u src v rhs).u_n = 1 := rfl
  have hx : (oneState u src v rhs).nx_h 0 = 1 := rfl
  have hy : (oneState u src v rhs).ny_h 0 = 1 := rfl
  have hz : (oneState u src v rhs).nz_h 0 = 1 := rfl
  simp only [FASMultigrid.zeroDampingV, hn, hx, hy, hz, FAS_LOOP3_N_one, List.range_succ,
    List.range_zero, List.nil_append, List.foldl_cons, List.foldl_nil, H_INDEX_origin]
  simp only [oneState, FASMultigrid.set_damping_v_h, FASMultigrid.mk.injEq, true_and, and_true]
  funext e d
  by_cases he : e = 0
  · subst he
    by_cases hd : d = 0
    · subst hd
      simp only [Function.update_same, fas_grid_t.set, mkGrid, fas_grid_t.mk.injEq, and_true]
      funext p
      simp only [Function.update_apply]
      split_ifs <;> simp_all
    · simp [Function.update_noteq hd, hd]
  · simp [Function.update_noteq he, he]

theorem oneState_jacSweep (u src v rhs : ℚ) :
    (oneState u src v rhs).jacSweep (centralEnv 1 1 1) 0 = oneState u src rhs rhs := by
  have hn : (oneState u src v rhs).u_n = 1 := rfl
  have hx : (oneState u src v rhs).nx_h 0 = 1 := rfl
  have hy : (oneState u src v rhs).ny_h 0 = 1 := rfl
  have hz : (oneState u src v rhs).nz_h 0 = 1 := rfl
  have hr : ((oneState u src v rhs).jac_rhs_h 0 0)._array 0 = rhs := by
    simp [oneState, mkGrid]
  simp only [FASMultigrid.jacSweep, FASMultigrid.jacPoint, hn, hx, hy, hz, FAS_LOOP3_N_one,
    List.range_succ, List.range_zero, List.nil_append, List.foldl_cons, List.foldl_nil,
    H_INDEX_origin, oneState_jac, hr]
  simp only [oneState, FASMultigrid.set_damping_v_h, FASMultigrid.mk.injEq, true_and, and_true]
  funext e d
  by_cases he : e = 0
  · subst he
    by_cases hd : d = 0
    · subst hd
      simp only [Function.update_same, fas_grid_t.set, mkGrid, fas_grid_t.mk.injEq, and_true]
      funext p
      simp only [Function.update_apply]
      split_ifs <;> simp_all
    · simp [Function.update_noteq hd, hd]
  · simp [Function.update_noteq he, he]

theorem oneState_jacResidual (u src v rhs : ℚ) :
    (oneState u src v rhs).jacResidual (centralEnv 1 1 1) 0 = (v - rhs) * (v - rhs) := by
  have hn : (oneState u src v rhs).u_n = 1 := rfl
  have hx : (oneState u src v rhs).nx_h 0 = 1 := rfl
  have hy : (oneState u src v rhs).ny_h 0 = 1 := rfl
  have hz : (oneState u src v rhs).nz_h 0 = 1 := rfl
  have hr : ((oneState u src v rhs).jac_rhs_h 0 0)._array 0 = rhs := by
    simp [oneState, mkGrid]
  simp only [FASMultigrid.jacResidual, hn, hx, hy, hz, FAS_LOOP3_N_one, List.range_succ,
    List.range_zero, List.nil_append, List.foldl_cons, List.foldl_nil, H_INDEX_origin,
    oneState_der, hr]
  ring

theorem oneState_plusStep (u src v rhs lam : ℚ) :
    (oneState u src v rhs).plusStep 0 lam = oneState (u + lam * v) src v rhs := by
  have hcells : (oneState u src v rhs).cells 0 = [0] := by
    show (FAS_LOOP3_N 1 1 1).map (fun c => H_INDEX c.1 c.2.1 c.2.2 1 1 1) = [0]
    decide
  simp only [FASMultigrid.plusStep, hcells]
  simp only [oneState, FASMultigrid.mk.injEq, true_and, and_true]
  funext e d
  by_cases he : e = 0
  · subst he
    by_cases hd : d = 0
    · subst hd
      simp only [fas_grid_t.mapAt, mkGrid, fas_grid_t.mk.injEq, and_true]
      simp
      funext p
      split_ifs <;> simp_all
    · simp [hd]
  · simp [he]

/-- The inner solve on the example equation with `norm = 1`: one sweep solves the
linear equation, the second pass of the loop finds the residual 0 below the
threshold and returns `true`. -/
theorem oneState_jacobianRelax (u src v rhs : ℚ) (k : Nat) :
    (oneState u src v rhs)._jacobianRelax (centralEnv 1 1 1) (2 + k) 1 1 1 0
      = some ⟨true, oneState u src rhs rhs, 1⟩ := by
  have hthr : min ((centralEnv 1 1 1).pow 1 ((0 + 1 : Int) : ℚ) * 1) 1 = 1 := by
    simp [centralEnv]
  show jacobianRelaxLoop (centralEnv 1 1 1) ((oneState u src v rhs)._dIdx 1) 1 1 0 (2 + k)
    ((oneState u src v rhs).zeroDampingV ((oneState u src v rhs)._dIdx 1)) (10 ^ 100) 0 = _
  rw [oneState_dIdx, oneState_zeroDampingV, show 2 + k = (k + 1) + 1 by omega,
    jacobianRelaxLoop, hthr, if_pos (by norm_num)]
  dsimp only
  rw [oneState_jacSweep, oneState_jacResidual, if_neg (by norm_num), jacobianRelaxLoop, hthr,
    if_neg (by norm_num)]
  norm_num

theorem oneState_not_converged (v rhs : ℚ) :
    ¬ (oneState 1 0 v rhs).toleranceMet (centralEnv 1 1 1) 1 := by
  rw [oneState_toleranceMet]
  norm_num

/-- One pass of the smoother on the example equation from `u = 1`, `coarse_src = 0`:
the Newton step `v = -1` is accepted with `lambda = 1` and leaves `u = 0`. -/
theorem oneState_relaxStep (v rhs : ℚ) (k : Nat) :
    (oneState 1 0 v rhs).relaxStep (centralEnv 1 1 1) (2 + k) 1
      = RelaxStep.next (oneState 0 0 (-1) (-1)) := by
  have hl : (oneState 1 0 (-1) (-1))._getLambda (centralEnv 1 1 1) 1 1
      = (true, oneState 0 0 (-1) (-1)) := by
    have h := getLambda_true (centralEnv 1 1 1) (oneState 1 0 (-1) (-1)) 1 1 0 (by norm_num)
      (by
        rw [oneState_dIdx, oneState_plusStep, oneState_defectSum]
        simp [lambdaOf])
      (fun i hi => absurd hi (Nat.not_lt_zero i))
    rw [h, oneState_dIdx, oneState_plusStep]
    simp [lambdaOf]
  rw [relaxStep_eq _ _ _ _ (oneState_not_converged v rhs), oneState_dIdx, oneState_defectSum,
    oneState_normAndRhs]
  have hn : ((1 : ℚ) - 0) * (1 - 0) = 1 := by norm_num
  have hr : -((1 : ℚ) - 0) = -1 := by norm_num
  simp only [hn, hr, oneState_jacobianRelax, hl]
  simp

theorem oneState_relaxLoop (v rhs : ℚ) (k n : Nat) :
    relaxLoop (centralEnv 1 1 1) (2 + k) 1 (n + 2) (oneState 1 0 v rhs)
      = Outcome.ok (oneState 0 0 (-1) (-1)) := by
  rw [relaxLoop, oneState_relaxStep]
  dsimp only
  rw [relaxLoop, relaxStep_converged _ _ _ _
    ((oneState_toleranceMet 0 0 (-1) (-1)).mpr (by norm_num))]

theorem oneState_relaxSolution :
    (oneState 1 0 0 0)._relaxSolution_GaussSeidel (centralEnv 1 1 1) 2 1 5
      = Outcome.ok (oneState 0 0 (-1) (-1)) :=
  oneState_relaxLoop 0 0 0 3

theorem relaxSolution_defect_not_increased_witness :
    (oneState 1 0 0 0)._relaxSolution_GaussSeidel (centralEnv 1 1 1) 2 1 5
        = Outcome.ok (oneState 0 0 (-1) (-1))
    ∧ (oneState 0 0 (-1) (-1)).defectSum (centralEnv 1 1 1) ((oneState 1 0 0 0)._dIdx 1)
        ≤ (oneState 1 0 0 0).defectSum (centralEnv 1 1 1) ((oneState 1 0 0 0)._dIdx 1) :=
  ⟨oneState_relaxSolution,
    (relaxSolution_defect_not_increased (centralEnv 1 1 1) 2 (oneState 1 0 0 0) 1 5
      (oneState 0 0 (-1) (-1)) oneState_relaxSolution).1⟩

/-- C15: in a pass of `_relaxSolution_GaussSeidel` whose tolerance test does not
exit, with `norm` the sum of squared defects of `u` (which is what the pass
computes), the pass throws exactly when `_jacobianRelax` returned `true` and
`_getLambda` returned `false`; after a `true` inner solve `u` and `coarse_src` are
still those of the start of the pass and `_getLambda` returns `false` exactly when
no `lambda = 1 - j / 100`, `j < 100`, gives a sum of squared defects `<= norm`; when
`_jacobianRelax` returns `false` the pass stops the smoother, which returns
normally with `u_h` unchanged by the pass; a throwing pass makes the smoother
throw. -/
theorem relaxStep_throws_iff (env : Env) (fuel : Nat) (s : FASMultigrid) (depth : Int)
    (htol : ¬ s.toleranceMet env depth) :
    (s.normAndRhs env (s._dIdx depth)).1 = s.defectSum env (s._dIdx depth)
    ∧ ((∃ t, s.relaxStep env fuel depth = RelaxStep.thrown t)
        ↔ ∃ jr, (s.normAndRhs env (s._dIdx depth)).2._jacobianRelax env fuel depth
              (s.defectSum env (s._dIdx depth)) 1 0 = some jr
            ∧ jr.flag = true
            ∧ (jr.state._getLambda env depth (s.defectSum env (s._dIdx depth))).1 = false)
    ∧ (∀ jr, (s.normAndRhs env (s._dIdx depth)).2._jacobianRelax env fuel depth
              (s.defectSum env (s._dIdx depth)) 1 0 = some jr →
        jr.state.u_h = s.u_h ∧ jr.state.coarse_src_h = s.coarse_src_h
        ∧ ((jr.state._getLambda env depth (s.defectSum env (s._dIdx depth))).1 = false
            ↔ ∀ j : Nat, j < 100 →
                s.defectSum env (s._dIdx depth)
                  < (jr.state.plusStep (s._dIdx depth) (lambdaOf j)).defectSum env
                      (s._dIdx depth)))
    ∧ (∀ jr, (s.normAndRhs env (s._dIdx depth)).2._jacobianRelax env fuel depth
              (s.defectSum env (s._dIdx depth)) 1 0 = some jr → jr.flag = false →
        s.relaxStep env fuel depth = RelaxStep.jacobiFailed jr.state
        ∧ jr.state.u_h = s.u_h
        ∧ ∀ n : Nat, relaxLoop env fuel depth (n + 1) s = Outcome.ok jr.state)
    ∧ (∀ (t : FASMultigrid) (n : Nat), s.relaxStep env fuel depth = RelaxStep.thrown t →
        relaxLoop env fuel depth (n + 1) s = Outcome.thrown t) := by
  have heq := relaxStep_eq env fuel s depth htol
  refine ⟨(normAndRhs_spec env s (s._dIdx depth)).1, ?_, ?_, ?_, ?_⟩
  · constructor
    · rintro ⟨t, ht⟩
      rw [heq] at ht
      cases hj : (s.normAndRhs env (s._dIdx depth)).2._jacobianRelax env fuel depth
          (s.defectSum env (s._dIdx depth)) 1 0 with
      | none =>
        rw [hj] at ht
        cases ht
      | some jr =>
        rw [hj] at ht
        dsimp only at ht
        by_cases hf : jr.flag = false
        · rw [if_pos hf] at ht
          cases ht
        · rw [if_neg hf] at ht
          by_cases hl : (jr.state._getLambda env depth (s.defectSum env (s._dIdx depth))).1
              = false
          · exact ⟨jr, rfl, by simpa using hf, hl⟩
          · rw [if_neg hl] at ht
            cases ht
    · rintro ⟨jr, hj, hf, hl⟩
      rw [heq, hj]
      dsimp only
      rw [if_neg (by simp [hf]), if_pos hl]
      exact ⟨_, rfl⟩
  · intro jr hj
    have hfr := relaxStep_jacobi_frame env fuel s depth _ jr hj
    have hd := dIdx_of_eraseWork s jr.state hfr depth
    have hc : jr.state.eraseWork.coarse_src_h = s.eraseWork.coarse_src_h :=
      congrArg FASMultigrid.coarse_src_h hfr
    refine ⟨u_h_of_eraseWork s jr.state hfr, hc, ?_⟩
    have hflag := getLambda_flag env jr.state depth (s.defectSum env (s._dIdx depth))
    rw [hd] at hflag
    constructor
    · intro hl j hj100
      by_contra hnot
      have := hflag.mpr ⟨j, hj100, not_lt.mp hnot⟩
      rw [hl] at this
      exact Bool.false_ne_true this
    · intro hall
      by_contra hne
      have ht : (jr.state._getLambda env depth (s.defectSum env (s._dIdx depth))).1 = true := by
        simpa using hne
      obtain ⟨j, hj100, hle⟩ := hflag.mp ht
      exact absurd (hall j hj100) (not_lt.mpr hle)
  · intro jr hj hf
    have hfr := relaxStep_jacobi_frame env fuel s depth _ jr hj
    have hstep : s.relaxStep env fuel depth = RelaxStep.jacobiFailed jr.state := by
      rw [heq, hj]
      dsimp only
      rw [if_pos hf]
    refine ⟨hstep, u_h_of_eraseWork s jr.state hfr, ?_⟩
    intro n
    rw [relaxLoop, hstep]
  · intro t n ht
    rw [relaxLoop, ht]

theorem relaxStep_throws_iff_witness :
    ¬ (oneState 1 0 0 0).toleranceMet (centralEnv 1 1 1) 1
    ∧ ((oneState 1 0 0 0).normAndRhs (centralEnv 1 1 1) ((oneState 1 0 0 0)._dIdx 1)).1
        = (oneState 1 0 0 0).defectSum (centralEnv 1 1 1) ((oneState 1 0 0 0)._dIdx 1) :=
  ⟨oneState_not_converged 0 0,
    (relaxStep_throws_iff (centralEnv 1 1 1) 2 (oneState 1 0 0 0) 1
      (oneState_not_converged 0 0)).1⟩

/-! ## The V-cycle and the finest-level source -/

theorem finestSourceKept_refl (s : FASMultigrid) : s.finestSourceKept s :=
  ⟨rfl, rfl, fun _ _ _ => rfl⟩

theorem finestSourceKept_trans (s t r : FASMultigrid) (h1 : s.finestSourceKept t)
    (h2 : t.finestSourceKept r) : s.finestSourceKept r := by
  obtain ⟨a1, a2, a3⟩ := h1
  obtain ⟨b1, b2, b3⟩ := h2
  refine ⟨b1.trans a1, b2.trans a2, ?_⟩
  intro e d hd
  have hd2 : t._dIdx t.max_depth ≤ d := by
    unfold FASMultigrid._dIdx at hd ⊢
    rw [a1, a2]
    exact hd
  rw [b3 e d hd2, a3 e d hd]

theorem finestSourceKept_of_eraseSolve (s t : FASMultigrid) (h : t.eraseSolve = s.eraseSolve) :
    s.finestSourceKept t := by
  have h1 : t.eraseSolve.min_depth = s.eraseSolve.min_depth :=
    congrArg FASMultigrid.min_depth h
  have h2 : t.eraseSolve.max_depth = s.eraseSolve.max_depth :=
    congrArg FASMultigrid.max_depth h
  have h3 : t.eraseSolve.coarse_src_h = s.eraseSolve.coarse_src_h :=
    congrArg FASMultigrid.coarse_src_h h
  change t.coarse_src_h = s.coarse_src_h at h3
  exact ⟨h1, h2, fun e d _ => by rw [h3]⟩

/-- The smoother keeps every `coarse_src` grid, however it ends. -/
theorem relaxSolution_finestSourceKept (env : Env) (fuel : Nat) (s t : FASMultigrid)
    (depth max_iterations : Int)
    (h : (s._relaxSolution_GaussSeidel env fuel depth max_iterations).final = some t) :
    s.finestSourceKept t :=
  finestSourceKept_of_eraseSolve s t (relaxLoop_frame env fuel depth _ s t h)

theorem restrictStage_max_depth (env : Env) (s : FASMultigrid) (eqn_id : Nat)
    (fine_depth : Int) : (s.restrictStage env eqn_id fine_depth).max_depth = s.max_depth := rfl

theorem sourceStage_max_depth (env : Env) (s : FASMultigrid) (eqn_id : Nat)
    (fine_depth : Int) : (s.sourceStage env eqn_id fine_depth).max_depth = s.max_depth := rfl

theorem computeCoarseRestrictions_bounds (env : Env) (s : FASMultigrid) (eqn_id : Nat)
    (fine_depth : Int) :
    (s._computeCoarseRestrictions env eqn_id fine_depth).min_depth = s.min_depth
    ∧ (s._computeCoarseRestrictions env eqn_id fine_depth).max_depth = s.max_depth := by
  unfold FASMultigrid._computeCoarseRestrictions
  constructor
  · rw [(sourceStage_fields env _ eqn_id fine_depth).1,
      (restrictStage_fields env s eqn_id fine_depth).1]
  · rw [sourceStage_max_depth, restrictStage_max_depth]

/-- The source update at a depth up to `max_depth` writes a `coarse_src` grid below
the finest level only. -/
theorem computeCoarseRestrictions_finestSourceKept (env : Env) (s : FASMultigrid)
    (eqn_id : Nat) (fine_depth : Int) (hd : fine_depth ≤ s.max_depth) :
    s.finestSourceKept (s._computeCoarseRestrictions env eqn_id fine_depth) := by
  refine ⟨(computeCoarseRestrictions_bounds env s eqn_id fine_depth).1,
    (computeCoarseRestrictions_bounds env s eqn_id fine_depth).2, ?_⟩
  intro e d hle
  apply computeCoarseRestrictions_coarse_src_other
  right
  unfold FASMultigrid._dIdx at hle ⊢
  omega

theorem descendEqn_finestSourceKept (env : Env) (s : FASMultigrid) (eqn_id : Nat) :
    s.finestSourceKept (s.descendEqn env eqn_id) := by
  unfold FASMultigrid.descendEqn
  dsimp only
  have hloop : ∀ (l : List Int) (t : FASMultigrid), (∀ x ∈ l, x ≤ s.max_depth) →
      s.finestSourceKept t →
      s.finestSourceKept (l.foldl
        (fun (s : FASMultigrid) (depth : Int) => s._computeCoarseRestrictions env eqn_id depth)
        t) := by
    intro l
    induction l with
    | nil => intro t _ ht; exact ht
    | cons x xs ih =>
      intro t hl ht
      rw [List.foldl_cons]
      apply ih _ (fun y hy => hl y (List.mem_cons_of_mem _ hy))
      apply finestSourceKept_trans s t _ ht
      apply computeCoarseRestrictions_finestSourceKept
      rw [ht.2.1]
      exact hl x (List.mem_cons_self _ _)
  have hl : ∀ x ∈ (List.range (s.max_depth - s.min_depth).toNat).map
      (fun (n : Nat) => s.max_depth - (n : Int)), x ≤ s.max_depth := by
    intro x hx
    obtain ⟨n, _, rfl⟩ := List.mem_map.mp hx
    omega
  have h := hloop _ s hl (finestSourceKept_refl s)
  exact ⟨h.1, h.2.1, h.2.2⟩

theorem descend_finestSourceKept (env : Env) (s : FASMultigrid) :
    s.finestSourceKept (s.descend env) := by
  unfold FASMultigrid.descend
  refine foldl_preserves (fun t : FASMultigrid => s.finestSourceKept t) _ ?_ _ _
    (finestSourceKept_refl s)
  intro b e hb
  exact finestSourceKept_trans s b _ hb (descendEqn_finestSourceKept env b e)

theorem correctStep_finestSourceKept (s : FASMultigrid) (coarse_depth : Int) :
    s.finestSourceKept (s.correctStep coarse_depth) := by
  unfold FASMultigrid.correctStep
  dsimp only
  refine foldl_preserves (fun t : FASMultigrid => s.finestSourceKept t) _ ?_ _ _ ?_
  · intro b e hb
    exact ⟨hb.1, hb.2.1, hb.2.2⟩
  · refine foldl_preserves (fun t : FASMultigrid => s.finestSourceKept t) _ ?_ _ _
      (finestSourceKept_refl s)
    intro b e hb
    exact ⟨hb.1, hb.2.1, hb.2.2⟩

theorem bind_final (o : Outcome) (f : FASMultigrid → Outcome) (t : FASMultigrid)
    (h : (o.bind f).final = some t) :
    (∃ s1, o = Outcome.ok s1 ∧ (f s1).final = some t) ∨ o = Outcome.thrown t := by
  cases o with
  | ok s1 => exact Or.inl ⟨s1, rfl, h⟩
  | thrown s1 =>
    simp only [Outcome.bind, Outcome.final, Option.some.injEq] at h
    rw [h]
    exact Or.inr rfl
  | running => simp [Outcome.bind, Outcome.final] at h

theorem final_ok (s : FASMultigrid) : (Outcome.ok s).final = some s := rfl

theorem final_thrown (s : FASMultigrid) : (Outcome.thrown s).final = some s := rfl

theorem ascendStep_finestSourceKept (env : Env) (fuel : Nat) (s t : FASMultigrid)
    (coarse_depth : Int) (h : (s.ascendStep env fuel coarse_depth).final = some t) :
    s.finestSourceKept t := by
  unfold FASMultigrid.ascendStep at h
  rcases bind_final _ _ t h with ⟨s1, h1, h2⟩ | h1
  · have hk := relaxSolution_finestSourceKept env fuel s s1 coarse_depth s.max_relax_iters
      (by rw [h1]; rfl)
    simp only [Outcome.final, Option.some.injEq] at h2
    rw [← h2]
    exact finestSourceKept_trans s s1 _ hk (correctStep_finestSourceKept s1 coarse_depth)
  · exact relaxSolution_finestSourceKept env fuel s t coarse_depth s.max_relax_iters
      (by rw [h1]; rfl)

theorem ascend_finestSourceKept (env : Env) (fuel : Nat) (s t : FASMultigrid)
    (h : (s.ascend env fuel).final = some t) : s.finestSourceKept t := by
  unfold FASMultigrid.ascend at h
  have hloop : ∀ (l : List Int) (o : Outcome),
      (∀ r, o.final = some r → s.finestSourceKept r) →
      ∀ r, (l.foldl (fun (o : Outcome) (coarse_depth : Int) =>
          o.bind fun s => s.ascendStep env fuel coarse_depth) o).final = some r →
        s.finestSourceKept r := by
    intro l
    induction l with
    | nil => intro o ho r hr; exact ho r hr
    | cons x xs ih =>
      intro o ho r hr
      rw [List.foldl_cons] at hr
      refine ih _ ?_ r hr
      intro r1 hr1
      rcases bind_final _ _ r1 hr1 with ⟨s1, h1, h2⟩ | h1
      · exact finestSourceKept_trans s s1 r1 (ho s1 (by rw [h1]; rfl))
          (ascendStep_finestSourceKept env fuel s1 r1 x h2)
      · exact ho r1 (by rw [h1]; rfl)
  exact hloop _ (Outcome.ok s)
    (fun r hr => by
      simp only [Outcome.final, Option.some.injEq] at hr
      rw [← hr]
      exact finestSourceKept_refl s) t h

theorem VCycle_finestSourceKept (env : Env) (fuel : Nat) (s t : FASMultigrid)
    (h : (s.VCycle env fuel).final = some t) : s.finestSourceKept t := by
  unfold FASMultigrid.VCycle at h
  rcases bind_final _ _ t h with ⟨s1, h1, h2⟩ | h1
  · have k1 := relaxSolution_finestSourceKept env fuel s s1 s.max_depth s.max_relax_iters
      (by rw [h1]; rfl)
    refine finestSourceKept_trans s s1 t k1 ?_
    rcases bind_final _ _ t h2 with ⟨s2, h3, h4⟩ | h3
    · have k2 := descend_finestSourceKept env s1
      have k3 := ascend_finestSourceKept env fuel (s1.descend env) s2 (by rw [h3]; rfl)
      have k4 := relaxSolution_finestSourceKept env fuel s2 t s2.max_depth s2.max_relax_iters h4
      exact finestSourceKept_trans s1 _ t k2 (finestSourceKept_trans _ s2 t k3 k4)
    · exact finestSourceKept_trans s1 _ t (descend_finestSourceKept env s1)
        (ascend_finestSourceKept env fuel (s1.descend env) t (by rw [h3]; rfl))
  · exact relaxSolution_finestSourceKept env fuel s t s.max_depth s.max_relax_iters
      (by rw [h1]; rfl)

theorem VCyclesLoop_finestSourceKept (env : Env) (fuel : Nat) (n : Nat) (s t : FASMultigrid)
    (h : (VCyclesLoop env fuel n s).final = some t) : s.finestSourceKept t := by
  induction n generalizing s with
  | zero =>
    simp only [VCyclesLoop, Outcome.final, Option.some.injEq] at h
    rw [← h]
    exact finestSourceKept_refl s
  | succ n ih =>
    rw [VCyclesLoop] at h
    rcases bind_final _ _ t h with ⟨s1, h1, h2⟩ | h1
    · exact finestSourceKept_trans s s1 t
        (VCycle_finestSourceKept env fuel s s1 (by rw [h1]; rfl)) (ih s1 h2)
    · exact VCycle_finestSourceKept env fuel s t (by rw [h1]; rfl)

theorem VCycles_finestSourceKept (env : Env) (fuel : Nat) (s t : FASMultigrid)
    (num_cycles : Int) (h : (s.VCycles env fuel num_cycles).final = some t) :
    s.finestSourceKept t := by
  unfold FASMultigrid.VCycles at h
  rcases bind_final _ _ t h with ⟨s1, h1, h2⟩ | h1
  · exact finestSourceKept_trans s s1 t
      (VCyclesLoop_finestSourceKept env fuel _ s s1 (by rw [h1]; rfl))
      (relaxSolution_finestSourceKept env fuel s1 t s1.max_depth 10 h2)
  · exact VCyclesLoop_finestSourceKept env fuel _ s t (by rw [h1]; rfl)

theorem with_tmp_h_toleranceMet (env : Env) (s : FASMultigrid) (h : Nat → Int → fas_grid_t)
    (depth : Int) : (s.with_tmp_h h).toleranceMet env depth ↔ s.toleranceMet env depth :=
  Iff.rfl

theorem oneState_descend (u src v rhs : ℚ) :
    (oneState u src v rhs).descend (centralEnv 1 1 1)
      = (oneState u src v rhs).with_tmp_h
          ((oneState u src v rhs)._copyGrid (oneState u src v rhs).u_h
            (oneState u src v rhs).tmp_h 0 1) := rfl

/-- A V-cycle on the example equation from `u = 1`, `coarse_src = 0` returns
normally: the first smoothing makes one Newton step, the only level needs no
transfer, and the second smoothing meets the tolerance at once. -/
theorem oneState_VCycle :
    ((oneState 1 0 0 0).VCycle (centralEnv 1 1 1) 2).final
      = some ((oneState 0 0 (-1) (-1)).descend (centralEnv 1 1 1)) := by
  have h1 : (oneState 1 0 0 0)._relaxSolution_GaussSeidel (centralEnv 1 1 1) 2
      (oneState 1 0 0 0).max_depth (oneState 1 0 0 0).max_relax_iters
      = Outcome.ok (oneState 0 0 (-1) (-1)) := oneState_relaxSolution
  have h2 : ((oneState 0 0 (-1) (-1)).descend (centralEnv 1 1 1)).ascend (centralEnv 1 1 1) 2
      = Outcome.ok ((oneState 0 0 (-1) (-1)).descend (centralEnv 1 1 1)) := rfl
  have h3 : ((oneState 0 0 (-1) (-1)).descend (centralEnv 1 1 1))._relaxSolution_GaussSeidel
      (centralEnv 1 1 1) 2 ((oneState 0 0 (-1) (-1)).descend (centralEnv 1 1 1)).max_depth
      ((oneState 0 0 (-1) (-1)).descend (centralEnv 1 1 1)).max_relax_iters
      = Outcome.ok ((oneState 0 0 (-1) (-1)).descend (centralEnv 1 1 1)) := by
    show relaxLoop (centralEnv 1 1 1) 2 1 (4 + 1)
      ((oneState 0 0 (-1) (-1)).descend (centralEnv 1 1 1)) = _
    rw [relaxLoop, relaxStep_converged]
    rw [oneState_descend, with_tmp_h_toleranceMet, oneState_toleranceMet]
    norm_num
  unfold FASMultigrid.VCycle
  rw [h1]
  simp only [Outcome.bind]
  rw [h2]
  simp only [Outcome.bind]
  rw [h3]
  rfl

/-- C13: FAS consistency.  A call of `VCycle` that ends (normally or by the
exception) leaves every `coarse_src` grid at the finest level, for every equation,
as it was before the call, cell by cell; the same holds for `VCycles(n)` for every
`n`; only `coarse_src` grids at level indices below the one of `max_depth` are
written. -/
theorem VCycle_keeps_finest_source (env : Env) (fuel : Nat) (s t : FASMultigrid)
    (h : (s.VCycle env fuel).final = some t) :
    (∀ (e : Nat) (d : Int), s._dIdx s.max_depth ≤ d →
        t.coarse_src_h e d = s.coarse_src_h e d)
    ∧ (∀ (e : Nat) (p : Int),
        (t.coarse_src_h e (s._dIdx s.max_depth))._array p
          = (s.coarse_src_h e (s._dIdx s.max_depth))._array p)
    ∧ (∀ (n : Int) (r : FASMultigrid), (s.VCycles env fuel n).final = some r →
        ∀ (e : Nat) (d : Int), s._dIdx s.max_depth ≤ d →
          r.coarse_src_h e d = s.coarse_src_h e d) := by
  have hk := VCycle_finestSourceKept env fuel s t h
  refine ⟨hk.2.2, ?_, ?_⟩
  · intro e p
    rw [hk.2.2 e _ (le_refl _)]
  · intro n r hr
    exact (VCycles_finestSourceKept env fuel s r n hr).2.2

theorem VCycle_keeps_finest_source_witness :
    ((oneState 1 0 0 0).VCycle (centralEnv 1 1 1) 2).final
        = some ((oneState 0 0 (-1) (-1)).descend (centralEnv 1 1 1))
    ∧ ((oneState 0 0 (-1) (-1)).descend (centralEnv 1 1 1)).coarse_src_h 0
          ((oneState 1 0 0 0)._dIdx (oneState 1 0 0 0).max_depth)
        = (oneState 1 0 0 0).coarse_src_h 0
          ((oneState 1 0 0 0)._dIdx (oneState 1 0 0 0).max_depth) :=
  ⟨oneState_VCycle,
    (VCycle_keeps_finest_source (centralEnv 1 1 1) 2 (oneState 1 0 0 0)
      ((oneState 0 0 (-1) (-1)).descend (centralEnv 1 1 1)) oneState_VCycle).1 0 _
      (le_refl _)⟩

/-! ## Density initialisation -/

/-- A loop over the molecules and equations that replaces each density hierarchy by
a function of itself and of parts of the state that the loop does not change. -/
theorem foldl_set_rho_mol (G : FASMultigrid → Nat → Nat → (Int → fas_grid_t) → Int → fas_grid_t)
    (s : FASMultigrid)
    (hG : ∀ t : FASMultigrid, t.eraseRho = s.eraseRho → G t = G s) (e : Nat) (n : Nat) :
    ((List.range n).foldl (fun (t : FASMultigrid) (m : Nat) =>
        t.set_rho_h e m (G t e m (t.rho_h e m))) s).eraseRho = s.eraseRho
    ∧ ∀ e1 m1, ((List.range n).foldl (fun (t : FASMultigrid) (m : Nat) =>
        t.set_rho_h e m (G t e m (t.rho_h e m))) s).rho_h e1 m1
      = if e1 = e ∧ m1 < n then G s e m1 (s.rho_h e m1) else s.rho_h e1 m1 := by
  induction n with
  | zero => exact ⟨rfl, fun e1 m1 => by simp⟩
  | succ n ih =>
    rw [List.range_succ, List.foldl_append]
    obtain ⟨ih1, ih2⟩ := ih
    generalize (List.range n).foldl (fun (t : FASMultigrid) (m : Nat) =>
        t.set_rho_h e m (G t e m (t.rho_h e m))) s = t at ih1 ih2
    simp only [List.foldl_cons, List.foldl_nil]
    refine ⟨ih1, ?_⟩
    intro e1 m1
    show Function.update t.rho_h e (Function.update (t.rho_h e) n (G t e n (t.rho_h e n))) e1 m1
      = _
    rw [hG t ih1]
    by_cases he : e1 = e
    · subst he
      rw [Function.update_same]
      by_cases hm : m1 = n
      · subst hm
        rw [Function.update_same, ih2]
        simp
      · rw [Function.update_noteq hm, ih2]
        have : m1 < n + 1 ↔ m1 < n := by omega
        simp only [this]
    · rw [Function.update_noteq he, ih2]
      simp [he]

theorem molecule_n_of_eraseRho (s t : FASMultigrid) (h : t.eraseRho = s.eraseRho) :
    t.molecule_n = s.molecule_n := by
  have h1 : t.eraseRho.molecule_n = s.eraseRho.molecule_n := congrArg FASMultigrid.molecule_n h
  exact h1

theorem foldl_set_rho_eqn (G : FASMultigrid → Nat → Nat → (Int → fas_grid_t) → Int → fas_grid_t)
    (s : FASMultigrid)
    (hG : ∀ t : FASMultigrid, t.eraseRho = s.eraseRho → G t = G s) (n : Nat) :
    ((List.range n).foldl (fun (t : FASMultigrid) (e : Nat) =>
        (List.range (t.molecule_n e)).foldl (fun (t : FASMultigrid) (m : Nat) =>
          t.set_rho_h e m (G t e m (t.rho_h e m))) t) s).eraseRho = s.eraseRho
    ∧ ∀ e1 m1, ((List.range n).foldl (fun (t : FASMultigrid) (e : Nat) =>
        (List.range (t.molecule_n e)).foldl (fun (t : FASMultigrid) (m : Nat) =>
          t.set_rho_h e m (G t e m (t.rho_h e m))) t) s).rho_h e1 m1
      = if e1 < n ∧ m1 < s.molecule_n e1 then G s e1 m1 (s.rho_h e1 m1)
        else s.rho_h e1 m1 := by
  induction n with
  | zero => exact ⟨rfl, fun e1 m1 => by simp⟩
  | succ n ih =>
    rw [List.range_succ, List.foldl_append]
    obtain ⟨ih1, ih2⟩ := ih
    generalize (List.range n).foldl (fun (t : FASMultigrid) (e : Nat) =>
        (List.range (t.molecule_n e)).foldl (fun (t : FASMultigrid) (m : Nat) =>
          t.set_rho_h e m (G t e m (t.rho_h e m))) t) s = t at ih1 ih2
    simp only [List.foldl_cons, List.foldl_nil]
    have hGt : ∀ t1 : FASMultigrid, t1.eraseRho = t.eraseRho → G t1 = G t :=
      fun t1 h1 => (hG t1 (h1.trans ih1)).trans (hG t ih1).symm
    obtain ⟨m1, m2⟩ := foldl_set_rho_mol G t hGt n (t.molecule_n n)
    refine ⟨m1.trans ih1, ?_⟩
    intro e1 k1
    rw [m2 e1 k1, hG t ih1, molecule_n_of_eraseRho s t ih1]
    by_cases he : e1 = n
    · subst he
      by_cases hk : k1 < s.molecule_n e1
      · rw [if_pos ⟨rfl, hk⟩, if_pos ⟨by omega, hk⟩, ih2]
        simp
      · rw [if_neg (fun h => hk h.2), if_neg (fun h => hk h.2), ih2]
        simp
    · rw [if_neg (fun h => he h.1), ih2]
      have : e1 < n + 1 ↔ e1 < n := by omega
      simp only [this]

theorem rhoAllocLoop_congr (s t : FASMultigrid) (h : t.eraseRho = s.eraseRho) :
    t.rhoAllocLoop = s.rhoAllocLoop := by
  have h1 : t.eraseRho.max_depth = s.eraseRho.max_depth := congrArg FASMultigrid.max_depth h
  have h2 : t.eraseRho.min_depth = s.eraseRho.min_depth := congrArg FASMultigrid.min_depth h
  have h3 : t.eraseRho.nx_h = s.eraseRho.nx_h := congrArg FASMultigrid.nx_h h
  have h4 : t.eraseRho.ny_h = s.eraseRho.ny_h := congrArg FASMultigrid.ny_h h
  have h5 : t.eraseRho.nz_h = s.eraseRho.nz_h := congrArg FASMultigrid.nz_h h
  change t.max_depth = s.max_depth at h1
  change t.min_depth = s.min_depth at h2
  change t.nx_h = s.nx_h at h3
  change t.ny_h = s.ny_h at h4
  change t.nz_h = s.nz_h at h5
  funext mem rho
  unfold FASMultigrid.rhoAllocLoop FASMultigrid._dIdx
  rw [h1, h2, h3, h4, h5]

theorem rhoRestrictLoop_congr (s t : FASMultigrid) (h : t.eraseRho = s.eraseRho) :
    t.rhoRestrictLoop = s.rhoRestrictLoop := by
  have h1 : t.eraseRho.max_depth = s.eraseRho.max_depth := congrArg FASMultigrid.max_depth h
  have h2 : t.eraseRho.min_depth = s.eraseRho.min_depth := congrArg FASMultigrid.min_depth h
  change t.max_depth = s.max_depth at h1
  change t.min_depth = s.min_depth at h2
  funext rho
  unfold FASMultigrid.rhoRestrictLoop FASMultigrid._restrictFine2coarse FASMultigrid._dIdx
  rw [h1, h2]

/-- After `initializeRhoHeirarchy` each density hierarchy of an equation `e < u_n`
and a molecule `m < molecule_n[e]` is the old one after the allocation loop and
the restriction loop; the others are unchanged. -/
theorem initializeRhoHeirarchy_rho (mem : Nat → Nat → Int → Int → ℚ) (s : FASMultigrid)
    (e m : Nat) :
    (s.initializeRhoHeirarchy mem).rho_h e m
      = if e < s.u_n ∧ m < s.molecule_n e then
          s.rhoRestrictLoop (s.rhoAllocLoop (mem e m) (s.rho_h e m))
        else s.rho_h e m := by
  obtain ⟨a1, a2⟩ := foldl_set_rho_eqn
    (fun t e m rho => t.rhoAllocLoop (mem e m) rho) s
    (fun t ht => by funext e m rho; show t.rhoAllocLoop (mem e m) rho = s.rhoAllocLoop (mem e m) rho; rw [rhoAllocLoop_congr s t ht]) s.u_n
  unfold FASMultigrid.initializeRhoHeirarchy
  dsimp only
  generalize (List.range s.u_n).foldl (fun (s : FASMultigrid) (eqn_id : Nat) =>
    (List.range (s.molecule_n eqn_id)).foldl (fun (s : FASMultigrid) (mol_id : Nat) =>
      s.set_rho_h eqn_id mol_id (s.rhoAllocLoop (mem eqn_id mol_id) (s.rho_h eqn_id mol_id)))
      s) s = t at a1 a2
  obtain ⟨b1, b2⟩ := foldl_set_rho_eqn
    (fun t _ _ rho => t.rhoRestrictLoop rho) t
    (fun t1 ht => by funext e m rho; show t1.rhoRestrictLoop rho = t.rhoRestrictLoop rho; rw [rhoRestrictLoop_congr t t1 ht]) t.u_n
  have hn : t.eraseRho.u_n = s.eraseRho.u_n := congrArg FASMultigrid.u_n a1
  change t.u_n = s.u_n at hn
  rw [b2 e m, a2 e m, molecule_n_of_eraseRho s t a1, hn, rhoRestrictLoop_congr s t a1]
  by_cases hc : e < s.u_n ∧ m < s.molecule_n e
  · simp only [if_pos hc]
  · simp only [if_neg hc]

theorem init_pts_pos (mem : Int → ℚ) (nx ny nz : Int) (hx : 0 < nx) (hy : 0 < ny)
    (hz : 0 < nz) : 0 < (fas_grid_t.init mem nx ny nz).pts := by
  show 0 < nx * ny * nz
  positivity

/-- The allocation loop when the finest level is present: after `k` passes the `k`
levels below the finest one are newly initialised with the extents of their
level, the other levels are untouched. -/
theorem rhoAllocLoop_present_steps (s : FASMultigrid) (mem : Int → Int → ℚ)
    (rho : Int → fas_grid_t) (T : Nat) (hT : s.max_depth - s.min_depth = (T : Int))
    (hpos : ∀ d : Int, 0 ≤ d → d ≤ T → 0 < s.nx_h d ∧ 0 < s.ny_h d ∧ 0 < s.nz_h d)
    (hfin : 0 < (rho T).pts) (k : Nat) (hk : k ≤ T) :
    (∀ d : Int, (T : Int) - k ≤ d → d < T →
        (((List.range k).map (fun (n : Nat) => s.max_depth - 1 - (n : Int))).foldl
          (fun (rho : Int → fas_grid_t) (depth : Int) =>
            if (rho (s._dIdx depth + 1)).pts > 0 then
              Function.update rho (s._dIdx depth)
                (fas_grid_t.init (mem (s._dIdx depth)) (s.nx_h (s._dIdx depth))
                  (s.ny_h (s._dIdx depth)) (s.nz_h (s._dIdx depth)))
            else rho) rho) d
          = fas_grid_t.init (mem d) (s.nx_h d) (s.ny_h d) (s.nz_h d))
    ∧ (∀ d : Int, (d < (T : Int) - k ∨ (T : Int) ≤ d) →
        (((List.range k).map (fun (n : Nat) => s.max_depth - 1 - (n : Int))).foldl
          (fun (rho : Int → fas_grid_t) (depth : Int) =>
            if (rho (s._dIdx depth + 1)).pts > 0 then
              Function.update rho (s._dIdx depth)
                (fas_grid_t.init (mem (s._dIdx depth)) (s.nx_h (s._dIdx depth))
                  (s.ny_h (s._dIdx depth)) (s.nz_h (s._dIdx depth)))
            else rho) rho) d = rho d) := by
  induction k with
  | zero =>
    refine ⟨fun d h1 h2 => ?_, fun d _ => rfl⟩
    simp at h1
    omega
  | succ k ih =>
    obtain ⟨ih1, ih2⟩ := ih (by omega)
    rw [List.range_succ, List.map_append, List.foldl_append]
    generalize ((List.range k).map (fun (n : Nat) => s.max_depth - 1 - (n : Int))).foldl
      (fun (rho : Int → fas_grid_t) (depth : Int) =>
        if (rho (s._dIdx depth + 1)).pts > 0 then
          Function.update rho (s._dIdx depth)
            (fas_grid_t.init (mem (s._dIdx depth)) (s.nx_h (s._dIdx depth))
              (s.ny_h (s._dIdx depth)) (s.nz_h (s._dIdx depth)))
        else rho) rho = r at ih1 ih2
    have hidx : s._dIdx (s.max_depth - 1 - (k : Int)) = (T : Int) - 1 - k := by
      unfold FASMultigrid._dIdx
      omega
    have hcond : (r ((T : Int) - 1 - k + 1)).pts > 0 := by
      by_cases hk0 : k = 0
      · subst hk0
        rw [ih2 _ (Or.inr (by push_cast; omega))]
        have : (T : Int) - 1 - (0 : Nat) + 1 = T := by push_cast; omega
        rw [this]
        exact hfin
      · rw [ih1 _ (by omega) (by omega)]
        obtain ⟨px, py, pz⟩ := hpos ((T : Int) - 1 - k + 1) (by omega) (by omega)
        exact init_pts_pos _ _ _ _ px py pz
    simp only [List.map_cons, List.map_nil, List.foldl_cons, List.foldl_nil, hidx,
      if_pos hcond]
    constructor
    · intro d h1 h2
      by_cases hd : d = (T : Int) - 1 - k
      · subst hd
        rw [Function.update_same]
      · rw [Function.update_noteq hd]
        exact ih1 d (by push_cast at h1; omega) h2
    · intro d h
      have hd : d ≠ (T : Int) - 1 - k := by push_cast at h; omega
      rw [Function.update_noteq hd]
      exact ih2 d (by push_cast at h; omega)

/-- A depth loop whose test fails at every level it visits leaves the hierarchy as
it is. -/
theorem foldl_skip {α : Type} (step : (Int → fas_grid_t) → α → Int → fas_grid_t)
    (rho : Int → fas_grid_t) (l : List α) (h : ∀ x ∈ l, step rho x = rho) :
    l.foldl step rho = rho := by
  induction l with
  | nil => rfl
  | cons x xs ih =>
    rw [List.foldl_cons, h x (List.mem_cons_self _ _)]
    exact ih (fun y hy => h y (List.mem_cons_of_mem _ hy))

/-- The allocation loop when no level above the coarsest is present: nothing is
allocated. -/
theorem rhoAllocLoop_absent (s : FASMultigrid) (mem : Int → Int → ℚ)
    (rho : Int → fas_grid_t) (T : Nat) (hT : s.max_depth - s.min_depth = (T : Int))
    (habs : ∀ d : Int, 1 ≤ d → d ≤ T → ¬ 0 < (rho d).pts) :
    s.rhoAllocLoop mem rho = rho := by
  unfold FASMultigrid.rhoAllocLoop
  apply foldl_skip
  intro x hx
  obtain ⟨n, hn, rfl⟩ := List.mem_map.mp hx
  rw [hT, Int.toNat_ofNat] at hn
  have hn2 := List.mem_range.mp hn
  have hidx : s._dIdx (s.max_depth - 1 - (n : Int)) + 1 = (T : Int) - n := by
    unfold FASMultigrid._dIdx
    omega
  dsimp only
  rw [hidx, if_neg]
  exact habs _ (by omega) (by omega)

/-- The restriction loop when no level above the coarsest is present: nothing is
restricted. -/
theorem rhoRestrictLoop_absent (s : FASMultigrid) (rho : Int → fas_grid_t) (T : Nat)
    (hT : s.max_depth - s.min_depth = (T : Int))
    (habs : ∀ d : Int, 1 ≤ d → d ≤ T → ¬ 0 < (rho d).pts) :
    s.rhoRestrictLoop rho = rho := by
  unfold FASMultigrid.rhoRestrictLoop
  apply foldl_skip
  intro x hx
  obtain ⟨n, hn, rfl⟩ := List.mem_map.mp hx
  rw [hT, Int.toNat_ofNat] at hn
  have hn2 := List.mem_range.mp hn
  have hidx : s._dIdx (s.max_depth - (n : Int)) = (T : Int) - n := by
    unfold FASMultigrid._dIdx
    omega
  dsimp only
  rw [hidx, if_neg]
  exact habs _ (by omega) (by omega)

/-- The restriction loop when the levels `0 .. T` are present: after `k` passes each
of the `k` levels below the finest one is the restriction of the next finer level
into its old grid, the other levels are untouched. -/
theorem rhoRestrictLoop_present_steps (s : FASMultigrid) (rho : Int → fas_grid_t) (T : Nat)
    (hT : s.max_depth - s.min_depth = (T : Int))
    (hpres : ∀ d : Int, 0 ≤ d → d ≤ T → 0 < (rho d).pts) (k : Nat) (hk : k ≤ T) :
    (∀ d : Int, (T : Int) - k ≤ d → d < T →
        (((List.range k).map (fun (n : Nat) => s.max_depth - (n : Int))).foldl
          (fun (rho : Int → fas_grid_t) (depth : Int) =>
            if (rho (s._dIdx depth)).pts > 0 then s._restrictFine2coarse rho depth
            else rho) rho) d
          = restrictLoop
              ((((List.range k).map (fun (n : Nat) => s.max_depth - (n : Int))).foldl
                (fun (rho : Int → fas_grid_t) (depth : Int) =>
                  if (rho (s._dIdx depth)).pts > 0 then s._restrictFine2coarse rho depth
                  else rho) rho) (d + 1))
              (rho d))
    ∧ (∀ d : Int, (d < (T : Int) - k ∨ (T : Int) ≤ d) →
        (((List.range k).map (fun (n : Nat) => s.max_depth - (n : Int))).foldl
          (fun (rho : Int → fas_grid_t) (depth : Int) =>
            if (rho (s._dIdx depth)).pts > 0 then s._restrictFine2coarse rho depth
            else rho) rho) d = rho d) := by
  induction k with
  | zero =>
    refine ⟨fun d h1 h2 => ?_, fun d _ => rfl⟩
    simp at h1
    omega
  | succ k ih =>
    obtain ⟨ih1, ih2⟩ := ih (by omega)
    rw [List.range_succ, List.map_append, List.foldl_append]
    generalize ((List.range k).map (fun (n : Nat) => s.max_depth - (n : Int))).foldl
      (fun (rho : Int → fas_grid_t) (depth : Int) =>
        if (rho (s._dIdx depth)).pts > 0 then s._restrictFine2coarse rho depth
        else rho) rho = r at ih1 ih2
    have hidx : s._dIdx (s.max_depth - (k : Int)) = (T : Int) - k := by
      unfold FASMultigrid._dIdx
      omega
    have hcond : (r ((T : Int) - k)).pts > 0 := by
      by_cases hk0 : k = 0
      · subst hk0
        rw [ih2 _ (Or.inr (by push_cast; omega))]
        exact hpres _ (by push_cast; omega) (by push_cast; omega)
      · rw [ih1 _ (by omega) (by omega), (restrictLoop_dims _ _).2.2.2]
        exact hpres _ (by omega) (by omega)
    simp only [List.map_cons, List.map_nil, List.foldl_cons, List.foldl_nil, hidx,
      if_pos hcond, FASMultigrid._restrictFine2coarse]
    constructor
    · intro d h1 h2
      have hd1 : d + 1 ≠ (T : Int) - k - 1 := by push_cast at h1; omega
      rw [Function.update_noteq hd1]
      by_cases hd : d = (T : Int) - k - 1
      · subst hd
        rw [Function.update_same, ih2 ((T : Int) - k - 1) (Or.inl (by omega))]
        have : (T : Int) - k - 1 + 1 = (T : Int) - k := by omega
        rw [this]
      · rw [Function.update_noteq hd]
        exact ih1 d (by push_cast at h1; omega) h2
    · intro d h
      have hd : d ≠ (T : Int) - k - 1 := by push_cast at h; omega
      rw [Function.update_noteq hd]
      exact ih2 d (by push_cast at h; omega)

/-- C19: after `initializeRhoHeirarchy`, for an equation `e < u_n` and a molecule
`m < molecule_n[e]` of a solver with `min_depth <= max_depth` and positive extents
at the levels `0 .. _dIdx(max_depth)`: if the finest density grid is present
(`pts > 0`), it is unchanged and at every coarser level the density grid is
present, has the extents of the hierarchy for that level, and is the restriction
(the loop of `_restrictFine2coarse`) of the grid of the next finer level into the
newly allocated grid; if the finest density grid is absent and the coarser ones
were absent before the call, the hierarchy is unchanged, so absent at every
level. -/
theorem initializeRhoHeirarchy_levels (mem : Nat → Nat → Int → Int → ℚ) (s : FASMultigrid)
    (e m : Nat) (he : e < s.u_n) (hm : m < s.molecule_n e) (hd : s.min_depth ≤ s.max_depth)
    (hpos : ∀ d : Int, 0 ≤ d → d ≤ s._dIdx s.max_depth →
      0 < s.nx_h d ∧ 0 < s.ny_h d ∧ 0 < s.nz_h d) :
    (0 < (s.rho_h e m (s._dIdx s.max_depth)).pts →
        (s.initializeRhoHeirarchy mem).rho_h e m (s._dIdx s.max_depth)
          = s.rho_h e m (s._dIdx s.max_depth)
        ∧ ∀ d : Int, 0 ≤ d → d < s._dIdx s.max_depth →
            0 < ((s.initializeRhoHeirarchy mem).rho_h e m d).pts
            ∧ ((s.initializeRhoHeirarchy mem).rho_h e m d).hasDims (s.nx_h d) (s.ny_h d)
                (s.nz_h d)
            ∧ (s.initializeRhoHeirarchy mem).rho_h e m d
                = restrictLoop ((s.initializeRhoHeirarchy mem).rho_h e m (d + 1))
                    (fas_grid_t.init (mem e m d) (s.nx_h d) (s.ny_h d) (s.nz_h d)))
    ∧ (¬ 0 < (s.rho_h e m (s._dIdx s.max_depth)).pts →
        (∀ d : Int, 0 ≤ d → d < s._dIdx s.max_depth → ¬ 0 < (s.rho_h e m d).pts) →
        (s.initializeRhoHeirarchy mem).rho_h e m = s.rho_h e m
        ∧ ∀ d : Int, 0 ≤ d → d ≤ s._dIdx s.max_depth →
            ¬ 0 < ((s.initializeRhoHeirarchy mem).rho_h e m d).pts) := by
  obtain ⟨T, hT⟩ : ∃ T : Nat, s.max_depth - s.min_depth = (T : Int) :=
    ⟨(s.max_depth - s.min_depth).toNat, (Int.toNat_of_nonneg (by omega)).symm⟩
  have htop : s._dIdx s.max_depth = (T : Int) := hT
  have hTn : (s.max_depth - s.min_depth).toNat = T := by
    rw [hT, Int.toNat_ofNat]
  rw [initializeRhoHeirarchy_rho, if_pos ⟨he, hm⟩, htop]
  rw [htop] at hpos
  constructor
  · intro hfin
    obtain ⟨a1, a2⟩ := rhoAllocLoop_present_steps s (mem e m) (s.rho_h e m) T hT hpos hfin T
      (le_refl T)
    have halloc : ∀ d : Int, 0 ≤ d → d ≤ T →
        0 < (s.rhoAllocLoop (mem e m) (s.rho_h e m) d).pts := by
      intro d h0 h1
      unfold FASMultigrid.rhoAllocLoop
      rw [hTn]
      by_cases hdT : d = T
      · rw [a2 d (Or.inr (by omega)), hdT]
        exact hfin
      · rw [a1 d (by omega) (by omega)]
        obtain ⟨px, py, pz⟩ := hpos d h0 h1
        exact init_pts_pos _ _ _ _ px py pz
    obtain ⟨b1, b2⟩ := rhoRestrictLoop_present_steps s
      (s.rhoAllocLoop (mem e m) (s.rho_h e m)) T hT halloc T (le_refl T)
    have hR : ∀ d : Int, s.rhoRestrictLoop (s.rhoAllocLoop (mem e m) (s.rho_h e m)) d
        = (((List.range T).map (fun (n : Nat) => s.max_depth - (n : Int))).foldl
          (fun (rho : Int → fas_grid_t) (depth : Int) =>
            if (rho (s._dIdx depth)).pts > 0 then s._restrictFine2coarse rho depth
            else rho) (s.rhoAllocLoop (mem e m) (s.rho_h e m))) d := by
      intro d
      unfold FASMultigrid.rhoRestrictLoop
      rw [hTn]
    have hA : ∀ d : Int, 0 ≤ d → d < T →
        s.rhoAllocLoop (mem e m) (s.rho_h e m) d
          = fas_grid_t.init (mem e m d) (s.nx_h d) (s.ny_h d) (s.nz_h d) := by
      intro d h0 h1
      unfold FASMultigrid.rhoAllocLoop
      rw [hTn]
      exact a1 d (by omega) h1
    have hAtop : s.rhoAllocLoop (mem e m) (s.rho_h e m) T = s.rho_h e m T := by
      unfold FASMultigrid.rhoAllocLoop
      rw [hTn]
      exact a2 T (Or.inr (le_refl _))
    refine ⟨?_, ?_⟩
    · rw [hR, b2 _ (Or.inr (le_refl _)), hAtop]
    · intro d h0 h1
      have hrec : s.rhoRestrictLoop (s.rhoAllocLoop (mem e m) (s.rho_h e m)) d
          = restrictLoop (s.rhoRestrictLoop (s.rhoAllocLoop (mem e m) (s.rho_h e m)) (d + 1))
              (fas_grid_t.init (mem e m d) (s.nx_h d) (s.ny_h d) (s.nz_h d)) := by
        rw [hR d, hR (d + 1), b1 d (by omega) h1, hA d h0 h1]
      obtain ⟨px, py, pz⟩ := hpos d h0 (by omega)
      refine ⟨?_, ?_, hrec⟩
      · rw [hrec, (restrictLoop_dims _ _).2.2.2]
        exact init_pts_pos _ _ _ _ px py pz
      · rw [hrec]
        obtain ⟨d1, d2, d3, d4⟩ := restrictLoop_dims
          (s.rhoRestrictLoop (s.rhoAllocLoop (mem e m) (s.rho_h e m)) (d + 1))
          (fas_grid_t.init (mem e m d) (s.nx_h d) (s.ny_h d) (s.nz_h d))
        exact ⟨d1, d2, d3, d4⟩
  · intro hfin hcoarse
    have habs : ∀ d : Int, 1 ≤ d → d ≤ T → ¬ 0 < (s.rho_h e m d).pts := by
      intro d h1 h2
      by_cases hdT : d = T
      · rw [hdT]
        exact hfin
      · exact hcoarse d (by omega) (by omega)
    have hA := rhoAllocLoop_absent s (mem e m) (s.rho_h e m) T hT habs
    rw [hA, rhoRestrictLoop_absent s (s.rho_h e m) T hT habs]
    refine ⟨rfl, ?_⟩
    intro d h0 h1
    by_cases hdT : d = T
    · rw [hdT]
      exact hfin
    · exact hcoarse d h0 (by omega)

theorem rhoSolver_extents (d : Int) (h0 : 0 ≤ d) (h1 : d ≤ rhoSolver._dIdx rhoSolver.max_depth) :
    0 < rhoSolver.nx_h d ∧ 0 < rhoSolver.ny_h d ∧ 0 < rhoSolver.nz_h d := by
  have h2 : rhoSolver._dIdx rhoSolver.max_depth = 1 := by decide
  rw [h2] at h1
  have h3 : d = 0 ∨ d = 1 := by omega
  rcases h3 with rfl | rfl <;> decide

theorem initializeRhoHeirarchy_levels_witness :
    0 < rhoSolver.u_n ∧ 0 < rhoSolver.molecule_n 0
    ∧ 0 < (rhoSolver.rho_h 0 0 (rhoSolver._dIdx rhoSolver.max_depth)).pts
    ∧ 0 < ((rhoSolver.initializeRhoHeirarchy (fun _ _ _ _ => 0)).rho_h 0 0 0).pts
    ∧ ((rhoSolver.initializeRhoHeirarchy (fun _ _ _ _ => 0)).rho_h 0 0 0).hasDims
        (rhoSolver.nx_h 0) (rhoSolver.ny_h 0) (rhoSolver.nz_h 0) :=
  ⟨by decide, by decide, by decide,
    (((initializeRhoHeirarchy_levels (fun _ _ _ _ => 0) rhoSolver 0 0 (by decide) (by decide)
      (by decide) rhoSolver_extents).1 (by decide)).2 0 (by decide) (by decide)).1,
    (((initializeRhoHeirarchy_levels (fun _ _ _ _ => 0) rhoSolver 0 0 (by decide) (by decide)
      (by decide) rhoSolver_extents).1 (by decide)).2 0 (by decide) (by decide)).2.1⟩

/-! ## Equation schema -/

theorem add_atom_to_eqn_none (s : FASMultigrid) (atom_in : atom) (molecule_id eqn_id : Nat) :
    s.add_atom_to_eqn atom_in molecule_id eqn_id = none ↔ ¬ atom_in.wellTyped := by
  unfold FASMultigrid.add_atom_to_eqn molecule.add_atom atom.wellTyped
  by_cases h : 1 ≤ atom_in.type ∧ atom_in.type ≤ 11
  · simp [h]
  · simp [h]

theorem add_atom_to_eqn_some (s t : FASMultigrid) (atom_in : atom) (molecule_id eqn_id : Nat)
    (h : s.add_atom_to_eqn atom_in molecule_id eqn_id = some t) :
    atom_in.wellTyped
    ∧ (t.eqns eqn_id molecule_id).atoms = (s.eqns eqn_id molecule_id).atoms ++ [atom_in]
    ∧ (∀ e m, (e ≠ eqn_id ∨ m ≠ molecule_id) → t.eqns e m = s.eqns e m)
    ∧ t.molecule_n = s.molecule_n := by
  unfold FASMultigrid.add_atom_to_eqn molecule.add_atom at h
  by_cases hw : 1 ≤ atom_in.type ∧ atom_in.type ≤ 11
  · rw [if_pos hw] at h
    simp only [Option.some.injEq] at h
    subst h
    refine ⟨hw, by simp, ?_, rfl⟩
    intro e m hne
    by_cases he : e = eqn_id
    · subst he
      have hm : m ≠ molecule_id := by
        rcases hne with h1 | h1
        · exact absurd rfl h1
        · exact h1
      simp [Function.update_noteq hm]
    · simp [Function.update_noteq he]
  · rw [if_neg hw] at h
    cases h

theorem add_atom_to_eqn_allWellTyped (s t : FASMultigrid) (atom_in : atom)
    (molecule_id eqn_id : Nat) (h : s.add_atom_to_eqn atom_in molecule_id eqn_id = some t)
    (hs : s.allWellTyped) : t.allWellTyped := by
  obtain ⟨hw, hat, hother, _⟩ := add_atom_to_eqn_some s t atom_in molecule_id eqn_id h
  intro e m ad had
  by_cases hc : e = eqn_id ∧ m = molecule_id
  · obtain ⟨rfl, rfl⟩ := hc
    rw [hat] at had
    rcases List.mem_append.mp had with h1 | h1
    · exact hs _ _ ad h1
    · rw [List.mem_singleton.mp h1]
      exact hw
  · rw [hother e m (by
      by_contra hcon
      push_neg at hcon
      exact hc hcon)] at had
    exact hs e m ad had

theorem add_atoms_allWellTyped (calls : List (atom × Nat × Nat)) (s t : FASMultigrid)
    (h : s.add_atoms calls = some t) (hs : s.allWellTyped) :
    t.allWellTyped ∧ ∀ c ∈ calls, c.1.wellTyped := by
  induction calls generalizing s with
  | nil =>
    simp only [FASMultigrid.add_atoms, Option.some.injEq] at h
    subst h
    exact ⟨hs, fun c hc => by cases hc⟩
  | cons c cs ih =>
    rw [FASMultigrid.add_atoms] at h
    cases hc : s.add_atom_to_eqn c.1 c.2.1 c.2.2 with
    | none =>
      rw [hc] at h
      cases h
    | some s1 =>
      rw [hc] at h
      obtain ⟨i1, i2⟩ := ih s1 h (add_atom_to_eqn_allWellTyped s s1 _ _ _ hc hs)
      refine ⟨i1, ?_⟩
      intro c1 hc1
      rcases List.mem_cons.mp hc1 with h1 | h1
      · rw [h1]
        exact (add_atom_to_eqn_some s s1 _ _ _ hc).1
      · exact i2 c1 h1

/-- C20: schema misuse fails fast (against the spec's `add_atom`; the method of the
missing header is modelled from the spec).  `add_atom_to_eqn` fails exactly on the
atoms whose type is outside 1..11; a call that succeeds appends the atom to its
molecule and leaves the other molecules alone; so after any sequence of successful
calls on a state whose stored atoms have types in 1..11 (as after construction,
where no atom is stored), every stored atom, hence every atom that the equation
evaluator folds over, has a type in 1..11. -/
theorem add_atom_to_eqn_rejects_out_of_range (s : FASMultigrid) (atom_in : atom)
    (molecule_id eqn_id : Nat) :
    (s.add_atom_to_eqn atom_in molecule_id eqn_id = none
        ↔ ¬ (1 ≤ atom_in.type ∧ atom_in.type ≤ 11))
    ∧ (∀ t : FASMultigrid, s.add_atom_to_eqn atom_in molecule_id eqn_id = some t →
        (t.eqns eqn_id molecule_id).atoms = (s.eqns eqn_id molecule_id).atoms ++ [atom_in]
        ∧ (s.allWellTyped → t.allWellTyped))
    ∧ (∀ (calls : List (atom × Nat × Nat)) (t : FASMultigrid),
        s.add_atoms calls = some t → s.allWellTyped →
        t.allWellTyped ∧ (∀ e : Nat, t.eqnWellTyped e)
        ∧ ∀ c ∈ calls, 1 ≤ c.1.type ∧ c.1.type ≤ 11)
    ∧ (∀ (env : Env) (mem : Nat → Nat → Int → Int → ℚ) (u_in : Nat → fas_grid_t)
        (u_n_in : Nat) (molecule_n_in : Nat → Nat) (max_depth_in max_relax_iters_in : Int)
        (tol : ℚ),
        (FASMultigrid.new env mem (fun _ _ => ⟨1, []⟩) u_in u_n_in molecule_n_in max_depth_in
          max_relax_iters_in tol).allWellTyped) := by
  refine ⟨add_atom_to_eqn_none s atom_in molecule_id eqn_id, ?_, ?_, ?_⟩
  · intro t ht
    exact ⟨(add_atom_to_eqn_some s t _ _ _ ht).2.1,
      add_atom_to_eqn_allWellTyped s t _ _ _ ht⟩
  · intro calls t ht hs
    obtain ⟨h1, h2⟩ := add_atoms_allWellTyped calls s t ht hs
    exact ⟨h1, fun e m _ ad had => h1 e m ad had, h2⟩
  · intro env mem u_in u_n_in molecule_n_in max_depth_in max_relax_iters_in tol
    have hfold : ∀ (l : List Nat) (s0 : FASMultigrid), s0.allWellTyped →
        (l.foldl (ctorEqnStep env mem (fun _ _ => ⟨1, []⟩) u_in max_depth_in) s0).allWellTyped := by
      intro l
      induction l with
      | nil => intro s0 h0; exact h0
      | cons x xs ih =>
        intro s0 h0
        rw [List.foldl_cons]
        apply ih
        intro e m ad had
        by_cases he : e = x
        · subst he
          simp [ctorEqnStep] at had
        · have : (ctorEqnStep env mem (fun _ _ => ⟨1, []⟩) u_in max_depth_in s0 x).eqns e m
              = s0.eqns e m := by
            simp [ctorEqnStep, Function.update_noteq he]
          rw [this] at had
          exact h0 e m ad had
    rw [new_eq]
    apply hfold
    intro e m ad had
    simp [ctorStart] at had

theorem add_atom_to_eqn_rejects_out_of_range_witness :
    evenSolver.add_atom_to_eqn ⟨12, 0, 0⟩ 0 0 = none
    ∧ evenSolver.add_atom_to_eqn ⟨0, 0, 0⟩ 0 0 = none
    ∧ ¬ (evenSolver.add_atom_to_eqn ⟨11, 0, 0⟩ 0 0 = none) :=
  ⟨(add_atom_to_eqn_rejects_out_of_range evenSolver ⟨12, 0, 0⟩ 0 0).1.mpr (by decide),
    (add_atom_to_eqn_rejects_out_of_range evenSolver ⟨0, 0, 0⟩ 0 0).1.mpr (by decide),
    fun h => (add_atom_to_eqn_rejects_out_of_range evenSolver ⟨11, 0, 0⟩ 0 0).1.mp h
      (by decide)⟩

theorem getLambda_line_search_witness :
    (oneState 1 0 (-1) (-1))._getLambda (centralEnv 1 1 1) 1 1
      = (true, (oneState 1 0 (-1) (-1)).plusStep ((oneState 1 0 (-1) (-1))._dIdx 1)
          (lambdaOf 0)) :=
  (getLambda_line_search (centralEnv 1 1 1) (oneState 1 0 (-1) (-1)) 1 1).1 0 (by norm_num)
    (fun i hi => absurd hi (Nat.not_lt_zero i))
    (by
      rw [oneState_dIdx, oneState_plusStep, oneState_defectSum]
      simp [lambdaOf])

/-! ## The diagonal of the Jacobian -/

/-- C23: for an equation `e` with a single molecule of constant coefficient `c`, no
density grid and a single atom of type `t` in 5..11 on field `e`,
`_evaluateIterationForJacEquation` called with `coef_a = coef_b = 0` and
`u_id = e` yields `coef_a = c * (D_t v(x) + s * K * v(x) / h^2)` and
`coef_b = -s * c * K / h^2`, with `D_t v` the second derivative or Laplacian of the
atom taken on the `v` grid, `h = H_LEN_FRAC / nx`, `s = diagCount t` (1 for types
5..7, 3 for type 11, 0 for types 8..10) and `K = double_der_coef[STENCIL_ORDER]`,
whose table holds 2, 5/2, 49/18 and 205/72 for the orders 2, 4, 6 and 8. -/
theorem evaluateIterationForJacEquation_single_second_derivative (env : Env)
    (s : FASMultigrid) (e : Nat) (depth_idx i j k : Int) (c : ℚ) (t : Int) (val : ℚ)
    (hm : s.molecule_n e = 1) (heq : s.eqns e 0 = ⟨c, [⟨t, e, val⟩]⟩)
    (hrho : ¬ (s.rho_h e 0 depth_idx).pts > 0) (ht : 5 ≤ t ∧ t ≤ 11) :
    s._evaluateIterationForJacEquation env e depth_idx 0 0 i j k e
      = (c * (atomOn env (s.damping_v_h e depth_idx) i j k (s.posIdx depth_idx i j k)
              ⟨t, e, val⟩
            + diagCount t * double_der_coef env.STENCIL_ORDER
              * (s.damping_v_h e depth_idx)._array (s.posIdx depth_idx i j k)
              / ((env.H_LEN_FRAC / (s.nx_h depth_idx : ℚ))
                * (env.H_LEN_FRAC / (s.nx_h depth_idx : ℚ)))),
          -(diagCount t * c * double_der_coef env.STENCIL_ORDER
              / ((env.H_LEN_FRAC / (s.nx_h depth_idx : ℚ))
                * (env.H_LEN_FRAC / (s.nx_h depth_idx : ℚ)))))
    ∧ diagCount 5 = 1 ∧ diagCount 6 = 1 ∧ diagCount 7 = 1 ∧ diagCount 8 = 0
    ∧ diagCount 9 = 0 ∧ diagCount 10 = 0 ∧ diagCount 11 = 3
    ∧ double_der_coef 2 = 2 ∧ double_der_coef 4 = 5 / 2 ∧ double_der_coef 6 = 49 / 18
    ∧ double_der_coef 8 = 205 / 72 := by
  refine ⟨?_, by norm_num [diagCount], by norm_num [diagCount], by norm_num [diagCount],
    by norm_num [diagCount], by norm_num [diagCount], by norm_num [diagCount],
    by norm_num [diagCount], by norm_num [double_der_coef], by norm_num [double_der_coef],
    by norm_num [double_der_coef], by norm_num [double_der_coef]⟩
  obtain ⟨h5, h11⟩ := ht
  have h1 : ¬ t = 1 := by omega
  have h4 : ¬ t ≤ 4 := by omega
  unfold FASMultigrid._evaluateIterationForJacEquation FASMultigrid.jacMolInit
  simp only [hm, List.range_succ, List.range_zero, List.nil_append, List.foldl_cons,
    List.foldl_nil, heq, jacAtomStep, h1, h4,
    if_false, if_true, if_neg hrho]
  by_cases h10 : t ≤ 10
  · obtain ⟨a1, a2⟩ := der_type_second t h5 h10
    have h25 : ¬ (2 ≤ t ∧ t ≤ 4) := by omega
    simp only [if_pos h10, a1, a2, atomOn, h1, h25, if_false, if_pos (And.intro h5 h10),
      FASMultigrid.posIdx, diagCount]
    by_cases h7 : t ≤ 7
    · simp only [if_pos h7]
      refine Prod.ext ?_ ?_
      · simp only
        ring
      · simp only
        ring
    · have hne : ¬ t = 11 := by omega
      simp only [if_neg h7, if_neg hne]
      refine Prod.ext ?_ ?_
      · simp only
        ring
      · simp only
        ring
  · have he : t = 11 := by omega
    have h25 : ¬ (2 ≤ t ∧ t ≤ 4) := by omega
    have h510 : ¬ (5 ≤ t ∧ t ≤ 10) := by omega
    have h7 : ¬ t ≤ 7 := by omega
    simp only [if_neg h10, atomOn, h1, h25, h510, if_false, FASMultigrid.posIdx, diagCount,
      if_neg h7, if_pos he]
    refine Prod.ext ?_ ?_
    · simp only
      ring
    · simp only
      ring

theorem evaluateIterationForJacEquation_single_second_derivative_witness :
    lapSolver.molecule_n 0 = 1 ∧ ¬ (lapSolver.rho_h 0 0 1).pts > 0
    ∧ (lapSolver._evaluateIterationForJacEquation (centralEnv 2 2 2) 0 1 0 0 0 0 0 0).2
        = -(diagCount 11 * 1 * double_der_coef (centralEnv 2 2 2).STENCIL_ORDER
              / (((centralEnv 2 2 2).H_LEN_FRAC / (lapSolver.nx_h 1 : ℚ))
                * ((centralEnv 2 2 2).H_LEN_FRAC / (lapSolver.nx_h 1 : ℚ)))) :=
  ⟨by decide, by decide,
    congrArg Prod.snd
      (evaluateIterationForJacEquation_single_second_derivative (centralEnv 2 2 2) lapSolver 0 1
        0 0 0 1 11 0 (by decide) rfl (by decide) (by decide)).1⟩

theorem jacAtomStep_keeps_zero (env : Env) (s : FASMultigrid) (depth_idx i j k pos_idx : Int)
    (u_id : Nat) (dx : ℚ) (acc : JacAcc) (ad : atom) (h0 : acc.mol_to_b = 0)
    (had : ad.u_id = u_id → (2 ≤ ad.type ∧ ad.type ≤ 4) ∨ (8 ≤ ad.type ∧ ad.type ≤ 10)) :
    (jacAtomStep env s depth_idx i j k pos_idx u_id dx acc ad).mol_to_b = 0 := by
  unfold jacAtomStep
  by_cases hu : u_id = ad.u_id
  · have hty := had hu.symm
    have h1 : ¬ ad.type = 1 := by omega
    rw [if_neg h1]
    by_cases h4 : ad.type ≤ 4
    · rw [if_pos h4, if_pos hu]
      simp [h0]
    · have h10 : ad.type ≤ 10 := by omega
      have h7 : ¬ ad.type ≤ 7 := by omega
      rw [if_neg h4, if_pos h10, if_pos hu]
      simp [h0, h7]
  · by_cases h1 : ad.type = 1
    · rw [if_pos h1, if_neg hu]
      simp [h0]
    · rw [if_neg h1]
      by_cases h4 : ad.type ≤ 4
      · rw [if_pos h4, if_neg hu]
        simp [h0]
      · rw [if_neg h4]
        by_cases h10 : ad.type ≤ 10
        · rw [if_pos h10, if_neg hu]
          simp [h0]
        · rw [if_neg h10, if_neg hu]
          simp [h0]

theorem jacAtomFold_keeps_zero (env : Env) (s : FASMultigrid) (depth_idx i j k pos_idx : Int)
    (u_id : Nat) (dx : ℚ) (atoms : List atom) (acc : JacAcc) (h0 : acc.mol_to_b = 0)
    (had : ∀ ad ∈ atoms, ad.u_id = u_id →
      (2 ≤ ad.type ∧ ad.type ≤ 4) ∨ (8 ≤ ad.type ∧ ad.type ≤ 10)) :
    (atoms.foldl (jacAtomStep env s depth_idx i j k pos_idx u_id dx) acc).mol_to_b = 0 := by
  induction atoms generalizing acc with
  | nil => exact h0
  | cons a as ih =>
    rw [List.foldl_cons]
    exact ih _ (jacAtomStep_keeps_zero env s depth_idx i j k pos_idx u_id dx acc a h0
      (had a (List.mem_cons_self _ _))) (fun ad hin => had ad (List.mem_cons_of_mem _ hin))

/-- C29: for an equation `e` in which every atom on the equation's own field is a
first derivative (types 2..4) or a mixed second derivative (types 8..10), also
when no atom is on that field, `_evaluateIterationForJacEquation` called with
`coef_b = 0` and `u_id = e` leaves `coef_b = 0` at every point, whatever the state
(the contents of `u` and `v`), so the divisor `-coef_b` of the Jacobi update in
`_jacobianRelax` is 0 for such an equation. -/
theorem evaluateIterationForJacEquation_zero_diagonal (env : Env) (s : FASMultigrid)
    (e : Nat) (depth_idx i j k : Int) (coef_a : ℚ) (h : s.noDiagonalAtom e) :
    (s._evaluateIterationForJacEquation env e depth_idx coef_a 0 i j k e).2 = 0
    ∧ -(s._evaluateIterationForJacEquation env e depth_idx 0 0 i j k e).2 = 0 := by
  have key : ∀ a : ℚ, (s._evaluateIterationForJacEquation env e depth_idx a 0 i j k e).2 = 0 := by
    intro a
    unfold FASMultigrid._evaluateIterationForJacEquation
    dsimp only
    have hfold : ∀ (l : List Nat) (coef : ℚ × ℚ), (∀ m ∈ l, m < s.molecule_n e) → coef.2 = 0 →
        (l.foldl (fun (coef : ℚ × ℚ) mol_id =>
          (coef.1 + ((s.eqns e mol_id).atoms.foldl
              (jacAtomStep env s depth_idx i j k
                (H_INDEX i j k (s.nx_h depth_idx) (s.ny_h depth_idx) (s.nz_h depth_idx)) e
                (env.H_LEN_FRAC / (s.nx_h depth_idx : ℚ)))
              (s.jacMolInit e mol_id depth_idx
                (H_INDEX i j k (s.nx_h depth_idx) (s.ny_h depth_idx)
                  (s.nz_h depth_idx)))).mol_to_a,
            coef.2 + ((s.eqns e mol_id).atoms.foldl
              (jacAtomStep env s depth_idx i j k
                (H_INDEX i j k (s.nx_h depth_idx) (s.ny_h depth_idx) (s.nz_h depth_idx)) e
                (env.H_LEN_FRAC / (s.nx_h depth_idx : ℚ)))
              (s.jacMolInit e mol_id depth_idx
                (H_INDEX i j k (s.nx_h depth_idx) (s.ny_h depth_idx)
                  (s.nz_h depth_idx)))).mol_to_b)) coef).2 = 0 := by
      intro l
      induction l with
      | nil => intro coef _ h0; exact h0
      | cons m ms ih =>
        intro coef hl h0
        rw [List.foldl_cons]
        apply ih _ (fun x hx => hl x (List.mem_cons_of_mem _ hx))
        show coef.2 + _ = 0
        rw [h0, jacAtomFold_keeps_zero env s depth_idx i j k _ e _ _ _ rfl
          (h m (hl m (List.mem_cons_self _ _)))]
        norm_num
    exact hfold _ (a, 0) (fun m hm => List.mem_range.mp hm) rfl
  exact ⟨key coef_a, by rw [key 0]; norm_num⟩

theorem flatSolver_noDiagonalAtom : flatSolver.noDiagonalAtom 0 := by
  intro m _ ad had _
  have h1 : ad = ⟨2, 0, 0⟩ ∨ ad = ⟨8, 0, 0⟩ := by
    have : ad ∈ [(⟨2, 0, 0⟩ : atom), ⟨8, 0, 0⟩] := had
    simpa using this
  rcases h1 with rfl | rfl
  · left; decide
  · right; decide

theorem evaluateIterationForJacEquation_zero_diagonal_witness :
    flatSolver.noDiagonalAtom 0
    ∧ (flatSolver._evaluateIterationForJacEquation (centralEnv 2 2 2) 0 1 0 0 0 0 0 0).2 = 0 :=
  ⟨flatSolver_noDiagonalAtom,
    (evaluateIterationForJacEquation_zero_diagonal (centralEnv 2 2 2) flatSolver 0 1 0 0 0 0
      flatSolver_noDiagonalAtom).1⟩

/-! ## Early exit of the smoother and failed line search -/

theorem relaxLoop_converged (env : Env) (fuel : Nat) (depth : Int) (n : Nat) (s : FASMultigrid)
    (h : s.toleranceMet env depth) : relaxLoop env fuel depth n s = Outcome.ok s := by
  cases n with
  | zero => rfl
  | succ n => rw [relaxLoop, relaxStep_converged env fuel s depth h]

theorem toleranceMet_iff (env : Env) (s : FASMultigrid) (depth : Int)
    (hidx : s.max_depth_idx = s._dIdx s.max_depth) :
    s.toleranceMet env depth
      ↔ s._getMaxResidualAllEqs env depth
          < s.relaxation_tolerance / 4 ^ (s.max_depth - depth).toNat := by
  unfold FASMultigrid.toleranceMet pw2
  have he : s.max_depth_idx - s._dIdx depth = s.max_depth - depth := by
    rw [hidx]
    unfold FASMultigrid._dIdx
    omega
  rw [he, ← mul_pow]
  norm_num

/-- C24: early exit of the smoother.  If the tolerance test holds when
`_relaxSolution_GaussSeidel` is called, the call returns normally with the state
unchanged (so no cell of `u_h`, `damping_v_h`, `jac_rhs_h` or `coarse_src_h`
changes), for every depth and iteration limit; the same holds when the iteration
limit is 0 (or negative); and in a state with `max_depth_idx = _dIdx(max_depth)`,
as the constructor sets it, the tolerance test is `maximum residual <
relaxation_tolerance / 4^(max_depth - depth)`. -/
theorem relaxSolution_early_exit (env : Env) (fuel : Nat) (s : FASMultigrid)
    (depth max_iterations : Int) :
    (s.toleranceMet env depth →
        s._relaxSolution_GaussSeidel env fuel depth max_iterations = Outcome.ok s)
    ∧ (max_iterations ≤ 0 →
        s._relaxSolution_GaussSeidel env fuel depth max_iterations = Outcome.ok s)
    ∧ (s.max_depth_idx = s._dIdx s.max_depth →
        (s.toleranceMet env depth
          ↔ s._getMaxResidualAllEqs env depth
              < s.relaxation_tolerance / 4 ^ (s.max_depth - depth).toNat)) := by
  refine ⟨fun h => relaxLoop_converged env fuel depth _ s h, ?_,
    fun h => toleranceMet_iff env s depth h⟩
  intro h0
  unfold FASMultigrid._relaxSolution_GaussSeidel
  rw [Int.toNat_eq_zero.mpr h0]
  rfl

theorem relaxSolution_early_exit_witness :
    (oneState 0 0 0 0).toleranceMet (centralEnv 1 1 1) 1
    ∧ (oneState 0 0 0 0)._relaxSolution_GaussSeidel (centralEnv 1 1 1) 0 1 5
        = Outcome.ok (oneState 0 0 0 0) :=
  ⟨(oneState_toleranceMet 0 0 0 0).mpr (by norm_num),
    (relaxSolution_early_exit (centralEnv 1 1 1) 0 (oneState 0 0 0 0) 1 5).1
      ((oneState_toleranceMet 0 0 0 0).mpr (by norm_num))⟩

theorem mapAt_id (g : fas_grid_t) (cells : List Int) (phi : Int → ℚ → ℚ)
    (h : ∀ p, phi p (g._array p) = g._array p) : g.mapAt cells phi = g := by
  obtain ⟨a, x, y, z, n⟩ := g
  unfold fas_grid_t.mapAt
  simp only [fas_grid_t.mk.injEq, and_true]
  funext p
  by_cases hp : p ∈ cells
  · rw [if_pos hp]
    exact h p
  · rw [if_neg hp]

theorem plusStep_zero (s : FASMultigrid) (depth_idx : Int) : s.plusStep depth_idx 0 = s := by
  have hu : (fun (e : Nat) (d : Int) =>
      if e < s.u_n ∧ d = depth_idx then
        (s.u_h e depth_idx).mapAt (s.cells depth_idx)
          (fun p old => old + 0 * (s.damping_v_h e depth_idx)._array p)
      else s.u_h e d) = s.u_h := by
    funext e d
    by_cases hc : e < s.u_n ∧ d = depth_idx
    · rw [if_pos hc, hc.2]
      exact mapAt_id _ _ _ (fun p => by ring)
    · rw [if_neg hc]
  unfold FASMultigrid.plusStep
  dsimp only
  rw [hu]

theorem getLambdaLoop_state (env : Env) (s : FASMultigrid) (depth_idx : Int) (norm : ℚ)
    (n k : Nat) :
    ∃ j : Nat, (getLambdaLoop env depth_idx norm n (s.plusStep depth_idx (lambdaOf k))).2
      = s.plusStep depth_idx (lambdaOf j) := by
  induction n generalizing k with
  | zero => exact ⟨k, rfl⟩
  | succ n ih =>
    rw [getLambdaLoop]
    by_cases hc : (s.plusStep depth_idx (lambdaOf k)).defectSum env depth_idx ≤ norm
    · rw [if_pos hc]
      exact ⟨k, rfl⟩
    · rw [if_neg hc, lambdaReduce_plusStep]
      exact ih (k + 1)

/-- C28: a failed line search restores the unknowns.  If `_getLambda` returns
`false`, the state it leaves is the state before the call (`u0 + v - 100 * v / 100
= u0` in exact arithmetic), so every cell of every `u` grid has its old value;
`damping_v_h`, `coarse_src_h`, `jac_rhs_h` and the density grids are unchanged
whether it returns `true` or `false`, and so is `u_h` at the other levels. -/
theorem getLambda_failure_restores (env : Env) (s : FASMultigrid) (depth : Int) (norm : ℚ) :
    ((s._getLambda env depth norm).1 = false → (s._getLambda env depth norm).2 = s)
    ∧ (s._getLambda env depth norm).2.damping_v_h = s.damping_v_h
    ∧ (s._getLambda env depth norm).2.coarse_src_h = s.coarse_src_h
    ∧ (s._getLambda env depth norm).2.jac_rhs_h = s.jac_rhs_h
    ∧ (s._getLambda env depth norm).2.rho_h = s.rho_h
    ∧ (∀ (e : Nat) (d : Int), d ≠ s._dIdx depth →
        (s._getLambda env depth norm).2.u_h e d = s.u_h e d) := by
  obtain ⟨j, hj⟩ := getLambdaLoop_state env s (s._dIdx depth) norm 100 0
  rw [← getLambda_eq] at hj
  refine ⟨?_, by rw [hj]; rfl, by rw [hj]; rfl, by rw [hj]; rfl, by rw [hj]; rfl, ?_⟩
  · intro hf
    have hall : ∀ j, j < 100 →
        norm < (s.plusStep (s._dIdx depth) (lambdaOf j)).defectSum env (s._dIdx depth) := by
      intro j hj100
      by_contra hc
      have ht := (getLambda_flag env s depth norm).mpr ⟨j, hj100, not_lt.mp hc⟩
      rw [hf] at ht
      exact Bool.false_ne_true ht
    rw [getLambda_false env s depth norm hall]
    have h0 : lambdaOf 100 = 0 := by
      unfold lambdaOf
      norm_num
    rw [h0]
    exact plusStep_zero s _
  · intro e d hd
    rw [hj]
    simp [FASMultigrid.plusStep, hd]

theorem oneState_lineSearch_fails :
    (oneState 1 3 1 0)._getLambda (centralEnv 1 1 1) 1 (1 / 2)
      = (false, (oneState 1 3 1 0).plusStep ((oneState 1 3 1 0)._dIdx 1) (lambdaOf 100)) := by
  apply getLambda_false
  intro j hj
  rw [oneState_dIdx, oneState_plusStep, oneState_defectSum]
  have h1 : (0 : ℚ) ≤ lambdaOf j := by
    unfold lambdaOf
    have : (j : ℚ) ≤ 100 := by exact_mod_cast (le_of_lt hj)
    linarith
  have h2 : lambdaOf j ≤ 1 := by
    unfold lambdaOf
    have : (0 : ℚ) ≤ (j : ℚ) := by exact_mod_cast Nat.zero_le j
    linarith
  nlinarith

theorem getLambda_failure_restores_witness :
    ((oneState 1 3 1 0)._getLambda (centralEnv 1 1 1) 1 (1 / 2)).1 = false
    ∧ ((oneState 1 3 1 0)._getLambda (centralEnv 1 1 1) 1 (1 / 2)).2 = oneState 1 3 1 0 :=
  ⟨congrArg Prod.fst oneState_lineSearch_fails,
    (getLambda_failure_restores (centralEnv 1 1 1) (oneState 1 3 1 0) 1 (1 / 2)).1
      (congrArg Prod.fst oneState_lineSearch_fails)⟩

/-! ## Diagnostics -/

/-- C30: `printSolutionStrip(depth)` does not read the slot of `depth`.  It reads the
slot with index `depth` itself, which is `_dIdx(depth) + min_depth`; for the
constructed two-level solver `evenSolver` (`min_depth = 1`, `max_depth = 2`,
`total_depths = 2`) the call with `depth = 1` prints the strip `[1, 1]` of the finest
grid, which belongs to depth 2, where the grid of depth 1 would give `[0]`, and the
call with `depth = max_depth = 2` uses the index 2, which is not below
`total_depths`. -/
theorem printSolutionStrip_reads_wrong_slot :
    (∀ (s : FASMultigrid) (depth : Int),
        s.printSolutionStrip depth = _printStrip (s.u_h 0 (s._dIdx depth + s.min_depth)))
    ∧ evenSolver.min_depth = 1 ∧ evenSolver.max_depth = 2 ∧ evenSolver.total_depths = 2
    ∧ evenSolver.printSolutionStrip 1 = _printStrip (evenSolver.u_h 0 (evenSolver._dIdx 2))
    ∧ evenSolver.printSolutionStrip 1 = [1, 1]
    ∧ _printStrip (evenSolver.u_h 0 (evenSolver._dIdx 1)) = [0]
    ∧ ¬ (evenSolver.max_depth < evenSolver.total_depths) := by
  refine ⟨?_, rfl, rfl, rfl, rfl, rfl, rfl, by decide⟩
  intro s depth
  unfold FASMultigrid.printSolutionStrip FASMultigrid._dIdx
  rw [sub_add_cancel]

/-! ## The coarse-grid correction step -/

/-- The loop of `_correctFineFromCoarseErr_Err2Appx` on a pair of grids: when the
visited positions are pairwise distinct, at every visited position the first
grid ends with the old value of the second and the second with the sum of the two
old values; the other positions are unchanged. -/
theorem foldl_correct_pair {α : Type} (loc : α → Int) (l : List α) (a b : fas_grid_t)
    (hnd : (l.map loc).Nodup) (p : Int) :
    ((l.foldl (fun (g : fas_grid_t × fas_grid_t) x =>
        (g.1.set (loc x) (g.2._array (loc x)), g.2.add (loc x) (g.1._array (loc x))))
        (a, b)).1._array p = if p ∈ l.map loc then b._array p else a._array p)
    ∧ ((l.foldl (fun (g : fas_grid_t × fas_grid_t) x =>
        (g.1.set (loc x) (g.2._array (loc x)), g.2.add (loc x) (g.1._array (loc x))))
        (a, b)).2._array p
          = if p ∈ l.map loc then b._array p + a._array p else b._array p) := by
  induction l generalizing a b with
  | nil => simp
  | cons x xs ih =>
    rw [List.map_cons, List.nodup_cons] at hnd
    rw [List.foldl_cons]
    have h := ih (a.set (loc x) (b._array (loc x))) (b.add (loc x) (a._array (loc x))) hnd.2
    by_cases hp : p = loc x
    · subst hp
      rw [if_neg hnd.1, if_neg hnd.1] at h
      refine ⟨h.1.trans ?_, h.2.trans ?_⟩
      · simp [fas_grid_t.set]
      · simp [fas_grid_t.add]
    · have h1 : (a.set (loc x) (b._array (loc x)))._array p = a._array p := by
        simp [fas_grid_t.set, Function.update, hp]
      have h2 : (b.add (loc x) (a._array (loc x)))._array p = b._array p := by
        simp [fas_grid_t.add, Function.update, hp]
      rw [h1, h2] at h
      simpa only [List.map_cons, List.mem_cons, hp, false_or] using h

theorem foldl_correct_pair_dims {α : Type} (loc : α → Int) (l : List α) (a b : fas_grid_t) :
    ((l.foldl (fun (g : fas_grid_t × fas_grid_t) x =>
        (g.1.set (loc x) (g.2._array (loc x)), g.2.add (loc x) (g.1._array (loc x))))
        (a, b)).1.nx = a.nx
      ∧ (l.foldl (fun (g : fas_grid_t × fas_grid_t) x =>
        (g.1.set (loc x) (g.2._array (loc x)), g.2.add (loc x) (g.1._array (loc x))))
        (a, b)).1.ny = a.ny
      ∧ (l.foldl (fun (g : fas_grid_t × fas_grid_t) x =>
        (g.1.set (loc x) (g.2._array (loc x)), g.2.add (loc x) (g.1._array (loc x))))
        (a, b)).1.nz = a.nz
      ∧ (l.foldl (fun (g : fas_grid_t × fas_grid_t) x =>
        (g.1.set (loc x) (g.2._array (loc x)), g.2.add (loc x) (g.1._array (loc x))))
        (a, b)).1.pts = a.pts)
    ∧ ((l.foldl (fun (g : fas_grid_t × fas_grid_t) x =>
        (g.1.set (loc x) (g.2._array (loc x)), g.2.add (loc x) (g.1._array (loc x))))
        (a, b)).2.nx = b.nx
      ∧ (l.foldl (fun (g : fas_grid_t × fas_grid_t) x =>
        (g.1.set (loc x) (g.2._array (loc x)), g.2.add (loc x) (g.1._array (loc x))))
        (a, b)).2.ny = b.ny
      ∧ (l.foldl (fun (g : fas_grid_t × fas_grid_t) x =>
        (g.1.set (loc x) (g.2._array (loc x)), g.2.add (loc x) (g.1._array (loc x))))
        (a, b)).2.nz = b.nz
      ∧ (l.foldl (fun (g : fas_grid_t × fas_grid_t) x =>
        (g.1.set (loc x) (g.2._array (loc x)), g.2.add (loc x) (g.1._array (loc x))))
        (a, b)).2.pts = b.pts) := by
  induction l generalizing a b with
  | nil => simp
  | cons x xs ih =>
    simpa [fas_grid_t.set, fas_grid_t.add] using
      ih (a.set (loc x) (b._array (loc x))) (b.add (loc x) (a._array (loc x)))

/-- The two hierarchies after `_correctFineFromCoarseErr_Err2Appx`, cell by cell at
the fine level, in terms of the prolonged grid the method computes first. -/
theorem correctFine_cells (s : FASMultigrid) (err2appx_h appx_soln_h : Int → fas_grid_t)
    (fine_depth p : Int) :
    ((s._correctFineFromCoarseErr_Err2Appx err2appx_h appx_soln_h fine_depth).1
        (s._dIdx fine_depth))._array p
      = (if p ∈ (FAS_LOOP3_N (s.nx_h (s._dIdx fine_depth)) (s.ny_h (s._dIdx fine_depth))
            (s.nz_h (s._dIdx fine_depth))).map (fun c => H_INDEX c.1 c.2.1 c.2.2
              (s.nx_h (s._dIdx fine_depth)) (s.ny_h (s._dIdx fine_depth))
              (s.nz_h (s._dIdx fine_depth)))
        then (appx_soln_h (s._dIdx fine_depth))._array p
        else ((s._interpolateCoarse2fine err2appx_h (fine_depth - 1))
          (s._dIdx fine_depth))._array p)
    ∧ ((s._correctFineFromCoarseErr_Err2Appx err2appx_h appx_soln_h fine_depth).2
        (s._dIdx fine_depth))._array p
      = (if p ∈ (FAS_LOOP3_N (s.nx_h (s._dIdx fine_depth)) (s.ny_h (s._dIdx fine_depth))
            (s.nz_h (s._dIdx fine_depth))).map (fun c => H_INDEX c.1 c.2.1 c.2.2
              (s.nx_h (s._dIdx fine_depth)) (s.ny_h (s._dIdx fine_depth))
              (s.nz_h (s._dIdx fine_depth)))
        then (appx_soln_h (s._dIdx fine_depth))._array p
          + ((s._interpolateCoarse2fine err2appx_h (fine_depth - 1))
            (s._dIdx fine_depth))._array p
        else (appx_soln_h (s._dIdx fine_depth))._array p) := by
  unfold FASMultigrid._correctFineFromCoarseErr_Err2Appx
  dsimp only
  rw [Function.update_same, Function.update_same]
  exact foldl_correct_pair
    (fun c : Int × Int × Int => H_INDEX c.1 c.2.1 c.2.2 (s.nx_h (s._dIdx fine_depth))
      (s.ny_h (s._dIdx fine_depth)) (s.nz_h (s._dIdx fine_depth)))
    _ _ _ (loop_positions_nodup_all _ _ _) p

/-- The levels other than the fine one after `_correctFineFromCoarseErr_Err2Appx`:
both hierarchies keep their grids. -/
theorem correctFine_other (s : FASMultigrid) (err2appx_h appx_soln_h : Int → fas_grid_t)
    (fine_depth d : Int) (hd : d ≠ s._dIdx fine_depth) :
    (s._correctFineFromCoarseErr_Err2Appx err2appx_h appx_soln_h fine_depth).1 d
      = err2appx_h d
    ∧ (s._correctFineFromCoarseErr_Err2Appx err2appx_h appx_soln_h fine_depth).2 d
      = appx_soln_h d := by
  have e : s._dIdx (fine_depth - 1 + 1) = s._dIdx fine_depth := by
    rw [sub_add_cancel]
  unfold FASMultigrid._correctFineFromCoarseErr_Err2Appx
  dsimp only
  rw [Function.update_noteq hd, Function.update_noteq hd]
  unfold FASMultigrid._interpolateCoarse2fine
  rw [e, Function.update_noteq hd]
  exact ⟨rfl, rfl⟩

/-- C25: the coarse-grid correction step.  With `w` the solution hierarchy at the
fine depth `d` and `err` the error hierarchy at depth `d - 1` before the call, and
`P(err)` the grid that `_interpolateCoarse2fine` produces at depth `d` from the
error hierarchy, `_correctFineFromCoarseErr_Err2Appx` leaves at every fine point
the solution equal to `w + P(err)` and the error hierarchy equal to `w`; `P(err)`
is the prolongation loop run on `err`, and both hierarchies keep their grids at
depth `d - 1`. -/
theorem correctFineFromCoarseErr_Err2Appx_correction (s : FASMultigrid)
    (err2appx_h appx_soln_h : Int → fas_grid_t) (fine_depth i j k : Int)
    (hd : s.min_depth < fine_depth)
    (hi : 0 ≤ i ∧ i < s.nx_h (s._dIdx fine_depth))
    (hj : 0 ≤ j ∧ j < s.ny_h (s._dIdx fine_depth))
    (hk : 0 ≤ k ∧ k < s.nz_h (s._dIdx fine_depth)) :
    0 ≤ s._dIdx (fine_depth - 1)
    ∧ ((s._correctFineFromCoarseErr_Err2Appx err2appx_h appx_soln_h fine_depth).2
        (s._dIdx fine_depth))._array
          (H_INDEX i j k (s.nx_h (s._dIdx fine_depth)) (s.ny_h (s._dIdx fine_depth))
            (s.nz_h (s._dIdx fine_depth)))
      = (appx_soln_h (s._dIdx fine_depth))._array
          (H_INDEX i j k (s.nx_h (s._dIdx fine_depth)) (s.ny_h (s._dIdx fine_depth))
            (s.nz_h (s._dIdx fine_depth)))
        + ((s._interpolateCoarse2fine err2appx_h (fine_depth - 1))
            (s._dIdx fine_depth))._array
          (H_INDEX i j k (s.nx_h (s._dIdx fine_depth)) (s.ny_h (s._dIdx fine_depth))
            (s.nz_h (s._dIdx fine_depth)))
    ∧ ((s._correctFineFromCoarseErr_Err2Appx err2appx_h appx_soln_h fine_depth).1
        (s._dIdx fine_depth))._array
          (H_INDEX i j k (s.nx_h (s._dIdx fine_depth)) (s.ny_h (s._dIdx fine_depth))
            (s.nz_h (s._dIdx fine_depth)))
      = (appx_soln_h (s._dIdx fine_depth))._array
          (H_INDEX i j k (s.nx_h (s._dIdx fine_depth)) (s.ny_h (s._dIdx fine_depth))
            (s.nz_h (s._dIdx fine_depth)))
    ∧ (s._interpolateCoarse2fine err2appx_h (fine_depth - 1)) (s._dIdx fine_depth)
      = interpolateLoop (s.nx_h (s._dIdx (fine_depth - 1))) (s.ny_h (s._dIdx (fine_depth - 1)))
          (s.nz_h (s._dIdx (fine_depth - 1))) (err2appx_h (s._dIdx (fine_depth - 1)))
          (err2appx_h (s._dIdx fine_depth))
    ∧ (s._correctFineFromCoarseErr_Err2Appx err2appx_h appx_soln_h fine_depth).1
        (s._dIdx (fine_depth - 1)) = err2appx_h (s._dIdx (fine_depth - 1))
    ∧ (s._correctFineFromCoarseErr_Err2Appx err2appx_h appx_soln_h fine_depth).2
        (s._dIdx (fine_depth - 1)) = appx_soln_h (s._dIdx (fine_depth - 1)) := by
  have hmem : H_INDEX i j k (s.nx_h (s._dIdx fine_depth)) (s.ny_h (s._dIdx fine_depth))
      (s.nz_h (s._dIdx fine_depth))
      ∈ (FAS_LOOP3_N (s.nx_h (s._dIdx fine_depth)) (s.ny_h (s._dIdx fine_depth))
            (s.nz_h (s._dIdx fine_depth))).map (fun c => H_INDEX c.1 c.2.1 c.2.2
              (s.nx_h (s._dIdx fine_depth)) (s.ny_h (s._dIdx fine_depth))
              (s.nz_h (s._dIdx fine_depth))) :=
    List.mem_map.mpr ⟨(i, j, k), (mem_FAS_LOOP3_N _ _ _ _).mpr ⟨hi, hj, hk⟩, rfl⟩
  have hc := correctFine_cells s err2appx_h appx_soln_h fine_depth
    (H_INDEX i j k (s.nx_h (s._dIdx fine_depth)) (s.ny_h (s._dIdx fine_depth))
      (s.nz_h (s._dIdx fine_depth)))
  rw [if_pos hmem, if_pos hmem] at hc
  have hne : s._dIdx (fine_depth - 1) ≠ s._dIdx fine_depth := by
    unfold FASMultigrid._dIdx
    omega
  have ho := correctFine_other s err2appx_h appx_soln_h fine_depth _ hne
  have e : s._dIdx (fine_depth - 1 + 1) = s._dIdx fine_depth := by
    rw [sub_add_cancel]
  refine ⟨?_, hc.2, hc.1, ?_, ho.1, ho.2⟩
  · unfold FASMultigrid._dIdx
    omega
  · have h := interpolateCoarse2fine_apply s err2appx_h (fine_depth - 1)
    rw [e] at h
    exact h

theorem correctFineFromCoarseErr_Err2Appx_correction_witness :
    evenSolver.min_depth < 2
    ∧ (0 ≤ (1 : Int) ∧ (1 : Int) < evenSolver.nx_h (evenSolver._dIdx 2))
    ∧ (0 ≤ (0 : Int) ∧ (0 : Int) < evenSolver.ny_h (evenSolver._dIdx 2))
    ∧ (0 ≤ (1 : Int) ∧ (1 : Int) < evenSolver.nz_h (evenSolver._dIdx 2))
    ∧ ((evenSolver._correctFineFromCoarseErr_Err2Appx (evenSolver.tmp_h 0) (evenSolver.u_h 0)
          2).2 (evenSolver._dIdx 2))._array
          (H_INDEX 1 0 1 (evenSolver.nx_h (evenSolver._dIdx 2))
            (evenSolver.ny_h (evenSolver._dIdx 2)) (evenSolver.nz_h (evenSolver._dIdx 2)))
      = (evenSolver.u_h 0 (evenSolver._dIdx 2))._array
          (H_INDEX 1 0 1 (evenSolver.nx_h (evenSolver._dIdx 2))
            (evenSolver.ny_h (evenSolver._dIdx 2)) (evenSolver.nz_h (evenSolver._dIdx 2)))
        + ((evenSolver._interpolateCoarse2fine (evenSolver.tmp_h 0) (2 - 1))
            (evenSolver._dIdx 2))._array
          (H_INDEX 1 0 1 (evenSolver.nx_h (evenSolver._dIdx 2))
            (evenSolver.ny_h (evenSolver._dIdx 2)) (evenSolver.nz_h (evenSolver._dIdx 2))) :=
  ⟨by decide, by decide, by decide, by decide,
    (correctFineFromCoarseErr_Err2Appx_correction evenSolver (evenSolver.tmp_h 0)
      (evenSolver.u_h 0) 2 1 0 1 (by decide) (by decide) (by decide) (by decide)).2.1⟩

/-! ## The order of the updates within one sweep -/

theorem jacPoint_eq (env : Env) (s : FASMultigrid) (depth_idx : Int) (eqn_id : Nat)
    (nx ny nz : Int) (ijk : Int × Int × Int) :
    s.jacPoint env depth_idx eqn_id nx ny nz ijk
      = s.set_damping_v_h eqn_id (Function.update (s.damping_v_h eqn_id) depth_idx
          ((s.damping_v_h eqn_id depth_idx).set (H_INDEX ijk.1 ijk.2.1 ijk.2.2 nx ny nz)
            (s.jacValue env depth_idx eqn_id nx ny nz ijk))) := rfl

theorem foldl_flatMap_eq {α β σ : Type} (l : List α) (f : α → List β) (g : σ → β → σ)
    (a : σ) :
    (l.flatMap f).foldl g a = l.foldl (fun a x => (f x).foldl g a) a := by
  induction l generalizing a with
  | nil => rfl
  | cons x xs ih => rw [List.flatMap_cons, List.foldl_append, ih, List.foldl_cons]

/-- One sweep is the fold of the point body over the iterations in loop order. -/
theorem jacSweep_eq_visits (env : Env) (s : FASMultigrid) (depth_idx : Int) :
    s.jacSweep env depth_idx
      = (s.sweepVisits depth_idx).foldl (fun (t : FASMultigrid) v =>
          t.jacPoint env depth_idx v.1 (s.nx_h depth_idx) (s.ny_h depth_idx)
            (s.nz_h depth_idx) v.2) s := by
  unfold FASMultigrid.jacSweep FASMultigrid.sweepVisits
  rw [foldl_flatMap_eq]
  simp only [List.foldl_map]

theorem withV_vAt (s : FASMultigrid) (d : Int) : s.withV d (s.vAt d) = s := by
  obtain ⟨a1, a2, a3, a4, a5, a6, a7, a8, a9, a10, a11, a12, a13, a14, a15, v, a17, a18, a19⟩ := s
  simp only [FASMultigrid.withV, FASMultigrid.vAt, FASMultigrid.mk.injEq, true_and, and_true]
  funext e d2
  by_cases h : d2 = d
  · subst h
    rw [if_pos rfl]
  · rw [if_neg h]

theorem withV_vAt_apply (s : FASMultigrid) (d : Int) (m : Nat × Int → ℚ) :
    (s.withV d m).vAt d = m := by
  funext q
  simp [FASMultigrid.withV, FASMultigrid.vAt]

/-- A write to one cell of `damping_v` at the level, on a state given by its
contents at the level. -/
theorem withV_write (s : FASMultigrid) (d : Int) (m : Nat × Int → ℚ) (e : Nat) (p : Int)
    (x : ℚ) :
    (s.withV d m).set_damping_v_h e (Function.update ((s.withV d m).damping_v_h e) d
        (((s.withV d m).damping_v_h e d).set p x))
      = s.withV d (Function.update m (e, p) x) := by
  simp only [FASMultigrid.withV, FASMultigrid.set_damping_v_h, FASMultigrid.mk.injEq, true_and,
    and_true]
  funext e2 d2
  by_cases he : e2 = e
  · subst he
    rw [Function.update_same]
    by_cases hd : d2 = d
    · subst hd
      rw [Function.update_same, if_pos rfl]
      simp only [↓reduceIte, fas_grid_t.set, fas_grid_t.mk.injEq, and_true]
      funext q
      by_cases hq : q = p
      · subst hq
        simp
      · have hne : (e2, q) ≠ (e2, p) := fun h => hq (Prod.mk.inj h).2
        simp [Function.update_noteq hq, Function.update_noteq hne]
    · rw [Function.update_noteq hd, if_neg hd, if_neg hd]
  · rw [Function.update_noteq he]
    have hne : ∀ q : Int, (e2, q) ≠ (e, p) := fun q h => he (Prod.mk.inj h).1
    simp only [Function.update_noteq (hne _)]

/-- Sequential writes to a store: a key that is not written keeps its value. -/
theorem foldl_update_untouched {α K : Type} [DecidableEq K] (key : α → K)
    (val : (K → ℚ) → α → ℚ) (l : List α) (m : K → ℚ) (k : K) (hk : k ∉ l.map key) :
    (l.foldl (fun m x => Function.update m (key x) (val m x)) m) k = m k := by
  induction l generalizing m with
  | nil => rfl
  | cons x xs ih =>
    rw [List.map_cons, List.mem_cons, not_or] at hk
    rw [List.foldl_cons, ih _ hk.2, Function.update_noteq hk.1]

/-- Sequential writes to pairwise distinct keys: the value written by an iteration
is the final value of its key and is computed from the store as the iterations
before it left it, in which the keys written earlier hold their final values and
every other key holds its initial value. -/
theorem foldl_update_split {α K : Type} [DecidableEq K] (key : α → K)
    (val : (K → ℚ) → α → ℚ) (pre post : List α) (a : α) (m0 : K → ℚ)
    (hnd : ((pre ++ a :: post).map key).Nodup) :
    ((pre ++ a :: post).foldl (fun m x => Function.update m (key x) (val m x)) m0) (key a)
        = val (pre.foldl (fun m x => Function.update m (key x) (val m x)) m0) a
    ∧ ∀ k, (k ∈ pre.map key →
          (pre.foldl (fun m x => Function.update m (key x) (val m x)) m0) k
            = ((pre ++ a :: post).foldl
                (fun m x => Function.update m (key x) (val m x)) m0) k)
        ∧ (k ∉ pre.map key →
          (pre.foldl (fun m x => Function.update m (key x) (val m x)) m0) k = m0 k) := by
  rw [List.map_append, List.map_cons, List.nodup_append] at hnd
  obtain ⟨_, h2, h3⟩ := hnd
  rw [List.nodup_cons] at h2
  rw [List.foldl_append, List.foldl_cons]
  constructor
  · rw [foldl_update_untouched key val post _ _ h2.1, Function.update_same]
  · intro k
    constructor
    · intro hk
      have hk2 : k ∉ (a :: post).map key := fun h => h3 hk h
      have hk3 := hk2
      rw [List.map_cons, List.mem_cons, not_or] at hk3
      rw [foldl_update_untouched key val post _ _ hk3.2, Function.update_noteq hk3.1]
    · intro hk
      exact foldl_update_untouched key val pre _ _ hk

/-- The cells written by the iterations of one sweep are pairwise distinct. -/
theorem sweepVisits_nodup (s : FASMultigrid) (d : Int) :
    ((s.sweepVisits d).map (s.visitCell d)).Nodup := by
  unfold FASMultigrid.sweepVisits
  rw [map_flatMap', List.nodup_flatMap]
  constructor
  · intro e _
    rw [List.map_map]
    have h := loop_positions_nodup_all (s.nx_h d) (s.ny_h d) (s.nz_h d)
    have h2 := h.map (f := fun p : Int => (e, p)) (fun a b hab => (Prod.mk.inj hab).2)
    rw [List.map_map] at h2
    exact h2
  · refine (List.nodup_range s.u_n).pairwise_of_forall_ne ?_
    intro a _ b _ hab
    simp only [Function.onFun]
    intro q hq1 hq2
    rw [List.map_map, List.mem_map] at hq1 hq2
    obtain ⟨x, _, hx⟩ := hq1
    obtain ⟨y, _, hy⟩ := hq2
    rw [← hy] at hx
    exact hab (Prod.mk.inj hx).1

/-- The fold of the point body over a list of iterations, on a state given by its
contents of `damping_v` at the level, is a fold of single-cell writes on the
contents. -/
theorem foldl_jacPoint_withV (env : Env) (s : FASMultigrid) (d : Int)
    (l : List (Nat × Int × Int × Int)) (m : Nat × Int → ℚ) :
    l.foldl (fun (t : FASMultigrid) v =>
        t.jacPoint env d v.1 (s.nx_h d) (s.ny_h d) (s.nz_h d) v.2) (s.withV d m)
      = s.withV d (l.foldl (fun m v => Function.update m (s.visitCell d v)
          ((s.withV d m).jacValue env d v.1 (s.nx_h d) (s.ny_h d) (s.nz_h d) v.2)) m) := by
  induction l generalizing m with
  | nil => rfl
  | cons v vs ih =>
    rw [List.foldl_cons, List.foldl_cons, jacPoint_eq, withV_write]
    exact ih _

theorem linState_sweepVisits (a b r0 r1 x y : ℚ) :
    (linState a b r0 r1 x y).sweepVisits 0 = [(0, (0, 0, 0)), (1, (0, 0, 0))] := by
  have hn : (linState a b r0 r1 x y).u_n = 2 := rfl
  have hx : (linState a b r0 r1 x y).nx_h 0 = 1 := rfl
  have hy : (linState a b r0 r1 x y).ny_h 0 = 1 := rfl
  have hz : (linState a b r0 r1 x y).nz_h 0 = 1 := rfl
  simp only [FASMultigrid.sweepVisits, hn, hx, hy, hz, FAS_LOOP3_N_one, List.range_succ,
    List.range_zero, List.nil_append, List.cons_append, List.flatMap_cons, List.flatMap_nil,
    List.map_cons, List.map_nil, List.append_nil]

theorem linState_jacValue0 (a b r0 r1 x y : ℚ) :
    (linState a b r0 r1 x y).jacValue (centralEnv 1 1 1) 0 0 1 1 1 (0, 0, 0) = r0 - a * y := by
  have hn : (linState a b r0 r1 x y).u_n = 2 := rfl
  have hr : ((linState a b r0 r1 x y).jac_rhs_h 0 0)._array 0 = r0 := rfl
  simp only [FASMultigrid.jacValue, hn, List.range_succ, List.range_zero, List.nil_append,
    List.cons_append, List.foldl_cons, List.foldl_nil, H_INDEX_origin, linState_jac0,
    (linState_der a b r0 r1 x y).2.1, hr]
  simp
  ring

theorem linState_jacValue1 (a b r0 r1 x y : ℚ) :
    (linState a b r0 r1 x y).jacValue (centralEnv 1 1 1) 0 1 1 1 1 (0, 0, 0) = r1 - b * x := by
  have hn : (linState a b r0 r1 x y).u_n = 2 := rfl
  have hr : ((linState a b r0 r1 x y).jac_rhs_h 1 0)._array 0 = r1 := rfl
  simp only [FASMultigrid.jacValue, hn, List.range_succ, List.range_zero, List.nil_append,
    List.cons_append, List.foldl_cons, List.foldl_nil, H_INDEX_origin, linState_jac1,
    (linState_der a b r0 r1 x y).2.2.1, hr]
  simp
  ring

theorem linState_write0 (a b r0 r1 x y v : ℚ) :
    (linState a b r0 r1 x y).set_damping_v_h 0
        (Function.update ((linState a b r0 r1 x y).damping_v_h 0) 0
          (((linState a b r0 r1 x y).damping_v_h 0 0).set 0 v))
      = linState a b r0 r1 v y := by
  simp only [linState, FASMultigrid.set_damping_v_h, FASMultigrid.mk.injEq, true_and, and_true]
  funext e d
  by_cases he : e = 0
  · subst he
    by_cases hd : d = 0
    · subst hd
      simp only [Function.update_same, fas_grid_t.set, mkGrid, fas_grid_t.mk.injEq, and_true]
      funext p
      by_cases hp : p = 0
      · subst hp
        simp
      · simp [Function.update_noteq hp, hp]
    · simp [Function.update_noteq hd, hd]
  · simp [Function.update_noteq he, he]

theorem linState_write1 (a b r0 r1 x y v : ℚ) :
    (linState a b r0 r1 x y).set_damping_v_h 1
        (Function.update ((linState a b r0 r1 x y).damping_v_h 1) 0
          (((linState a b r0 r1 x y).damping_v_h 1 0).set 0 v))
      = linState a b r0 r1 x v := by
  simp only [linState, FASMultigrid.set_damping_v_h, FASMultigrid.mk.injEq, true_and, and_true]
  funext e d
  by_cases he : e = 1
  · subst he
    by_cases hd : d = 0
    · subst hd
      simp only [Function.update_same, fas_grid_t.set, mkGrid, fas_grid_t.mk.injEq, and_true]
      funext p
      by_cases hp : p = 0
      · subst hp
        simp
      · simp [Function.update_noteq hp, hp]
    · simp [Function.update_noteq hd, hd]
  · simp [Function.update_noteq he, he]

/-- The snapshot sweep on the example state is one Jacobi step of the `2 x 2`
system: both new values are computed from the old pair `(x, y)`. -/
theorem linState_snapshotSweep (a b r0 r1 x y : ℚ) :
    (linState a b r0 r1 x y).snapshotSweep (centralEnv 1 1 1) 0
      = linState a b r0 r1 (r0 - a * y) (r1 - b * x) := by
  have hx : (linState a b r0 r1 x y).nx_h 0 = 1 := rfl
  have hy : (linState a b r0 r1 x y).ny_h 0 = 1 := rfl
  have hz : (linState a b r0 r1 x y).nz_h 0 = 1 := rfl
  simp only [FASMultigrid.snapshotSweep, linState_sweepVisits, hx, hy, hz, List.foldl_cons,
    List.foldl_nil, H_INDEX_origin, linState_jacValue0, linState_jacValue1, linState_write0,
    linState_write1]

theorem linState_vAt (a b r0 r1 x y : ℚ) :
    (linState a b r0 r1 x y).vAt 0 (0, 0) = x ∧ (linState a b r0 r1 x y).vAt 0 (1, 0) = y := by
  simp [FASMultigrid.vAt, linState, mkGrid]

/-- C22 (code): the sweep is not a simultaneous update.  On the one-point state
with the two equations `u0 + u1` and `-u0 + u1`, right-hand sides `jac_rhs = (1, 1)`
and `damping_v = (0, 0)` at the start of the sweep, the sweep of `_jacobianRelax`
in loop order leaves `damping_v = (1, 2)`: the value of equation 1 is computed from
the value 1 that equation 0 has just stored.  Computing both values from the grids
as they were at the start of the sweep gives `(1, 1)`. -/
theorem jacSweep_differs_from_snapshot_sweep :
    (linState 1 (-1) 1 1 0 0).vAt 0 (0, 0) = 0
    ∧ (linState 1 (-1) 1 1 0 0).vAt 0 (1, 0) = 0
    ∧ ((linState 1 (-1) 1 1 0 0).jacSweep (centralEnv 1 1 1) 0).vAt 0 (0, 0) = 1
    ∧ ((linState 1 (-1) 1 1 0 0).jacSweep (centralEnv 1 1 1) 0).vAt 0 (1, 0) = 2
    ∧ ((linState 1 (-1) 1 1 0 0).snapshotSweep (centralEnv 1 1 1) 0).vAt 0 (0, 0) = 1
    ∧ ((linState 1 (-1) 1 1 0 0).snapshotSweep (centralEnv 1 1 1) 0).vAt 0 (1, 0) = 1
    ∧ (linState 1 (-1) 1 1 0 0).jacSweep (centralEnv 1 1 1) 0
        ≠ (linState 1 (-1) 1 1 0 0).snapshotSweep (centralEnv 1 1 1) 0 := by
  have h1 := linState_vAt 1 (-1) 1 1 0 0
  have hj : (linState 1 (-1) 1 1 0 0).jacSweep (centralEnv 1 1 1) 0
      = linState 1 (-1) 1 1 1 2 := by
    rw [linState_jacSweep]
    norm_num
  have hs : (linState 1 (-1) 1 1 0 0).snapshotSweep (centralEnv 1 1 1) 0
      = linState 1 (-1) 1 1 1 1 := by
    rw [linState_snapshotSweep]
    norm_num
  have h2 := linState_vAt 1 (-1) 1 1 1 2
  have h3 := linState_vAt 1 (-1) 1 1 1 1
  rw [hj, hs]
  refine ⟨h1.1, h1.2, h2.1, h2.2, h3.1, h3.2, ?_⟩
  intro h
  have h4 := congrArg (fun t : FASMultigrid => t.vAt 0 (1, 0)) h
  simp only [h2.2, h3.2] at h4
  norm_num at h4

/-- C22 (amended): the sweep of `_jacobianRelax`, executed sequentially in loop
order (equations in the outer loop, points in the inner one), is an in-place
update.  For every iteration `v` of the sweep, with `pre` the iterations before it:
the state in which `v` runs is the state at the start of the sweep with the cells
of `damping_v` written by `pre` holding their final values and every other cell its
initial value; the value that `v` stores, which is the final value of its cell, is
computed from that state; and the sweep changes nothing but the contents of
`damping_v` at the level, and there only the cells that are written. -/
theorem jacSweep_in_place (env : Env) (s : FASMultigrid) (depth_idx : Int)
    (pre post : List (Nat × Int × Int × Int)) (v : Nat × Int × Int × Int)
    (h : s.sweepVisits depth_idx = pre ++ v :: post) :
    pre.foldl (fun (t : FASMultigrid) w =>
        t.jacPoint env depth_idx w.1 (s.nx_h depth_idx) (s.ny_h depth_idx)
          (s.nz_h depth_idx) w.2) s
      = s.withV depth_idx (fun q =>
          if q ∈ pre.map (s.visitCell depth_idx) then
            (s.jacSweep env depth_idx).vAt depth_idx q
          else s.vAt depth_idx q)
    ∧ (s.jacSweep env depth_idx).vAt depth_idx (s.visitCell depth_idx v)
      = (s.withV depth_idx (fun q =>
          if q ∈ pre.map (s.visitCell depth_idx) then
            (s.jacSweep env depth_idx).vAt depth_idx q
          else s.vAt depth_idx q)).jacValue env depth_idx v.1 (s.nx_h depth_idx)
            (s.ny_h depth_idx) (s.nz_h depth_idx) v.2
    ∧ s.jacSweep env depth_idx = s.withV depth_idx ((s.jacSweep env depth_idx).vAt depth_idx)
    ∧ ∀ q, q ∉ (s.sweepVisits depth_idx).map (s.visitCell depth_idx) →
        (s.jacSweep env depth_idx).vAt depth_idx q = s.vAt depth_idx q := by
  have hnd := sweepVisits_nodup s depth_idx
  have hfull := foldl_jacPoint_withV env s depth_idx (s.sweepVisits depth_idx)
    (s.vAt depth_idx)
  have hpre := foldl_jacPoint_withV env s depth_idx pre (s.vAt depth_idx)
  rw [withV_vAt] at hfull hpre
  rw [← jacSweep_eq_visits] at hfull
  have hun := fun q hq => foldl_update_untouched (s.visitCell depth_idx)
    (fun m (w : Nat × Int × Int × Int) => (s.withV depth_idx m).jacValue env depth_idx w.1
      (s.nx_h depth_idx) (s.ny_h depth_idx) (s.nz_h depth_idx) w.2)
    (s.sweepVisits depth_idx) (s.vAt depth_idx) q hq
  rw [h] at hnd hfull
  have hsp := foldl_update_split (s.visitCell depth_idx)
    (fun m (w : Nat × Int × Int × Int) => (s.withV depth_idx m).jacValue env depth_idx w.1
      (s.nx_h depth_idx) (s.ny_h depth_idx) (s.nz_h depth_idx) w.2)
    pre post v (s.vAt depth_idx) hnd
  have hv : (s.jacSweep env depth_idx).vAt depth_idx
      = (pre ++ v :: post).foldl (fun m w => Function.update m (s.visitCell depth_idx w)
          ((s.withV depth_idx m).jacValue env depth_idx w.1 (s.nx_h depth_idx)
            (s.ny_h depth_idx) (s.nz_h depth_idx) w.2)) (s.vAt depth_idx) := by
    rw [hfull, withV_vAt_apply]
  rw [← hv] at hsp
  rw [h, ← hv] at hun
  dsimp only at hsp
  have hm : (pre.foldl (fun m w => Function.update m (s.visitCell depth_idx w)
          ((s.withV depth_idx m).jacValue env depth_idx w.1 (s.nx_h depth_idx)
            (s.ny_h depth_idx) (s.nz_h depth_idx) w.2)) (s.vAt depth_idx))
      = fun q => if q ∈ pre.map (s.visitCell depth_idx) then
            (s.jacSweep env depth_idx).vAt depth_idx q
          else s.vAt depth_idx q := by
    funext q
    by_cases hq : q ∈ pre.map (s.visitCell depth_idx)
    · rw [if_pos hq]
      exact (hsp.2 q).1 hq
    · rw [if_neg hq]
      exact (hsp.2 q).2 hq
  refine ⟨?_, ?_, ?_, ?_⟩
  · rw [hpre, hm]
  · rw [hsp.1, hm]
  · rw [hv, ← hfull]
  · intro q hq
    rw [h] at hq
    exact hun q hq

theorem jacSweep_in_place_witness :
    (linState 1 (-1) 1 1 0 0).sweepVisits 0 = [(0, (0, 0, 0))] ++ (1, (0, 0, 0)) :: []
    ∧ ((linState 1 (-1) 1 1 0 0).jacSweep (centralEnv 1 1 1) 0).vAt 0
        ((linState 1 (-1) 1 1 0 0).visitCell 0 (1, (0, 0, 0)))
      = ((linState 1 (-1) 1 1 0 0).withV 0 (fun q =>
          if q ∈ [(0, ((0 : Int), (0 : Int), (0 : Int)))].map
              ((linState 1 (-1) 1 1 0 0).visitCell 0) then
            ((linState 1 (-1) 1 1 0 0).jacSweep (centralEnv 1 1 1) 0).vAt 0 q
          else (linState 1 (-1) 1 1 0 0).vAt 0 q)).jacValue (centralEnv 1 1 1) 0 1
            ((linState 1 (-1) 1 1 0 0).nx_h 0) ((linState 1 (-1) 1 1 0 0).ny_h 0)
            ((linState 1 (-1) 1 1 0 0).nz_h 0) (0, 0, 0) :=
  ⟨linState_sweepVisits 1 (-1) 1 1 0 0,
    (jacSweep_in_place (centralEnv 1 1 1) (linState 1 (-1) 1 1 0 0) 0 [(0, (0, 0, 0))] []
      (1, (0, 0, 0)) (linState_sweepVisits 1 (-1) 1 1 0 0)).2.1⟩

/-! ## Restriction and prolongation are adjoint up to the factor 1/8 -/

/-- The weighted average of `_restrictFine2coarse` is one eighth of the sum over the
27 offsets of the fine value divided by `2^(|di|+|dj|+|dk|)`. -/
theorem restrictValue_eq_sum (f : fas_grid_t) (nx ny nz fi fj fk : Int) :
    restrictValue f nx ny nz fi fj fk
      = 1 / 8 * (adjOffsets.map fun adj =>
          f._array (H_INDEX (fi + adj.1) (fj + adj.2.1) (fk + adj.2.2) nx ny nz)
            / (2 : ℚ) ^ (|adj.1| + |adj.2.1| + |adj.2.2|)).sum := by
  simp only [restrictValue, adjOffsets, List.flatMap_cons, List.flatMap_nil, List.map_cons,
    List.map_nil, List.append_nil, List.cons_append, List.nil_append, List.sum_cons,
    List.sum_nil, add_zero, ← sub_eq_add_neg]
  norm_num
  ring

theorem sum_map_comm {α β : Type} (l1 : List α) (l2 : List β) (F : α → β → ℚ) :
    (l1.map fun a => (l2.map fun b => F a b).sum).sum
      = (l2.map fun b => (l1.map fun a => F a b).sum).sum := by
  induction l1 with
  | nil => simp
  | cons a as ih =>
    rw [List.map_cons, List.sum_cons, ih]
    simp only [List.map_cons, List.sum_cons]
    rw [List.sum_map_add]

theorem sum_ite_unique {α : Type} (l : List α) (hnd : l.Nodup) (x0 : α) (hx0 : x0 ∈ l)
    (P : α → Prop) [DecidablePred P] (hP : ∀ x ∈ l, P x ↔ x = x0) (g : α → ℚ) :
    (l.map fun x => if P x then g x else 0).sum = g x0 := by
  induction l with
  | nil => cases hx0
  | cons a as ih =>
    rw [List.nodup_cons] at hnd
    rw [List.map_cons, List.sum_cons]
    by_cases ha : a = x0
    · subst ha
      rw [if_pos ((hP a (List.mem_cons_self _ _)).mpr rfl)]
      have hz : (as.map fun x => if P x then g x else 0).sum = 0 := by
        apply List.sum_eq_zero
        intro y hy
        obtain ⟨x, hx, rfl⟩ := List.mem_map.mp hy
        have hne : ¬ P x := fun hp =>
          hnd.1 ((hP x (List.mem_cons_of_mem _ hx)).mp hp ▸ hx)
        rw [if_neg hne]
      rw [hz, add_zero]
    · have hna : ¬ P a := fun hp => ha ((hP a (List.mem_cons_self _ _)).mp hp)
      rw [if_neg hna, zero_add]
      have hx0' : x0 ∈ as := by
        rcases List.mem_cons.mp hx0 with h | h
        · exact absurd h.symm ha
        · exact h
      exact ih hnd.2 hx0' (fun x hx => hP x (List.mem_cons_of_mem _ hx))

theorem FAS_LOOP3_N_nodup (nx ny nz : Int) : (FAS_LOOP3_N nx ny nz).Nodup :=
  List.Nodup.of_map _ (loop_positions_nodup_all nx ny nz)

theorem H_INDEX_emod (a b c nx ny nz : Int) :
    H_INDEX (a % nx) (b % ny) (c % nz) nx ny nz = H_INDEX a b c nx ny nz := by
  unfold H_INDEX
  rw [Int.emod_emod, Int.emod_emod, Int.emod_emod]

/-- The sum over the points of a loop of a term that is non-zero only at the point
congruent to `(a, b, c)` modulo the extents. -/
theorem loop_sum_congruent (nx ny nz a b c : Int) (hx : 0 < nx) (hy : 0 < ny) (hz : 0 < nz)
    (g : Int × Int × Int → ℚ) :
    ((FAS_LOOP3_N nx ny nz).map fun x =>
        if a % nx = x.1 % nx ∧ b % ny = x.2.1 % ny ∧ c % nz = x.2.2 % nz then g x else 0).sum
      = g (a % nx, b % ny, c % nz) := by
  apply sum_ite_unique _ (FAS_LOOP3_N_nodup nx ny nz) (a % nx, b % ny, c % nz)
  · rw [mem_FAS_LOOP3_N]
    exact ⟨⟨Int.emod_nonneg _ (by omega), Int.emod_lt_of_pos _ hx⟩,
      ⟨Int.emod_nonneg _ (by omega), Int.emod_lt_of_pos _ hy⟩,
      ⟨Int.emod_nonneg _ (by omega), Int.emod_lt_of_pos _ hz⟩⟩
  · intro x hxm
    obtain ⟨⟨h1, h2⟩, ⟨h3, h4⟩, h5, h6⟩ := (mem_FAS_LOOP3_N _ _ _ x).mp hxm
    rw [Int.emod_eq_of_lt h1 h2, Int.emod_eq_of_lt h3 h4, Int.emod_eq_of_lt h5 h6]
    obtain ⟨x1, x2, x3⟩ := x
    simp only [Prod.mk.injEq]
    constructor
    · rintro ⟨e1, e2, e3⟩
      exact ⟨e1.symm, e2.symm, e3.symm⟩
    · rintro ⟨e1, e2, e3⟩
      exact ⟨e1.symm, e2.symm, e3.symm⟩

/-- The sum over the coarse points of a restricted grid against a coarse grid, as a
double sum over the coarse cells and the 27 offsets. -/
theorem gridDot_restrict (f cg c : fas_grid_t) (hcg : cg.wellFormed)
    (htw : f.twiceOf cg) (hd : cg.sameDims c) :
    gridDot (restrictLoop f cg) c
      = 1 / 8 * ((FAS_LOOP3_N c.nx c.ny c.nz).map fun cell =>
          (adjOffsets.map fun adj =>
            f._array (H_INDEX (2 * cell.1 + adj.1) (2 * cell.2.1 + adj.2.1)
              (2 * cell.2.2 + adj.2.2) f.nx f.ny f.nz)
            * (c.cell cell.1 cell.2.1 cell.2.2
                / (2 : ℚ) ^ (|adj.1| + |adj.2.1| + |adj.2.2|))).sum).sum := by
  obtain ⟨d1, d2, d3⟩ := hd
  have hdims := restrictLoop_dims f cg
  unfold gridDot
  rw [hdims.1, hdims.2.1, hdims.2.2.1, d1, d2, d3, ← List.sum_map_mul_left]
  congr 1
  apply List.map_congr_left
  intro cell hcell
  obtain ⟨h1, h2, h3⟩ := (mem_FAS_LOOP3_N _ _ _ cell).mp hcell
  rw [restrictLoop_cell_even f cg cell.1 cell.2.1 cell.2.2 hcg htw (by rw [d1]; exact h1)
    (by rw [d2]; exact h2) (by rw [d3]; exact h3), restrictValue_eq_sum, mul_assoc,
    ← List.sum_map_mul_right]
  congr 2
  apply List.map_congr_left
  intro adj _
  rw [mul_comm cell.1 2, mul_comm cell.2.1 2, mul_comm cell.2.2 2]
  ring

/-- The sum over the fine points of a fine grid against a prolonged grid, as a double
sum over the coarse cells and the 27 offsets. -/
theorem gridDot_prolong (f fg c : fas_grid_t) (hf : f.wellFormed) (hc : c.wellFormed)
    (hfg : fg.wellFormed) (htw : fg.twiceOf c) (hd : fg.sameDims f) :
    gridDot f (interpolateLoop c.nx c.ny c.nz c fg)
      = ((FAS_LOOP3_N c.nx c.ny c.nz).map fun cell =>
          (adjOffsets.map fun adj =>
            f._array (H_INDEX (2 * cell.1 + adj.1) (2 * cell.2.1 + adj.2.1)
              (2 * cell.2.2 + adj.2.2) f.nx f.ny f.nz)
            * (c.cell cell.1 cell.2.1 cell.2.2
                / (2 : ℚ) ^ (|adj.1| + |adj.2.1| + |adj.2.2|))).sum).sum := by
  obtain ⟨d1, d2, d3⟩ := hd
  obtain ⟨fx, fy, fz, _⟩ := hf
  unfold gridDot
  have h1 : ∀ x : Int × Int × Int,
      f.cell x.1 x.2.1 x.2.2 * (interpolateLoop c.nx c.ny c.nz c fg).cell x.1 x.2.1 x.2.2
        = ((FAS_LOOP3_N c.nx c.ny c.nz).map fun cell =>
            (adjOffsets.map fun adj =>
              if (2 * cell.1 + adj.1) % f.nx = x.1 % f.nx
                  ∧ (2 * cell.2.1 + adj.2.1) % f.ny = x.2.1 % f.ny
                  ∧ (2 * cell.2.2 + adj.2.2) % f.nz = x.2.2 % f.nz then
                f.cell x.1 x.2.1 x.2.2 * (c.cell cell.1 cell.2.1 cell.2.2
                  / (2 : ℚ) ^ (|adj.1| + |adj.2.1| + |adj.2.2|))
              else 0).sum).sum := by
    intro x
    rw [interpolateLoop_cell c fg x.1 x.2.1 x.2.2 hc hfg htw, d1, d2, d3]
    unfold prolongSum
    rw [← List.sum_map_mul_left]
    congr 1
    apply List.map_congr_left
    intro cell _
    rw [← List.sum_map_mul_left]
    congr 1
    apply List.map_congr_left
    intro adj _
    rw [mul_ite, mul_zero]
  simp only [h1]
  rw [sum_map_comm]
  congr 1
  apply List.map_congr_left
  intro cell _
  rw [sum_map_comm]
  congr 1
  apply List.map_congr_left
  intro adj _
  rw [loop_sum_congruent f.nx f.ny f.nz (2 * cell.1 + adj.1) (2 * cell.2.1 + adj.2.1)
    (2 * cell.2.2 + adj.2.2) fx fy fz
    (fun x => f.cell x.1 x.2.1 x.2.2 * (c.cell cell.1 cell.2.1 cell.2.2
      / (2 : ℚ) ^ (|adj.1| + |adj.2.1| + |adj.2.2|)))]
  dsimp only
  unfold fas_grid_t.cell
  rw [H_INDEX_emod]

/-- Restriction is one eighth of the adjoint of prolongation, on the two loops. -/
theorem gridDot_restrict_prolong (f cg c fg : fas_grid_t)
    (hf : f.wellFormed) (hc : c.wellFormed) (hcg : cg.wellFormed) (hfg : fg.wellFormed)
    (htw : f.twiceOf c) (hcgd : cg.sameDims c) (hfgd : fg.sameDims f) :
    gridDot (restrictLoop f cg) c
      = 1 / 8 * gridDot f (interpolateLoop c.nx c.ny c.nz c fg) := by
  obtain ⟨c1, c2, c3⟩ := hcgd
  obtain ⟨g1, g2, g3⟩ := hfgd
  obtain ⟨t1, t2, t3⟩ := htw
  rw [gridDot_restrict f cg c hcg ⟨by rw [c1]; exact t1, by rw [c2]; exact t2,
      by rw [c3]; exact t3⟩ ⟨c1, c2, c3⟩,
    gridDot_prolong f fg c hf hc hfg ⟨by rw [g1]; exact t1, by rw [g2]; exact t2,
      by rw [g3]; exact t3⟩ ⟨g1, g2, g3⟩]

theorem gridDot_ones (a b : fas_grid_t) (hb : ∀ i j k, b.cell i j k = 1) :
    gridDot a b = gridSum a := by
  unfold gridDot gridSum
  simp only [hb, mul_one]

/-- The sum of a restricted grid over the coarse points is one eighth of the sum of
the fine grid over the fine points. -/
theorem gridSum_restrict (f cg : fas_grid_t) (hf : f.wellFormed) (hcg : cg.wellFormed)
    (htw : f.twiceOf cg) :
    gridSum (restrictLoop f cg) = 1 / 8 * gridSum f := by
  have hw : ({ cg with _array := fun _ => 1 } : fas_grid_t).wellFormed := hcg
  have hconst : ({ cg with _array := fun _ => 1 } : fas_grid_t).constant 1 :=
    fun _ _ _ => rfl
  have h1 := gridDot_restrict_prolong f cg { cg with _array := fun _ => 1 } f hf hw hcg hf
    htw ⟨rfl, rfl, rfl⟩ ⟨rfl, rfl, rfl⟩
  rw [gridDot_ones _ { cg with _array := fun _ => 1 } (fun i j k => rfl)] at h1
  rw [h1]
  congr 1
  apply gridDot_ones
  intro i j k
  rw [interpolateLoop_cell _ f i j k hw hf htw, htw.1, htw.2.1, htw.2.2]
  exact prolongSum_constant _ 1 i j k hw hconst

theorem gridMean_restrict (f cg : fas_grid_t) (hf : f.wellFormed) (hcg : cg.wellFormed)
    (htw : f.twiceOf cg) :
    gridMean (restrictLoop f cg) = gridMean f := by
  have hdims := restrictLoop_dims f cg
  obtain ⟨t1, t2, t3⟩ := htw
  unfold gridMean
  rw [gridSum_restrict f cg hf hcg ⟨t1, t2, t3⟩, hdims.1, hdims.2.1, hdims.2.2.1, t1, t2, t3]
  push_cast
  have e : (2 * (cg.nx : ℚ) * (2 * (cg.ny : ℚ)) * (2 * (cg.nz : ℚ)))
      = 8 * ((cg.nx : ℚ) * (cg.ny : ℚ) * (cg.nz : ℚ)) := by ring
  rw [e, mul_comm (1 / 8 : ℚ), mul_one_div, div_div]

theorem dIdx_succ_pred (s : FASMultigrid) (d : Int) : s._dIdx (d + 1) - 1 = s._dIdx d := by
  unfold FASMultigrid._dIdx
  ring

/-- C27: restriction is one eighth of the adjoint of prolongation.  For two
consecutive levels whose grids are well formed with fine extents exactly twice the
coarse extents, a hierarchy holding the fine grid `f` and a hierarchy holding the
coarse grid `c`: the sum over the coarse points of `R(f) * c` is `1/8` of the sum
over the fine points of `f * P(c)`, with `R(f)` the coarse grid that
`_restrictFine2coarse` leaves and `P(c)` the fine grid that
`_interpolateCoarse2fine` leaves; and the mean of `R(f)` over the coarse points is
the mean of `f` over the fine points. -/
theorem restrictFine2coarse_adjoint_of_interpolateCoarse2fine (s : FASMultigrid)
    (hf hc : Int → fas_grid_t) (coarse_depth : Int)
    (hF : s.levelGrid (s._dIdx (coarse_depth + 1)) (hf (s._dIdx (coarse_depth + 1))))
    (hFc : s.levelGrid (s._dIdx coarse_depth) (hf (s._dIdx coarse_depth)))
    (hC : s.levelGrid (s._dIdx coarse_depth) (hc (s._dIdx coarse_depth)))
    (hCf : s.levelGrid (s._dIdx (coarse_depth + 1)) (hc (s._dIdx (coarse_depth + 1))))
    (hx : s.nx_h (s._dIdx (coarse_depth + 1)) = 2 * s.nx_h (s._dIdx coarse_depth))
    (hy : s.ny_h (s._dIdx (coarse_depth + 1)) = 2 * s.ny_h (s._dIdx coarse_depth))
    (hz : s.nz_h (s._dIdx (coarse_depth + 1)) = 2 * s.nz_h (s._dIdx coarse_depth)) :
    gridDot ((s._restrictFine2coarse hf (coarse_depth + 1)) (s._dIdx coarse_depth))
        (hc (s._dIdx coarse_depth))
      = 1 / 8 * gridDot (hf (s._dIdx (coarse_depth + 1)))
          ((s._interpolateCoarse2fine hc coarse_depth) (s._dIdx (coarse_depth + 1)))
    ∧ gridMean ((s._restrictFine2coarse hf (coarse_depth + 1)) (s._dIdx coarse_depth))
      = gridMean (hf (s._dIdx (coarse_depth + 1))) := by
  obtain ⟨wF, fx, fy, fz⟩ := hF
  obtain ⟨wFc, gx, gy, gz⟩ := hFc
  obtain ⟨wC, cx, cy, cz⟩ := hC
  obtain ⟨wCf, ex, ey, ez⟩ := hCf
  have hR := restrictFine2coarse_apply s hf (coarse_depth + 1)
  rw [dIdx_succ_pred] at hR
  rw [hR, interpolateCoarse2fine_apply, ← cx, ← cy, ← cz]
  constructor
  · apply gridDot_restrict_prolong _ _ _ _ wF wC wFc wCf
    · exact ⟨by rw [fx, cx, hx], by rw [fy, cy, hy], by rw [fz, cz, hz]⟩
    · exact ⟨by rw [gx, cx], by rw [gy, cy], by rw [gz, cz]⟩
    · exact ⟨by rw [ex, fx], by rw [ey, fy], by rw [ez, fz]⟩
  · apply gridMean_restrict _ _ wF wFc
    exact ⟨by rw [fx, gx, hx], by rw [fy, gy, hy], by rw [fz, gz, hz]⟩

theorem evenHierarchy_levelGrid_coarse (f c : Int → ℚ) :
    evenSolver.levelGrid (evenSolver._dIdx 1) (evenHierarchy f c (evenSolver._dIdx 1)) :=
  ⟨evenHierarchy_coarse_wellFormed f c, rfl, rfl, rfl⟩

theorem evenHierarchy_levelGrid_fine (f c : Int → ℚ) :
    evenSolver.levelGrid (evenSolver._dIdx (1 + 1))
      (evenHierarchy f c (evenSolver._dIdx (1 + 1))) :=
  ⟨evenHierarchy_fine_wellFormed f c, rfl, rfl, rfl⟩

theorem restrictFine2coarse_adjoint_of_interpolateCoarse2fine_witness :
    evenSolver.levelGrid (evenSolver._dIdx (1 + 1))
      (evenHierarchy (fun p => (p : ℚ)) (fun _ => 0) (evenSolver._dIdx (1 + 1)))
    ∧ evenSolver.levelGrid (evenSolver._dIdx 1)
      (evenHierarchy (fun _ => 5) (fun _ => 3) (evenSolver._dIdx 1))
    ∧ evenSolver.nx_h (evenSolver._dIdx (1 + 1)) = 2 * evenSolver.nx_h (evenSolver._dIdx 1)
    ∧ gridDot ((evenSolver._restrictFine2coarse (evenHierarchy (fun p => (p : ℚ)) (fun _ => 0))
          (1 + 1)) (evenSolver._dIdx 1))
        (evenHierarchy (fun _ => 5) (fun _ => 3) (evenSolver._dIdx 1))
      = 1 / 8 * gridDot (evenHierarchy (fun p => (p : ℚ)) (fun _ => 0) (evenSolver._dIdx (1 + 1)))
          ((evenSolver._interpolateCoarse2fine (evenHierarchy (fun _ => 5) (fun _ => 3)) 1)
            (evenSolver._dIdx (1 + 1))) :=
  ⟨evenHierarchy_levelGrid_fine _ _, evenHierarchy_levelGrid_coarse _ _, by decide,
    (restrictFine2coarse_adjoint_of_interpolateCoarse2fine evenSolver
      (evenHierarchy (fun p => (p : ℚ)) (fun _ => 0)) (evenHierarchy (fun _ => 5) (fun _ => 3)) 1
      (evenHierarchy_levelGrid_fine _ _) (evenHierarchy_levelGrid_coarse _ _)
      (evenHierarchy_levelGrid_coarse _ _) (evenHierarchy_levelGrid_fine _ _)
      (by decide) (by decide) (by decide)).1⟩

/-! ## Fixed point of the V-cycle -/

theorem foldl_max_zero {α : Type} (f : α → ℚ) (l : List α) (h : ∀ x ∈ l, f x = 0) :
    l.foldl (fun m x => if f x > m then f x else m) 0 = 0 := by
  induction l with
  | nil => rfl
  | cons x xs ih =>
    rw [List.foldl_cons, h x (List.mem_cons_self _ _), if_neg (lt_irrefl 0)]
    exact ih (fun y hy => h y (List.mem_cons_of_mem _ hy))

theorem getMaxResidual_zero (env : Env) (s : FASMultigrid) (depth : Int)
    (h : s.zeroResidual env (s._dIdx depth)) : s._getMaxResidual env 0 depth = 0 := by
  rw [getMaxResidual_eq]
  apply foldl_max_zero
    (fun c : Int × Int × Int => |s.residualAt env 0 (s._dIdx depth) c.1 c.2.1 c.2.2|)
  intro c hc
  show |s.residualAt env 0 (s._dIdx depth) c.1 c.2.1 c.2.2| = 0
  rw [h c.1 c.2.1 c.2.2 ((mem_FAS_LOOP3_N _ _ _ c).mp hc), abs_zero]

theorem toleranceMet_of_zeroResidual (env : Env) (s : FASMultigrid) (depth : Int)
    (hn : s.u_n = 1) (htol : 0 < s.relaxation_tolerance)
    (h : s.zeroResidual env (s._dIdx depth)) : s.toleranceMet env depth := by
  unfold FASMultigrid.toleranceMet FASMultigrid._getMaxResidualAllEqs pw2
  rw [hn]
  simp only [List.range_succ, List.range_zero, List.nil_append, List.foldl_cons,
    List.foldl_nil, getMaxResidual_zero env s depth h, max_self]
  positivity

theorem relaxSolution_of_zeroResidual (env : Env) (fuel : Nat) (s : FASMultigrid)
    (depth n : Int) (hn : s.u_n = 1) (htol : 0 < s.relaxation_tolerance)
    (h : s.zeroResidual env (s._dIdx depth)) :
    s._relaxSolution_GaussSeidel env fuel depth n = Outcome.ok s :=
  relaxLoop_converged env fuel depth n.toNat s (toleranceMet_of_zeroResidual env s depth hn htol h)

/-- The cell of the coarse point `(i, j, k)` after the restriction loop, read at the
flat position of the halved extents. -/
theorem restrictLoop_array_even (f cg : fas_grid_t) (i j k : Int)
    (hi : 0 ≤ i ∧ i < f.nx / 2) (hj : 0 ≤ j ∧ j < f.ny / 2) (hk : 0 ≤ k ∧ k < f.nz / 2) :
    (restrictLoop f cg)._array (H_INDEX i j k (f.nx / 2) (f.ny / 2) (f.nz / 2))
      = restrictValue f f.nx f.ny f.nz (i * 2) (j * 2) (k * 2) := by
  rw [restrictLoop_eq]
  apply foldl_set_written
  · intro cell hcell e
    obtain ⟨⟨h1, h2⟩, ⟨h3, h4⟩, h5, h6⟩ := (mem_FAS_LOOP3_N _ _ _ cell).mp hcell
    obtain ⟨e1, e2, e3⟩ := (H_INDEX_eq_iff _ _ _ _ _ _ _ _ _ (by omega) (by omega)).mp e
    rw [Int.emod_eq_of_lt h1 h2, Int.emod_eq_of_lt hi.1 hi.2] at e1
    rw [Int.emod_eq_of_lt h3 h4, Int.emod_eq_of_lt hj.1 hj.2] at e2
    rw [Int.emod_eq_of_lt h5 h6, Int.emod_eq_of_lt hk.1 hk.2] at e3
    rw [e1, e2, e3]
  · exact ⟨(i, j, k), (mem_FAS_LOOP3_N _ _ _ _).mpr ⟨hi, hj, hk⟩, rfl⟩

theorem restrictValue_zero (f : fas_grid_t) (nx ny nz fi fj fk : Int)
    (h : ∀ x y z : Int, f._array (H_INDEX x y z nx ny nz) = 0) :
    restrictValue f nx ny nz fi fj fk = 0 := by
  simp only [restrictValue, h]
  norm_num

/-- The residual grid of a level with zero residual holds 0 at every position of
the point loop. -/
theorem computeResidual_zero (env : Env) (s : FASMultigrid) (residual_h : Int → fas_grid_t)
    (depth : Int) (hg : s.levelGrid (s._dIdx depth) (residual_h (s._dIdx depth)))
    (h : s.zeroResidual env (s._dIdx depth)) (x y z : Int) :
    ((s._computeResidual env residual_h 0 depth) (s._dIdx depth))._array
        (H_INDEX x y z (s.nx_h (s._dIdx depth)) (s.ny_h (s._dIdx depth))
          (s.nz_h (s._dIdx depth))) = 0 := by
  obtain ⟨⟨px, py, pz, _⟩, ex, ey, ez⟩ := hg
  rw [ex] at px
  rw [ey] at py
  rw [ez] at pz
  have hp : s.isPoint (s._dIdx depth) (x % s.nx_h (s._dIdx depth))
      (y % s.ny_h (s._dIdx depth)) (z % s.nz_h (s._dIdx depth)) :=
    ⟨⟨Int.emod_nonneg _ (by omega), Int.emod_lt_of_pos _ px⟩,
      ⟨Int.emod_nonneg _ (by omega), Int.emod_lt_of_pos _ py⟩,
      ⟨Int.emod_nonneg _ (by omega), Int.emod_lt_of_pos _ pz⟩⟩
  have h1 := computeResidual_point env s residual_h 0 depth _ _ _
    ⟨⟨by rw [ex]; exact px, by rw [ey]; exact py, by rw [ez]; exact pz, by assumption⟩,
      ex, ey, ez⟩ hp
  unfold FASMultigrid.posIdx at h1
  rw [H_INDEX_emod] at h1
  rw [h1]
  exact h _ _ _ hp

theorem zeroResidual_congr (env : Env) (s t : FASMultigrid) (l : Int)
    (h : s.sameInputsAt t l) (hc : t.coarse_src_h 0 l = s.coarse_src_h 0 l)
    (hz : s.zeroResidual env l) : t.zeroResidual env l := by
  intro i j k hp
  have hF := evaluateEllipticEquationPt_congr env s t 0 l i j k h
  obtain ⟨_, _, hx, hy, hz', _, _⟩ := h
  have hp' : s.isPoint l i j k := by
    unfold FASMultigrid.isPoint at hp ⊢
    rw [hx, hy, hz'] at hp
    exact hp
  have h0 := hz i j k hp'
  unfold FASMultigrid.residualAt FASMultigrid.posIdx at h0 ⊢
  rw [hF, hc, hx, hy, hz']
  exact h0

theorem levelGrid_of_sameShape (s t : FASMultigrid) (l : Int) (a b : fas_grid_t)
    (hx : t.nx_h l = s.nx_h l) (hy : t.ny_h l = s.ny_h l) (hz : t.nz_h l = s.nz_h l)
    (hab : a.sameShape b) (h : s.levelGrid l b) : t.levelGrid l a := by
  obtain ⟨a1, a2, a3, a4⟩ := hab
  obtain ⟨⟨w1, w2, w3, w4⟩, e1, e2, e3⟩ := h
  unfold FASMultigrid.levelGrid fas_grid_t.wellFormed
  rw [a1, a2, a3, a4, hx, hy, hz]
  exact ⟨⟨w1, w2, w3, w4⟩, e1, e2, e3⟩

theorem sameShape_refl (a : fas_grid_t) : a.sameShape a := ⟨rfl, rfl, rfl, rfl⟩

theorem sameShape_trans (a b c : fas_grid_t) (h1 : a.sameShape b) (h2 : b.sameShape c) :
    a.sameShape c :=
  ⟨h1.1.trans h2.1, h1.2.1.trans h2.2.1, h1.2.2.1.trans h2.2.2.1, h1.2.2.2.trans h2.2.2.2⟩

/-- The grids of `tmp_h[eqn_id]` keep their extents through
`_computeCoarseRestrictions`. -/
theorem computeCoarseRestrictions_tmp_shape (env : Env) (s : FASMultigrid) (eqn_id : Nat)
    (fine_depth l : Int) :
    ((s._computeCoarseRestrictions env eqn_id fine_depth).tmp_h eqn_id l).sameShape
      (s.tmp_h eqn_id l) := by
  have e1 : (s._computeCoarseRestrictions env eqn_id fine_depth).tmp_h eqn_id
      = s._restrictFine2coarse
          ((s.set_u_h eqn_id
            (s._restrictFine2coarse (s.u_h eqn_id) fine_depth))._computeResidual env
            (s.tmp_h eqn_id) eqn_id fine_depth) fine_depth := by
    simp [FASMultigrid._computeCoarseRestrictions, FASMultigrid.sourceStage,
      FASMultigrid.set_coarse_src_h, FASMultigrid.restrictStage, FASMultigrid.set_tmp_h,
      FASMultigrid.set_u_h, FASMultigrid._restrictFine2coarse, FASMultigrid._dIdx]
  rw [e1]
  have hcr : ∀ m : Int, (((s.set_u_h eqn_id
      (s._restrictFine2coarse (s.u_h eqn_id) fine_depth))._computeResidual env
      (s.tmp_h eqn_id) eqn_id fine_depth) m).sameShape (s.tmp_h eqn_id m) := by
    intro m
    by_cases hm : m = s._dIdx fine_depth
    · subst hm
      exact computeResidual_dims env (s.set_u_h eqn_id
        (s._restrictFine2coarse (s.u_h eqn_id) fine_depth)) (s.tmp_h eqn_id) eqn_id fine_depth
    · have ho := computeResidual_other env (s.set_u_h eqn_id
        (s._restrictFine2coarse (s.u_h eqn_id) fine_depth)) (s.tmp_h eqn_id) eqn_id
        fine_depth m hm
      rw [ho]
      exact sameShape_refl _
  by_cases hl : l = s._dIdx fine_depth - 1
  · subst hl
    rw [restrictFine2coarse_apply]
    exact sameShape_trans _ _ _ (restrictLoop_dims _ _) (hcr _)
  · have : (s._restrictFine2coarse ((s.set_u_h eqn_id
        (s._restrictFine2coarse (s.u_h eqn_id) fine_depth))._computeResidual env
        (s.tmp_h eqn_id) eqn_id fine_depth) fine_depth) l
        = ((s.set_u_h eqn_id
        (s._restrictFine2coarse (s.u_h eqn_id) fine_depth))._computeResidual env
        (s.tmp_h eqn_id) eqn_id fine_depth) l := by
      simp [FASMultigrid._restrictFine2coarse, Function.update_noteq hl]
    rw [this]
    exact hcr l

theorem restrictStage_frame (env : Env) (s : FASMultigrid) (eqn_id : Nat) (fine_depth : Int) :
    (s.restrictStage env eqn_id fine_depth).u_n = s.u_n
    ∧ (s.restrictStage env eqn_id fine_depth).relaxation_tolerance = s.relaxation_tolerance
    ∧ (s.restrictStage env eqn_id fine_depth).max_relax_iters = s.max_relax_iters :=
  ⟨rfl, rfl, rfl⟩

theorem sourceStage_frame (env : Env) (s : FASMultigrid) (eqn_id : Nat) (fine_depth : Int) :
    (s.sourceStage env eqn_id fine_depth).u_n = s.u_n
    ∧ (s.sourceStage env eqn_id fine_depth).relaxation_tolerance = s.relaxation_tolerance
    ∧ (s.sourceStage env eqn_id fine_depth).max_relax_iters = s.max_relax_iters :=
  ⟨rfl, rfl, rfl⟩

theorem computeCoarseRestrictions_frame (env : Env) (s : FASMultigrid) (eqn_id : Nat)
    (fine_depth : Int) :
    (s._computeCoarseRestrictions env eqn_id fine_depth).u_n = s.u_n
    ∧ (s._computeCoarseRestrictions env eqn_id fine_depth).relaxation_tolerance
        = s.relaxation_tolerance
    ∧ (s._computeCoarseRestrictions env eqn_id fine_depth).max_relax_iters = s.max_relax_iters
    ∧ (s._computeCoarseRestrictions env eqn_id fine_depth).min_depth = s.min_depth
    ∧ (s._computeCoarseRestrictions env eqn_id fine_depth).max_depth = s.max_depth
    ∧ (s._computeCoarseRestrictions env eqn_id fine_depth).nx_h = s.nx_h
    ∧ (s._computeCoarseRestrictions env eqn_id fine_depth).ny_h = s.ny_h
    ∧ (s._computeCoarseRestrictions env eqn_id fine_depth).nz_h = s.nz_h
    ∧ (s._computeCoarseRestrictions env eqn_id fine_depth).molecule_n = s.molecule_n
    ∧ (s._computeCoarseRestrictions env eqn_id fine_depth).eqns = s.eqns
    ∧ (s._computeCoarseRestrictions env eqn_id fine_depth).rho_h = s.rho_h := by
  have a := restrictStage_fields env s eqn_id fine_depth
  have b := sourceStage_fields env (s.restrictStage env eqn_id fine_depth) eqn_id fine_depth
  have c := restrictStage_frame env s eqn_id fine_depth
  have d := sourceStage_frame env (s.restrictStage env eqn_id fine_depth) eqn_id fine_depth
  have e := computeCoarseRestrictions_bounds env s eqn_id fine_depth
  unfold FASMultigrid._computeCoarseRestrictions at e ⊢
  exact ⟨d.1.trans c.1, d.2.1.trans c.2.1, d.2.2.trans c.2.2, e.1, e.2, b.2.1.trans a.2.1,
    b.2.2.1.trans a.2.2.1, b.2.2.2.1.trans a.2.2.2.1, b.2.2.2.2.1.trans a.2.2.2.2.1,
    b.2.2.2.2.2.1.trans a.2.2.2.2.2.1, b.2.2.2.2.2.2.1.trans a.2.2.2.2.2.2.1⟩

theorem computeCoarseRestrictions_sameInputsAt (env : Env) (s : FASMultigrid)
    (fine_depth l : Int) (hl : l ≠ s._dIdx fine_depth - 1) :
    s.sameInputsAt (s._computeCoarseRestrictions env 0 fine_depth) l := by
  obtain ⟨_, _, _, _, _, fx, fy, fz, fm, fe, fr⟩ :=
    computeCoarseRestrictions_frame env s 0 fine_depth
  refine ⟨fm, fe, by rw [fx], by rw [fy], by rw [fz], fun _ _ => by rw [fr], ?_⟩
  intro e
  rw [computeCoarseRestrictions_u_h]
  by_cases he : e = 0
  · subst he
    rw [Function.update_same]
    simp [FASMultigrid._restrictFine2coarse, Function.update_noteq hl]
  · rw [Function.update_noteq he]

/-- One step of the descent: when the residual is 0 on the fine level, the FAS
source update leaves a zero residual on the next coarser level. -/
theorem computeCoarseRestrictions_zeroResidual (env : Env) (s : FASMultigrid)
    (fine_depth : Int)
    (hpos : 0 < s.nx_h (s._dIdx fine_depth - 1) ∧ 0 < s.ny_h (s._dIdx fine_depth - 1)
      ∧ 0 < s.nz_h (s._dIdx fine_depth - 1))
    (hdbl : s.nx_h (s._dIdx fine_depth) = 2 * s.nx_h (s._dIdx fine_depth - 1)
      ∧ s.ny_h (s._dIdx fine_depth) = 2 * s.ny_h (s._dIdx fine_depth - 1)
      ∧ s.nz_h (s._dIdx fine_depth) = 2 * s.nz_h (s._dIdx fine_depth - 1))
    (hg : s.levelGrid (s._dIdx fine_depth) (s.tmp_h 0 (s._dIdx fine_depth)))
    (hz : s.zeroResidual env (s._dIdx fine_depth)) :
    (s._computeCoarseRestrictions env 0 fine_depth).zeroResidual env
      (s._dIdx fine_depth - 1) := by
  obtain ⟨_, _, _, _, _, fx, fy, fz, _, _, _⟩ :=
    computeCoarseRestrictions_frame env s 0 fine_depth
  intro i j k hp
  have hp' : s.isPoint (s._dIdx fine_depth - 1) i j k := by
    unfold FASMultigrid.isPoint at hp ⊢
    rw [fx, fy, fz] at hp
    exact hp
  have h1 := computeCoarseRestrictions_coarse_src_point env s 0 fine_depth i j k hpos.1
    hpos.2.1 hpos.2.2 hp'
  have hd := computeResidual_dims env s (s.tmp_h 0) 0 fine_depth
  obtain ⟨_, gx, gy, gz⟩ := hg
  have hx2 : ((s._computeResidual env (s.tmp_h 0) 0 fine_depth) (s._dIdx fine_depth)).nx / 2
      = s.nx_h (s._dIdx fine_depth - 1) := by rw [hd.1, gx, hdbl.1]; omega
  have hy2 : ((s._computeResidual env (s.tmp_h 0) 0 fine_depth) (s._dIdx fine_depth)).ny / 2
      = s.ny_h (s._dIdx fine_depth - 1) := by rw [hd.2.1, gy, hdbl.2.1]; omega
  have hz2 : ((s._computeResidual env (s.tmp_h 0) 0 fine_depth) (s._dIdx fine_depth)).nz / 2
      = s.nz_h (s._dIdx fine_depth - 1) := by rw [hd.2.2.1, gz, hdbl.2.2]; omega
  have h2 := restrictLoop_array_even
    ((s._computeResidual env (s.tmp_h 0) 0 fine_depth) (s._dIdx fine_depth))
    (s.tmp_h 0 (s._dIdx fine_depth - 1)) i j k (by rw [hx2]; exact hp'.1)
    (by rw [hy2]; exact hp'.2.1) (by rw [hz2]; exact hp'.2.2)
  rw [hx2, hy2, hz2, hd.1, hd.2.1, hd.2.2.1, gx, gy, gz, restrictValue_zero _ _ _ _ _ _ _
    (computeResidual_zero env s (s.tmp_h 0) fine_depth ⟨by assumption, gx, gy, gz⟩ hz)] at h2
  unfold FASMultigrid.posIdx at h1
  rw [h2, add_zero] at h1
  unfold FASMultigrid.residualAt FASMultigrid.posIdx
  rw [fx, fy, fz, h1, sub_self]

theorem keepsFinest_refl (s : FASMultigrid) : s.keepsFinest s := ⟨rfl, rfl, rfl⟩

theorem keepsFinest_trans (s t r : FASMultigrid) (h1 : s.keepsFinest t)
    (h2 : t.keepsFinest r) : s.keepsFinest r := by
  obtain ⟨a1, a2, a3⟩ := h1
  obtain ⟨b1, b2, b3⟩ := h2
  have e : t._dIdx t.max_depth = s._dIdx s.max_depth := by
    unfold FASMultigrid._dIdx
    rw [a1, a2]
  rw [e] at b3
  exact ⟨b1.trans a1, b2.trans a2, b3.trans a3⟩

theorem dIdx_congr (s t : FASMultigrid) (h : t.min_depth = s.min_depth) (d : Int) :
    t._dIdx d = s._dIdx d := by
  unfold FASMultigrid._dIdx
  rw [h]

/-- One step of the descent keeps the solver solved, one level further down. -/
theorem computeCoarseRestrictions_solvedFrom (env : Env) (s : FASMultigrid)
    (fine_depth : Int) (h : s.solvedFrom env (s._dIdx fine_depth))
    (h0 : 0 < s._dIdx fine_depth) (h1 : s._dIdx fine_depth ≤ s._dIdx s.max_depth) :
    (s._computeCoarseRestrictions env 0 fine_depth).solvedFrom env (s._dIdx fine_depth - 1)
    ∧ s.keepsFinest (s._computeCoarseRestrictions env 0 fine_depth) := by
  obtain ⟨fn, ft, _, fmin, fmax, fx, fy, fz, _, _, _⟩ :=
    computeCoarseRestrictions_frame env s 0 fine_depth
  obtain ⟨hn, htol, hh, hz⟩ := h
  have etop : (s._computeCoarseRestrictions env 0 fine_depth)._dIdx
      (s._computeCoarseRestrictions env 0 fine_depth).max_depth = s._dIdx s.max_depth := by
    rw [dIdx_congr s _ fmin, fmax]
  obtain ⟨hpos, hdbl, hg⟩ := hh (s._dIdx fine_depth) h0 h1
  refine ⟨⟨fn.trans hn, by rw [ft]; exact htol, ?_, ?_⟩, fmin, fmax, ?_⟩
  · intro d hd0 hd1
    rw [etop] at hd1
    obtain ⟨p1, p2, p3⟩ := hh d hd0 hd1
    rw [fx, fy, fz]
    refine ⟨p1, p2, ?_⟩
    exact levelGrid_of_sameShape s _ d _ _ (by rw [fx]) (by rw [fy]) (by rw [fz])
      (computeCoarseRestrictions_tmp_shape env s 0 fine_depth d) p3
  · intro l hl0 hl1
    rw [etop] at hl1
    by_cases hl : l = s._dIdx fine_depth - 1
    · rw [hl]
      exact computeCoarseRestrictions_zeroResidual env s fine_depth hpos hdbl hg
        (hz _ (le_refl _) h1)
    · have hl2 : s._dIdx fine_depth ≤ l := by omega
      exact zeroResidual_congr env s _ l
        (computeCoarseRestrictions_sameInputsAt env s fine_depth l hl)
        (computeCoarseRestrictions_coarse_src_other env s 0 fine_depth 0 l (Or.inr hl))
        (hz l hl2 hl1)
  · rw [computeCoarseRestrictions_u_h, Function.update_same]
    have hne : s._dIdx s.max_depth ≠ s._dIdx fine_depth - 1 := by omega
    simp [FASMultigrid._restrictFine2coarse, Function.update_noteq hne]

/-- The descent loop: after `N` source updates from depth `D` downwards the residual
is 0 on `N` more levels. -/
theorem descentLoop_solvedFrom (env : Env) (N : Nat) (s : FASMultigrid) (D : Int)
    (hD : s._dIdx D ≤ s._dIdx s.max_depth)
    (hN : ∀ n : Nat, n < N → (n : Int) < s._dIdx D)
    (h : s.solvedFrom env (s._dIdx D)) :
    (((List.range N).map (fun (n : Nat) => D - (n : Int))).foldl
        (fun (s : FASMultigrid) (depth : Int) => s._computeCoarseRestrictions env 0 depth)
        s).solvedFrom env (s._dIdx D - N)
    ∧ s.keepsFinest (((List.range N).map (fun (n : Nat) => D - (n : Int))).foldl
        (fun (s : FASMultigrid) (depth : Int) => s._computeCoarseRestrictions env 0 depth)
        s) := by
  induction N with
  | zero =>
    simp only [List.range_zero, List.map_nil, List.foldl_nil, Nat.cast_zero, sub_zero]
    exact ⟨h, keepsFinest_refl s⟩
  | succ N ih =>
    obtain ⟨ih1, ih2⟩ := ih (fun n hn => hN n (Nat.lt_succ_of_lt hn))
    rw [List.range_succ, List.map_append, List.foldl_append]
    simp only [List.map_cons, List.map_nil, List.foldl_cons, List.foldl_nil]
    generalize ((List.range N).map (fun (n : Nat) => D - (n : Int))).foldl
        (fun (s : FASMultigrid) (depth : Int) => s._computeCoarseRestrictions env 0 depth)
        s = t at ih1 ih2
    have hlt := hN N (Nat.lt_succ_self N)
    have ed : t._dIdx (D - (N : Int)) = s._dIdx D - N := by
      rw [dIdx_congr s t ih2.1]
      unfold FASMultigrid._dIdx
      ring
    have etop : t._dIdx t.max_depth = s._dIdx s.max_depth := by
      rw [dIdx_congr s t ih2.1, ih2.2.1]
    have hstep := computeCoarseRestrictions_solvedFrom env t (D - (N : Int))
      (by rw [ed]; exact ih1) (by rw [ed]; omega) (by rw [ed, etop]; omega)
    rw [ed] at hstep
    refine ⟨?_, keepsFinest_trans s t _ ih2 hstep.2⟩
    have e2 : s._dIdx D - ((N + 1 : Nat) : Int) = s._dIdx D - N - 1 := by
      push_cast
      ring
    rw [e2]
    exact hstep.1

theorem solvedFrom_with_tmp_h (env : Env) (s : FASMultigrid) (lo : Int)
    (h : Nat → Int → fas_grid_t)
    (hs : ∀ d : Int, 0 < d → (h 0 d).sameShape (s.tmp_h 0 d))
    (hsol : s.solvedFrom env lo) : (s.with_tmp_h h).solvedFrom env lo := by
  obtain ⟨hn, htol, hh, hz⟩ := hsol
  refine ⟨hn, htol, ?_, ?_⟩
  · intro d hd0 hd1
    obtain ⟨p1, p2, p3⟩ := hh d hd0 hd1
    exact ⟨p1, p2, levelGrid_of_sameShape s _ d _ _ rfl rfl rfl (hs d hd0) p3⟩
  · intro l hl0 hl1
    exact zeroResidual_congr env s _ l ⟨rfl, rfl, rfl, rfl, rfl, fun _ _ => rfl, fun _ => rfl⟩
      rfl (hz l hl0 hl1)

theorem keepsFinest_with_tmp_h (s : FASMultigrid) (h : Nat → Int → fas_grid_t) :
    s.keepsFinest (s.with_tmp_h h) := ⟨rfl, rfl, rfl⟩

/-- The descent of the V-cycle for a single equation whose finest residual is 0:
the residual is 0 on every level down to the coarsest, the finest grid of `u` is
kept, and `tmp_h[0]` holds a copy of `u_h[0]` on the coarsest level. -/
theorem descend_solvedFrom (env : Env) (s : FASMultigrid)
    (h : s.solvedFrom env (s._dIdx s.max_depth)) :
    (s.descend env).solvedFrom env
        (s._dIdx s.max_depth - ((s.max_depth - s.min_depth).toNat : Int))
    ∧ s.keepsFinest (s.descend env)
    ∧ (s.descend env).snapshotAt 0 := by
  have hn := h.1
  unfold FASMultigrid.descend
  rw [hn]
  simp only [List.range_succ, List.range_zero, List.nil_append, List.foldl_cons,
    List.foldl_nil]
  unfold FASMultigrid.descendEqn
  dsimp only
  obtain ⟨h1, h2⟩ := descentLoop_solvedFrom env (s.max_depth - s.min_depth).toNat s s.max_depth
    (le_refl _) (fun n hn => by unfold FASMultigrid._dIdx; omega) h
  generalize ((List.range (s.max_depth - s.min_depth).toNat).map
      (fun (n : Nat) => s.max_depth - (n : Int))).foldl
      (fun (s : FASMultigrid) (depth : Int) => s._computeCoarseRestrictions env 0 depth)
      s = t at h1 h2
  have e0 : t._dIdx t.min_depth = 0 := by
    unfold FASMultigrid._dIdx
    ring
  refine ⟨?_, keepsFinest_trans s t _ h2 (keepsFinest_with_tmp_h t _), ?_⟩
  · apply solvedFrom_with_tmp_h env t _ _ _ h1
    intro d hd
    have hne : d ≠ t._dIdx t.min_depth := by omega
    simp only [FASMultigrid._copyGrid, Function.update_same, Function.update_noteq hne]
    exact sameShape_refl _
  · intro i j k _
    simp only [FASMultigrid.with_tmp_h, FASMultigrid._copyGrid, Function.update_same, e0,
      fas_grid_t.assign]

theorem grid_ext (a b : fas_grid_t) (h : a.sameShape b) (ha : ∀ p, a._array p = b._array p) :
    a = b := by
  obtain ⟨a0, a1, a2, a3, a4⟩ := a
  obtain ⟨b0, b1, b2, b3, b4⟩ := b
  obtain ⟨h1, h2, h3, h4⟩ := h
  simp only at h1 h2 h3 h4 ha
  subst h1 h2 h3 h4
  have : a0 = b0 := funext ha
  subst this
  rfl

/-- The grids after `_changeApproximateSolutionToError`: only the level of the call
changes, it keeps its extents, and at its points it holds `exact - appx`. -/
theorem changeApproximateSolutionToError_spec (s : FASMultigrid)
    (appx_to_err_h exact_soln_h : Int → fas_grid_t) (depth : Int) :
    (∀ l : Int, l ≠ s._dIdx depth →
      (s._changeApproximateSolutionToError appx_to_err_h exact_soln_h depth) l
        = appx_to_err_h l)
    ∧ (∀ l : Int, ((s._changeApproximateSolutionToError appx_to_err_h exact_soln_h depth)
        l).sameShape (appx_to_err_h l))
    ∧ ∀ i j k : Int, s.isPoint (s._dIdx depth) i j k →
        ((s._changeApproximateSolutionToError appx_to_err_h exact_soln_h depth)
          (s._dIdx depth))._array (s.posIdx (s._dIdx depth) i j k)
        = (exact_soln_h (s._dIdx depth))._array (s.posIdx (s._dIdx depth) i j k)
          - (appx_to_err_h (s._dIdx depth))._array (s.posIdx (s._dIdx depth) i j k) := by
  have hother : ∀ l : Int, l ≠ s._dIdx depth →
      (s._changeApproximateSolutionToError appx_to_err_h exact_soln_h depth) l
        = appx_to_err_h l := by
    intro l hl
    unfold FASMultigrid._changeApproximateSolutionToError
    dsimp only
    rw [Function.update_noteq hl]
  have hsame : (s._changeApproximateSolutionToError appx_to_err_h exact_soln_h depth)
      (s._dIdx depth)
      = (FAS_LOOP3_N (s.nx_h (s._dIdx depth)) (s.ny_h (s._dIdx depth))
          (s.nz_h (s._dIdx depth))).foldl
        (fun cg (c : Int × Int × Int) =>
          cg.set (H_INDEX c.1 c.2.1 c.2.2 (s.nx_h (s._dIdx depth)) (s.ny_h (s._dIdx depth))
              (s.nz_h (s._dIdx depth)))
            ((fun (p : Int) (old : ℚ) => (exact_soln_h (s._dIdx depth))._array p - old)
              (H_INDEX c.1 c.2.1 c.2.2 (s.nx_h (s._dIdx depth)) (s.ny_h (s._dIdx depth))
                (s.nz_h (s._dIdx depth)))
              (cg._array (H_INDEX c.1 c.2.1 c.2.2 (s.nx_h (s._dIdx depth))
                (s.ny_h (s._dIdx depth)) (s.nz_h (s._dIdx depth))))))
        (appx_to_err_h (s._dIdx depth)) := by
    unfold FASMultigrid._changeApproximateSolutionToError
    dsimp only
    rw [Function.update_same]
  refine ⟨hother, ?_, ?_⟩
  · intro l
    by_cases hl : l = s._dIdx depth
    · subst hl
      rw [hsame]
      exact foldl_rmw_dims
        (fun c : Int × Int × Int => H_INDEX c.1 c.2.1 c.2.2 (s.nx_h (s._dIdx depth))
          (s.ny_h (s._dIdx depth)) (s.nz_h (s._dIdx depth)))
        (fun (p : Int) (old : ℚ) => (exact_soln_h (s._dIdx depth))._array p - old) _ _
    · rw [hother l hl]
      exact sameShape_refl _
  · intro i j k hp
    rw [hsame, foldl_rmw
      (fun c : Int × Int × Int => H_INDEX c.1 c.2.1 c.2.2 (s.nx_h (s._dIdx depth))
        (s.ny_h (s._dIdx depth)) (s.nz_h (s._dIdx depth)))
      (fun (p : Int) (old : ℚ) => (exact_soln_h (s._dIdx depth))._array p - old) _ _
      (loop_positions_nodup_all _ _ _)]
    have hmem : s.posIdx (s._dIdx depth) i j k
        ∈ (FAS_LOOP3_N (s.nx_h (s._dIdx depth)) (s.ny_h (s._dIdx depth))
            (s.nz_h (s._dIdx depth))).map
          (fun c => H_INDEX c.1 c.2.1 c.2.2 (s.nx_h (s._dIdx depth))
            (s.ny_h (s._dIdx depth)) (s.nz_h (s._dIdx depth))) :=
      List.mem_map.mpr ⟨(i, j, k), (mem_FAS_LOOP3_N _ _ _ _).mpr hp, rfl⟩
    rw [if_pos hmem]

/-- The prolongation of a coarse grid that holds 0 at every coarse point is 0 at
every position of the fine grid. -/
theorem interpolateLoop_zero (ncx ncy ncz : Int) (c fg : fas_grid_t) (p : Int)
    (hc : ∀ i j k : Int, (0 ≤ i ∧ i < ncx) → (0 ≤ j ∧ j < ncy) → (0 ≤ k ∧ k < ncz) →
      c._array (H_INDEX i j k ncx ncy ncz) = 0)
    (hp : 0 ≤ p ∧ p < fg.pts) :
    (interpolateLoop ncx ncy ncz c fg)._array p = 0 := by
  rw [interpolateLoop_array, if_pos hp, zero_add]
  apply List.sum_eq_zero
  intro x hx
  obtain ⟨cell, hcell, rfl⟩ := List.mem_map.mp hx
  obtain ⟨h1, h2, h3⟩ := (mem_FAS_LOOP3_N _ _ _ cell).mp hcell
  apply List.sum_eq_zero
  intro y hy
  obtain ⟨adj, _, rfl⟩ := List.mem_map.mp hy
  rw [hc cell.1 cell.2.1 cell.2.2 h1 h2 h3, zero_div, ite_self]

theorem correctFine_shape (s : FASMultigrid) (err2appx_h appx_soln_h : Int → fas_grid_t)
    (fine_depth : Int) :
    ((s._correctFineFromCoarseErr_Err2Appx err2appx_h appx_soln_h fine_depth).1
        (s._dIdx fine_depth)).sameShape (err2appx_h (s._dIdx fine_depth))
    ∧ ((s._correctFineFromCoarseErr_Err2Appx err2appx_h appx_soln_h fine_depth).2
        (s._dIdx fine_depth)).sameShape (appx_soln_h (s._dIdx fine_depth)) := by
  have e : s._dIdx (fine_depth - 1 + 1) = s._dIdx fine_depth := by
    rw [sub_add_cancel]
  have hP := interpolateCoarse2fine_apply s err2appx_h (fine_depth - 1)
  rw [e] at hP
  unfold FASMultigrid._correctFineFromCoarseErr_Err2Appx
  dsimp only
  rw [Function.update_same, Function.update_same]
  have hd := foldl_correct_pair_dims
    (fun c : Int × Int × Int => H_INDEX c.1 c.2.1 c.2.2 (s.nx_h (s._dIdx fine_depth))
      (s.ny_h (s._dIdx fine_depth)) (s.nz_h (s._dIdx fine_depth)))
    (FAS_LOOP3_N (s.nx_h (s._dIdx fine_depth)) (s.ny_h (s._dIdx fine_depth))
      (s.nz_h (s._dIdx fine_depth)))
    ((s._interpolateCoarse2fine err2appx_h (fine_depth - 1)) (s._dIdx fine_depth))
    (appx_soln_h (s._dIdx fine_depth))
  refine ⟨sameShape_trans _ _ _ hd.1 ?_, hd.2⟩
  rw [hP]
  exact interpolateLoop_dims _ _ _ _ _

/-- The correction step when the coarse error is 0 at every coarse point: the
solution hierarchy is unchanged, the error hierarchy keeps its extents and holds the
solution at every fine point. -/
theorem correctFine_zero (s : FASMultigrid) (err2appx_h appx_soln_h : Int → fas_grid_t)
    (fine_depth : Int)
    (hpos : 0 < s.nx_h (s._dIdx fine_depth) ∧ 0 < s.ny_h (s._dIdx fine_depth)
      ∧ 0 < s.nz_h (s._dIdx fine_depth))
    (hpts : (err2appx_h (s._dIdx fine_depth)).pts
      = s.nx_h (s._dIdx fine_depth) * s.ny_h (s._dIdx fine_depth)
        * s.nz_h (s._dIdx fine_depth))
    (herr : ∀ i j k : Int, s.isPoint (s._dIdx (fine_depth - 1)) i j k →
      (err2appx_h (s._dIdx (fine_depth - 1)))._array
        (s.posIdx (s._dIdx (fine_depth - 1)) i j k) = 0) :
    (s._correctFineFromCoarseErr_Err2Appx err2appx_h appx_soln_h fine_depth).2 = appx_soln_h
    ∧ (∀ l : Int, ((s._correctFineFromCoarseErr_Err2Appx err2appx_h appx_soln_h fine_depth).1
        l).sameShape (err2appx_h l))
    ∧ ∀ i j k : Int, s.isPoint (s._dIdx fine_depth) i j k →
        ((s._correctFineFromCoarseErr_Err2Appx err2appx_h appx_soln_h fine_depth).1
          (s._dIdx fine_depth))._array (s.posIdx (s._dIdx fine_depth) i j k)
        = (appx_soln_h (s._dIdx fine_depth))._array (s.posIdx (s._dIdx fine_depth) i j k) := by
  have e : s._dIdx (fine_depth - 1 + 1) = s._dIdx fine_depth := by
    rw [sub_add_cancel]
  have hP := interpolateCoarse2fine_apply s err2appx_h (fine_depth - 1)
  rw [e] at hP
  have hsh := correctFine_shape s err2appx_h appx_soln_h fine_depth
  refine ⟨?_, ?_, ?_⟩
  · funext l
    by_cases hl : l = s._dIdx fine_depth
    · subst hl
      apply grid_ext _ _ hsh.2
      intro p
      rw [(correctFine_cells s err2appx_h appx_soln_h fine_depth p).2]
      split_ifs with hmem
      · rw [hP, interpolateLoop_zero _ _ _ _ _ p
          (fun i j k hi hj hk => herr i j k ⟨hi, hj, hk⟩), add_zero]
        rw [hpts]
        exact (mem_loop_positions _ _ _ hpos.1 hpos.2.1 hpos.2.2 p).mp hmem
      · rfl
    · exact (correctFine_other s err2appx_h appx_soln_h fine_depth l hl).2
  · intro l
    by_cases hl : l = s._dIdx fine_depth
    · subst hl
      exact hsh.1
    · rw [(correctFine_other s err2appx_h appx_soln_h fine_depth l hl).1]
      exact sameShape_refl _
  · intro i j k hp
    have hmem : s.posIdx (s._dIdx fine_depth) i j k
        ∈ (FAS_LOOP3_N (s.nx_h (s._dIdx fine_depth)) (s.ny_h (s._dIdx fine_depth))
            (s.nz_h (s._dIdx fine_depth))).map
          (fun c => H_INDEX c.1 c.2.1 c.2.2 (s.nx_h (s._dIdx fine_depth))
            (s.ny_h (s._dIdx fine_depth)) (s.nz_h (s._dIdx fine_depth))) :=
      List.mem_map.mpr ⟨(i, j, k), (mem_FAS_LOOP3_N _ _ _ _).mpr hp, rfl⟩
    rw [(correctFine_cells s err2appx_h appx_soln_h fine_depth _).1, if_pos hmem]

theorem set_u_h_self (s : FASMultigrid) (e : Nat) : s.set_u_h e (s.u_h e) = s := by
  obtain ⟨a1, a2, a3, a4, a5, a6, a7, a8, a9, a10, a11, a12, a13, u, a15, a16, a17, a18, a19⟩ := s
  simp only [FASMultigrid.set_u_h, Function.update_eq_self]

/-- The two loops of `correctStep` for a single equation. -/
theorem correctStep_one (t : FASMultigrid) (cd : Int) (hn : t.u_n = 1) :
    t.correctStep cd
      = ((t.set_tmp_h 0 (t._changeApproximateSolutionToError (t.tmp_h 0) (t.u_h 0) cd)).set_tmp_h
            0 ((t.set_tmp_h 0 (t._changeApproximateSolutionToError (t.tmp_h 0) (t.u_h 0)
                cd))._correctFineFromCoarseErr_Err2Appx
              (t._changeApproximateSolutionToError (t.tmp_h 0) (t.u_h 0) cd) (t.u_h 0)
              (cd + 1)).1).set_u_h
          0 ((t.set_tmp_h 0 (t._changeApproximateSolutionToError (t.tmp_h 0) (t.u_h 0)
                cd))._correctFineFromCoarseErr_Err2Appx
              (t._changeApproximateSolutionToError (t.tmp_h 0) (t.u_h 0) cd) (t.u_h 0)
              (cd + 1)).2 := by
  have e : (t.set_tmp_h 0 (t._changeApproximateSolutionToError (t.tmp_h 0) (t.u_h 0) cd)).u_n
      = 1 := hn
  have e2 : (t.set_tmp_h 0 (t._changeApproximateSolutionToError (t.tmp_h 0) (t.u_h 0)
      cd)).tmp_h 0 = t._changeApproximateSolutionToError (t.tmp_h 0) (t.u_h 0) cd := by
    simp only [FASMultigrid.set_tmp_h, Function.update_same]
  unfold FASMultigrid.correctStep
  simp only [hn, List.range_succ, List.range_zero, List.nil_append, List.foldl_cons,
    List.foldl_nil, e, e2]
  rfl

/-- One correction step of the ascent on a solved single-equation solver whose
snapshot `tmp_h[0]` agrees with `u_h[0]` on the coarse level: the coarse error is 0,
so `u_h` is unchanged; the snapshot of the fine level is taken. -/
theorem correctStep_solvedFrom (env : Env) (t : FASMultigrid) (cd lo : Int)
    (hsol : t.solvedFrom env lo) (hc0 : 0 ≤ t._dIdx cd)
    (hc1 : t._dIdx cd < t._dIdx t.max_depth) (hsnap : t.snapshotAt (t._dIdx cd)) :
    (t.correctStep cd).solvedFrom env lo
    ∧ t.keepsFinest (t.correctStep cd)
    ∧ (t.correctStep cd).snapshotAt (t._dIdx cd + 1) := by
  have hn := hsol.1
  have hE := changeApproximateSolutionToError_spec t (t.tmp_h 0) (t.u_h 0) cd
  have ef : t._dIdx (cd + 1) = t._dIdx cd + 1 := by
    unfold FASMultigrid._dIdx
    ring
  have ec : t._dIdx (cd + 1 - 1) = t._dIdx cd := by
    rw [add_sub_cancel_right]
  obtain ⟨hpos, hdbl, hg⟩ := hsol.2.2.1 (t._dIdx cd + 1) (by omega) (by omega)
  rw [add_sub_cancel_right] at hpos hdbl
  have hz := correctFine_zero
    (t.set_tmp_h 0 (t._changeApproximateSolutionToError (t.tmp_h 0) (t.u_h 0) cd))
    (t._changeApproximateSolutionToError (t.tmp_h 0) (t.u_h 0) cd) (t.u_h 0) (cd + 1)
    (by
      show 0 < t.nx_h (t._dIdx (cd + 1)) ∧ 0 < t.ny_h (t._dIdx (cd + 1))
        ∧ 0 < t.nz_h (t._dIdx (cd + 1))
      rw [ef, hdbl.1, hdbl.2.1, hdbl.2.2]
      omega)
    (by
      show ((t._changeApproximateSolutionToError (t.tmp_h 0) (t.u_h 0) cd)
          (t._dIdx (cd + 1))).pts
        = t.nx_h (t._dIdx (cd + 1)) * t.ny_h (t._dIdx (cd + 1)) * t.nz_h (t._dIdx (cd + 1))
      rw [ef, hE.1 _ (by omega), hg.1.2.2.2, hg.2.1, hg.2.2.1, hg.2.2.2])
    (by
      intro i j k hp
      have hp' : t.isPoint (t._dIdx cd) i j k := by
        rw [← ec]
        exact hp
      show ((t._changeApproximateSolutionToError (t.tmp_h 0) (t.u_h 0) cd)
          (t._dIdx (cd + 1 - 1)))._array (t.posIdx (t._dIdx (cd + 1 - 1)) i j k) = 0
      rw [ec, hE.2.2 i j k hp', hsnap i j k hp', sub_self])
  rw [correctStep_one t cd hn, hz.1]
  have hfin : ((t.set_tmp_h 0 (t._changeApproximateSolutionToError (t.tmp_h 0) (t.u_h 0)
        cd)).set_tmp_h 0
        ((t.set_tmp_h 0 (t._changeApproximateSolutionToError (t.tmp_h 0) (t.u_h 0)
          cd))._correctFineFromCoarseErr_Err2Appx
          (t._changeApproximateSolutionToError (t.tmp_h 0) (t.u_h 0) cd) (t.u_h 0)
          (cd + 1)).1).set_u_h 0 (t.u_h 0)
      = t.with_tmp_h (Function.update
          (Function.update t.tmp_h 0
            (t._changeApproximateSolutionToError (t.tmp_h 0) (t.u_h 0) cd)) 0
          ((t.set_tmp_h 0 (t._changeApproximateSolutionToError (t.tmp_h 0) (t.u_h 0)
            cd))._correctFineFromCoarseErr_Err2Appx
            (t._changeApproximateSolutionToError (t.tmp_h 0) (t.u_h 0) cd) (t.u_h 0)
            (cd + 1)).1) :=
    set_u_h_self _ 0
  rw [hfin]
  refine ⟨?_, keepsFinest_with_tmp_h t _, ?_⟩
  · apply solvedFrom_with_tmp_h env t lo _ _ hsol
    intro d _
    rw [Function.update_same]
    exact sameShape_trans _ _ _ (hz.2.1 d) (hE.2.1 d)
  · intro i j k hp
    have hp' : (t.set_tmp_h 0 (t._changeApproximateSolutionToError (t.tmp_h 0) (t.u_h 0)
        cd)).isPoint (t._dIdx (cd + 1)) i j k := by
      rw [ef]
      exact hp
    have h3 := hz.2.2 i j k hp'
    rw [← ef]
    simp only [FASMultigrid.with_tmp_h, Function.update_same]
    exact h3

theorem ascendStep_solvedFrom (env : Env) (fuel : Nat) (t : FASMultigrid) (cd lo : Int)
    (hsol : t.solvedFrom env lo) (hlo : lo ≤ t._dIdx cd)
    (hc1 : t._dIdx cd < t._dIdx t.max_depth) :
    t.ascendStep env fuel cd = Outcome.ok (t.correctStep cd) := by
  unfold FASMultigrid.ascendStep
  rw [relaxSolution_of_zeroResidual env fuel t cd _ hsol.1 hsol.2.1
    (hsol.2.2.2 _ hlo (le_of_lt hc1))]
  rfl

/-- The ascent loop on a solved single-equation solver: after `N` passes from the
coarsest depth the loop has returned normally, the solver is still solved, the
finest grid of `u` is kept and the snapshot of level `N` is taken. -/
theorem ascentLoop_solvedFrom (env : Env) (fuel : Nat) (N : Nat) (s : FASMultigrid) (lo : Int)
    (hlo : lo ≤ 0) (hN : ∀ n : Nat, n < N → (n : Int) < s._dIdx s.max_depth)
    (hsol : s.solvedFrom env lo) (hsnap : s.snapshotAt 0) :
    ∃ t, ((List.range N).map (fun (n : Nat) => s.min_depth + (n : Int))).foldl
        (fun (o : Outcome) (coarse_depth : Int) =>
          o.bind fun s => s.ascendStep env fuel coarse_depth) (Outcome.ok s) = Outcome.ok t
      ∧ t.solvedFrom env lo ∧ s.keepsFinest t ∧ t.snapshotAt N := by
  induction N with
  | zero =>
    exact ⟨s, rfl, hsol, keepsFinest_refl s, hsnap⟩
  | succ N ih =>
    obtain ⟨t, h1, h2, h3, h4⟩ := ih (fun n hn => hN n (Nat.lt_succ_of_lt hn))
    have hN := hN N (Nat.lt_succ_self N)
    rw [List.range_succ, List.map_append, List.foldl_append, h1]
    simp only [List.map_cons, List.map_nil, List.foldl_cons, List.foldl_nil, Outcome.bind]
    have ed : t._dIdx (s.min_depth + (N : Int)) = N := by
      rw [dIdx_congr s t h3.1]
      unfold FASMultigrid._dIdx
      ring
    have etop : t._dIdx t.max_depth = s._dIdx s.max_depth := by
      rw [dIdx_congr s t h3.1, h3.2.1]
    rw [ascendStep_solvedFrom env fuel t (s.min_depth + (N : Int)) lo h2 (by rw [ed]; omega)
      (by rw [ed, etop]; omega)]
    obtain ⟨c1, c2, c3⟩ := correctStep_solvedFrom env t (s.min_depth + (N : Int)) lo h2
      (by rw [ed]; omega) (by rw [ed, etop]; omega) (by rw [ed]; exact h4)
    rw [ed] at c3
    refine ⟨_, rfl, c1, keepsFinest_trans s t _ h3 c2, ?_⟩
    push_cast
    exact c3

theorem solvedFrom_mono (env : Env) (s : FASMultigrid) (lo hi : Int) (h : lo ≤ hi)
    (hsol : s.solvedFrom env lo) : s.solvedFrom env hi :=
  ⟨hsol.1, hsol.2.1, hsol.2.2.1, fun l h1 h2 => hsol.2.2.2 l (le_trans h h1) h2⟩

/-- A V-cycle on a solved single-equation solver returns normally, and leaves a
solved solver with the same depth bounds and the same finest grid of `u`. -/
theorem VCycle_solvedFrom (env : Env) (fuel : Nat) (s : FASMultigrid)
    (hsol : s.solvedFrom env (s._dIdx s.max_depth)) :
    ∃ t, s.VCycle env fuel = Outcome.ok t
      ∧ t.solvedFrom env (t._dIdx t.max_depth) ∧ s.keepsFinest t := by
  obtain ⟨d1, d2, d3⟩ := descend_solvedFrom env s hsol
  have etop : (s.descend env)._dIdx (s.descend env).max_depth = s._dIdx s.max_depth := by
    rw [dIdx_congr s _ d2.1, d2.2.1]
  have etop2 : s._dIdx s.max_depth = s.max_depth - s.min_depth := rfl
  obtain ⟨t, a1, a2, a3, a4⟩ := ascentLoop_solvedFrom env fuel
    ((s.descend env).max_depth - (s.descend env).min_depth).toNat (s.descend env)
    (s._dIdx s.max_depth - ((s.max_depth - s.min_depth).toNat : Int))
    (by rw [etop2]; omega)
    (fun n hn => by rw [etop, etop2]; rw [d2.1, d2.2.1] at hn; omega) d1 d3
  have etop3 : t._dIdx t.max_depth = s._dIdx s.max_depth := by
    rw [dIdx_congr _ t a3.1, a3.2.1, etop]
  have hsolt : t.solvedFrom env (t._dIdx t.max_depth) :=
    solvedFrom_mono env t _ _ (by rw [etop3, etop2]; omega) a2
  refine ⟨t, ?_, hsolt, keepsFinest_trans s _ t d2 a3⟩
  unfold FASMultigrid.VCycle
  rw [relaxSolution_of_zeroResidual env fuel s s.max_depth _ hsol.1 hsol.2.1
    (hsol.2.2.2 _ (le_refl _) (le_refl _))]
  simp only [Outcome.bind]
  unfold FASMultigrid.ascend
  rw [a1]
  simp only [Outcome.bind]
  exact relaxSolution_of_zeroResidual env fuel t t.max_depth _ hsolt.1 hsolt.2.1
    (hsolt.2.2.2 _ (le_refl _) (le_refl _))

/-- C26: an exact solution is a fixed point of the V-cycle.  For a single-equation
solver (`u_n = 1`) with a positive relaxation tolerance whose levels halve exactly
(every level above the coarsest has twice the positive extents of the next coarser
one and its work grid `tmp_h[0]` has the extents of the level), if the residual
`coarse_src(x) - F(u)(x)` is 0 at every point of the finest level, then for every
bound on the inner iterations `VCycle` returns normally and the finest grid of
`u_h[0]` after the call is the grid before the call, cell by cell; the residual
of the finest level is still 0. -/
theorem VCycle_exact_solution_fixed_point (env : Env) (fuel : Nat) (s : FASMultigrid)
    (hn : s.u_n = 1) (htol : 0 < s.relaxation_tolerance) (hh : s.exactHalving)
    (hz : s.zeroResidual env (s._dIdx s.max_depth)) :
    ∃ t, s.VCycle env fuel = Outcome.ok t
      ∧ t.u_h 0 (s._dIdx s.max_depth) = s.u_h 0 (s._dIdx s.max_depth)
      ∧ (∀ p : Int, (t.u_h 0 (s._dIdx s.max_depth))._array p
          = (s.u_h 0 (s._dIdx s.max_depth))._array p)
      ∧ t.zeroResidual env (s._dIdx s.max_depth) := by
  have hsol : s.solvedFrom env (s._dIdx s.max_depth) :=
    ⟨hn, htol, hh, fun l h1 h2 => by rw [le_antisymm h2 h1]; exact hz⟩
  obtain ⟨t, h1, h2, h3⟩ := VCycle_solvedFrom env fuel s hsol
  have etop : t._dIdx t.max_depth = s._dIdx s.max_depth := by
    rw [dIdx_congr s t h3.1, h3.2.1]
  refine ⟨t, h1, h3.2.2, fun p => by rw [h3.2.2], ?_⟩
  rw [← etop]
  exact h2.2.2.2 _ (le_refl _) (le_refl _)

theorem lapSolver_u_fine : lapSolver.u_h 0 1 = mkGrid 2 2 2 (fun _ => 1) := rfl

theorem lapSolver_coarse_src (p : Int) : (lapSolver.coarse_src_h 0 1)._array p = 0 := rfl

theorem lapSolver_F (i j k : Int) :
    lapSolver._evaluateEllipticEquationPt (centralEnv 2 2 2) 0 1 i j k = 0 := by
  have hm : lapSolver.molecule_n 0 = 1 := rfl
  have he : lapSolver.eqns 0 0 = ⟨1, [⟨11, 0, 0⟩]⟩ := rfl
  have hr : (lapSolver.rho_h 0 0 1).pts = 0 := rfl
  unfold FASMultigrid._evaluateEllipticEquationPt
  simp only [hm, he, hr, List.range_succ, List.range_zero, List.nil_append, List.foldl_cons,
    List.foldl_nil, evalAtomStep, lapSolver_u_fine, centralEnv, mkGrid]
  norm_num

theorem lapSolver_zeroResidual : lapSolver.zeroResidual (centralEnv 2 2 2) 1 := by
  intro i j k _
  unfold FASMultigrid.residualAt
  rw [lapSolver_coarse_src, lapSolver_F, sub_zero]

theorem lapSolver_exactHalving : lapSolver.exactHalving := by
  intro d h0 h1
  have e : lapSolver._dIdx lapSolver.max_depth = 1 := by decide
  rw [e] at h1
  have hd : d = 1 := by omega
  subst hd
  refine ⟨⟨by decide, by decide, by decide⟩, ⟨by decide, by decide, by decide⟩,
    ⟨by decide, by decide, by decide, by decide⟩, by decide, by decide, by decide⟩

theorem VCycle_exact_solution_fixed_point_witness :
    lapSolver.u_n = 1 ∧ 0 < lapSolver.relaxation_tolerance ∧ lapSolver.exactHalving
    ∧ lapSolver.zeroResidual (centralEnv 2 2 2) (lapSolver._dIdx lapSolver.max_depth)
    ∧ ∃ t, lapSolver.VCycle (centralEnv 2 2 2) 0 = Outcome.ok t
      ∧ t.u_h 0 (lapSolver._dIdx lapSolver.max_depth)
        = lapSolver.u_h 0 (lapSolver._dIdx lapSolver.max_depth)
      ∧ (∀ p : Int, (t.u_h 0 (lapSolver._dIdx lapSolver.max_depth))._array p
          = (lapSolver.u_h 0 (lapSolver._dIdx lapSolver.max_depth))._array p)
      ∧ t.zeroResidual (centralEnv 2 2 2) (lapSolver._dIdx lapSolver.max_depth) :=
  ⟨rfl, by rw [show lapSolver.relaxation_tolerance = 1 / 1000 from rfl]; norm_num,
    lapSolver_exactHalving, lapSolver_zeroResidual,
    VCycle_exact_solution_fixed_point (centralEnv 2 2 2) 0 lapSolver rfl
      (by rw [show lapSolver.relaxation_tolerance = 1 / 1000 from rfl]; norm_num)
      lapSolver_exactHalving lapSolver_zeroResidual⟩

/-! ## The constructed solver with exactly halving extents -/

theorem coarsen_double (n : Int) : coarsen (2 * n) = n := by
  unfold coarsen
  omega

theorem iterate_coarsen_pow (K n : Nat) (a : Int) (h : n ≤ K) :
    coarsen^[n] ((2 : Int) ^ K * a) = (2 : Int) ^ (K - n) * a := by
  induction n with
  | zero => rfl
  | succ n ih =>
    rw [Function.iterate_succ_apply', ih (by omega)]
    have e : K - n = (K - (n + 1)) + 1 := by omega
    rw [e, pow_succ, mul_comm ((2 : Int) ^ (K - (n + 1))) 2, mul_assoc, coarsen_double]

theorem ctorDepthStep_keeps (env : Env) (u_in : fas_grid_t) (mem : Nat → Int → Int → ℚ)
    (min_depth max_depth : Int) (acc : CtorLevels) (depth idx : Int)
    (hne : idx ≠ depth - min_depth) :
    (ctorDepthStep env u_in mem min_depth max_depth acc depth).u idx = acc.u idx
    ∧ (ctorDepthStep env u_in mem min_depth max_depth acc depth).coarse_src idx
        = acc.coarse_src idx := by
  unfold ctorDepthStep
  by_cases hc : depth - min_depth = max_depth - min_depth
  · simp only [hc, if_true]
    rw [← hc]
    simp [Function.update_noteq hne]
  · simp only [hc, if_false]
    simp [Function.update_noteq hne]

/-- The finest level after the depth loop of the constructor: `u` holds the
caller's initial guess and `coarse_src` the content of its new storage. -/
theorem ctorDepthLoop_top_contents (env : Env) (u_in : fas_grid_t) (mem : Nat → Int → Int → ℚ)
    (min_depth max_depth : Int) (m : Nat) :
    ((ctorDepthLoop env u_in mem min_depth max_depth (m + 1)).u
        (max_depth - min_depth))._array = u_in._array
    ∧ ((ctorDepthLoop env u_in mem min_depth max_depth (m + 1)).coarse_src
        (max_depth - min_depth))._array = mem 1 (max_depth - min_depth) := by
  induction m with
  | zero =>
    have h0 : ctorDepthLoop env u_in mem min_depth max_depth (0 + 1)
        = ctorDepthStep env u_in mem min_depth max_depth CtorLevels.fresh max_depth := by
      unfold ctorDepthLoop
      simp [List.range_succ]
    rw [h0]
    unfold ctorDepthStep fas_grid_t.init
    simp
  | succ m ih =>
    rw [ctorDepthLoop_succ]
    have hne : max_depth - min_depth ≠ max_depth - ((m + 1 : Nat) : Int) - min_depth := by
      push_cast
      omega
    obtain ⟨k1, k2⟩ := ctorDepthStep_keeps env u_in mem min_depth max_depth
      (ctorDepthLoop env u_in mem min_depth max_depth (m + 1))
      (max_depth - ((m + 1 : Nat) : Int)) (max_depth - min_depth) hne
    rw [k1, k2]
    exact ih

/-- The fields of a solver constructed for a single equation, in terms of the
depth loop of the constructor. -/
theorem new_one_fields (env : Env) (mem : Nat → Nat → Int → Int → ℚ)
    (mol : Nat → Nat → molecule) (u_in : Nat → fas_grid_t) (molecule_n_in : Nat → Nat)
    (max_depth_in max_relax_iters_in : Int) (relaxation_tolerance_in : ℚ) :
    (FASMultigrid.new env mem mol u_in 1 molecule_n_in max_depth_in max_relax_iters_in
        relaxation_tolerance_in).u_n = 1
    ∧ (FASMultigrid.new env mem mol u_in 1 molecule_n_in max_depth_in max_relax_iters_in
        relaxation_tolerance_in).relaxation_tolerance = relaxation_tolerance_in
    ∧ (FASMultigrid.new env mem mol u_in 1 molecule_n_in max_depth_in max_relax_iters_in
        relaxation_tolerance_in).min_depth = 1
    ∧ (FASMultigrid.new env mem mol u_in 1 molecule_n_in max_depth_in max_relax_iters_in
        relaxation_tolerance_in).max_depth = max_depth_in
    ∧ (FASMultigrid.new env mem mol u_in 1 molecule_n_in max_depth_in max_relax_iters_in
        relaxation_tolerance_in).nx_h
      = (ctorDepthLoop env (u_in 0) (mem 0) 1 max_depth_in (max_depth_in - 1 + 1).toNat).nx_h
    ∧ (FASMultigrid.new env mem mol u_in 1 molecule_n_in max_depth_in max_relax_iters_in
        relaxation_tolerance_in).ny_h
      = (ctorDepthLoop env (u_in 0) (mem 0) 1 max_depth_in (max_depth_in - 1 + 1).toNat).ny_h
    ∧ (FASMultigrid.new env mem mol u_in 1 molecule_n_in max_depth_in max_relax_iters_in
        relaxation_tolerance_in).nz_h
      = (ctorDepthLoop env (u_in 0) (mem 0) 1 max_depth_in (max_depth_in - 1 + 1).toNat).nz_h
    ∧ (FASMultigrid.new env mem mol u_in 1 molecule_n_in max_depth_in max_relax_iters_in
        relaxation_tolerance_in).u_h 0
      = (ctorDepthLoop env (u_in 0) (mem 0) 1 max_depth_in (max_depth_in - 1 + 1).toNat).u
    ∧ (FASMultigrid.new env mem mol u_in 1 molecule_n_in max_depth_in max_relax_iters_in
        relaxation_tolerance_in).coarse_src_h 0
      = (ctorDepthLoop env (u_in 0) (mem 0) 1 max_depth_in
          (max_depth_in - 1 + 1).toNat).coarse_src
    ∧ (FASMultigrid.new env mem mol u_in 1 molecule_n_in max_depth_in max_relax_iters_in
        relaxation_tolerance_in).tmp_h 0
      = (ctorDepthLoop env (u_in 0) (mem 0) 1 max_depth_in (max_depth_in - 1 + 1).toNat).tmp
    ∧ (FASMultigrid.new env mem mol u_in 1 molecule_n_in max_depth_in max_relax_iters_in
        relaxation_tolerance_in).molecule_n = molecule_n_in
    ∧ (FASMultigrid.new env mem mol u_in 1 molecule_n_in max_depth_in max_relax_iters_in
        relaxation_tolerance_in).eqns 0 = mol 0 := by
  rw [new_eq]
  simp [List.range_succ, ctorEqnStep, ctorStart]

/-- A solver constructed for a single equation with `max_depth >= 1` and finest
extents `2^(max_depth - 1) * a`, `2^(max_depth - 1) * b`, `2^(max_depth - 1) * c`
(`a, b, c >= 1`), that is, divisible by `2^(max_depth - min_depth)`: its levels
halve exactly. -/
theorem new_exactHalving (env : Env) (mem : Nat → Nat → Int → Int → ℚ)
    (mol : Nat → Nat → molecule) (u_in : Nat → fas_grid_t) (molecule_n_in : Nat → Nat)
    (max_depth_in max_relax_iters_in : Int) (relaxation_tolerance_in : ℚ) (a b c : Int)
    (hmax : 1 ≤ max_depth_in) (ha : 1 ≤ a) (hb : 1 ≤ b) (hc : 1 ≤ c)
    (hNX : env.NX = (2 : Int) ^ (max_depth_in - 1).toNat * a)
    (hNY : env.NY = (2 : Int) ^ (max_depth_in - 1).toNat * b)
    (hNZ : env.NZ = (2 : Int) ^ (max_depth_in - 1).toNat * c) :
    (FASMultigrid.new env mem mol u_in 1 molecule_n_in max_depth_in max_relax_iters_in
      relaxation_tolerance_in).exactHalving := by
  obtain ⟨_, _, fmin, fmax, fx, fy, fz, _, _, ft, _, _⟩ := new_one_fields env mem mol u_in
    molecule_n_in max_depth_in max_relax_iters_in relaxation_tolerance_in
  intro d hd0 hd1
  unfold FASMultigrid._dIdx at hd1
  rw [fmin, fmax] at hd1
  obtain ⟨n, hn⟩ : ∃ n : Nat, (n : Int) = max_depth_in - 1 - d := ⟨(max_depth_in - 1 - d).toNat, by omega⟩
  have hl1 := ctorDepthLoop_levels env (u_in 0) (mem 0) 1 max_depth_in
    (max_depth_in - 1 + 1).toNat n (by omega)
  have hl2 := ctorDepthLoop_levels env (u_in 0) (mem 0) 1 max_depth_in
    (max_depth_in - 1 + 1).toNat (n + 1) (by omega)
  have e1 : max_depth_in - 1 - (n : Int) = d := by omega
  have e2 : max_depth_in - 1 - ((n + 1 : Nat) : Int) = d - 1 := by push_cast; omega
  rw [e1] at hl1
  rw [e2] at hl2
  have hK1 : n ≤ (max_depth_in - 1).toNat := by omega
  have hK2 : n + 1 ≤ (max_depth_in - 1).toNat := by omega
  rw [hNX, hNY, hNZ, iterate_coarsen_pow _ _ _ hK1, iterate_coarsen_pow _ _ _ hK1,
    iterate_coarsen_pow _ _ _ hK1] at hl1
  rw [hNX, hNY, hNZ, iterate_coarsen_pow _ _ _ hK2, iterate_coarsen_pow _ _ _ hK2,
    iterate_coarsen_pow _ _ _ hK2] at hl2
  have e3 : (max_depth_in - 1).toNat - n = ((max_depth_in - 1).toNat - (n + 1)) + 1 := by omega
  rw [e3, pow_succ] at hl1
  have hp : (0 : Int) < (2 : Int) ^ ((max_depth_in - 1).toNat - (n + 1)) := by positivity
  generalize (2 : Int) ^ ((max_depth_in - 1).toNat - (n + 1)) = P at hl1 hl2 hp
  obtain ⟨x1, y1, z1, _, _, _, _, t1⟩ := hl1
  obtain ⟨x2, y2, z2, _⟩ := hl2
  rw [fx, fy, fz, ft]
  have pa : 0 < P * a := by positivity
  have pb : 0 < P * b := by positivity
  have pc : 0 < P * c := by positivity
  refine ⟨⟨by rw [x2]; exact pa, by rw [y2]; exact pb, by rw [z2]; exact pc⟩,
    ⟨by rw [x1, x2]; ring, by rw [y1, y2]; ring, by rw [z1, z2]; ring⟩, ?_⟩
  obtain ⟨t1x, t1y, t1z, t1p⟩ := t1
  unfold FASMultigrid.levelGrid fas_grid_t.wellFormed
  rw [fx, fy, fz, t1x, t1y, t1z, t1p, x1, y1, z1]
  refine ⟨⟨?_, ?_, ?_, rfl⟩, rfl, rfl, rfl⟩
  · have : 0 < P * 2 * a := by positivity
    exact this
  · have : 0 < P * 2 * b := by positivity
    exact this
  · have : 0 < P * 2 * c := by positivity
    exact this

/-! ## Scenario S1 -/

/-- The V-cycle driver on a solved single-equation solver returns normally and
leaves a solved solver. -/
theorem VCyclesLoop_solvedFrom (env : Env) (fuel : Nat) (n : Nat) (s : FASMultigrid)
    (hsol : s.solvedFrom env (s._dIdx s.max_depth)) :
    ∃ t, VCyclesLoop env fuel n s = Outcome.ok t
      ∧ t.solvedFrom env (t._dIdx t.max_depth) ∧ s.keepsFinest t := by
  induction n generalizing s with
  | zero => exact ⟨s, rfl, hsol, keepsFinest_refl s⟩
  | succ n ih =>
    obtain ⟨t1, h1, h2, h3⟩ := VCycle_solvedFrom env fuel s hsol
    obtain ⟨t, k1, k2, k3⟩ := ih t1 h2
    refine ⟨t, ?_, k2, keepsFinest_trans s t1 t h3 k3⟩
    rw [VCyclesLoop, h1]
    exact k1

theorem VCycles_solvedFrom (env : Env) (fuel : Nat) (s : FASMultigrid) (num_cycles : Int)
    (hsol : s.solvedFrom env (s._dIdx s.max_depth)) :
    ∃ t, s.VCycles env fuel num_cycles = Outcome.ok t
      ∧ t.solvedFrom env (t._dIdx t.max_depth) ∧ s.keepsFinest t := by
  obtain ⟨t, h1, h2, h3⟩ := VCyclesLoop_solvedFrom env fuel num_cycles.toNat s hsol
  refine ⟨t, ?_, h2, h3⟩
  unfold FASMultigrid.VCycles
  rw [h1]
  exact relaxSolution_of_zeroResidual env fuel t t.max_depth 10 h2.1 h2.2.1
    (h2.2.2.2 _ (le_refl _) (le_refl _))

/-- An equation whose only molecule ends with a Laplacian atom on field 0 evaluates
to 0 where `u_h[0]` holds 0 everywhere, when the Laplacian stencil of a grid of
zeros is 0. -/
theorem evaluateEllipticEquationPt_laplacian_of_zero (env : Env) (s : FASMultigrid)
    (d i j k : Int) (A : List atom) (v : ℚ)
    (hm : s.molecule_n 0 = 1) (hat : (s.eqns 0 0).atoms = A ++ [⟨11, 0, v⟩])
    (hu : ∀ p : Int, (s.u_h 0 d)._array p = 0)
    (hlap : ∀ (i j k nx ny nz : Int) (g : fas_grid_t), (∀ p : Int, g._array p = 0) →
      env.laplacian i j k nx ny nz g = 0) :
    s._evaluateEllipticEquationPt env 0 d i j k = 0 := by
  unfold FASMultigrid._evaluateEllipticEquationPt
  rw [hm]
  simp only [List.range_succ, List.range_zero, List.nil_append, List.foldl_cons,
    List.foldl_nil, hat, List.foldl_append, zero_add]
  have e : ∀ X : ℚ, evalAtomStep env s d i j k
      (H_INDEX i j k (s.nx_h d) (s.ny_h d) (s.nz_h d)) X ⟨11, 0, v⟩ = 0 := by
    intro X
    unfold evalAtomStep
    simp [hlap _ _ _ _ _ _ (s.u_h 0 d) hu]
  rw [e]

theorem exactHalving_congr (s t : FASMultigrid) (hmin : t.min_depth = s.min_depth)
    (hmax : t.max_depth = s.max_depth) (hx : t.nx_h = s.nx_h) (hy : t.ny_h = s.ny_h)
    (hz : t.nz_h = s.nz_h) (htmp : t.tmp_h = s.tmp_h) (h : s.exactHalving) :
    t.exactHalving := by
  intro d h0 h1
  have e : t._dIdx t.max_depth = s._dIdx s.max_depth := by
    rw [dIdx_congr s t hmin, hmax]
  rw [e] at h1
  obtain ⟨p1, p2, p3⟩ := h d h0 h1
  unfold FASMultigrid.levelGrid at p3 ⊢
  rw [hx, hy, hz, htmp]
  exact ⟨p1, p2, p3⟩

theorem initializeRhoHeirarchy_eraseRho (mem : Nat → Nat → Int → Int → ℚ) (s : FASMultigrid) :
    (s.initializeRhoHeirarchy mem).eraseRho = s.eraseRho := by
  obtain ⟨a1, _⟩ := foldl_set_rho_eqn
    (fun t e m rho => t.rhoAllocLoop (mem e m) rho) s
    (fun t ht => by
      funext e m rho
      show t.rhoAllocLoop (mem e m) rho = s.rhoAllocLoop (mem e m) rho
      rw [rhoAllocLoop_congr s t ht]) s.u_n
  unfold FASMultigrid.initializeRhoHeirarchy
  dsimp only
  generalize (List.range s.u_n).foldl (fun (s : FASMultigrid) (eqn_id : Nat) =>
    (List.range (s.molecule_n eqn_id)).foldl (fun (s : FASMultigrid) (mol_id : Nat) =>
      s.set_rho_h eqn_id mol_id (s.rhoAllocLoop (mem eqn_id mol_id) (s.rho_h eqn_id mol_id)))
      s) s = t at a1
  obtain ⟨b1, _⟩ := foldl_set_rho_eqn
    (fun t _ _ rho => t.rhoRestrictLoop rho) t
    (fun t1 ht => by
      funext e m rho
      show t1.rhoRestrictLoop rho = t.rhoRestrictLoop rho
      rw [rhoRestrictLoop_congr t t1 ht]) t.u_n
  exact b1.trans a1

theorem setPolySrc_fold_eraseRho (rho_mem : Int → ℚ) (l : List (Int × Int × Int))
    (s : FASMultigrid) :
    (l.foldl (fun (s : FASMultigrid) (ijk : Int × Int × Int) =>
        s.setPolySrcAtPt rho_mem 0 0 ijk.1 ijk.2.1 ijk.2.2 1) s).eraseRho = s.eraseRho := by
  refine foldl_preserves (fun t : FASMultigrid => t.eraseRho = s.eraseRho) _ ?_ _ _ rfl
  intro b x hb
  exact hb

/-- The state that the calls of scenario S1 leave: only the atoms of the molecule
and the density hierarchies differ from the state before. -/
theorem setupS1_fields (s0 : FASMultigrid) (env : Env) (rho_mem : Int → ℚ)
    (rho_mem_h : Nat → Nat → Int → Int → ℚ) :
    ∃ s, s0.setupS1 env rho_mem rho_mem_h = some s
      ∧ s.u_n = s0.u_n ∧ s.relaxation_tolerance = s0.relaxation_tolerance
      ∧ s.min_depth = s0.min_depth ∧ s.max_depth = s0.max_depth
      ∧ s.nx_h = s0.nx_h ∧ s.ny_h = s0.ny_h ∧ s.nz_h = s0.nz_h
      ∧ s.u_h = s0.u_h ∧ s.coarse_src_h = s0.coarse_src_h ∧ s.tmp_h = s0.tmp_h
      ∧ s.molecule_n = s0.molecule_n
      ∧ (s.eqns 0 0).atoms = (s0.eqns 0 0).atoms ++ [⟨11, 0, 0⟩] := by
  have hadd : s0.add_atom_to_eqn ⟨11, 0, 0⟩ 0 0
      = some { s0 with
          eqns := Function.update s0.eqns 0
            (Function.update (s0.eqns 0) 0
              { s0.eqns 0 0 with atoms := (s0.eqns 0 0).atoms ++ [⟨11, 0, 0⟩] }) } := by
    unfold FASMultigrid.add_atom_to_eqn molecule.add_atom
    simp
  unfold FASMultigrid.setupS1
  rw [hadd]
  dsimp only
  generalize hs1 : ({ s0 with
      eqns := Function.update s0.eqns 0
        (Function.update (s0.eqns 0) 0
          { s0.eqns 0 0 with atoms := (s0.eqns 0 0).atoms ++ [⟨11, 0, 0⟩] }) } : FASMultigrid)
    = s1
  have h := (initializeRhoHeirarchy_eraseRho rho_mem_h _).trans
    (setPolySrc_fold_eraseRho rho_mem (FAS_LOOP3_N env.NX env.NY env.NZ) s1)
  generalize ((FAS_LOOP3_N env.NX env.NY env.NZ).foldl
      (fun (s : FASMultigrid) (ijk : Int × Int × Int) =>
        s.setPolySrcAtPt rho_mem 0 0 ijk.1 ijk.2.1 ijk.2.2 1) s1).initializeRhoHeirarchy
      rho_mem_h = s at h
  have f1 : s.eraseRho.u_n = s1.eraseRho.u_n := congrArg FASMultigrid.u_n h
  have f2 : s.eraseRho.relaxation_tolerance = s1.eraseRho.relaxation_tolerance :=
    congrArg FASMultigrid.relaxation_tolerance h
  have f3 : s.eraseRho.min_depth = s1.eraseRho.min_depth := congrArg FASMultigrid.min_depth h
  have f4 : s.eraseRho.max_depth = s1.eraseRho.max_depth := congrArg FASMultigrid.max_depth h
  have f5 : s.eraseRho.nx_h = s1.eraseRho.nx_h := congrArg FASMultigrid.nx_h h
  have f6 : s.eraseRho.ny_h = s1.eraseRho.ny_h := congrArg FASMultigrid.ny_h h
  have f7 : s.eraseRho.nz_h = s1.eraseRho.nz_h := congrArg FASMultigrid.nz_h h
  have f8 : s.eraseRho.u_h = s1.eraseRho.u_h := congrArg FASMultigrid.u_h h
  have f9 : s.eraseRho.coarse_src_h = s1.eraseRho.coarse_src_h :=
    congrArg FASMultigrid.coarse_src_h h
  have f10 : s.eraseRho.tmp_h = s1.eraseRho.tmp_h := congrArg FASMultigrid.tmp_h h
  have f11 : s.eraseRho.molecule_n = s1.eraseRho.molecule_n :=
    congrArg FASMultigrid.molecule_n h
  have f12 : s.eraseRho.eqns = s1.eraseRho.eqns := congrArg FASMultigrid.eqns h
  change s.u_n = s1.u_n at f1
  change s.relaxation_tolerance = s1.relaxation_tolerance at f2
  change s.min_depth = s1.min_depth at f3
  change s.max_depth = s1.max_depth at f4
  change s.nx_h = s1.nx_h at f5
  change s.ny_h = s1.ny_h at f6
  change s.nz_h = s1.nz_h at f7
  change s.u_h = s1.u_h at f8
  change s.coarse_src_h = s1.coarse_src_h at f9
  change s.tmp_h = s1.tmp_h at f10
  change s.molecule_n = s1.molecule_n at f11
  change s.eqns = s1.eqns at f12
  subst hs1
  refine ⟨s, rfl, f1, f2, f3, f4, f5, f6, f7, f8, f9, f10, f11, ?_⟩
  rw [f12]
  simp

theorem thirty_two_split (m : Int) (h1 : 1 ≤ m) (h2 : m ≤ 6) :
    (32 : Int) = (2 : Int) ^ (m - 1).toNat * (2 : Int) ^ (6 - m).toNat := by
  interval_cases m <;> rfl

/-- C21: scenario S1.  A solver is constructed for one equation with one molecule,
the initial guess 0 and `NX = NY = NZ = 32` (`1 <= max_depth <= 6`, a positive
relaxation tolerance); the Laplacian atom `(11, 0, 0)` is added, the density is set
to 1 at every finest point and `initializeRhoHeirarchy` is called.  When the
storage that the constructor allocates for the finest `coarse_src` grid holds 0 and
the Laplacian stencil of a grid of zeros is 0, the set-up succeeds, `VCycles(3)`
returns normally for every bound on the inner iterations, and the finest-level
maximum residual `_getMaxResidual(0, max_depth)` afterwards is 0, hence below
`10^-4`: the initial guess solves the equation exactly. -/
theorem scenarioS1_residual_below_tolerance (env : Env) (mem : Nat → Nat → Int → Int → ℚ)
    (mol : Nat → Nat → molecule) (rho_mem : Int → ℚ) (rho_mem_h : Nat → Nat → Int → Int → ℚ)
    (max_depth_in max_relax_iters_in : Int) (relaxation_tolerance_in : ℚ) (fuel : Nat)
    (hNX : env.NX = 32) (hNY : env.NY = 32) (hNZ : env.NZ = 32)
    (hmax : 1 ≤ max_depth_in ∧ max_depth_in ≤ 6) (htol : 0 < relaxation_tolerance_in)
    (hmem : ∀ p : Int, mem 0 1 (max_depth_in - 1) p = 0)
    (hlap : ∀ (i j k nx ny nz : Int) (g : fas_grid_t), (∀ p : Int, g._array p = 0) →
      env.laplacian i j k nx ny nz g = 0) :
    ∃ s t, scenarioS1 env mem mol rho_mem rho_mem_h max_depth_in max_relax_iters_in
        relaxation_tolerance_in = some s
      ∧ s.VCycles env fuel 3 = Outcome.ok t
      ∧ t._getMaxResidual env 0 t.max_depth = 0
      ∧ t._getMaxResidual env 0 t.max_depth < 1 / 10000 := by
  obtain ⟨n1, ntol, nmin, nmax, nx, ny, nz, nu, nc, nt, nm, _⟩ := new_one_fields env mem mol
    (fun _ => mkGrid env.NX env.NY env.NZ (fun _ => 0)) (fun _ => 1) max_depth_in
    max_relax_iters_in relaxation_tolerance_in
  have hpow := thirty_two_split max_depth_in hmax.1 hmax.2
  have hpos : (1 : Int) ≤ (2 : Int) ^ (6 - max_depth_in).toNat := by
    have : (0 : Int) < (2 : Int) ^ (6 - max_depth_in).toNat := by positivity
    omega
  have hh := new_exactHalving env mem mol (fun _ => mkGrid env.NX env.NY env.NZ (fun _ => 0))
    (fun _ => 1) max_depth_in max_relax_iters_in relaxation_tolerance_in _ _ _ hmax.1 hpos
    hpos hpos (hNX.trans hpow) (hNY.trans hpow) (hNZ.trans hpow)
  obtain ⟨hm1, hm2⟩ := ctorDepthLoop_top_contents env (mkGrid env.NX env.NY env.NZ (fun _ => 0))
    (mem 0) 1 max_depth_in (max_depth_in - 1).toNat
  have em : (max_depth_in - 1).toNat + 1 = (max_depth_in - 1 + 1).toNat := by omega
  rw [em] at hm1 hm2
  generalize hs0 : FASMultigrid.new env mem mol
    (fun _ => mkGrid env.NX env.NY env.NZ (fun _ => 0)) 1 (fun _ => 1) max_depth_in
    max_relax_iters_in relaxation_tolerance_in = s0 at n1 ntol nmin nmax nx ny nz nu nc nt nm hh
  obtain ⟨s, hs, g1, g2, g3, g4, g5, g6, g7, g8, g9, g10, g11, g12⟩ :=
    setupS1_fields s0 env rho_mem rho_mem_h
  have etop : s._dIdx s.max_depth = max_depth_in - 1 := by
    unfold FASMultigrid._dIdx
    rw [g3, g4, nmin, nmax]
  have hz : s.zeroResidual env (s._dIdx s.max_depth) := by
    intro i j k _
    unfold FASMultigrid.residualAt
    rw [evaluateEllipticEquationPt_laplacian_of_zero env s _ i j k _ 0
      (by rw [g11, nm]) g12 (by
        intro p
        rw [etop, g8, nu, hm1]
        rfl) hlap, sub_zero, etop, g9, nc, hm2]
    exact hmem _
  have hsol : s.solvedFrom env (s._dIdx s.max_depth) :=
    ⟨g1.trans n1, by rw [g2, ntol]; exact htol,
      exactHalving_congr s0 s g3 g4 g5 g6 g7 g10 hh,
      fun l h1 h2 => by rw [le_antisymm h2 h1]; exact hz⟩
  obtain ⟨t, v1, v2, v3⟩ := VCycles_solvedFrom env fuel s 3 hsol
  have hmaxres := getMaxResidual_zero env t t.max_depth
    (v2.2.2.2 _ (le_refl _) (le_refl _))
  refine ⟨s, t, ?_, v1, hmaxres, by rw [hmaxres]; norm_num⟩
  unfold scenarioS1
  rw [hs0]
  exact hs

theorem centralEnv_laplacian_zero (NX NY NZ i j k nx ny nz : Int) (g : fas_grid_t)
    (h : ∀ p : Int, g._array p = 0) : (centralEnv NX NY NZ).laplacian i j k nx ny nz g = 0 := by
  simp [centralEnv, h]

theorem scenarioS1_residual_below_tolerance_witness :
    (centralEnv 32 32 32).NX = 32 ∧ (centralEnv 32 32 32).NY = 32
    ∧ (centralEnv 32 32 32).NZ = 32 ∧ ((1 : Int) ≤ 5 ∧ (5 : Int) ≤ 6)
    ∧ (0 : ℚ) < 1 / 1000000
    ∧ (∀ (i j k nx ny nz : Int) (g : fas_grid_t), (∀ p : Int, g._array p = 0) →
        (centralEnv 32 32 32).laplacian i j k nx ny nz g = 0)
    ∧ ∃ s t, scenarioS1 (centralEnv 32 32 32) (fun _ _ _ _ => 0) (fun _ _ => ⟨1, []⟩)
          (fun _ => 0) (fun _ _ _ _ => 0) 5 10 (1 / 1000000) = some s
        ∧ s.VCycles (centralEnv 32 32 32) 1000 3 = Outcome.ok t
        ∧ t._getMaxResidual (centralEnv 32 32 32) 0 t.max_depth = 0
        ∧ t._getMaxResidual (centralEnv 32 32 32) 0 t.max_depth < 1 / 10000 :=
  ⟨rfl, rfl, rfl, by decide, by norm_num, centralEnv_laplacian_zero 32 32 32,
    scenarioS1_residual_below_tolerance (centralEnv 32 32 32) (fun _ _ _ _ => 0)
      (fun _ _ => ⟨1, []⟩) (fun _ => 0) (fun _ _ _ _ => 0) 5 10 (1 / 1000000) 1000
      rfl rfl rfl (by decide) (by norm_num) (fun _ => rfl)
      (centralEnv_laplacian_zero 32 32 32)⟩

end cosmo
